import Mathlib

/-!
Road pathfinding (`src/pathfinder/yapf/yapf_road.cpp`).

A shallow embedding of the road part of YAPF: the cost functions, the two
destination policies and the two entry points, followed by the properties
proved about them.

Conventions of the embedding.

* Everything `yapf_road.cpp` takes from other translation units (map and
  tile queries, direction tables, named constants, road stops, stations) is
  gathered in the record `World`; a theorem holds for every `World` unless it
  states a hypothesis about it.
* The A* engine (`Types::Astar`, `CYapfBaseT`) is outside the file.  An
  instantiated pathfinder is a function from what the entry point hands to
  the engine to the engine object as it is after `FindPath` has returned
  (`Astar`: node pool, best node, return value).
* Nodes live in the pool and refer to their parent by index into the pool;
  `none` is the C++ `NULL`.
* `int` costs and map coordinates are integers: coordinates are bounded by
  the map size, so the `uint` intermediate results of lines 20-27 and 351-354
  come back as the same `int` values.  Where an operand is supplied by the
  caller (the distance budget, its conversion from `uint` and its product
  with the tile length) and in tile index arithmetic the 32-bit wrap is
  written out (`toInt32`, `TileSub`).
* `assert (...)` compiles to nothing in a release build and is not part of a
  function's value; an `Option` result is `none` where the C++ would read
  through a null or dangling pointer, or where a loop without bound has run
  out of the fuel given to it.
-/

namespace YapfRoad

/-! ## Basic types -/

/-- Index of a tile of the map (`uint32`). -/
abbrev TileIndex := Nat

/-- Enumeration value of a trackdir. -/
abbrev Trackdir := Nat

/-- Bit set of trackdirs, bit `i` standing for trackdir `i`. -/
abbrev TrackdirBits := Nat

/-- Diagonal direction; the source indexes its offset tables with `0..3`. -/
abbrev DiagDirection := Fin 4

/-- Identifier of a station. -/
abbrev StationID := Nat

/-- Bit set of road types. -/
abbrev RoadTypes := Nat

/-- Result of `GetTileRoadStatus`. -/
abbrev TrackStatus := Nat

/-- Tile types as far as `OneTileCost` distinguishes them. -/
inductive TileType where
  | TT_MISC
  | TT_STATION
  | TT_OTHER
  deriving DecidableEq, Repr

/-- Order types as far as the pathfinder distinguishes them. -/
inductive OrderType where
  | OT_GOTO_STATION
  | OT_OTHER
  deriving DecidableEq, Repr

/-- Kind of road stop asked of `GetClosestTile`. -/
inductive StationType where
  | STATION_BUS
  | STATION_TRUCK
  deriving DecidableEq, Repr

/-- Position of a vehicle: a tile and the trackdir on it. -/
structure PathPos where
  tile : TileIndex
  td : Trackdir
  deriving DecidableEq, Repr

/-- Current order of a vehicle. -/
structure Order where
  type : OrderType
  dest : StationID
  deriving DecidableEq, Repr

/-- Test `current_order.IsType(t)`. -/
def Order.IsType (o : Order) (t : OrderType) : Bool :=
  decide (o.type = t)

/-- Accessor `current_order.GetDestination()`. -/
def Order.GetDestination (o : Order) : StationID :=
  o.dest

/-- Read-only snapshot of the road vehicle the search is run for. -/
structure RoadVehicle where
  tile : TileIndex
  dest_tile : TileIndex
  current_order : Order
  compatible_roadtypes : RoadTypes
  GetPos : PathPos
  IsBus : Bool
  HasArticulatedPart : Bool
  GetDisplayMaxSpeed : Int
  deriving DecidableEq, Repr

/-- Settings bundle `_settings_game.pf.yapf` as far as the road pathfinder reads it. -/
structure YAPFSettings where
  road_slope_penalty : Int
  road_curve_penalty : Int
  road_crossing_penalty : Int
  road_stop_penalty : Int
  road_stop_occupied_penalty : Int
  road_stop_bay_occupied_penalty : Int
  max_search_nodes : Nat
  disable_node_optimization : Bool
  deriving DecidableEq, Repr

/-- One entry side of a drive-through road stop. -/
structure RoadStopEntry where
  GetOccupied : Int
  GetLength : Int

/-- Road stop as `OneTileCost` reads it. -/
structure RoadStop where
  GetEntry : DiagDirection → RoadStopEntry
  IsFreeBay : Nat → Bool

/-- Everything the file takes from the rest of the program: named constants,
map geometry, direction tables, tile classification, road stops, stations. -/
structure World where
  YAPF_TILE_LENGTH : Int
  YAPF_TILE_CORNER_LENGTH : Int
  INVALID_TILE : TileIndex
  INVALID_TRACKDIR : Trackdir
  TRACKDIR_END : Nat
  INVALID_STATION : StationID
  MAX_MAP_SIZE : Nat
  TILE_SIZE : Nat
  TileX : TileIndex → Nat
  TileY : TileIndex → Nat
  GetSlopePixelZ : Int → Int → Int
  TileOffsByDiagDir : DiagDirection → Int
  IsDiagonalTrackdir : Trackdir → Bool
  TrackdirToExitdir : Trackdir → DiagDirection
  DiagDirToDiagTrackdir : DiagDirection → Trackdir
  ReverseDiagDir : DiagDirection → DiagDirection
  DiagdirReachesTrackdirs : DiagDirection → TrackdirBits
  GetTileRoadStatus : TileIndex → RoadTypes → TrackStatus
  TrackStatusToTrackdirBits : TrackStatus → TrackdirBits
  GetTileType : TileIndex → TileType
  IsLevelCrossingTile : TileIndex → Bool
  IsStationTile : TileIndex → Bool
  GetStationIndex : TileIndex → StationID
  IsBusStop : TileIndex → Bool
  IsTruckStop : TileIndex → Bool
  IsDriveThroughStopTile : TileIndex → Bool
  IsRoadDepotTile : TileIndex → Bool
  GetGroundDepotDirection : TileIndex → DiagDirection
  GetRoadStopType : TileIndex → StationType
  RoadStop_GetByTile : TileIndex → StationType → RoadStop
  IsDriveThroughRoadStopContinuation : TileIndex → TileIndex → Bool
  GetClosestTile : StationID → TileIndex → StationType → TileIndex

/-! ## Machine arithmetic and bit helpers -/

/-- Value of a 32-bit pattern read as `int`. -/
def toInt32 (x : Int) : Int :=
  (x + 2147483648) % 4294967296 - 2147483648

/-- Tile index arithmetic `tile - diff` on `uint32`. -/
def TileSub (tile : TileIndex) (diff : Int) : TileIndex :=
  (((tile : Int) - diff) % 4294967296).toNat

/-- Index of the lowest set bit among the lowest `fuel` bits, `0` when none is set. -/
def FindFirstBitAux : Nat → Nat → Nat
  | 0, _ => 0
  | fuel + 1, x => if x % 2 = 1 then 0 else if x = 0 then 0 else FindFirstBitAux fuel (x / 2) + 1

/-- Modelled from the spec: `FindFirstBit2x64` of the bit-math header, which is
not among the sources; "an arbitrary bit from the reachable-set", taken as the
index of the lowest set bit (and `0` for the empty set). -/
def FindFirstBit2x64 (value : Nat) : Nat :=
  FindFirstBitAux value value

/-- Modelled from the spec: `KillFirstBit` of the bit-math header, which is not
among the sources; clears the lowest set bit, so that the loops over a
trackdir set visit "every direction reachable" once. -/
def KillFirstBit (value : Nat) : Nat :=
  value &&& (value - 1)

/-- Modelled from the spec: `TrackdirToTrackdirBits` of the track header, which
is not among the sources; the one-element set of a trackdir. -/
def TrackdirToTrackdirBits (td : Trackdir) : TrackdirBits :=
  1 <<< td

/-- Modelled from the spec: `FindFirstTrackdir` of the track header, which is
not among the sources; the first direction of a set, the invalid trackdir for
the empty set. -/
def FindFirstTrackdir (w : World) (trackdirs : TrackdirBits) : Trackdir :=
  if trackdirs = 0 then w.INVALID_TRACKDIR else FindFirstBit2x64 trackdirs

/-- Trackdirs visited by the loop
`for (tdb = trackdirs; tdb != TRACKDIR_BIT_NONE; tdb = KillFirstBit(tdb))`,
each one being `FindFirstTrackdir(tdb)`; the first argument bounds the number
of rounds. -/
def TrackdirLoop (w : World) : Nat → TrackdirBits → List Trackdir
  | 0, _ => []
  | fuel + 1, tdb =>
    if tdb = 0 then [] else FindFirstTrackdir w tdb :: TrackdirLoop w fuel (KillFirstBit tdb)

/-! ## Nodes and the engine -/

/-- Search node.  `m_key` is the position the node was created with
(`GetPos()`), `m_parent` the index of the parent in the pool. -/
structure Node where
  m_parent : Option Nat
  m_key : PathPos
  m_is_choice : Bool
  m_cost : Int
  m_estimate : Int
  m_segment_last : PathPos
  deriving DecidableEq, Repr

/-- Accessor `GetPos()` of a node. -/
def Node.GetPos (n : Node) : PathPos :=
  n.m_key

/-- Modelled from the spec: `Astar::CreateNewNode`, which is not among the
sources; "create a root node (no parent) at cost 0", the segment of a fresh
node ending where it starts. -/
def CreateNewNode (parent : Option Nat) (pos : PathPos) (is_choice : Bool) : Node :=
  { m_parent := parent, m_key := pos, m_is_choice := is_choice,
    m_cost := 0, m_estimate := 0, m_segment_last := pos }

/-- Engine object after `FindPath` has returned: the node pool, the node
`GetBestNode()` gives (`none` for `NULL`) and the value `FindPath` returned. -/
structure Astar where
  nodes : List Node
  best : Option Nat
  found : Bool

/-- Node `GetBestNode()` points to, if it points into the pool. -/
def Astar.GetBestNode (a : Astar) : Option Node :=
  a.best.bind fun i => a.nodes[i]?

/-- Walk `while (n->m_parent != NULL) n = n->m_parent;` through the pool, at
most `fuel` links far. -/
def walkToOrigin (nodes : List Node) : Nat → Node → Option Node
  | fuel, n =>
    match n.m_parent with
    | none => some n
    | some p =>
      match fuel with
      | 0 => none
      | fuel + 1 =>
        match nodes[p]? with
        | none => none
        | some m => walkToOrigin nodes fuel m

/-! ## Cost model

The functions of this section, and the segment loop and the expansion built on
them in the section on node expansion, compute the costs over the integers.
The source keeps every cost in `int`: the section on 32-bit arithmetic gives
the same functions under the namespace `Machine`, with every value converted
to `int` where the source stores it, and the two are shown to agree up to that
conversion (`machine_OneTileCost_eq`, `machine_SegmentLoop_wrap`,
`machine_PfFollowNode_wrap`). -/

/-- Function `SlopeCost` (lines 17-30), over the integers. -/
def SlopeCost (w : World) (settings : YAPFSettings) (tile next : TileIndex) : Int :=
  let x1 : Int := (w.TileX tile : Int) * (w.TILE_SIZE : Int)
  let y1 : Int := (w.TileY tile : Int) * (w.TILE_SIZE : Int)
  let z1 := w.GetSlopePixelZ (x1 + ((w.TILE_SIZE / 2 : Nat) : Int)) (y1 + ((w.TILE_SIZE / 2 : Nat) : Int))
  let x2 : Int := (w.TileX next : Int) * (w.TILE_SIZE : Int)
  let y2 : Int := (w.TileY next : Int) * (w.TILE_SIZE : Int)
  let z2 := w.GetSlopePixelZ (x2 + ((w.TILE_SIZE / 2 : Nat) : Int)) (y2 + ((w.TILE_SIZE / 2 : Nat) : Int))
  if z2 - z1 > 1 then settings.road_slope_penalty else 0

/-- Value of a C++ `bool` used as an `int`. -/
def boolToInt (b : Bool) : Int :=
  if b then 1 else 0

/-- Function `OneTileCost` (lines 33-74), over the integers;
`Machine.OneTileCost` is the function with `cost` as the 32-bit `int` of the
source. -/
def OneTileCost (w : World) (settings : YAPFSettings) (pos : PathPos) : Int :=
  if w.IsDiagonalTrackdir pos.td then
    let cost : Int := 0 + w.YAPF_TILE_LENGTH
    match w.GetTileType pos.tile with
    | TileType.TT_MISC =>
      if w.IsLevelCrossingTile pos.tile then cost + settings.road_crossing_penalty else cost
    | TileType.TT_STATION =>
      let rs := w.RoadStop_GetByTile pos.tile (w.GetRoadStopType pos.tile)
      if w.IsDriveThroughStopTile pos.tile then
        let cost := cost + settings.road_stop_penalty
        let dir := w.TrackdirToExitdir pos.td
        if !w.IsDriveThroughRoadStopContinuation pos.tile
            (TileSub pos.tile (w.TileOffsByDiagDir dir)) then
          let entry := rs.GetEntry dir
          cost + (entry.GetOccupied * settings.road_stop_occupied_penalty).tdiv entry.GetLength
        else cost
      else
        cost + (settings.road_stop_bay_occupied_penalty
          * (boolToInt (!rs.IsFreeBay 0) + boolToInt (!rs.IsFreeBay 1))).tdiv 2
    | TileType.TT_OTHER => cost
  else
    w.YAPF_TILE_CORNER_LENGTH + settings.road_curve_penalty

/-- Speed penalties added inside the segment loop of `PfFollowNode`
(lines 164-169). -/
def SpeedCost (max_veh_speed min_speed max_speed : Int) : Int :=
  (if max_speed < max_veh_speed then 1 * (max_veh_speed - max_speed) else 0)
    + (if min_speed > max_veh_speed then 10 * (min_speed - max_veh_speed) else 0)

/-- One move of the track follower as `PfFollowNode` charges it: the position
reached, the tunnel or bridge tiles skipped on the way, the speed limits of the
new tile, and whether the move is made inside the segment loop (`FollowNext`,
lines 148-169) or is the move from the parent node to the first tile of a
child (`Follow`, lines 118-128). -/
structure FollowStep where
  m_new : PathPos
  m_tiles_skipped : Nat
  min_speed : Int
  max_speed : Int
  in_segment : Bool
  deriving DecidableEq, Repr

/-- Cost `PfFollowNode` adds for one move: skipped tiles (lines 128, 157), the
tile cost of the position reached (line 136) and, inside the segment loop, the
slope and speed penalties (lines 162-169). -/
def StepCost (w : World) (settings : YAPFSettings) (v : RoadVehicle) (m_old : PathPos)
    (st : FollowStep) : Int :=
  (st.m_tiles_skipped : Int) * w.YAPF_TILE_LENGTH
    + OneTileCost w settings st.m_new
    + (if st.in_segment then
        SlopeCost w settings m_old.tile st.m_new.tile
          + SpeedCost v.GetDisplayMaxSpeed st.min_speed st.max_speed
       else 0)

/-- Cost of a chain of follower moves starting at a position. -/
def PathCost (w : World) (settings : YAPFSettings) (v : RoadVehicle) :
    PathPos → List FollowStep → Int
  | _, [] => 0
  | p, st :: rest => StepCost w settings v p st + PathCost w settings v st.m_new rest

/-- Position a chain of follower moves ends on. -/
def PathEnd : PathPos → List FollowStep → PathPos
  | p, [] => p
  | _, st :: rest => PathEnd st.m_new rest

/-! ## Destination policies -/

/-- Members of `CYapfDestinationTileRoadT` (lines 291-294). -/
structure CYapfDestinationTileRoadT where
  m_destTile : TileIndex
  m_dest_station : StationID
  m_bus : Bool
  m_non_artic : Bool
  deriving DecidableEq, Repr

/-- Table `dg_dir_to_x_offs` (line 342). -/
def dg_dir_to_x_offs (d : DiagDirection) : Int :=
  match d with
  | 0 => -1
  | 1 => 0
  | 2 => 1
  | 3 => 0

/-- Table `dg_dir_to_y_offs` (line 343). -/
def dg_dir_to_y_offs (d : DiagDirection) : Int :=
  match d with
  | 0 => 0
  | 1 => 1
  | 2 => 0
  | 3 => -1

namespace CYapfDestinationTileRoadT

/-- Method `SetDestination` (lines 297-308); members it does not assign keep
the value they had. -/
def SetDestination (w : World) (self : CYapfDestinationTileRoadT) (v : RoadVehicle) :
    CYapfDestinationTileRoadT :=
  if v.current_order.IsType OrderType.OT_GOTO_STATION then
    let m_dest_station := v.current_order.GetDestination
    let m_bus := v.IsBus
    { m_dest_station := m_dest_station
      m_bus := m_bus
      m_destTile := w.GetClosestTile m_dest_station v.tile
        (if m_bus then StationType.STATION_BUS else StationType.STATION_TRUCK)
      m_non_artic := !v.HasArticulatedPart }
  else
    { self with m_dest_station := w.INVALID_STATION, m_destTile := v.dest_tile }

/-- Method `PfDetectDestinationTile` (lines 324-334). -/
def PfDetectDestinationTile (w : World) (self : CYapfDestinationTileRoadT) (pos : PathPos) :
    Bool :=
  if self.m_dest_station ≠ w.INVALID_STATION then
    w.IsStationTile pos.tile &&
      decide (w.GetStationIndex pos.tile = self.m_dest_station) &&
      (if self.m_bus then w.IsBusStop pos.tile else w.IsTruckStop pos.tile) &&
      (self.m_non_artic || w.IsDriveThroughStopTile pos.tile)
  else decide (pos.tile = self.m_destTile)

/-- Method `PfDetectDestination` (lines 319-322). -/
def PfDetectDestination (w : World) (self : CYapfDestinationTileRoadT) (n : Node) : Bool :=
  PfDetectDestinationTile w self n.m_segment_last

/-- Method `PfCalcEstimate` (lines 340-363): the value returned and the node
as the method leaves it. -/
def PfCalcEstimate (w : World) (self : CYapfDestinationTileRoadT) (n : Node) : Bool × Node :=
  if PfDetectDestination w self n then
    (true, { n with m_estimate := n.m_cost })
  else
    let tile := n.m_segment_last.tile
    let exitdir := w.TrackdirToExitdir n.m_segment_last.td
    let x1 : Int := 2 * (w.TileX tile : Int) + dg_dir_to_x_offs exitdir
    let y1 : Int := 2 * (w.TileY tile : Int) + dg_dir_to_y_offs exitdir
    let x2 : Int := 2 * (w.TileX self.m_destTile : Int)
    let y2 : Int := 2 * (w.TileY self.m_destTile : Int)
    let dx := |x1 - x2|
    let dy := |y1 - y2|
    let dmin := min dx dy
    let dxy := |dx - dy|
    let d := dmin * w.YAPF_TILE_CORNER_LENGTH + (dxy - 1) * (w.YAPF_TILE_LENGTH.tdiv 2)
    (true, { n with m_estimate := n.m_cost + d })

end CYapfDestinationTileRoadT

namespace CYapfDestinationAnyDepotRoadT

/-- Method `PfDetectDestination` of the nearest-depot policy (lines 259-262). -/
def PfDetectDestination (w : World) (n : Node) : Bool :=
  w.IsRoadDepotTile n.m_segment_last.tile

/-- Method `PfDetectDestinationTile` of the nearest-depot policy (lines 264-267). -/
def PfDetectDestinationTile (w : World) (pos : PathPos) : Bool :=
  w.IsRoadDepotTile pos.tile

/-- Method `PfCalcEstimate` of the nearest-depot policy (lines 273-277): the
value returned and the node as the method leaves it. -/
def PfCalcEstimate (n : Node) : Bool × Node :=
  (true, { n with m_estimate := n.m_cost })

end CYapfDestinationAnyDepotRoadT

/-- Pathfinder with the fixed-destination policy (`CYapfRoad1`, `CYapfRoad2`):
the destination members as the constructor leaves them, and the engine run
from the initial nodes, the destination set and the vehicle to the engine
after `FindPath`. -/
structure TpfRoad where
  dest0 : CYapfDestinationTileRoadT
  FindPath : List Node → CYapfDestinationTileRoadT → RoadVehicle → Astar

/-- Pathfinder with the nearest-depot policy (`CYapfRoadAnyDepot1`,
`CYapfRoadAnyDepot2`): from the initial nodes and the vehicle to the engine
after `FindPath`. -/
abbrev TpfAnyDepot := List Node → RoadVehicle → Astar

/-! ## Entry point: nearest depot -/

/-- Function template `FindNearestDepot<Tpf>` (lines 467-484). -/
def FindNearestDepot (w : World) (pf : TpfAnyDepot) (v : RoadVehicle) (pos : PathPos)
    (max_distance : Int) : Option TileIndex :=
  let a := pf [CreateNewNode none pos false] v
  if !a.found then some w.INVALID_TILE
  else
    match a.GetBestNode with
    | none => none
    | some n =>
      if max_distance > 0 ∧ n.m_cost > toInt32 (max_distance * w.YAPF_TILE_LENGTH) then
        some w.INVALID_TILE
      else some n.m_segment_last.tile

/-- Entry point `YapfRoadVehicleFindNearestDepot` (lines 486-503).  The early
exit is `return false;` in a function returning `TileIndex`, that is tile `0`. -/
def YapfRoadVehicleFindNearestDepot (w : World) (settings : YAPFSettings)
    (CYapfRoadAnyDepot1 CYapfRoadAnyDepot2 : TpfAnyDepot) (v : RoadVehicle)
    (max_distance : Nat) : Option TileIndex :=
  let pos := v.GetPos
  if (w.TrackStatusToTrackdirBits (w.GetTileRoadStatus pos.tile v.compatible_roadtypes)
      &&& TrackdirToTrackdirBits pos.td) = 0 then
    some 0
  else
    let pfnFindNearestDepot :=
      if settings.disable_node_optimization then FindNearestDepot w CYapfRoadAnyDepot1
      else FindNearestDepot w CYapfRoadAnyDepot2
    pfnFindNearestDepot v pos (toInt32 max_distance)

/-! ## Entry point: choose the next trackdir -/

/-- Trackdirs `ChooseRoadTrack` starts the search from (line 412). -/
def SeedTrackdirs (w : World) (v : RoadVehicle) (tile : TileIndex) (enterdir : DiagDirection) :
    TrackdirBits :=
  w.TrackStatusToTrackdirBits (w.GetTileRoadStatus tile v.compatible_roadtypes)
    &&& w.DiagdirReachesTrackdirs enterdir

/-- Initial nodes `ChooseRoadTrack` creates and inserts (lines 415-420), in the
order of insertion. -/
def InitialNodes (w : World) (v : RoadVehicle) (tile : TileIndex) (enterdir : DiagDirection) :
    List Node :=
  let trackdirs := SeedTrackdirs w v tile enterdir
  (TrackdirLoop w trackdirs trackdirs).map fun td =>
    CreateNewNode none { tile := tile, td := td } true

/-- Engine object of `ChooseRoadTrack` after `pf.FindPath(v)` (lines 409-425). -/
def ChooseRoadTrackSearch (w : World) (pf : TpfRoad) (v : RoadVehicle) (tile : TileIndex)
    (enterdir : DiagDirection) : Astar :=
  pf.FindPath (InitialNodes w v tile enterdir)
    (CYapfDestinationTileRoadT.SetDestination w pf.dest0 v) v

/-- Function template `ChooseRoadTrack<Tpf>` (lines 406-440): the trackdir
returned and the value stored in `path_found`.  `fuel` bounds the walk back to
the origin node. -/
def ChooseRoadTrack (w : World) (pf : TpfRoad) (fuel : Nat) (v : RoadVehicle) (tile : TileIndex)
    (enterdir : DiagDirection) : Option (Trackdir × Bool) :=
  let a := ChooseRoadTrackSearch w pf v tile enterdir
  let path_found := a.found
  match a.best with
  | none => some (w.INVALID_TRACKDIR, path_found)
  | some i =>
    match a.nodes[i]? with
    | none => none
    | some n =>
      match walkToOrigin a.nodes fuel n with
      | none => none
      | some origin => some (origin.GetPos.td, path_found)

/-- Entry point `YapfRoadVehicleChooseTrack` (lines 442-464): the trackdir
returned and `path_found` as it is on return. -/
def YapfRoadVehicleChooseTrack (w : World) (settings : YAPFSettings)
    (CYapfRoad1 CYapfRoad2 : TpfRoad) (fuel : Nat) (v : RoadVehicle) (tile : TileIndex)
    (enterdir : DiagDirection) (trackdirs : TrackdirBits) (path_found : Bool) :
    Option (Trackdir × Bool) :=
  if tile = v.dest_tile ∧ ¬ (v.current_order.IsType OrderType.OT_GOTO_STATION = true) then
    some (w.DiagDirToDiagTrackdir enterdir, path_found)
  else
    let pfnChooseRoadTrack :=
      if settings.disable_node_optimization then ChooseRoadTrack w CYapfRoad1
      else ChooseRoadTrack w CYapfRoad2
    match pfnChooseRoadTrack fuel v tile enterdir with
    | none => none
    | some (td_ret, found) =>
      some (if td_ret ≠ w.INVALID_TRACKDIR then td_ret else FindFirstBit2x64 trackdirs, found)

/-! ## Node expansion -/

/-- What the track follower holds after a successful `Follow` or `FollowNext`:
the new position `m_new` with its set of reachable trackdirs and whether it is
a single one, the tiles skipped in a tunnel or on a bridge, and the speed
limits `GetSpeedLimit(&min_speed)` gives there. -/
structure FollowResult where
  m_new : PathPos
  trackdirs : TrackdirBits
  is_single : Bool
  m_tiles_skipped : Nat
  min_speed : Int
  max_speed : Int
  deriving DecidableEq, Repr

/-- Modelled from the spec: the track follower `CFollowTrackRoad`, which is not
among the sources; "`follow(position) -> set of reachable directions on next
tile, tiles-skipped count for multi-tile structures`; must be deterministic and
side-effect-free".  `Follow` is `none` where the follower returns false;
`FollowNext()` is `Follow` at the follower's own `m_new`. -/
structure CFollowTrackRoad where
  Follow : PathPos → Option FollowResult

/-- Methods of the pathfinder `Yapf()` that `PfFollowNode` calls; they come
from one of the two destination policies. -/
structure DestinationPolicy where
  PfDetectDestinationTile : PathPos → Bool
  PfCalcEstimate : Node → Bool × Node
  PfDetectDestination : Node → Bool

/-- Methods of the fixed-destination policy `CYapfDestinationTileRoadT`. -/
def TileRoadPolicy (w : World) (self : CYapfDestinationTileRoadT) : DestinationPolicy :=
  { PfDetectDestinationTile := CYapfDestinationTileRoadT.PfDetectDestinationTile w self
    PfCalcEstimate := CYapfDestinationTileRoadT.PfCalcEstimate w self
    PfDetectDestination := CYapfDestinationTileRoadT.PfDetectDestination w self }

/-- Methods of the nearest-depot policy `CYapfDestinationAnyDepotRoadT`. -/
def AnyDepotRoadPolicy (w : World) : DestinationPolicy :=
  { PfDetectDestinationTile := CYapfDestinationAnyDepotRoadT.PfDetectDestinationTile w
    PfCalcEstimate := CYapfDestinationAnyDepotRoadT.PfCalcEstimate
    PfDetectDestination := CYapfDestinationAnyDepotRoadT.PfDetectDestination w }

/-- Which `break` has left the segment loop: destination reached (line 139),
depot entered (line 144), end of road (line 148), junction ahead (line 151),
tile ceiling (line 173). -/
inductive SegmentEnd where
  | destination
  | depot
  | end_of_road
  | junction
  | ceiling
  deriving DecidableEq, Repr

/-- Variables of the segment loop (lines 127-174): the follower's `m_new`, the
node's `m_segment_last`, `segment_cost` and `tiles`.  `steps` is not in the
source: it records the follower moves the loop has taken, so that properties
of a run can be stated. -/
structure SegState where
  m_new : PathPos
  m_segment_last : PathPos
  segment_cost : Int
  tiles : Nat
  steps : List FollowStep
  deriving DecidableEq, Repr

/-- How the segment loop is left: by one of its `break`s, with the variables
as they are then, or by the `return` of line 154. -/
inductive LoopExit where
  | brk (s : SegState) (why : SegmentEnd)
  | ret
  deriving DecidableEq, Repr

/-- Segment loop `for (;;) { ... }` (lines 134-174) for the child that starts
at `pos`.  The first argument bounds the number of rounds; `none` means the
bound was reached. -/
def SegmentLoop (w : World) (settings : YAPFSettings) (v : RoadVehicle) (tf : CFollowTrackRoad)
    (PfDetectDestinationTile : PathPos → Bool) (pos : PathPos) : Nat → SegState → Option LoopExit
  | 0, _ => none
  | fuel + 1, s =>
    let segment_cost := s.segment_cost + OneTileCost w settings s.m_new
    if PfDetectDestinationTile s.m_new then
      some (LoopExit.brk { s with segment_cost := segment_cost } SegmentEnd.destination)
    else if w.IsRoadDepotTile s.m_new.tile = true ∧
        s.m_new.td = w.DiagDirToDiagTrackdir
          (w.ReverseDiagDir (w.GetGroundDepotDirection s.m_new.tile)) then
      some (LoopExit.brk { s with segment_cost := segment_cost } SegmentEnd.depot)
    else
      match tf.Follow s.m_new with
      | none => some (LoopExit.brk { s with segment_cost := segment_cost } SegmentEnd.end_of_road)
      | some r =>
        if !r.is_single then
          some (LoopExit.brk { s with segment_cost := segment_cost } SegmentEnd.junction)
        else if r.m_new = pos then some LoopExit.ret
        else
          let segment_cost := segment_cost + (r.m_tiles_skipped : Int) * w.YAPF_TILE_LENGTH
          let tiles := s.tiles + (r.m_tiles_skipped + 1)
          let segment_cost := segment_cost + SlopeCost w settings s.m_new.tile r.m_new.tile
          let min_speed := r.min_speed
          let max_veh_speed := v.GetDisplayMaxSpeed
          let max_speed := r.max_speed
          let segment_cost :=
            if max_speed < max_veh_speed then segment_cost + 1 * (max_veh_speed - max_speed)
            else segment_cost
          let segment_cost :=
            if min_speed > max_veh_speed then segment_cost + 10 * (min_speed - max_veh_speed)
            else segment_cost
          let s1 : SegState :=
            { m_new := r.m_new, m_segment_last := r.m_new, segment_cost := segment_cost,
              tiles := tiles
              steps := s.steps ++ [{ m_new := r.m_new, m_tiles_skipped := r.m_tiles_skipped,
                                     min_speed := min_speed, max_speed := max_speed,
                                     in_segment := true }] }
          if tiles > w.MAX_MAP_SIZE then some (LoopExit.brk s1 SegmentEnd.ceiling)
          else SegmentLoop w settings v tf PfDetectDestinationTile pos fuel s1

/-- What one round of the loop over the reachable trackdirs (lines 123-191)
has done: left the whole function by the `return` of line 154, or evaluated
its node.  `created` is the node as `CreateNewNode` made it, `n` the node
after `PfCalcEstimate`, `bValid` what `PfCalcEstimate` returned, `why` and
`steps` how the segment loop was left and the moves it had taken. -/
inductive ChildResult where
  | looped (created : Node)
  | evaluated (created : Node) (why : SegmentEnd) (steps : List FollowStep) (n : Node)
      (bValid : Bool)
  deriving DecidableEq, Repr

/-- Body of the loop over the reachable trackdirs for the trackdir `td`
(lines 124-180), `r` being what `tf.Follow(old_node.m_segment_last)` has left
in the follower and `old` the place of `old_node` in the pool. -/
def PfFollowNodeChild (w : World) (settings : YAPFSettings) (v : RoadVehicle)
    (tf : CFollowTrackRoad) (Yapf : DestinationPolicy) (fuel : Nat) (old : Nat)
    (old_node : Node) (r : FollowResult) (td : Trackdir) : Option ChildResult :=
  let is_choice := !r.is_single
  let initial_skipped_tiles := r.m_tiles_skipped
  let pos : PathPos := { r.m_new with td := td }
  let n := CreateNewNode (some old) pos is_choice
  let tiles := initial_skipped_tiles
  let segment_cost : Int := (tiles : Int) * w.YAPF_TILE_LENGTH
  match SegmentLoop w settings v tf Yapf.PfDetectDestinationTile pos fuel
      { m_new := pos, m_segment_last := pos, segment_cost := segment_cost, tiles := tiles,
        steps := [] } with
  | none => none
  | some LoopExit.ret => some (ChildResult.looped n)
  | some (LoopExit.brk s why) =>
    let n1 : Node :=
      { n with m_segment_last := s.m_segment_last, m_cost := old_node.m_cost + s.segment_cost }
    let res := Yapf.PfCalcEstimate n1
    some (ChildResult.evaluated n why s.steps res.2 res.1)

/-- Calls `PfFollowNode` makes to the engine, in the order it makes them. -/
inductive AstarCall where
  | CreateNewNode (n : Node)
  | FoundTarget (n : Node)
  | InsertNode (n : Node)
  deriving DecidableEq, Repr

/-- Loop over the reachable trackdirs (lines 123-191), given the trackdirs it
visits in order. -/
def PfFollowNodeLoop (w : World) (settings : YAPFSettings) (v : RoadVehicle)
    (tf : CFollowTrackRoad) (Yapf : DestinationPolicy) (fuel : Nat) (old : Nat)
    (old_node : Node) (r : FollowResult) : List Trackdir → Option (List AstarCall)
  | [] => some []
  | td :: rest =>
    match PfFollowNodeChild w settings v tf Yapf fuel old old_node r td with
    | none => none
    | some (ChildResult.looped created) => some [AstarCall.CreateNewNode created]
    | some (ChildResult.evaluated created _ _ n bValid) =>
      match PfFollowNodeLoop w settings v tf Yapf fuel old old_node r rest with
      | none => none
      | some calls =>
        some (AstarCall.CreateNewNode created ::
          ((if !bValid then []
            else if Yapf.PfDetectDestination n then [AstarCall.FoundTarget n]
            else [AstarCall.InsertNode n]) ++ calls))

/-- Method `CYapfRoadT::PfFollowNode` (lines 115-192): the calls it makes to
the engine.  `old` is the place of `old_node` in the pool, `fuel` bounds the
rounds of each segment loop. -/
def PfFollowNode (w : World) (settings : YAPFSettings) (v : RoadVehicle)
    (tf : CFollowTrackRoad) (Yapf : DestinationPolicy) (fuel : Nat) (old : Nat)
    (old_node : Node) : Option (List AstarCall) :=
  match tf.Follow old_node.m_segment_last with
  | none => some []
  | some r =>
    PfFollowNodeLoop w settings v tf Yapf fuel old old_node r
      (TrackdirLoop w r.trackdirs r.trackdirs)

/-! ## Predicates used in the statements -/

/-- Parent chain of pool entry `i` is finite and ends in a node without parent
whose position is one of `seeds`. -/
inductive EndsInSeed (nodes : List Node) (seeds : List PathPos) : Nat → Prop where
  | origin (i : Nat) (n : Node) (hn : nodes[i]? = some n) (hp : n.m_parent = none)
      (hs : n.GetPos ∈ seeds) : EndsInSeed nodes seeds i
  | link (i p : Nat) (n : Node) (hn : nodes[i]? = some n) (hp : n.m_parent = some p)
      (h : EndsInSeed nodes seeds p) : EndsInSeed nodes seeds i

/-- All six road penalties of the settings are non-negative. -/
def NonNegPenalties (s : YAPFSettings) : Prop :=
  0 ≤ s.road_slope_penalty ∧ 0 ≤ s.road_curve_penalty ∧ 0 ≤ s.road_crossing_penalty ∧
    0 ≤ s.road_stop_penalty ∧ 0 ≤ s.road_stop_occupied_penalty ∧
    0 ≤ s.road_stop_bay_occupied_penalty

/-- Every entry of every road stop reports a non-negative occupancy and a
positive length. -/
def NonNegOccupancy (w : World) : Prop :=
  ∀ (tile : TileIndex) (t : StationType) (dir : DiagDirection),
    0 ≤ ((w.RoadStop_GetByTile tile t).GetEntry dir).GetOccupied ∧
      0 < ((w.RoadStop_GetByTile tile t).GetEntry dir).GetLength

/-- Octile length of the vector `(x, y)`, counted in half tiles: the shorter
coordinate is covered by diagonal half-tile steps of weight `c`, the rest by
straight ones of weight `h`.  It is the expression of lines 355-359 before the
correction by one straight step. -/
def Octile (c h x y : Int) : Int :=
  min |x| |y| * c + abs (|x| - |y|) * h

/-- First coordinate, in half tiles, of the point where a position leaves its
tile (line 351). -/
def ExitX (w : World) (p : PathPos) : Int :=
  2 * (w.TileX p.tile : Int) + dg_dir_to_x_offs (w.TrackdirToExitdir p.td)

/-- Second coordinate, in half tiles, of the point where a position leaves its
tile (line 352). -/
def ExitY (w : World) (p : PathPos) : Int :=
  2 * (w.TileY p.tile : Int) + dg_dir_to_y_offs (w.TrackdirToExitdir p.td)

/-- One follower move between edge-adjacent tiles, or over a straight tunnel
or bridge whose inner tiles are reported as skipped: the tile reached lies
`m_tiles_skipped + 1` tiles from the old one in the exit direction of the old
trackdir, and a trackdir that is not diagonal (a curve) does not leave the new
tile in the direction it was entered in. -/
def EdgeAdjacent (w : World) (m_old : PathPos) (st : FollowStep) : Prop :=
  (w.TileX st.m_new.tile : Int) = (w.TileX m_old.tile : Int)
      + ((st.m_tiles_skipped : Int) + 1) * dg_dir_to_x_offs (w.TrackdirToExitdir m_old.td) ∧
    (w.TileY st.m_new.tile : Int) = (w.TileY m_old.tile : Int)
      + ((st.m_tiles_skipped : Int) + 1) * dg_dir_to_y_offs (w.TrackdirToExitdir m_old.td) ∧
    (w.IsDiagonalTrackdir st.m_new.td = false →
      w.TrackdirToExitdir st.m_new.td ≠ w.TrackdirToExitdir m_old.td)

/-- Every move of a chain is a move between edge-adjacent tiles. -/
def PathFollows (w : World) : PathPos → List FollowStep → Prop
  | _, [] => True
  | p, st :: rest => EdgeAdjacent w p st ∧ PathFollows w st.m_new rest

/-- Follower move recorded for the result `r` of `Follow` or `FollowNext`. -/
def FollowResult.toStep (r : FollowResult) (in_segment : Bool) : FollowStep :=
  { m_new := r.m_new, m_tiles_skipped := r.m_tiles_skipped, min_speed := r.min_speed,
    max_speed := r.max_speed, in_segment := in_segment }

/-- Move from the parent's segment end to the first position of a child, as
`PfFollowNode` charges it (lines 121-128): no slope or speed term. -/
def FirstStep (r : FollowResult) (td : Trackdir) : FollowStep :=
  { m_new := { r.m_new with td := td }, m_tiles_skipped := r.m_tiles_skipped,
    min_speed := r.min_speed, max_speed := r.max_speed, in_segment := false }

/-- Chain of single-choice follower steps: every move is what the follower
answers at the position before it, the answer being a single trackdir, and is
a move made inside the segment loop. -/
def FollowerChain (tf : CFollowTrackRoad) : PathPos → List FollowStep → Prop
  | _, [] => True
  | p, st :: rest =>
    (∃ r, tf.Follow p = some r ∧ r.is_single = true ∧ st = r.toStep true) ∧
      FollowerChain tf st.m_new rest

/-- Follower that only moves between edge-adjacent tiles, or skips a straight
tunnel or bridge and reports the tiles skipped: whatever it answers, the new
tile with its own trackdir (when single) and with every trackdir of the set it
reports is an edge-adjacent move from the old position. -/
def FollowerEdgeAdjacent (w : World) (tf : CFollowTrackRoad) : Prop :=
  ∀ (p : PathPos) (r : FollowResult), tf.Follow p = some r →
    (r.is_single = true → EdgeAdjacent w p (r.toStep true)) ∧
      ∀ td : Trackdir, r.trackdirs.testBit td = true →
        EdgeAdjacent w p (FirstStep r td)

/-- Distance term `d` of `PfCalcEstimate` (lines 349-359) for a position. -/
def EstimateDistance (w : World) (self : CYapfDestinationTileRoadT) (pos : PathPos) : Int :=
  Octile w.YAPF_TILE_CORNER_LENGTH (w.YAPF_TILE_LENGTH.tdiv 2)
      (ExitX w pos - 2 * (w.TileX self.m_destTile : Int))
      (ExitY w pos - 2 * (w.TileY self.m_destTile : Int))
    - w.YAPF_TILE_LENGTH.tdiv 2

/-- Value of the counter `tiles` (lines 127, 158) after the moves of a chain,
`initial` being the tiles skipped on the way to the first position. -/
def SegmentTiles (initial : Nat) : List FollowStep → Nat
  | [] => initial
  | st :: rest => SegmentTiles (initial + (st.m_tiles_skipped + 1)) rest

/-- The same world with no level crossing on any tile. -/
def WithoutLevelCrossings (w : World) : World :=
  { w with IsLevelCrossingTile := fun _ => false }

/-- Position on which `OneTileCost` adds the level-crossing penalty (lines
36-45): diagonal trackdir on a `TT_MISC` tile that is a level crossing. -/
def LevelCrossingPos (w : World) (pos : PathPos) : Bool :=
  w.IsDiagonalTrackdir pos.td && decide (w.GetTileType pos.tile = TileType.TT_MISC) &&
    w.IsLevelCrossingTile pos.tile

/-- Number of level-crossing positions in a list of positions. -/
def CrossingCount (w : World) : List PathPos → Int
  | [] => 0
  | p :: rest => (if LevelCrossingPos w p then 1 else 0) + CrossingCount w rest

/-- Condition of line 142: the position is on a road depot tile, on the
diagonal trackdir that drives into the depot. -/
def EntersDepot (w : World) (p : PathPos) : Prop :=
  w.IsRoadDepotTile p.tile = true ∧
    p.td = w.DiagDirToDiagTrackdir (w.ReverseDiagDir (w.GetGroundDepotDirection p.tile))

/-- Running position at which neither the destination stop (line 139) nor the
depot stop (lines 142-145) ends the segment. -/
def PassesThrough (w : World) (detect : PathPos → Bool) (p : PathPos) : Prop :=
  detect p = false ∧ ¬ EntersDepot w p

/-- The segment loop of the child starting at `pos`, with running position `p`
and tile counter `tiles`, makes the moves `steps` as complete rounds: at every
position before a move no stop fires, the follower answers with the single
trackdir of the move, the move does not come back to `pos` (line 154) and the
tile counter does not exceed `MAX_MAP_SIZE` after it (line 173). -/
def Continues (w : World) (tf : CFollowTrackRoad) (detect : PathPos → Bool) (pos : PathPos) :
    PathPos → Nat → List FollowStep → Prop
  | _, _, [] => True
  | p, tiles, x :: rest =>
    PassesThrough w detect p ∧
      (∃ r, tf.Follow p = some r ∧ r.is_single = true ∧ x = r.toStep true) ∧
      x.m_new ≠ pos ∧
      tiles + (x.m_tiles_skipped + 1) ≤ w.MAX_MAP_SIZE ∧
      Continues w tf detect pos x.m_new (tiles + (x.m_tiles_skipped + 1)) rest

/-- Variables of the segment loop after complete rounds that made the moves
`steps` (lines 136, 157-172). -/
def RunSteps (w : World) (settings : YAPFSettings) (v : RoadVehicle) :
    SegState → List FollowStep → SegState
  | s, [] => s
  | s, x :: rest =>
    RunSteps w settings v
      { m_new := x.m_new, m_segment_last := x.m_new
        segment_cost := s.segment_cost + OneTileCost w settings s.m_new
          + (x.m_tiles_skipped : Int) * w.YAPF_TILE_LENGTH
          + SlopeCost w settings s.m_new.tile x.m_new.tile
          + SpeedCost v.GetDisplayMaxSpeed x.min_speed x.max_speed
        tiles := s.tiles + (x.m_tiles_skipped + 1)
        steps := s.steps ++ [x] } rest

/-- Variables of the segment loop when the child for the trackdir `td` starts
(lines 124-132), `r` being what `tf.Follow(old_node.m_segment_last)` has left. -/
def FirstState (w : World) (r : FollowResult) (td : Trackdir) : SegState :=
  { m_new := { r.m_new with td := td }, m_segment_last := { r.m_new with td := td }
    segment_cost := (r.m_tiles_skipped : Int) * w.YAPF_TILE_LENGTH
    tiles := r.m_tiles_skipped, steps := [] }

/-- Calls that one round of the loop over the reachable trackdirs makes for a
child whose segment loop was left by a `break` (lines 125, 180-190). -/
def ChildCalls (Yapf : DestinationPolicy) (created n : Node) (bValid : Bool) : List AstarCall :=
  AstarCall.CreateNewNode created ::
    (if !bValid then []
      else if Yapf.PfDetectDestination n then [AstarCall.FoundTarget n]
      else [AstarCall.InsertNode n])

/-- Node of a call to the engine. -/
def AstarCall.node : AstarCall → Node
  | AstarCall.CreateNewNode n => n
  | AstarCall.FoundTarget n => n
  | AstarCall.InsertNode n => n

/-! ## The search engine -/

/-- Modelled from the spec: the node-key classes `AstarRoadTrackDir` and
`AstarRoadExitDir`, which are not among the sources; "a fine-grained key
(position + entry direction) that never merges distinct directions" and "a
coarse-grained key (position + exit direction only) that merges nodes entering
the same tile via different directions when they exit the same way". -/
inductive AstarKey where
  | AstarRoadTrackDir
  | AstarRoadExitDir
  deriving DecidableEq, Repr

/-- Modelled from the spec: the key of a node under either node-key class,
which is not among the sources; the tile with the trackdir for the fine key,
the tile with the exit direction of the trackdir for the coarse key. -/
def AstarKey.GetKey (w : World) : AstarKey → Node → TileIndex × Nat
  | AstarKey.AstarRoadTrackDir, n => (n.m_key.tile, n.m_key.td)
  | AstarKey.AstarRoadExitDir, n => (n.m_key.tile, (w.TrackdirToExitdir n.m_key.td).val)

/-- Modelled from the spec: the state of the engine `Astar` during `FindPath`,
which is not among the sources; "the engine owns the full node pool", "an arena
of nodes indexed by integer handle", the open set "containing not-yet-expanded
nodes" and the closed set "of nodes already expanded", both as lists of
handles, the open set in the order of insertion. -/
structure AstarState where
  nodes : List Node
  open_set : List Nat
  closed_set : List Nat
  deriving Repr

/-- Modelled from the spec: how `Astar::FindPath`, which is not among the
sources, ends; "success if a destination node was found; otherwise failure",
the failure being "empty open set before destination found (no path exists)"
or "node budget exceeded". -/
inductive SearchEnd where
  | found (n : Node)
  | no_path
  | budget_exceeded
  deriving DecidableEq, Repr

/-- Modelled from the spec: the estimate the engine, which is not among the
sources, reads for the pool entry `h`; "heuristic estimate total (f = g + h)". -/
def AstarEstimate (nodes : List Node) (h : Nat) : Int :=
  match nodes[h]? with
  | some n => n.m_estimate
  | none => 0

/-- Modelled from the spec: the choice of the open node to expand, which is
not among the sources; "pop the node with minimal f", and "among equal-f nodes
during pop, implementation-defined stable order is acceptable": the node
inserted first. -/
def GetBestOpenNode (nodes : List Node) : List Nat → Option Nat
  | [] => none
  | h :: rest =>
    match GetBestOpenNode nodes rest with
    | none => some h
    | some b => if AstarEstimate nodes b < AstarEstimate nodes h then some b else some h

/-- Modelled from the spec: `Astar::InsertNode`, which is not among the
sources; the closed set is "a lookup keyed by node-key ... of nodes already
expanded, used to suppress revisiting", with "append-only semantics (no
decrease-key)" and "duplicate suppression ... by first-visit only": a node
whose key is the key of a closed node is dropped, any other node goes to the
pool and to the open set. -/
def AstarInsertNode (key : Node → TileIndex × Nat) (s : AstarState) (n : Node) : AstarState :=
  if s.closed_set.any (fun h =>
      match s.nodes[h]? with
      | some m => decide (key m = key n)
      | none => false) then s
  else { s with nodes := s.nodes ++ [n], open_set := s.open_set ++ [s.nodes.length] }

/-- Modelled from the spec: what the engine, which is not among the sources,
does with the calls of one expansion, in their order; a node reported as a
destination is recorded as "the found target" and "this implementation
terminates the whole search immediately", any other child is inserted. -/
def AstarApply (key : Node → TileIndex × Nat) : List AstarCall → AstarState → AstarState ⊕ Node
  | [], s => Sum.inl s
  | AstarCall.CreateNewNode _ :: rest, s => AstarApply key rest s
  | AstarCall.FoundTarget n :: _, _ => Sum.inr n
  | AstarCall.InsertNode n :: rest, s => AstarApply key rest (AstarInsertNode key s n)

/-- Modelled from the spec: the main loop of `Astar::FindPath`, which is not
among the sources; "loop while open set non-empty and steps < budget: pop the
node with minimal f, mark current closed", expand it by `Follow` and take in
its children.  The first argument is the budget less the steps made.  `none`
means that `Follow` has not returned. -/
def AstarLoop (key : Node → TileIndex × Nat) (Follow : Nat → Node → Option (List AstarCall)) :
    Nat → AstarState → Option SearchEnd
  | 0, s => if s.open_set = [] then some SearchEnd.no_path else some SearchEnd.budget_exceeded
  | budget + 1, s =>
    match GetBestOpenNode s.nodes s.open_set with
    | none => some SearchEnd.no_path
    | some h =>
      match s.nodes[h]? with
      | none => none
      | some n =>
        match Follow h n with
        | none => none
        | some calls =>
          match AstarApply key calls
              { s with open_set := s.open_set.erase h, closed_set := h :: s.closed_set } with
          | Sum.inr target => some (SearchEnd.found target)
          | Sum.inl s1 => AstarLoop key Follow budget s1

/-- Modelled from the spec: `Astar::FindPath(Follow, max_nodes)`, which is not
among the sources, run on the initial nodes that `InsertInitialNode` has put
into the open set; "`FindPath(start positions, destination policy, node
budget) -> found: bool`". -/
def AstarFindPath (key : Node → TileIndex × Nat) (Follow : Nat → Node → Option (List AstarCall))
    (max_nodes : Nat) (initial : List Node) : Option SearchEnd :=
  AstarLoop key Follow max_nodes
    { nodes := initial, open_set := List.range initial.length, closed_set := [] }

/-- Method `CYapfRoadT::FindPath` (lines 209-239) of the pathfinder built with
the node key `key` (`CYapfRoad1` and `CYapfRoadAnyDepot1` with
`AstarRoadTrackDir`, `CYapfRoad2` and `CYapfRoadAnyDepot2` with
`AstarRoadExitDir`, lines 377-403) and the destination policy `Yapf`: the
engine runs with `PfFollowNode` as `Follow` and `max_search_nodes` as budget.
Every segment loop gets `MAX_MAP_SIZE + 2` rounds, which it never uses up. -/
def FindPath (w : World) (settings : YAPFSettings) (v : RoadVehicle) (tf : CFollowTrackRoad)
    (Yapf : DestinationPolicy) (key : AstarKey) (initial : List Node) : Option SearchEnd :=
  AstarFindPath (key.GetKey w)
    (fun old old_node => PfFollowNode w settings v tf Yapf (w.MAX_MAP_SIZE + 2) old old_node)
    settings.max_search_nodes initial

/-- Two positions on the same tile whose trackdirs leave it in the same
direction: the positions the exit-direction key does not tell apart. -/
def SameExit (w : World) (p q : PathPos) : Prop :=
  p.tile = q.tile ∧ w.TrackdirToExitdir p.td = w.TrackdirToExitdir q.td

/-- Positions a search from the initial nodes can come to: the positions of
the initial nodes, and every position the follower gives from such a position
with one of the trackdirs the loop of line 123 visits. -/
inductive Visits (w : World) (tf : CFollowTrackRoad) (initial : List Node) : PathPos → Prop where
  | start (n : Node) (h : n ∈ initial) : Visits w tf initial n.m_key
  | follow (q : PathPos) (r : FollowResult) (td : Trackdir) (hq : Visits w tf initial q)
      (hr : tf.Follow q = some r) (htd : td ∈ TrackdirLoop w r.trackdirs r.trackdirs) :
      Visits w tf initial { r.m_new with td := td }

/-- A follower whose answer with a single reachable trackdir has that trackdir
in its position and as the only one the loop of line 123 visits. -/
def SingleTrackdir (w : World) (tf : CFollowTrackRoad) : Prop :=
  ∀ (q : PathPos) (r : FollowResult), tf.Follow q = some r → r.is_single = true →
    TrackdirLoop w r.trackdirs r.trackdirs = [r.m_new.td]

/-- No segment of the search is cut by the tile ceiling: the segment loop of
no child of a position the search can come to is left by the `break` of line
173. -/
def BelowCeiling (w : World) (settings : YAPFSettings) (v : RoadVehicle) (tf : CFollowTrackRoad)
    (detect : PathPos → Bool) (initial : List Node) : Prop :=
  ∀ (q : PathPos) (r : FollowResult) (td : Trackdir) (s : SegState),
    Visits w tf initial q → tf.Follow q = some r → td ∈ TrackdirLoop w r.trackdirs r.trackdirs →
    SegmentLoop w settings v tf detect { r.m_new with td := td } (w.MAX_MAP_SIZE + 2)
      (FirstState w r td) ≠ some (LoopExit.brk s SegmentEnd.ceiling)

/-- Tile and exit direction decide what the search sees of a position: at two
positions the search can come to, on the same tile and with the same exit
direction, the follower answers the same, the destination policy gives the
same verdict and the depot stop of line 142 fires for both or for none. -/
def ExitDirDecides (w : World) (tf : CFollowTrackRoad) (detect : PathPos → Bool)
    (initial : List Node) : Prop :=
  ∀ p q : PathPos, Visits w tf initial p → Visits w tf initial q → SameExit w p q →
    tf.Follow p = tf.Follow q ∧ detect p = detect q ∧ (EntersDepot w p ↔ EntersDepot w q)

/-- Position at which a run of single-choice moves from `p` stops by one of
the position's own conditions (lines 139, 142, 148, 151), within `k` rounds;
the `return` of line 154 and the ceiling of line 173 are left out. -/
def SegmentEndFrom (w : World) (tf : CFollowTrackRoad) (detect : PathPos → Bool) :
    Nat → PathPos → Option PathPos
  | 0, _ => none
  | k + 1, p =>
    if detect p then some p
    else if w.IsRoadDepotTile p.tile = true ∧
        p.td = w.DiagDirToDiagTrackdir
          (w.ReverseDiagDir (w.GetGroundDepotDirection p.tile)) then some p
    else
      match tf.Follow p with
      | none => some p
      | some r => if !r.is_single then some p else SegmentEndFrom w tf detect k r.m_new

/-- Nodes some run of the engine could hold: the initial nodes, and every node
that the expansion of such a node hands to `InsertNode`. -/
inductive Generated (Follow : Nat → Node → Option (List AstarCall)) (initial : List Node) :
    Node → Prop where
  | seed (n : Node) (h : n ∈ initial) : Generated Follow initial n
  | child (old : Nat) (old_node : Node) (calls : List AstarCall) (n : Node)
      (hp : Generated Follow initial old_node) (hc : Follow old old_node = some calls)
      (hn : AstarCall.InsertNode n ∈ calls) : Generated Follow initial n

/-- A pool of generated nodes that a search has worked off: the expansion of
every node in it reports no destination, and every child it hands to
`InsertNode` has the key of a node of the pool. -/
def ClosedPool (key : Node → TileIndex × Nat) (Follow : Nat → Node → Option (List AstarCall))
    (initial : List Node) (pool : List Node) : Prop :=
  ∀ m ∈ pool, Generated Follow initial m ∧
    ∃ (old : Nat) (calls : List AstarCall), Follow old m = some calls ∧
      (∀ t, AstarCall.FoundTarget t ∉ calls) ∧
      ∀ c, AstarCall.InsertNode c ∈ calls → ∃ m' ∈ pool, key m' = key c

/-- Kind, position and segment end of a call to the engine. -/
def AstarCall.shape : AstarCall → Nat × PathPos × PathPos
  | AstarCall.CreateNewNode n => (0, n.m_key, n.m_segment_last)
  | AstarCall.FoundTarget n => (1, n.m_key, n.m_segment_last)
  | AstarCall.InsertNode n => (2, n.m_key, n.m_segment_last)

/-- What holds of the engine state between two rounds of the main loop: the
handles of the open and of the closed set point into the pool, every pool
entry is in one of the two sets, every node of the pool is generated, and the
expansion of every closed node has been taken in: it reported no destination,
and each child it handed to `InsertNode` has the key of a node of the pool. -/
def AstarInv (key : Node → TileIndex × Nat) (Follow : Nat → Node → Option (List AstarCall))
    (initial : List Node) (s : AstarState) : Prop :=
  (∀ h ∈ s.open_set, h < s.nodes.length) ∧
  (∀ h ∈ s.closed_set, h < s.nodes.length) ∧
  (∀ h, h < s.nodes.length → h ∈ s.open_set ∨ h ∈ s.closed_set) ∧
  (∀ n ∈ s.nodes, Generated Follow initial n) ∧
  ∀ h ∈ s.closed_set, ∀ n, s.nodes[h]? = some n →
    ∃ calls, Follow h n = some calls ∧ (∀ t, AstarCall.FoundTarget t ∉ calls) ∧
      ∀ c, AstarCall.InsertNode c ∈ calls → ∃ m ∈ s.nodes, key m = key c

/-- What taking in the calls of one expansion does to the engine state: the
pool grows at its end by children handed to `InsertNode`, the new entries are
open, the closed set stays, and every child handed to `InsertNode` has the key
of a node of the pool afterwards. -/
def AstarTakesIn (key : Node → TileIndex × Nat) (calls : List AstarCall)
    (s s1 : AstarState) : Prop :=
  (∃ suffix, s1.nodes = s.nodes ++ suffix ∧ ∀ m ∈ suffix, AstarCall.InsertNode m ∈ calls) ∧
  s1.closed_set = s.closed_set ∧
  (∀ h, h ∈ s1.open_set ↔ h ∈ s.open_set ∨ (s.nodes.length ≤ h ∧ h < s1.nodes.length)) ∧
  (∀ t, AstarCall.FoundTarget t ∉ calls) ∧
  ∀ c, AstarCall.InsertNode c ∈ calls → ∃ m ∈ s1.nodes, key m = key c

/-- What holds of every generated node: its position and its segment end are
positions the search can come to, and the segment end is the position itself
(an initial node) or the position where the run of single-choice moves from
the node's position stops. -/
def NodeFacts (w : World) (tf : CFollowTrackRoad) (detect : PathPos → Bool)
    (initial : List Node) (n : Node) : Prop :=
  Visits w tf initial n.m_key ∧ Visits w tf initial n.m_segment_last ∧
    (n.m_segment_last = n.m_key ∨
      ∃ k, SegmentEndFrom w tf detect k n.m_key = some n.m_segment_last)

/-- Which `break` has left the segment loop, if one has. -/
def LoopExit.reason : LoopExit → Option SegmentEnd
  | LoopExit.brk _ why => some why
  | LoopExit.ret => none

/-! ## The costs in 32-bit arithmetic

The source keeps every cost and estimate in `int`.  The functions of the
sections above compute them over the integers; the functions of this section
are the same functions with every value converted to a 32-bit `int` where the
source stores or returns it.  The members of the settings and the values of
the world's functions are read as `int`. -/

/-- Value within the range of a 32-bit `int`. -/
def Fits (x : Int) : Prop :=
  -2147483648 ≤ x ∧ x ≤ 2147483647

namespace Machine

/-- Function `SlopeCost` (lines 17-30) in 32-bit arithmetic. -/
def SlopeCost (w : World) (settings : YAPFSettings) (tile next : TileIndex) : Int :=
  let x1 : Int := toInt32 ((w.TileX tile : Int) * (w.TILE_SIZE : Int))
  let y1 : Int := toInt32 ((w.TileY tile : Int) * (w.TILE_SIZE : Int))
  let z1 := w.GetSlopePixelZ (toInt32 (x1 + ((w.TILE_SIZE / 2 : Nat) : Int)))
    (toInt32 (y1 + ((w.TILE_SIZE / 2 : Nat) : Int)))
  let x2 : Int := toInt32 ((w.TileX next : Int) * (w.TILE_SIZE : Int))
  let y2 : Int := toInt32 ((w.TileY next : Int) * (w.TILE_SIZE : Int))
  let z2 := w.GetSlopePixelZ (toInt32 (x2 + ((w.TILE_SIZE / 2 : Nat) : Int)))
    (toInt32 (y2 + ((w.TILE_SIZE / 2 : Nat) : Int)))
  if toInt32 (z2 - z1) > 1 then toInt32 settings.road_slope_penalty else 0

/-- Function `OneTileCost` (lines 33-74) in 32-bit arithmetic: `cost` is an
`int`, and so is every product before it is divided. -/
def OneTileCost (w : World) (settings : YAPFSettings) (pos : PathPos) : Int :=
  if w.IsDiagonalTrackdir pos.td then
    let cost : Int := toInt32 (0 + w.YAPF_TILE_LENGTH)
    match w.GetTileType pos.tile with
    | TileType.TT_MISC =>
      if w.IsLevelCrossingTile pos.tile then toInt32 (cost + settings.road_crossing_penalty)
      else cost
    | TileType.TT_STATION =>
      let rs := w.RoadStop_GetByTile pos.tile (w.GetRoadStopType pos.tile)
      if w.IsDriveThroughStopTile pos.tile then
        let cost := toInt32 (cost + settings.road_stop_penalty)
        let dir := w.TrackdirToExitdir pos.td
        if !w.IsDriveThroughRoadStopContinuation pos.tile
            (TileSub pos.tile (w.TileOffsByDiagDir dir)) then
          let entry := rs.GetEntry dir
          toInt32 (cost
            + (toInt32 (entry.GetOccupied * settings.road_stop_occupied_penalty)).tdiv
                entry.GetLength)
        else cost
      else
        toInt32 (cost + (toInt32 (settings.road_stop_bay_occupied_penalty
          * (boolToInt (!rs.IsFreeBay 0) + boolToInt (!rs.IsFreeBay 1)))).tdiv 2)
    | TileType.TT_OTHER => cost
  else
    toInt32 (w.YAPF_TILE_CORNER_LENGTH + settings.road_curve_penalty)

/-- Segment loop `for (;;) { ... }` (lines 134-174) in 32-bit arithmetic:
`segment_cost` is an `int`, every `+=` on it wraps.  The first argument bounds
the number of rounds; `none` means the bound was reached. -/
def SegmentLoop (w : World) (settings : YAPFSettings) (v : RoadVehicle) (tf : CFollowTrackRoad)
    (PfDetectDestinationTile : PathPos → Bool) (pos : PathPos) : Nat → SegState → Option LoopExit
  | 0, _ => none
  | fuel + 1, s =>
    let segment_cost := toInt32 (s.segment_cost + OneTileCost w settings s.m_new)
    if PfDetectDestinationTile s.m_new then
      some (LoopExit.brk { s with segment_cost := segment_cost } SegmentEnd.destination)
    else if w.IsRoadDepotTile s.m_new.tile = true ∧
        s.m_new.td = w.DiagDirToDiagTrackdir
          (w.ReverseDiagDir (w.GetGroundDepotDirection s.m_new.tile)) then
      some (LoopExit.brk { s with segment_cost := segment_cost } SegmentEnd.depot)
    else
      match tf.Follow s.m_new with
      | none => some (LoopExit.brk { s with segment_cost := segment_cost } SegmentEnd.end_of_road)
      | some r =>
        if !r.is_single then
          some (LoopExit.brk { s with segment_cost := segment_cost } SegmentEnd.junction)
        else if r.m_new = pos then some LoopExit.ret
        else
          let segment_cost :=
            toInt32 (segment_cost + toInt32 ((r.m_tiles_skipped : Int) * w.YAPF_TILE_LENGTH))
          let tiles := s.tiles + (r.m_tiles_skipped + 1)
          let segment_cost :=
            toInt32 (segment_cost + SlopeCost w settings s.m_new.tile r.m_new.tile)
          let min_speed := r.min_speed
          let max_veh_speed := v.GetDisplayMaxSpeed
          let max_speed := r.max_speed
          let segment_cost :=
            if max_speed < max_veh_speed then
              toInt32 (segment_cost + toInt32 (1 * toInt32 (max_veh_speed - max_speed)))
            else segment_cost
          let segment_cost :=
            if min_speed > max_veh_speed then
              toInt32 (segment_cost + toInt32 (10 * toInt32 (min_speed - max_veh_speed)))
            else segment_cost
          let s1 : SegState :=
            { m_new := r.m_new, m_segment_last := r.m_new, segment_cost := segment_cost,
              tiles := tiles
              steps := s.steps ++ [{ m_new := r.m_new, m_tiles_skipped := r.m_tiles_skipped,
                                     min_speed := min_speed, max_speed := max_speed,
                                     in_segment := true }] }
          if tiles > w.MAX_MAP_SIZE then some (LoopExit.brk s1 SegmentEnd.ceiling)
          else SegmentLoop w settings v tf PfDetectDestinationTile pos fuel s1

/-- Body of the loop over the reachable trackdirs for the trackdir `td`
(lines 124-180) in 32-bit arithmetic: `segment_cost` and `m_cost` are `int`. -/
def PfFollowNodeChild (w : World) (settings : YAPFSettings) (v : RoadVehicle)
    (tf : CFollowTrackRoad) (Yapf : DestinationPolicy) (fuel : Nat) (old : Nat)
    (old_node : Node) (r : FollowResult) (td : Trackdir) : Option ChildResult :=
  let is_choice := !r.is_single
  let initial_skipped_tiles := r.m_tiles_skipped
  let pos : PathPos := { r.m_new with td := td }
  let n := CreateNewNode (some old) pos is_choice
  let tiles := initial_skipped_tiles
  let segment_cost : Int := toInt32 ((tiles : Int) * w.YAPF_TILE_LENGTH)
  match SegmentLoop w settings v tf Yapf.PfDetectDestinationTile pos fuel
      { m_new := pos, m_segment_last := pos, segment_cost := segment_cost, tiles := tiles,
        steps := [] } with
  | none => none
  | some LoopExit.ret => some (ChildResult.looped n)
  | some (LoopExit.brk s why) =>
    let n1 : Node :=
      { n with m_segment_last := s.m_segment_last,
               m_cost := toInt32 (old_node.m_cost + s.segment_cost) }
    let res := Yapf.PfCalcEstimate n1
    some (ChildResult.evaluated n why s.steps res.2 res.1)

/-- Loop over the reachable trackdirs (lines 123-191) around the body in
32-bit arithmetic. -/
def PfFollowNodeLoop (w : World) (settings : YAPFSettings) (v : RoadVehicle)
    (tf : CFollowTrackRoad) (Yapf : DestinationPolicy) (fuel : Nat) (old : Nat)
    (old_node : Node) (r : FollowResult) : List Trackdir → Option (List AstarCall)
  | [] => some []
  | td :: rest =>
    match PfFollowNodeChild w settings v tf Yapf fuel old old_node r td with
    | none => none
    | some (ChildResult.looped created) => some [AstarCall.CreateNewNode created]
    | some (ChildResult.evaluated created _ _ n bValid) =>
      match PfFollowNodeLoop w settings v tf Yapf fuel old old_node r rest with
      | none => none
      | some calls =>
        some (AstarCall.CreateNewNode created ::
          ((if !bValid then []
            else if Yapf.PfDetectDestination n then [AstarCall.FoundTarget n]
            else [AstarCall.InsertNode n]) ++ calls))

/-- Method `CYapfRoadT::PfFollowNode` (lines 115-192) in 32-bit arithmetic:
the calls it makes to the engine. -/
def PfFollowNode (w : World) (settings : YAPFSettings) (v : RoadVehicle)
    (tf : CFollowTrackRoad) (Yapf : DestinationPolicy) (fuel : Nat) (old : Nat)
    (old_node : Node) : Option (List AstarCall) :=
  match tf.Follow old_node.m_segment_last with
  | none => some []
  | some r =>
    PfFollowNodeLoop w settings v tf Yapf fuel old old_node r
      (TrackdirLoop w r.trackdirs r.trackdirs)

/-- Method `CYapfDestinationTileRoadT::PfCalcEstimate` (lines 340-363) in
32-bit arithmetic: the coordinates, their differences, `d` and `m_estimate`
are `int`. -/
def PfCalcEstimate (w : World) (self : CYapfDestinationTileRoadT) (n : Node) : Bool × Node :=
  if CYapfDestinationTileRoadT.PfDetectDestination w self n then
    (true, { n with m_estimate := n.m_cost })
  else
    let tile := n.m_segment_last.tile
    let exitdir := w.TrackdirToExitdir n.m_segment_last.td
    let x1 : Int := toInt32 (2 * (w.TileX tile : Int) + dg_dir_to_x_offs exitdir)
    let y1 : Int := toInt32 (2 * (w.TileY tile : Int) + dg_dir_to_y_offs exitdir)
    let x2 : Int := toInt32 (2 * (w.TileX self.m_destTile : Int))
    let y2 : Int := toInt32 (2 * (w.TileY self.m_destTile : Int))
    let dx := toInt32 |toInt32 (x1 - x2)|
    let dy := toInt32 |toInt32 (y1 - y2)|
    let dmin := min dx dy
    let dxy := toInt32 |toInt32 (dx - dy)|
    let d := toInt32 (toInt32 (dmin * w.YAPF_TILE_CORNER_LENGTH)
      + toInt32 (toInt32 (dxy - 1) * (w.YAPF_TILE_LENGTH.tdiv 2)))
    (true, { n with m_estimate := toInt32 (n.m_cost + d) })

/-- Methods of the fixed-destination policy with `PfCalcEstimate` in 32-bit
arithmetic. -/
def TileRoadPolicy (w : World) (self : CYapfDestinationTileRoadT) : DestinationPolicy :=
  { PfDetectDestinationTile := CYapfDestinationTileRoadT.PfDetectDestinationTile w self
    PfCalcEstimate := PfCalcEstimate w self
    PfDetectDestination := CYapfDestinationTileRoadT.PfDetectDestination w self }

/-- Cost the segment loop in 32-bit arithmetic adds for one move (lines 136,
157, 162-169), the move onto the first tile of a child included (lines 128,
136): the terms as the loop computes them, added up over the integers. -/
def StepCost (w : World) (settings : YAPFSettings) (v : RoadVehicle) (m_old : PathPos)
    (st : FollowStep) : Int :=
  toInt32 ((st.m_tiles_skipped : Int) * w.YAPF_TILE_LENGTH)
    + OneTileCost w settings st.m_new
    + (if st.in_segment then
        SlopeCost w settings m_old.tile st.m_new.tile
          + ((if st.max_speed < v.GetDisplayMaxSpeed then
                toInt32 (1 * toInt32 (v.GetDisplayMaxSpeed - st.max_speed)) else 0)
            + (if st.min_speed > v.GetDisplayMaxSpeed then
                toInt32 (10 * toInt32 (st.min_speed - v.GetDisplayMaxSpeed)) else 0))
       else 0)

/-- Cost of a chain of follower moves in 32-bit arithmetic. -/
def PathCost (w : World) (settings : YAPFSettings) (v : RoadVehicle) :
    PathPos → List FollowStep → Int
  | _, [] => 0
  | p, st :: rest => StepCost w settings v p st + PathCost w settings v st.m_new rest

end Machine

/-- The same node with cost and estimate converted to `int`. -/
def Node.wrap (n : Node) : Node :=
  { n with m_cost := toInt32 n.m_cost, m_estimate := toInt32 n.m_estimate }

/-- The same call with the node's cost and estimate converted to `int`. -/
def AstarCall.wrap : AstarCall → AstarCall
  | AstarCall.CreateNewNode n => AstarCall.CreateNewNode n.wrap
  | AstarCall.FoundTarget n => AstarCall.FoundTarget n.wrap
  | AstarCall.InsertNode n => AstarCall.InsertNode n.wrap

/-- The same variables of the segment loop with `segment_cost` converted to
`int`. -/
def SegState.wrap (s : SegState) : SegState :=
  { s with segment_cost := toInt32 s.segment_cost }

/-- The same exit of the segment loop with `segment_cost` converted to `int`. -/
def LoopExit.wrap : LoopExit → LoopExit
  | LoopExit.brk s why => LoopExit.brk s.wrap why
  | LoopExit.ret => LoopExit.ret

/-- No product and no coordinate of the cost functions leaves the range of
`int`: the occupancy of a stop queue times its penalty and the bay penalty
times the number of bays taken (so that the quotient does not depend on
whether the members of the settings, declared outside the source, are `int` or
unsigned), the pixel coordinates of the tile centres, the heights and their
differences, and the half-tile coordinates of `PfCalcEstimate` and their
differences. -/
def WithinIntRange (w : World) (st : YAPFSettings) : Prop :=
  (∀ (tile : TileIndex) (t : StationType) (dir : DiagDirection),
    Fits (((w.RoadStop_GetByTile tile t).GetEntry dir).GetOccupied
      * st.road_stop_occupied_penalty)) ∧
  Fits st.road_stop_bay_occupied_penalty ∧ Fits (st.road_stop_bay_occupied_penalty * 2) ∧
  (∀ t : TileIndex,
    (w.TileX t : Int) * (w.TILE_SIZE : Int) + ((w.TILE_SIZE / 2 : Nat) : Int) ≤ 2147483647 ∧
    (w.TileY t : Int) * (w.TILE_SIZE : Int) + ((w.TILE_SIZE / 2 : Nat) : Int) ≤ 2147483647) ∧
  (∀ x y : Int, -1073741824 ≤ w.GetSlopePixelZ x y ∧ w.GetSlopePixelZ x y ≤ 1073741823) ∧
  (∀ t : TileIndex, 2 * (w.TileX t : Int) + 1 ≤ 1073741823 ∧
    2 * (w.TileY t : Int) + 1 ≤ 1073741823)

/-- The same result of a round of the loop over the trackdirs with the node's
cost and estimate converted to `int`. -/
def ChildResult.wrap : ChildResult → ChildResult
  | ChildResult.looped created => ChildResult.looped created
  | ChildResult.evaluated created why steps n bValid =>
    ChildResult.evaluated created why steps n.wrap bValid

/-- A destination policy in 32-bit arithmetic and the same policy over the
integers: they detect the same destinations, by the segment end alone, and the
estimate of the first is the estimate of the second converted to `int`. -/
def Machine.Agrees (YapfM Yapf : DestinationPolicy) : Prop :=
  YapfM.PfDetectDestinationTile = Yapf.PfDetectDestinationTile ∧
  YapfM.PfDetectDestination = Yapf.PfDetectDestination ∧
  (∀ n : Node, Yapf.PfDetectDestination n.wrap = Yapf.PfDetectDestination n) ∧
  ∀ n : Node, YapfM.PfCalcEstimate { n with m_cost := toInt32 n.m_cost }
    = ((Yapf.PfCalcEstimate n).1, (Yapf.PfCalcEstimate n).2.wrap)

/-! ## A concrete world

A flat 64 x 64 map (`tile = 64 * y + x`) with the constants and direction
tables of the game.  A road runs along `y = 10`; tile `651` is a junction.
Station `7` has two bus bays, on tile `778` (`x = 10, y = 12`) and on tile
`653` (`x = 13, y = 10`); tile `700` is a road depot. -/

/-- Exit direction of each trackdir in the concrete world. -/
def demoExitdir (td : Trackdir) : DiagDirection :=
  match td with
  | 0 => 0 | 1 => 1 | 2 => 0 | 3 => 1 | 4 => 2 | 5 => 1
  | 8 => 2 | 9 => 3 | 10 => 3 | 11 => 2 | 12 => 3 | 13 => 0
  | _ => 0

/-- Road stop with both bays free and an empty queue of length one. -/
def demoRoadStop : RoadStop :=
  { GetEntry := fun _ => { GetOccupied := 0, GetLength := 1 }
    IsFreeBay := fun _ => true }

/-- The concrete world. -/
def demoWorld : World :=
  { YAPF_TILE_LENGTH := 100
    YAPF_TILE_CORNER_LENGTH := 71
    INVALID_TILE := 4294967295
    INVALID_TRACKDIR := 255
    TRACKDIR_END := 16
    INVALID_STATION := 65535
    MAX_MAP_SIZE := 4096
    TILE_SIZE := 16
    TileX := fun t => t % 64
    TileY := fun t => t / 64
    GetSlopePixelZ := fun _ _ => 0
    TileOffsByDiagDir := fun d => 64 * dg_dir_to_y_offs d + dg_dir_to_x_offs d
    IsDiagonalTrackdir := fun td => decide (td % 8 < 2)
    TrackdirToExitdir := demoExitdir
    DiagDirToDiagTrackdir := fun d => match d with | 0 => 0 | 1 => 1 | 2 => 8 | 3 => 9
    ReverseDiagDir := fun d => d + 2
    DiagdirReachesTrackdirs := fun d =>
      match d with | 0 => 4105 | 1 => 22 | 2 => 1312 | 3 => 10752
    GetTileRoadStatus := fun t _ =>
      if t = 651 then 16191 else if 640 ≤ t ∧ t < 704 then 257 else 0
    TrackStatusToTrackdirBits := fun ts => ts % 65536
    GetTileType := fun t =>
      if t = 778 ∨ t = 653 then TileType.TT_STATION else TileType.TT_OTHER
    IsLevelCrossingTile := fun _ => false
    IsStationTile := fun t => decide (t = 778 ∨ t = 653)
    GetStationIndex := fun _ => 7
    IsBusStop := fun t => decide (t = 778 ∨ t = 653)
    IsTruckStop := fun _ => false
    IsDriveThroughStopTile := fun _ => false
    IsRoadDepotTile := fun t => decide (t = 700)
    GetGroundDepotDirection := fun _ => 0
    GetRoadStopType := fun _ => StationType.STATION_BUS
    RoadStop_GetByTile := fun _ _ => demoRoadStop
    IsDriveThroughRoadStopContinuation := fun _ _ => false
    GetClosestTile := fun st _ _ => if st = 7 then 778 else 4294967295 }

/-- Settings with every penalty zero and the default node key. -/
def demoSettings : YAPFSettings :=
  { road_slope_penalty := 0, road_curve_penalty := 0, road_crossing_penalty := 0,
    road_stop_penalty := 0, road_stop_occupied_penalty := 0,
    road_stop_bay_occupied_penalty := 0, max_search_nodes := 10000,
    disable_node_optimization := false }

/-- Bus on tile `650` heading south-west, ordered to station `7`. -/
def demoBus : RoadVehicle :=
  { tile := 650, dest_tile := 778, current_order := { type := OrderType.OT_GOTO_STATION, dest := 7 },
    compatible_roadtypes := 1, GetPos := { tile := 650, td := 8 }, IsBus := true,
    HasArticulatedPart := false, GetDisplayMaxSpeed := 100 }

/-- Lorry on tile `650` heading south-west, with tile `653` as its plain destination. -/
def demoLorry : RoadVehicle :=
  { tile := 650, dest_tile := 653, current_order := { type := OrderType.OT_OTHER, dest := 0 },
    compatible_roadtypes := 1, GetPos := { tile := 650, td := 8 }, IsBus := false,
    HasArticulatedPart := false, GetDisplayMaxSpeed := 100 }

/-- Vehicle whose trackdir (`1`, along the other axis) is not among the road
trackdirs of its tile `650`. -/
def demoStray : RoadVehicle :=
  { demoLorry with GetPos := { tile := 650, td := 1 } }

/-- Destination members before `SetDestination` has run. -/
def demoDest0 : CYapfDestinationTileRoadT :=
  { m_destTile := 0, m_dest_station := 0, m_bus := false, m_non_artic := false }

/-- Node whose segment ends on tile `652` heading south-west, at cost `200`. -/
def demoNode : Node :=
  { m_parent := some 0, m_key := { tile := 651, td := 8 }, m_is_choice := true,
    m_cost := 200, m_estimate := 0, m_segment_last := { tile := 652, td := 8 } }

/-- The single move from tile `652` onto tile `653`. -/
def demoStep : FollowStep :=
  { m_new := { tile := 653, td := 8 }, m_tiles_skipped := 0, min_speed := 0, max_speed := 1000,
    in_segment := false }

/-- Depot search that has found the depot on tile `700` at cost `300`, three
tile lengths from the start. -/
def demoDepotSearch : TpfAnyDepot := fun initial _ =>
  { nodes := initial ++
      [{ m_parent := some 0, m_key := { tile := 651, td := 8 }, m_is_choice := false,
         m_cost := 300, m_estimate := 300, m_segment_last := { tile := 700, td := 1 } }]
    best := some 1
    found := true }

/-- The node `demoDepotSearch` reports as best. -/
def demoDepotNode : Node :=
  { m_parent := some 0, m_key := { tile := 651, td := 8 }, m_is_choice := false,
    m_cost := 300, m_estimate := 300, m_segment_last := { tile := 700, td := 1 } }

/-- Fixed-destination search that has failed (say on its node budget) and is
left with a best-effort node: pool entry `3`, a child of the third initial
node. -/
def demoRoadSearch : TpfRoad :=
  { dest0 := demoDest0
    FindPath := fun initial _ _ =>
      { nodes := initial ++
          [{ m_parent := some 2, m_key := { tile := 587, td := 9 }, m_is_choice := true,
             m_cost := 100, m_estimate := 400, m_segment_last := { tile := 587, td := 9 } }]
        best := some 3
        found := false } }

/-- Fixed-destination search that has failed and is left without any node. -/
def demoEmptySearch : TpfRoad :=
  { dest0 := demoDest0
    FindPath := fun initial _ _ => { nodes := initial, best := none, found := false } }

/-- Track follower that reads the road status of a world: it moves one tile
on in the exit direction of the trackdir, finds there the trackdirs of the road
status that this direction reaches, skips no tile and knows no speed limit. -/
def demoFollower (w : World) (v : RoadVehicle) : CFollowTrackRoad :=
  { Follow := fun p =>
      let exitdir := w.TrackdirToExitdir p.td
      let tile := TileSub p.tile (-(w.TileOffsByDiagDir exitdir))
      let bits := w.TrackStatusToTrackdirBits (w.GetTileRoadStatus tile v.compatible_roadtypes)
        &&& w.DiagdirReachesTrackdirs exitdir
      if bits = 0 then none
      else some
        { m_new := { tile := tile
                     td := if KillFirstBit bits = 0 then FindFirstBit2x64 bits
                           else w.INVALID_TRACKDIR }
          trackdirs := bits
          is_single := decide (KillFirstBit bits = 0)
          m_tiles_skipped := 0
          min_speed := 0
          max_speed := 2147483647 } }

/-- Node at the junction `651`, at cost `100`, before its estimate is set. -/
def demoJunctionNode : Node :=
  { m_parent := some 0, m_key := { tile := 651, td := 8 }, m_is_choice := true,
    m_cost := 100, m_estimate := 0, m_segment_last := { tile := 651, td := 8 } }

/-- World of a staircase road: a 64 x 64 map whose largest allowed side
`MAX_MAP_SIZE` is `64`, with a road of curves only that runs from the tile
`(0,0)` over `(0,1)`, `(1,1)`, `(1,2)`, ... towards `(63,63)`, without any
junction. -/
def stairWorld : World :=
  { demoWorld with
    MAX_MAP_SIZE := 64
    GetTileRoadStatus := fun t _ =>
      if t < 4096 ∧ t % 65 = 0 then 8224 else if t < 4096 ∧ t % 65 = 64 then 4112 else 0
    GetTileType := fun _ => TileType.TT_OTHER
    IsRoadDepotTile := fun _ => false }

/-- Node on the first tile of the staircase road, heading down the stairs. -/
def stairNode : Node :=
  { m_parent := none, m_key := { tile := 0, td := 5 }, m_is_choice := false,
    m_cost := 0, m_estimate := 0, m_segment_last := { tile := 0, td := 5 } }

/-- Settings with every penalty different from zero. -/
def demoPenalties : YAPFSettings :=
  { road_slope_penalty := 200, road_curve_penalty := 30, road_crossing_penalty := 50,
    road_stop_penalty := 8, road_stop_occupied_penalty := 10,
    road_stop_bay_occupied_penalty := 15, max_search_nodes := 10000,
    disable_node_optimization := false }

/-- World of a hilly road with stops: the road of the concrete world along
`y = 10`, where tile `660` is a level crossing, tiles `670` and `671` are a
drive-through stop whose queue starts on `670` and holds three vehicles on a
length of four, tile `680` is a stop with one of its two bays taken, and the
ground rises by `8` between the centres of tiles `690` and `691`. -/
def hillWorld : World :=
  { demoWorld with
    GetSlopePixelZ := fun x _ => if x ≥ 16 * 51 then 8 else 0
    GetTileType := fun t =>
      if t = 660 then TileType.TT_MISC
      else if t = 670 ∨ t = 671 ∨ t = 680 then TileType.TT_STATION
      else TileType.TT_OTHER
    IsLevelCrossingTile := fun t => decide (t = 660)
    IsDriveThroughStopTile := fun t => decide (t = 670 ∨ t = 671)
    IsDriveThroughRoadStopContinuation := fun t behind => decide (t = 671 ∧ behind = 670)
    RoadStop_GetByTile := fun t _ =>
      if t = 680 then
        { GetEntry := fun _ => { GetOccupied := 0, GetLength := 1 }
          IsFreeBay := fun b => decide (b = 0) }
      else
        { GetEntry := fun _ => { GetOccupied := 3, GetLength := 4 }
          IsFreeBay := fun _ => true } }

/-- Follower of the concrete world on whose tiles the speed is limited to
`60` and may not fall below `120`. -/
def demoSlowFollower : CFollowTrackRoad :=
  { Follow := fun p =>
      ((demoFollower demoWorld demoLorry).Follow p).map fun r =>
        { r with min_speed := 120, max_speed := 60 } }

/-- Variables of the segment loop for a child that starts on tile `652` and
has not moved yet. -/
def demoSegState : SegState :=
  { m_new := { tile := 652, td := 8 }, m_segment_last := { tile := 652, td := 8 },
    segment_cost := 0, tiles := 0, steps := [] }

/-- Node of the hilly road whose segment ends on tile `659`, one tile before
the level crossing, at cost `400`; it is entry `3` of the pool. -/
def hillNode : Node :=
  { m_parent := some 0, m_key := { tile := 655, td := 8 }, m_is_choice := false,
    m_cost := 400, m_estimate := 400, m_segment_last := { tile := 659, td := 8 } }

/-- Child of `hillNode`: its segment runs from tile `660` to the depot on tile
`700`, over the level crossing, the two kinds of stop and the rise. -/
def hillChild : Node :=
  { m_parent := some 3, m_key := { tile := 660, td := 8 }, m_is_choice := false,
    m_cost := 4780, m_estimate := 4780, m_segment_last := { tile := 700, td := 8 } }

/-- What the follower answers at `stairNode`: the single trackdir `4` on
tile `64`, the tile `(0,1)`. -/
def stairFirst : FollowResult :=
  { m_new := { tile := 64, td := 4 }, trackdirs := 16, is_single := true,
    m_tiles_skipped := 0, min_speed := 0, max_speed := 2147483647 }

/-- The first `65` moves down the staircase from tile `64`: move `i` reaches
tile `65 * (i / 2 + 1)` on trackdir `5` for even `i` and tile
`65 * ((i + 1) / 2) + 64` on trackdir `4` for odd `i`; the last one reaches
tile `2145`, the tile `(33,33)`. -/
def stairSteps : List FollowStep :=
  (List.range 65).map fun i =>
    { m_new := if i % 2 = 0 then { tile := 65 * (i / 2 + 1), td := 5 }
               else { tile := 65 * ((i + 1) / 2) + 64, td := 4 }
      m_tiles_skipped := 0, min_speed := 0, max_speed := 2147483647, in_segment := true }

/-- Child of `stairNode` as `PfFollowNode` leaves it: its segment starts on
tile `64` and ends on tile `2145`, where the tile ceiling stops it. -/
def stairChild : Node :=
  { m_parent := some 0, m_key := { tile := 64, td := 4 }, m_is_choice := false,
    m_cost := 4615, m_estimate := 4615, m_segment_last := { tile := 2145, td := 5 } }

/-- The staircase road with a level crossing on its tile `2145`, which holds a
straight piece of road there instead of a curve. -/
def stairCrossingWorld : World :=
  { stairWorld with
    GetTileRoadStatus := fun t r => if t = 2145 then 257 else stairWorld.GetTileRoadStatus t r
    GetTileType := fun t => if t = 2145 then TileType.TT_MISC else TileType.TT_OTHER
    IsLevelCrossingTile := fun t => decide (t = 2145) }

/-- The moves of `stairSteps` with the last one arriving on the straight
trackdir `8` of tile `2145`. -/
def stairCrossingSteps : List FollowStep :=
  stairSteps.dropLast ++
    [{ m_new := { tile := 2145, td := 8 }, m_tiles_skipped := 0, min_speed := 0,
       max_speed := 2147483647, in_segment := true }]

/-- Child of `stairNode` on the staircase road with the level crossing, under
the settings `demoPenalties`. -/
def stairCrossingChild : Node :=
  { m_parent := some 0, m_key := { tile := 64, td := 4 }, m_is_choice := false,
    m_cost := 6565, m_estimate := 6565, m_segment_last := { tile := 2145, td := 8 } }

/-- Track follower of the road of the concrete world between the tiles `650`
and `653`: from tile `650` it reaches the junction `651` with the trackdirs
`5` and `8`, from there straight on tile `652` and then tile `653`. -/
def lineFollower : CFollowTrackRoad :=
  { Follow := fun p =>
      if p = { tile := 650, td := 8 } then
        some { m_new := { tile := 651, td := 255 }, trackdirs := 288, is_single := false,
               m_tiles_skipped := 0, min_speed := 0, max_speed := 2147483647 }
      else if p = { tile := 651, td := 8 } then
        some { m_new := { tile := 652, td := 8 }, trackdirs := 256, is_single := true,
               m_tiles_skipped := 0, min_speed := 0, max_speed := 2147483647 }
      else if p = { tile := 652, td := 8 } then
        some { m_new := { tile := 653, td := 8 }, trackdirs := 256, is_single := true,
               m_tiles_skipped := 0, min_speed := 0, max_speed := 2147483647 }
      else none }

/-- The junction node as the fixed-destination policy estimates it for the
bus: cost `100`, distance term `213` to the stored station tile `778`. -/
def busParent : Node :=
  { demoJunctionNode with m_estimate := 313 }

/-- Child of `busParent`: its segment ends on tile `653`, the other bay of the
station. -/
def busChild : Node :=
  { m_parent := some 1, m_key := { tile := 652, td := 8 }, m_is_choice := false,
    m_cost := 300, m_estimate := 300, m_segment_last := { tile := 653, td := 8 } }

/-- Node whose segment ends on tile `650`, as the fixed-destination policy
estimates it for the lorry: cost `50`, distance term `200` to tile `653`. -/
def lorryParent : Node :=
  { m_parent := some 0, m_key := { tile := 649, td := 8 }, m_is_choice := false,
    m_cost := 50, m_estimate := 250, m_segment_last := { tile := 650, td := 8 } }

/-- Child of `lorryParent` that turns off at the junction and ends there. -/
def lorryTurnChild : Node :=
  { m_parent := some 2, m_key := { tile := 651, td := 5 }, m_is_choice := true,
    m_cost := 121, m_estimate := 292, m_segment_last := { tile := 651, td := 5 } }

/-- Child of `lorryParent` that goes straight on to the destination tile `653`. -/
def lorryChild : Node :=
  { m_parent := some 2, m_key := { tile := 651, td := 8 }, m_is_choice := true,
    m_cost := 350, m_estimate := 350, m_segment_last := { tile := 653, td := 8 } }

/-- Destination members for the far corner `(63,63)` of the staircase world,
a plain tile. -/
def stairDest : CYapfDestinationTileRoadT :=
  { m_destTile := 4095, m_dest_station := 65535, m_bus := false, m_non_artic := true }

/-- The node `stairNode` as the fixed-destination policy estimates it for
`stairDest`. -/
def stairParent : Node :=
  { stairNode with m_estimate := 8875 }

/-- Child of `stairParent` under the fixed-destination policy. -/
def stairDestChild : Node :=
  { stairChild with m_estimate := 8804 }

/-- What `lineFollower` answers at tile `650`: the junction `651` with the
trackdirs `5` and `8`. -/
def lineJunction : FollowResult :=
  { m_new := { tile := 651, td := 255 }, trackdirs := 288, is_single := false,
    m_tiles_skipped := 0, min_speed := 0, max_speed := 2147483647 }

/-- The two moves of `lineFollower` from the junction `651` straight on, to
tile `652` and to tile `653`. -/
def lineSteps : List FollowStep :=
  [{ m_new := { tile := 652, td := 8 }, m_tiles_skipped := 0, min_speed := 0,
     max_speed := 2147483647, in_segment := true },
   { m_new := { tile := 653, td := 8 }, m_tiles_skipped := 0, min_speed := 0,
     max_speed := 2147483647, in_segment := true }]

/-- Methods of the fixed-destination policy for the lorry of the concrete
world, whose destination is the tile `653`. -/
def lorryPolicy : DestinationPolicy :=
  TileRoadPolicy demoWorld (CYapfDestinationTileRoadT.SetDestination demoWorld demoDest0 demoLorry)

/-- Node of the concrete world whose segment ends on tile `698`, two tiles
before the depot; it is entry `4` of the pool. -/
def depotApproach : Node :=
  { m_parent := some 0, m_key := { tile := 690, td := 8 }, m_is_choice := false,
    m_cost := 900, m_estimate := 900, m_segment_last := { tile := 698, td := 8 } }

/-- What the follower of the concrete world answers at tile `698`. -/
def depotApproachFirst : FollowResult :=
  { m_new := { tile := 699, td := 8 }, trackdirs := 256, is_single := true,
    m_tiles_skipped := 0, min_speed := 0, max_speed := 2147483647 }

/-- The move from tile `699` into the depot on tile `700`. -/
def depotStep : FollowStep :=
  { m_new := { tile := 700, td := 8 }, m_tiles_skipped := 0, min_speed := 0,
    max_speed := 2147483647, in_segment := true }

/-- World with a ring road and nothing else: the four tiles `(1,1)`, `(2,1)`,
`(2,2)`, `(1,2)` (tiles `65`, `66`, `130`, `129`) each hold one curve, and the
curves close to a circle without any junction. -/
def ringWorld : World :=
  { demoWorld with
    GetTileRoadStatus := fun t _ =>
      if t = 65 then 2056 else if t = 66 then 8224 else if t = 130 then 1028
      else if t = 129 then 4112 else 0
    GetTileType := fun _ => TileType.TT_OTHER
    IsRoadDepotTile := fun _ => false }

/-- Node on the ring road whose segment ends on tile `65`. -/
def ringNode : Node :=
  { m_parent := none, m_key := { tile := 65, td := 11 }, m_is_choice := false,
    m_cost := 0, m_estimate := 0, m_segment_last := { tile := 65, td := 11 } }

/-- What the follower answers at `ringNode`: the single trackdir `5` on tile
`66`. -/
def ringFirst : FollowResult :=
  { m_new := { tile := 66, td := 5 }, trackdirs := 32, is_single := true,
    m_tiles_skipped := 0, min_speed := 0, max_speed := 2147483647 }

/-- The three moves round the ring from tile `66` back to tile `65`. -/
def ringSteps : List FollowStep :=
  [{ m_new := { tile := 130, td := 2 }, m_tiles_skipped := 0, min_speed := 0,
     max_speed := 2147483647, in_segment := true },
   { m_new := { tile := 129, td := 12 }, m_tiles_skipped := 0, min_speed := 0,
     max_speed := 2147483647, in_segment := true },
   { m_new := { tile := 65, td := 11 }, m_tiles_skipped := 0, min_speed := 0,
     max_speed := 2147483647, in_segment := true }]

/-- Track follower of an endless road without junction: from every position
it reaches the next tile on the same straight trackdir. -/
def endlessFollower : CFollowTrackRoad :=
  { Follow := fun p =>
      some { m_new := { tile := p.tile + 1, td := 8 }, trackdirs := 256, is_single := true,
             m_tiles_skipped := 0, min_speed := 0, max_speed := 2147483647 } }

/-- Track follower at a junction with a loop behind it: from tile `650` it
reaches the junction `651` with the trackdirs `5`, `8` and `10`; the trackdir
`5` is a dead end, and from the trackdir `8` the road runs over tile `652`
back to the junction on the trackdir `8`, the pieces of road on the way taking
traffic in this direction only. -/
def lassoFollower : CFollowTrackRoad :=
  { Follow := fun p =>
      if p = { tile := 650, td := 8 } then
        some { m_new := { tile := 651, td := 255 }, trackdirs := 1312, is_single := false,
               m_tiles_skipped := 0, min_speed := 0, max_speed := 2147483647 }
      else if p = { tile := 651, td := 8 } then
        some { m_new := { tile := 652, td := 8 }, trackdirs := 256, is_single := true,
               m_tiles_skipped := 0, min_speed := 0, max_speed := 2147483647 }
      else if p = { tile := 652, td := 8 } then
        some { m_new := { tile := 651, td := 8 }, trackdirs := 256, is_single := true,
               m_tiles_skipped := 0, min_speed := 0, max_speed := 2147483647 }
      else none }

/-- What `lassoFollower` answers at tile `650`. -/
def lassoJunction : FollowResult :=
  { m_new := { tile := 651, td := 255 }, trackdirs := 1312, is_single := false,
    m_tiles_skipped := 0, min_speed := 0, max_speed := 2147483647 }

/-- Follower of the hilly road on whose tiles the speed is limited to `60` and
may not fall below `120`. -/
def hillSlowFollower : CFollowTrackRoad :=
  { Follow := fun p =>
      ((demoFollower hillWorld demoLorry).Follow p).map fun r =>
        { r with min_speed := 120, max_speed := 60 } }

/-- Node of the hilly road whose segment ends on tile `690`, at the foot of
the rise; it is entry `5` of the pool. -/
def hillFoot : Node :=
  { m_parent := some 3, m_key := { tile := 681, td := 8 }, m_is_choice := false,
    m_cost := 3000, m_estimate := 3000, m_segment_last := { tile := 690, td := 8 } }

/-- What `hillSlowFollower` answers at tile `690`. -/
def hillFootFirst : FollowResult :=
  { m_new := { tile := 691, td := 8 }, trackdirs := 256, is_single := true,
    m_tiles_skipped := 0, min_speed := 120, max_speed := 60 }

/-- Destination members for the plain tile `691`, the first tile above the
rise. -/
def hillDest : CYapfDestinationTileRoadT :=
  { m_destTile := 691, m_dest_station := 65535, m_bus := false, m_non_artic := true }

/-- The child `stairChild` before its estimate is set: parent entry `0`, cost
`4615`, segment end on tile `2145`. -/
def stairUnestimated : Node :=
  { stairChild with m_estimate := 0 }

/-- World of a block of roads with a depot: the concrete world with a road
along `y = 10` from tile `648` to the depot on tile `661`, junctions of three
arms on the tiles `650`, `652` (north-east, south-west, north-west) and `660`,
and a second way from `650` to `652` over the tiles `586`, `587` and `588` of
the row `y = 9`. -/
def blockWorld : World :=
  { demoWorld with
    GetTileRoadStatus := fun t _ =>
      if t = 650 ∨ t = 652 ∨ t = 660 then 5397
      else if t = 586 then 2056
      else if t = 588 then 8224
      else if t = 587 ∨ (648 ≤ t ∧ t ≤ 661) then 257
      else 0
    IsRoadDepotTile := fun t => decide (t = 661) }

/-- Initial node of a depot search of the lorry on tile `649`, heading
south-west. -/
def blockStart : List Node :=
  [CreateNewNode none { tile := 649, td := 8 } false]

/-- Settings of the concrete world with the node budget `budget`. -/
def blockSettings (budget : Nat) : YAPFSettings :=
  { demoSettings with max_search_nodes := budget }

/-- The node both searches of `blockWorld` report when they find the depot:
the child of pool entry `3` that runs from the junction `660` into the depot on
tile `661`, twelve tiles from the start. -/
def blockDepotNode : Node :=
  { m_parent := some 3, m_key := { tile := 660, td := 8 }, m_is_choice := true,
    m_cost := 1200, m_estimate := 1200, m_segment_last := { tile := 661, td := 8 } }

/-- Positions a search of `blockWorld` from `blockStart` can come to. -/
def blockPositions : List PathPos :=
  [{ tile := 649, td := 8 }, { tile := 650, td := 8 }, { tile := 650, td := 10 },
   { tile := 651, td := 8 }, { tile := 586, td := 11 }, { tile := 652, td := 8 },
   { tile := 652, td := 10 }, { tile := 587, td := 8 }, { tile := 653, td := 8 },
   { tile := 588, td := 13 }, { tile := 588, td := 5 }, { tile := 654, td := 8 },
   { tile := 587, td := 0 }, { tile := 652, td := 2 }, { tile := 652, td := 4 },
   { tile := 655, td := 8 }, { tile := 586, td := 3 }, { tile := 651, td := 0 },
   { tile := 656, td := 8 }, { tile := 650, td := 2 }, { tile := 650, td := 4 },
   { tile := 650, td := 0 }, { tile := 650, td := 12 }, { tile := 657, td := 8 },
   { tile := 649, td := 0 }, { tile := 658, td := 8 }, { tile := 648, td := 0 },
   { tile := 659, td := 8 }, { tile := 660, td := 8 }, { tile := 660, td := 10 },
   { tile := 661, td := 8 }]


/-- The same world on a map of 64 x 64 tiles: the coordinates of every tile
index are taken on that map. -/
def onMap64 (w : World) : World :=
  { w with TileX := fun t => w.TileX t % 64, TileY := fun t => w.TileY t % 64 }

/-- Settings of the concrete world with a curve penalty of `2147483600`. -/
def curveSettings : YAPFSettings :=
  { demoSettings with road_curve_penalty := 2147483600 }

/-- The node `lorryParent` as the nearest-depot policy estimates it. -/
def depotParent : Node :=
  { lorryParent with m_estimate := 50 }

/-- Child of `lorryParent` that turns off at the junction, as the expansion in
32-bit arithmetic leaves it under `curveSettings` and the fixed-destination
policy. -/
def curveTurnChild : Node :=
  { lorryTurnChild with m_cost := -2147483575, m_estimate := -2147483404 }

/-- Child of `depotParent` that turns off at the junction, as the expansion in
32-bit arithmetic leaves it under `curveSettings` and the nearest-depot
policy. -/
def curveDepotChild : Node :=
  { lorryTurnChild with m_cost := -2147483575, m_estimate := -2147483575 }


/-- Node whose segment ends on tile `589` (`x = 13, y = 9`), heading for tile
`653` below it, at cost `200`. -/
def cornerNode : Node :=
  { demoNode with m_segment_last := { tile := 589, td := 1 } }

/-- The single move from tile `589` onto tile `653`, into a curve. -/
def cornerStep : FollowStep :=
  { m_new := { tile := 653, td := 4 }, m_tiles_skipped := 0, min_speed := 0, max_speed := 1000,
    in_segment := false }

/-- Node whose segment ends on tile `640` (`x = 0, y = 10`) heading south-west,
at cost `200`. -/
def farNode : Node :=
  { demoNode with m_segment_last := { tile := 640, td := 8 } }

/-- The staircase road with a road depot on its tile `2145`, which holds a
straight piece of road there instead of a curve; the trackdir `8` drives into
the depot. -/
def stairDepotWorld : World :=
  { stairCrossingWorld with
    GetTileType := fun _ => TileType.TT_OTHER
    IsLevelCrossingTile := fun _ => false
    IsRoadDepotTile := fun t => decide (t = 2145) }

/-- Child of `stairNode` on the staircase road with the depot: its segment
ends on the depot tile `2145`, where the tile ceiling stops it. -/
def stairDepotChild : Node :=
  { stairChild with m_segment_last := { tile := 2145, td := 8 } }

/-- The concrete world with a tile ceiling of `0`: the first move of every
segment exceeds it. -/
def lowCeilingWorld : World :=
  { demoWorld with MAX_MAP_SIZE := 0 }

/-- Child of `depotApproach` in the world `lowCeilingWorld`, for the lorry:
its segment ends on the depot tile `700`, where the tile ceiling stops it. -/
def lowCeilingChild : Node :=
  { m_parent := some 4, m_key := { tile := 699, td := 8 }, m_is_choice := false,
    m_cost := 1000, m_estimate := 5700, m_segment_last := { tile := 700, td := 8 } }

/-! ## Properties -/

/-! ### Machine arithmetic -/

theorem toInt32_of_fits (x : Int) (hlo : -2147483648 ≤ x) (hhi : x ≤ 2147483647) :
    toInt32 x = x := by
  unfold toInt32
  omega

/-! ### Bit sets and the node pool -/

theorem FindFirstBitAux_spec : ∀ (fuel x : Nat), x ≠ 0 → x < 2 ^ fuel →
    x.testBit (FindFirstBitAux fuel x) = true ∧
      ∀ j, j < FindFirstBitAux fuel x → x.testBit j = false := by
  intro fuel
  induction fuel with
  | zero =>
    intro x hx hlt
    simp at hlt
    exact absurd hlt hx
  | succ fuel ih =>
    intro x hx hlt
    by_cases hodd : x % 2 = 1
    · simp [FindFirstBitAux, hodd, Nat.testBit_zero]
    · have hhalf : x / 2 ≠ 0 := by omega
      have hlt2 : x / 2 < 2 ^ fuel := by
        rw [pow_succ] at hlt
        omega
      obtain ⟨h1, h2⟩ := ih (x / 2) hhalf hlt2
      have hdef : FindFirstBitAux (fuel + 1) x = FindFirstBitAux fuel (x / 2) + 1 := by
        simp [FindFirstBitAux, hodd, hx]
      rw [hdef]
      refine ⟨by rw [Nat.testBit_succ]; exact h1, ?_⟩
      intro j hj
      cases j with
      | zero => simp [Nat.testBit_zero, hodd]
      | succ j =>
        rw [Nat.testBit_succ]
        exact h2 j (by omega)

theorem FindFirstBit2x64_spec (x : Nat) (hx : x ≠ 0) :
    x.testBit (FindFirstBit2x64 x) = true ∧ ∀ j, j < FindFirstBit2x64 x → x.testBit j = false :=
  FindFirstBitAux_spec x x hx (Nat.lt_two_pow x)

theorem lt_of_testBit_of_lt_two_pow (x i k : Nat) (hbit : x.testBit i = true) (hlt : x < 2 ^ k) :
    i < k := by
  by_contra hge
  have hle : k ≤ i := Nat.le_of_not_lt hge
  have : x < 2 ^ i := lt_of_lt_of_le hlt (Nat.pow_le_pow_right (by decide) hle)
  rw [Nat.testBit_lt_two_pow this] at hbit
  cases hbit

theorem testBit_of_mem_TrackdirLoop (w : World) : ∀ (fuel : Nat) (tdb : TrackdirBits) (td : Trackdir),
    td ∈ TrackdirLoop w fuel tdb → tdb.testBit td = true := by
  intro fuel
  induction fuel with
  | zero => intro tdb td h; simp [TrackdirLoop] at h
  | succ fuel ih =>
    intro tdb td h
    by_cases h0 : tdb = 0
    · simp [TrackdirLoop, h0] at h
    · simp only [TrackdirLoop, h0, if_false, List.mem_cons] at h
      rcases h with h | h
      · rw [h]
        simp only [FindFirstTrackdir, h0, if_false]
        exact (FindFirstBit2x64_spec tdb h0).1
      · have := ih _ _ h
        simp only [KillFirstBit, Nat.testBit_and, Bool.and_eq_true] at this
        exact this.1

theorem walkToOrigin_of_EndsInSeed (nodes : List Node) (seeds : List PathPos) (i : Nat)
    (h : EndsInSeed nodes seeds i) :
    ∃ k origin, origin.m_parent = none ∧ origin.GetPos ∈ seeds ∧
      ∀ n, nodes[i]? = some n → ∀ fuel, k ≤ fuel → walkToOrigin nodes fuel n = some origin := by
  induction h with
  | origin i n hn hp hs =>
    refine ⟨0, n, hp, hs, ?_⟩
    intro m hm fuel _
    rw [hn] at hm
    cases hm
    unfold walkToOrigin
    simp [hp]
  | link i p n hn hp _ ih =>
    obtain ⟨k, origin, ho, hs, hwalk⟩ := ih
    refine ⟨k + 1, origin, ho, hs, ?_⟩
    intro m hm fuel hfuel
    rw [hn] at hm
    cases hm
    obtain ⟨f, rfl⟩ : ∃ f, fuel = f + 1 := ⟨fuel - 1, by omega⟩
    cases hq : nodes[p]? with
    | none =>
      exfalso
      cases ‹EndsInSeed nodes seeds p› with
      | origin _ n2 hn2 _ _ => rw [hq] at hn2; cases hn2
      | link _ _ n2 hn2 _ _ => rw [hq] at hn2; cases hn2
    | some m2 =>
      unfold walkToOrigin
      simp only [hp, hq]
      exact hwalk m2 hq f (by omega)


/-! ### Nearest depot -/

/-- C1: with `0 <= max_distance` and `max_distance * YAPF_TILE_LENGTH` fitting
an `int`, and an engine whose successful search leaves a best node `n`,
`FindNearestDepot` returns `INVALID_TILE` when the search fails, `INVALID_TILE`
when `max_distance > 0` and `n.m_cost > max_distance * YAPF_TILE_LENGTH`, and
the tile of `n.m_segment_last` otherwise; so `max_distance = 0` sets no limit
and a cost equal to the budget is accepted. -/
theorem FindNearestDepot_result (w : World) (pf : TpfAnyDepot) (v : RoadVehicle) (pos : PathPos)
    (max_distance : Int) (n : Node)
    (h0 : 0 ≤ max_distance)
    (hlo : -2147483648 ≤ max_distance * w.YAPF_TILE_LENGTH)
    (hhi : max_distance * w.YAPF_TILE_LENGTH ≤ 2147483647)
    (hbest : (pf [CreateNewNode none pos false] v).found = true →
      (pf [CreateNewNode none pos false] v).GetBestNode = some n) :
    FindNearestDepot w pf v pos max_distance
        = some (if (pf [CreateNewNode none pos false] v).found = false then w.INVALID_TILE
                else if 0 < max_distance ∧ max_distance * w.YAPF_TILE_LENGTH < n.m_cost
                  then w.INVALID_TILE
                else n.m_segment_last.tile) ∧
      ((pf [CreateNewNode none pos false] v).found = true → max_distance = 0 →
        FindNearestDepot w pf v pos max_distance = some n.m_segment_last.tile) ∧
      ((pf [CreateNewNode none pos false] v).found = true →
        n.m_cost = max_distance * w.YAPF_TILE_LENGTH →
        FindNearestDepot w pf v pos max_distance = some n.m_segment_last.tile) := by
  have hwrap := toInt32_of_fits _ hlo hhi
  by_cases hf : (pf [CreateNewNode none pos false] v).found = true
  · have hb := hbest hf
    refine ⟨?_, ?_, ?_⟩
    · simp only [FindNearestDepot, hf, hb, hwrap]
      by_cases hc : 0 < max_distance ∧ max_distance * w.YAPF_TILE_LENGTH < n.m_cost
      · simp [hc]
      · simp [hc]
    · intro _ hz
      subst hz
      simp [FindNearestDepot, hf, hb]
    · intro _ hc
      simp [FindNearestDepot, hf, hb, hwrap, hc]
  · have hf2 : (pf [CreateNewNode none pos false] v).found = false := by
      simpa using hf
    refine ⟨?_, fun h => absurd h hf, fun h => absurd h hf⟩
    simp [FindNearestDepot, hf2]

/-- Witness for C1 in the concrete world: the depot at cost `300` is returned
with a budget of exactly three tile lengths and with no budget, and is refused
with a budget of two tile lengths. -/
theorem FindNearestDepot_result_witness :
    FindNearestDepot demoWorld demoDepotSearch demoLorry { tile := 650, td := 8 } 3
        = some (if (demoDepotSearch [CreateNewNode none { tile := 650, td := 8 } false]
                    demoLorry).found = false then demoWorld.INVALID_TILE
                else if (0 : Int) < 3 ∧ 3 * demoWorld.YAPF_TILE_LENGTH < demoDepotNode.m_cost
                  then demoWorld.INVALID_TILE
                else demoDepotNode.m_segment_last.tile) ∧
      FindNearestDepot demoWorld demoDepotSearch demoLorry { tile := 650, td := 8 } 3
        = some 700 ∧
      FindNearestDepot demoWorld demoDepotSearch demoLorry { tile := 650, td := 8 } 0
        = some 700 ∧
      FindNearestDepot demoWorld demoDepotSearch demoLorry { tile := 650, td := 8 } 2
        = some demoWorld.INVALID_TILE :=
  ⟨(FindNearestDepot_result demoWorld demoDepotSearch demoLorry { tile := 650, td := 8 } 3
      demoDepotNode (by decide) (by decide) (by decide) (by intro _; rfl)).1,
   by decide, by decide, by decide⟩

/-- C2 (the code departs from the claim): when the trackdir of the vehicle is
not among the road trackdirs of its tile, `YapfRoadVehicleFindNearestDepot`
returns the value of `return false;`, tile `0`, which is `INVALID_TILE` in no
world where `INVALID_TILE` is not `0`. -/
theorem YapfRoadVehicleFindNearestDepot_precheck (w : World) (settings : YAPFSettings)
    (pf1 pf2 : TpfAnyDepot) (v : RoadVehicle) (max_distance : Nat)
    (hcheck : w.TrackStatusToTrackdirBits
        (w.GetTileRoadStatus v.GetPos.tile v.compatible_roadtypes)
      &&& TrackdirToTrackdirBits v.GetPos.td = 0) :
    YapfRoadVehicleFindNearestDepot w settings pf1 pf2 v max_distance = some 0 ∧
      (w.INVALID_TILE ≠ 0 →
        YapfRoadVehicleFindNearestDepot w settings pf1 pf2 v max_distance
          ≠ some w.INVALID_TILE) := by
  have h : YapfRoadVehicleFindNearestDepot w settings pf1 pf2 v max_distance = some 0 := by
    simp [YapfRoadVehicleFindNearestDepot, hcheck]
  refine ⟨h, fun hne heq => ?_⟩
  rw [h] at heq
  exact hne (Option.some.inj heq).symm

/-- Failing input for C2 in the concrete world: a vehicle on tile `650` with a
trackdir of the other axis gets tile `0`, not `INVALID_TILE = 4294967295`. -/
theorem YapfRoadVehicleFindNearestDepot_precheck_witness :
    YapfRoadVehicleFindNearestDepot demoWorld demoSettings demoDepotSearch demoDepotSearch
        demoStray 0 = some 0 ∧
      YapfRoadVehicleFindNearestDepot demoWorld demoSettings demoDepotSearch demoDepotSearch
        demoStray 0 ≠ some demoWorld.INVALID_TILE :=
  ⟨(YapfRoadVehicleFindNearestDepot_precheck demoWorld demoSettings demoDepotSearch
      demoDepotSearch demoStray 0 (by decide)).1,
   (YapfRoadVehicleFindNearestDepot_precheck demoWorld demoSettings demoDepotSearch
      demoDepotSearch demoStray 0 (by decide)).2 (by decide)⟩

/-! ### Choosing the next trackdir -/

theorem seed_of_mem_InitialNodes (w : World) (v : RoadVehicle) (tile : TileIndex)
    (enterdir : DiagDirection) (pos : PathPos)
    (h : pos ∈ (InitialNodes w v tile enterdir).map Node.GetPos) :
    pos.tile = tile ∧ (SeedTrackdirs w v tile enterdir).testBit pos.td = true := by
  simp only [InitialNodes, List.map_map, List.mem_map, Function.comp] at h
  obtain ⟨td, htd, rfl⟩ := h
  exact ⟨rfl, testBit_of_mem_TrackdirLoop w _ _ td htd⟩

theorem node_of_EndsInSeed (nodes : List Node) (seeds : List PathPos) (i : Nat)
    (h : EndsInSeed nodes seeds i) : ∃ n, nodes[i]? = some n := by
  cases h with
  | origin _ n hn _ _ => exact ⟨n, hn⟩
  | link _ _ n hn _ _ => exact ⟨n, hn⟩

/-- C6: when the engine has a best node whose parent chain is finite and ends
in a seed, the walk back along `m_parent` terminates (every fuel from some
bound on gives the same origin node, which has no parent), `ChooseRoadTrack`
returns the trackdir of that origin, the tile of the origin is the start tile
(the final assertion holds) and its trackdir is one of the trackdirs seeded
from the road status of the tile and `DiagdirReachesTrackdirs(enterdir)`. -/
theorem ChooseRoadTrack_first_step (w : World) (pf : TpfRoad) (v : RoadVehicle)
    (tile : TileIndex) (enterdir : DiagDirection) (i : Nat)
    (hbest : (ChooseRoadTrackSearch w pf v tile enterdir).best = some i)
    (hchain : EndsInSeed (ChooseRoadTrackSearch w pf v tile enterdir).nodes
      ((InitialNodes w v tile enterdir).map Node.GetPos) i) :
    ∃ (k : Nat) (best origin : Node),
      (ChooseRoadTrackSearch w pf v tile enterdir).GetBestNode = some best ∧
      origin.m_parent = none ∧
      origin.GetPos.tile = tile ∧
      (SeedTrackdirs w v tile enterdir).testBit origin.GetPos.td = true ∧
      ∀ fuel, k ≤ fuel →
        walkToOrigin (ChooseRoadTrackSearch w pf v tile enterdir).nodes fuel best = some origin ∧
        ChooseRoadTrack w pf fuel v tile enterdir
          = some (origin.GetPos.td, (ChooseRoadTrackSearch w pf v tile enterdir).found) := by
  obtain ⟨n, hn⟩ := node_of_EndsInSeed _ _ _ hchain
  obtain ⟨k, origin, hpar, hseed, hwalk⟩ := walkToOrigin_of_EndsInSeed _ _ _ hchain
  obtain ⟨htile, hbit⟩ := seed_of_mem_InitialNodes w v tile enterdir _ hseed
  refine ⟨k, n, origin, ?_, hpar, htile, hbit, ?_⟩
  · simp [Astar.GetBestNode, hbest, hn]
  · intro fuel hfuel
    have hw := hwalk n hn fuel hfuel
    refine ⟨hw, ?_⟩
    simp only [ChooseRoadTrack, hbest, hn, hw]

theorem demoRoadSearch_chain :
    EndsInSeed (ChooseRoadTrackSearch demoWorld demoRoadSearch demoLorry 651 2).nodes
      ((InitialNodes demoWorld demoLorry 651 2).map Node.GetPos) 3 :=
  EndsInSeed.link 3 2
    { m_parent := some 2, m_key := { tile := 587, td := 9 }, m_is_choice := true,
      m_cost := 100, m_estimate := 400, m_segment_last := { tile := 587, td := 9 } }
    (by decide) rfl
    (EndsInSeed.origin 2 (CreateNewNode none { tile := 651, td := 10 } true)
      (by decide) rfl (by decide))

/-- Witness for C6 in the concrete world: the best-effort node `3` hangs off
the third initial node, and trackdir `10` of that node is returned. -/
theorem ChooseRoadTrack_first_step_witness :
    (∃ (k : Nat) (best origin : Node),
      (ChooseRoadTrackSearch demoWorld demoRoadSearch demoLorry 651 2).GetBestNode = some best ∧
      origin.m_parent = none ∧
      origin.GetPos.tile = 651 ∧
      (SeedTrackdirs demoWorld demoLorry 651 2).testBit origin.GetPos.td = true ∧
      ∀ fuel, k ≤ fuel →
        walkToOrigin (ChooseRoadTrackSearch demoWorld demoRoadSearch demoLorry 651 2).nodes
            fuel best = some origin ∧
        ChooseRoadTrack demoWorld demoRoadSearch fuel demoLorry 651 2
          = some (origin.GetPos.td,
              (ChooseRoadTrackSearch demoWorld demoRoadSearch demoLorry 651 2).found)) ∧
      ChooseRoadTrack demoWorld demoRoadSearch 1 demoLorry 651 2 = some (10, false) :=
  ⟨ChooseRoadTrack_first_step demoWorld demoRoadSearch demoLorry 651 2 3 rfl
      demoRoadSearch_chain,
   by decide⟩

theorem ChooseRoadTrack_select (w : World) (c : Bool) (pf1 pf2 : TpfRoad) :
    (if c = true then ChooseRoadTrack w pf1 else ChooseRoadTrack w pf2)
      = ChooseRoadTrack w (if c = true then pf1 else pf2) := by
  cases c <;> rfl

/-- C4: when `tile` is the vehicle's `dest_tile` and the order is not a
go-to-station order, `YapfRoadVehicleChooseTrack` returns
`DiagDirToDiagTrackdir(enterdir)` and leaves `path_found` as passed, whatever
the pathfinders are (no search is set up or run); in every other case the
result is that of `ChooseRoadTrack` for the selected pathfinder, with the
fallback applied, and `path_found` is what its `FindPath` returned. -/
theorem YapfRoadVehicleChooseTrack_shortcut (w : World) (settings : YAPFSettings)
    (pf1 pf2 : TpfRoad) (fuel : Nat) (v : RoadVehicle) (tile : TileIndex)
    (enterdir : DiagDirection) (trackdirs : TrackdirBits) (path_found : Bool) :
    (tile = v.dest_tile → v.current_order.IsType OrderType.OT_GOTO_STATION = false →
      YapfRoadVehicleChooseTrack w settings pf1 pf2 fuel v tile enterdir trackdirs path_found
        = some (w.DiagDirToDiagTrackdir enterdir, path_found)) ∧
    (¬ (tile = v.dest_tile ∧ v.current_order.IsType OrderType.OT_GOTO_STATION = false) →
      YapfRoadVehicleChooseTrack w settings pf1 pf2 fuel v tile enterdir trackdirs path_found
        = (ChooseRoadTrack w (if settings.disable_node_optimization = true then pf1 else pf2)
            fuel v tile enterdir).map
          (fun r => (if r.1 ≠ w.INVALID_TRACKDIR then r.1 else FindFirstBit2x64 trackdirs, r.2)) ∧
      ∀ td found,
        YapfRoadVehicleChooseTrack w settings pf1 pf2 fuel v tile enterdir trackdirs path_found
          = some (td, found) →
        found = (ChooseRoadTrackSearch w
          (if settings.disable_node_optimization = true then pf1 else pf2) v tile enterdir).found) := by
  constructor
  · intro ht ho
    simp [YapfRoadVehicleChooseTrack, ht, ho]
  · intro hno
    have hcond : ¬ (tile = v.dest_tile ∧
        ¬ (v.current_order.IsType OrderType.OT_GOTO_STATION = true)) := by
      intro h
      exact hno ⟨h.1, by simpa using h.2⟩
    have hrun : YapfRoadVehicleChooseTrack w settings pf1 pf2 fuel v tile enterdir trackdirs
        path_found
        = (ChooseRoadTrack w (if settings.disable_node_optimization = true then pf1 else pf2)
            fuel v tile enterdir).map
          (fun r => (if r.1 ≠ w.INVALID_TRACKDIR then r.1 else FindFirstBit2x64 trackdirs, r.2)) := by
      simp only [YapfRoadVehicleChooseTrack, if_neg hcond, ChooseRoadTrack_select]
      cases ChooseRoadTrack w (if settings.disable_node_optimization = true then pf1 else pf2)
        fuel v tile enterdir with
      | none => rfl
      | some r => rfl
    refine ⟨hrun, ?_⟩
    intro td found hres
    rw [hrun] at hres
    simp only [ChooseRoadTrack] at hres
    split at hres
    · simp only [Option.map_some', Option.some.injEq, Prod.mk.injEq] at hres
      exact hres.2.symm
    · split at hres
      · simp at hres
      · split at hres
        · simp at hres
        · simp only [Option.map_some', Option.some.injEq, Prod.mk.injEq] at hres
          exact hres.2.symm

/-- Witness for C4 in the concrete world: asked on its destination tile `653`
the lorry gets the diagonal trackdir `8` and `path_found` stays `true`, though
the pathfinder given would fail; asked on the junction `651` the search runs. -/
theorem YapfRoadVehicleChooseTrack_shortcut_witness :
    YapfRoadVehicleChooseTrack demoWorld demoSettings demoRoadSearch demoRoadSearch 1 demoLorry
        653 2 257 true = some (8, true) ∧
      YapfRoadVehicleChooseTrack demoWorld demoSettings demoRoadSearch demoRoadSearch 1 demoLorry
        651 2 1312 true = some (10, false) :=
  ⟨(YapfRoadVehicleChooseTrack_shortcut demoWorld demoSettings demoRoadSearch demoRoadSearch 1
      demoLorry 653 2 257 true).1 rfl rfl,
   ((YapfRoadVehicleChooseTrack_shortcut demoWorld demoSettings demoRoadSearch demoRoadSearch 1
      demoLorry 651 2 1312 true).2 (by decide)).1.trans (by decide)⟩

/-- C3: with a non-empty set `trackdirs` of trackdirs below `TRACKDIR_END`, the
invalid trackdir not below `TRACKDIR_END`, direction tables that yield
trackdirs below `TRACKDIR_END`, and an engine whose best node (if any) hangs
off an initial node, `YapfRoadVehicleChooseTrack` returns, for every fuel from
some bound on, a trackdir below `TRACKDIR_END` that is not `INVALID_TRACKDIR`;
and when the search was run and left no best node, that trackdir is the lowest
set bit of `trackdirs`. -/
theorem YapfRoadVehicleChooseTrack_never_fails (w : World) (settings : YAPFSettings)
    (pf1 pf2 : TpfRoad) (v : RoadVehicle) (tile : TileIndex) (enterdir : DiagDirection)
    (trackdirs : TrackdirBits) (path_found : Bool)
    (hne : trackdirs ≠ 0)
    (hbits : trackdirs < 2 ^ w.TRACKDIR_END)
    (hinv : w.TRACKDIR_END ≤ w.INVALID_TRACKDIR)
    (hdiag : w.DiagDirToDiagTrackdir enterdir < w.TRACKDIR_END)
    (hreach : w.DiagdirReachesTrackdirs enterdir < 2 ^ w.TRACKDIR_END)
    (hpool : ∀ i,
      (ChooseRoadTrackSearch w (if settings.disable_node_optimization = true then pf1 else pf2)
        v tile enterdir).best = some i →
      EndsInSeed
        (ChooseRoadTrackSearch w (if settings.disable_node_optimization = true then pf1 else pf2)
          v tile enterdir).nodes
        ((InitialNodes w v tile enterdir).map Node.GetPos) i) :
    ∃ k, ∀ fuel, k ≤ fuel → ∃ td found,
      YapfRoadVehicleChooseTrack w settings pf1 pf2 fuel v tile enterdir trackdirs path_found
        = some (td, found) ∧
      td < w.TRACKDIR_END ∧ td ≠ w.INVALID_TRACKDIR ∧
      (¬ (tile = v.dest_tile ∧ v.current_order.IsType OrderType.OT_GOTO_STATION = false) →
        (ChooseRoadTrackSearch w (if settings.disable_node_optimization = true then pf1 else pf2)
          v tile enterdir).best = none →
        trackdirs.testBit td = true ∧ ∀ j, j < td → trackdirs.testBit j = false) := by
  have hfb := FindFirstBit2x64_spec trackdirs hne
  have hfblt : FindFirstBit2x64 trackdirs < w.TRACKDIR_END :=
    lt_of_testBit_of_lt_two_pow _ _ _ hfb.1 hbits
  by_cases hshort : tile = v.dest_tile ∧
      ¬ (v.current_order.IsType OrderType.OT_GOTO_STATION = true)
  · refine ⟨0, fun fuel _ => ⟨w.DiagDirToDiagTrackdir enterdir, path_found, ?_, hdiag, ?_, ?_⟩⟩
    · simp only [YapfRoadVehicleChooseTrack, if_pos hshort]
    · exact Nat.ne_of_lt (lt_of_lt_of_le hdiag hinv)
    · intro hno
      exact absurd ⟨hshort.1, by simpa using hshort.2⟩ hno
  · cases hb : (ChooseRoadTrackSearch w
        (if settings.disable_node_optimization = true then pf1 else pf2) v tile enterdir).best with
    | none =>
      refine ⟨0, fun fuel _ => ⟨FindFirstBit2x64 trackdirs, (ChooseRoadTrackSearch w
        (if settings.disable_node_optimization = true then pf1 else pf2) v tile enterdir).found,
        ?_, hfblt,
        Nat.ne_of_lt (lt_of_lt_of_le hfblt hinv),
        fun _ _ => hfb⟩⟩
      simp only [YapfRoadVehicleChooseTrack, if_neg hshort, ChooseRoadTrack_select,
        ChooseRoadTrack, hb]
      simp
    | some i =>
      have hchain := hpool i hb
      obtain ⟨n, hn⟩ := node_of_EndsInSeed _ _ _ hchain
      obtain ⟨k, origin, _, hseed, hwalk⟩ := walkToOrigin_of_EndsInSeed _ _ _ hchain
      obtain ⟨_, hbit⟩ := seed_of_mem_InitialNodes w v tile enterdir _ hseed
      have hlt : origin.GetPos.td < w.TRACKDIR_END :=
        lt_of_testBit_of_lt_two_pow _ _ _ hbit
          (lt_of_le_of_lt Nat.and_le_right hreach)
      have hneq : origin.GetPos.td ≠ w.INVALID_TRACKDIR :=
        Nat.ne_of_lt (lt_of_lt_of_le hlt hinv)
      refine ⟨k, fun fuel hfuel => ⟨origin.GetPos.td, (ChooseRoadTrackSearch w
        (if settings.disable_node_optimization = true then pf1 else pf2) v tile enterdir).found,
        ?_, hlt, hneq, ?_⟩⟩
      · simp only [YapfRoadVehicleChooseTrack, if_neg hshort, ChooseRoadTrack_select,
          ChooseRoadTrack, hb, hn, hwalk n hn fuel hfuel]
        simp [hneq]
      · intro _ hnone
        cases hnone

/-- Witness for C3 in the concrete world, at the junction `651` with the
failed search that keeps a best-effort node. -/
theorem YapfRoadVehicleChooseTrack_never_fails_witness :
    (∃ k, ∀ fuel, k ≤ fuel → ∃ td found,
      YapfRoadVehicleChooseTrack demoWorld demoSettings demoRoadSearch demoRoadSearch fuel
        demoLorry 651 2 1312 true = some (td, found) ∧
      td < demoWorld.TRACKDIR_END ∧ td ≠ demoWorld.INVALID_TRACKDIR ∧
      (¬ ((651 : TileIndex) = demoLorry.dest_tile ∧
          demoLorry.current_order.IsType OrderType.OT_GOTO_STATION = false) →
        (ChooseRoadTrackSearch demoWorld
          (if demoSettings.disable_node_optimization = true then demoRoadSearch
           else demoRoadSearch) demoLorry 651 2).best = none →
        Nat.testBit 1312 td = true ∧ ∀ j, j < td → Nat.testBit 1312 j = false)) ∧
      YapfRoadVehicleChooseTrack demoWorld demoSettings demoRoadSearch demoRoadSearch 1
        demoLorry 651 2 1312 true = some (10, false) :=
  ⟨YapfRoadVehicleChooseTrack_never_fails demoWorld demoSettings demoRoadSearch demoRoadSearch
    demoLorry 651 2 1312 true (by decide) (by decide) (by decide) (by decide) (by decide)
    (by
      intro i hi
      have h3 : i = 3 := by
        have : some 3 = some i := hi
        exact (Option.some.inj this).symm
      subst h3
      exact demoRoadSearch_chain),
   by decide⟩

/-- C5 as stated fails: in the concrete world the search at the junction `651`
fails (`path_found` is `false`) but keeps a best-effort node, and the trackdir
returned is `10`, the first step towards that node: not the fallback
`FindFirstBit2x64(trackdirs) = 5` for the caller's set `{5, 8, 10}`, and not
even a member of the caller's set when that is `{5, 8}`. -/
theorem YapfRoadVehicleChooseTrack_fallback_counterexample :
    (ChooseRoadTrackSearch demoWorld demoRoadSearch demoLorry 651 2).found = false ∧
      YapfRoadVehicleChooseTrack demoWorld demoSettings demoRoadSearch demoRoadSearch 1
        demoLorry 651 2 1312 true = some (10, false) ∧
      FindFirstBit2x64 1312 = 5 ∧
      YapfRoadVehicleChooseTrack demoWorld demoSettings demoRoadSearch demoRoadSearch 1
        demoLorry 651 2 288 true = some (10, false) ∧
      Nat.testBit 288 10 = false := by
  decide

/-- C5 as amended: when the shortcut does not apply and `FindPath` fails,
`path_found` is false on return and, for every fuel from some bound on, the
trackdir returned is the fallback `FindFirstBit2x64(trackdirs)` if the search
has left no best node, a bit of the caller's set when that set is not empty;
and if a best-effort node is left (its parent chain ending in an initial
node), it is the trackdir of the origin of that node, one of the trackdirs the
search was seeded with. -/
theorem YapfRoadVehicleChooseTrack_fallback (w : World) (settings : YAPFSettings)
    (pf1 pf2 : TpfRoad) (v : RoadVehicle) (tile : TileIndex)
    (enterdir : DiagDirection) (trackdirs : TrackdirBits) (path_found : Bool)
    (hno : ¬ (tile = v.dest_tile ∧ v.current_order.IsType OrderType.OT_GOTO_STATION = false))
    (hfail : (ChooseRoadTrackSearch w
      (if settings.disable_node_optimization = true then pf1 else pf2) v tile enterdir).found
        = false)
    (hinv : w.TRACKDIR_END ≤ w.INVALID_TRACKDIR)
    (hreach : w.DiagdirReachesTrackdirs enterdir < 2 ^ w.TRACKDIR_END)
    (hpool : ∀ i,
      (ChooseRoadTrackSearch w (if settings.disable_node_optimization = true then pf1 else pf2)
        v tile enterdir).best = some i →
      EndsInSeed
        (ChooseRoadTrackSearch w (if settings.disable_node_optimization = true then pf1 else pf2)
          v tile enterdir).nodes
        ((InitialNodes w v tile enterdir).map Node.GetPos) i) :
    ∃ k, ∀ fuel, k ≤ fuel → ∃ td,
      YapfRoadVehicleChooseTrack w settings pf1 pf2 fuel v tile enterdir trackdirs path_found
        = some (td, false) ∧
      ((ChooseRoadTrackSearch w (if settings.disable_node_optimization = true then pf1 else pf2)
          v tile enterdir).best = none →
        td = FindFirstBit2x64 trackdirs ∧ (trackdirs ≠ 0 → trackdirs.testBit td = true)) ∧
      (∀ best,
        (ChooseRoadTrackSearch w (if settings.disable_node_optimization = true then pf1 else pf2)
          v tile enterdir).GetBestNode = some best →
        ∃ origin,
          walkToOrigin
            (ChooseRoadTrackSearch w
              (if settings.disable_node_optimization = true then pf1 else pf2)
              v tile enterdir).nodes fuel best = some origin ∧
          td = origin.GetPos.td ∧
          (SeedTrackdirs w v tile enterdir).testBit td = true) := by
  have hcond : ¬ (tile = v.dest_tile ∧
      ¬ (v.current_order.IsType OrderType.OT_GOTO_STATION = true)) := by
    intro h
    exact hno ⟨h.1, by simpa using h.2⟩
  cases hb : (ChooseRoadTrackSearch w
      (if settings.disable_node_optimization = true then pf1 else pf2) v tile enterdir).best with
  | none =>
    refine ⟨0, fun fuel _ => ⟨FindFirstBit2x64 trackdirs, ?_,
      ⟨fun _ => ⟨rfl, fun hne => (FindFirstBit2x64_spec trackdirs hne).1⟩, ?_⟩⟩⟩
    · simp only [YapfRoadVehicleChooseTrack, if_neg hcond, ChooseRoadTrack_select,
        ChooseRoadTrack, hb, hfail]
      simp
    · intro best hbest
      simp [Astar.GetBestNode, hb] at hbest
  | some i =>
    have hchain := hpool i hb
    obtain ⟨n, hn⟩ := node_of_EndsInSeed _ _ _ hchain
    obtain ⟨k, origin, _, hseed, hwalk⟩ := walkToOrigin_of_EndsInSeed _ _ _ hchain
    obtain ⟨_, hbit⟩ := seed_of_mem_InitialNodes w v tile enterdir _ hseed
    have hlt : origin.GetPos.td < w.TRACKDIR_END :=
      lt_of_testBit_of_lt_two_pow _ _ _ hbit (lt_of_le_of_lt Nat.and_le_right hreach)
    have hneq : origin.GetPos.td ≠ w.INVALID_TRACKDIR :=
      Nat.ne_of_lt (lt_of_lt_of_le hlt hinv)
    refine ⟨k, fun fuel hfuel => ⟨origin.GetPos.td, ?_, (fun hnone => by cases hnone), ?_⟩⟩
    · simp only [YapfRoadVehicleChooseTrack, if_neg hcond, ChooseRoadTrack_select,
        ChooseRoadTrack, hb, hn, hwalk n hn fuel hfuel, hfail]
      simp [hneq]
    · intro best hbest
      have hbn : best = n := by
        have h2 : some n = some best := by
          simpa [Astar.GetBestNode, hb, hn] using hbest
        exact (Option.some.inj h2).symm
      subst hbn
      exact ⟨origin, hwalk best hn fuel hfuel, rfl, hbit⟩

/-- Witness for C5 as amended: at the junction `651` the failed search that is
left without any node makes the entry point fall back to trackdir `5`, a
member of the caller's set `{5, 8, 10}`. -/
theorem YapfRoadVehicleChooseTrack_fallback_witness :
    (∃ k, ∀ fuel, k ≤ fuel → ∃ td,
      YapfRoadVehicleChooseTrack demoWorld demoSettings demoEmptySearch demoEmptySearch fuel
        demoLorry 651 2 1312 true = some (td, false) ∧
      ((ChooseRoadTrackSearch demoWorld
          (if demoSettings.disable_node_optimization = true then demoEmptySearch
           else demoEmptySearch) demoLorry 651 2).best = none →
        td = FindFirstBit2x64 1312 ∧ ((1312 : Nat) ≠ 0 → Nat.testBit 1312 td = true)) ∧
      (∀ best,
        (ChooseRoadTrackSearch demoWorld
          (if demoSettings.disable_node_optimization = true then demoEmptySearch
           else demoEmptySearch) demoLorry 651 2).GetBestNode = some best →
        ∃ origin,
          walkToOrigin
            (ChooseRoadTrackSearch demoWorld
              (if demoSettings.disable_node_optimization = true then demoEmptySearch
               else demoEmptySearch) demoLorry 651 2).nodes fuel best = some origin ∧
          td = origin.GetPos.td ∧
          (SeedTrackdirs demoWorld demoLorry 651 2).testBit td = true)) ∧
      YapfRoadVehicleChooseTrack demoWorld demoSettings demoEmptySearch demoEmptySearch 0
        demoLorry 651 2 1312 true = some (5, false) ∧
      Nat.testBit 1312 5 = true :=
  ⟨YapfRoadVehicleChooseTrack_fallback demoWorld demoSettings demoEmptySearch demoEmptySearch
      demoLorry 651 2 1312 true (by decide) rfl (by decide) (by decide)
      (by intro i hi; cases hi),
   by decide, by decide⟩

/-! ### Destination policies -/

/-- C7: after `SetDestination`, for a go-to-station order on an existing
station (one that is not `INVALID_STATION`) a position is a destination iff its
tile is a station tile of the ordered station, is a bus stop for a bus and a
truck stop otherwise, and is a drive-through stop whenever the vehicle has an
articulated part, the stored closest tile playing no part; for any other order
a position is a destination iff its tile is the vehicle's `dest_tile`; and
`PfDetectDestination(n)` is that test applied to `n.m_segment_last`. -/
theorem PfDetectDestinationTile_spec (w : World) (self : CYapfDestinationTileRoadT)
    (v : RoadVehicle) (pos : PathPos) (n : Node) :
    (v.current_order.IsType OrderType.OT_GOTO_STATION = true →
      v.current_order.GetDestination ≠ w.INVALID_STATION →
      (CYapfDestinationTileRoadT.PfDetectDestinationTile w
          (CYapfDestinationTileRoadT.SetDestination w self v) pos = true ↔
        w.IsStationTile pos.tile = true ∧
          w.GetStationIndex pos.tile = v.current_order.GetDestination ∧
          (if v.IsBus = true then w.IsBusStop pos.tile = true
            else w.IsTruckStop pos.tile = true) ∧
          (v.HasArticulatedPart = true → w.IsDriveThroughStopTile pos.tile = true))) ∧
    (v.current_order.IsType OrderType.OT_GOTO_STATION = false →
      (CYapfDestinationTileRoadT.PfDetectDestinationTile w
          (CYapfDestinationTileRoadT.SetDestination w self v) pos = true ↔
        pos.tile = v.dest_tile)) ∧
    CYapfDestinationTileRoadT.PfDetectDestination w
        (CYapfDestinationTileRoadT.SetDestination w self v) n
      = CYapfDestinationTileRoadT.PfDetectDestinationTile w
        (CYapfDestinationTileRoadT.SetDestination w self v) n.m_segment_last := by
  refine ⟨?_, ?_, rfl⟩
  · intro hst hvalid
    simp only [CYapfDestinationTileRoadT.PfDetectDestinationTile,
      CYapfDestinationTileRoadT.SetDestination, hst, if_true, ne_eq, hvalid, not_false_eq_true]
    cases v.IsBus <;> cases v.HasArticulatedPart <;> simp [and_assoc]
  · intro hst
    simp [CYapfDestinationTileRoadT.PfDetectDestinationTile,
      CYapfDestinationTileRoadT.SetDestination, hst]

/-- Witness for C7 in the concrete world: for the bus ordered to station `7`
the bay on tile `653` is a destination although the stored closest tile is
`778`; for the lorry only its `dest_tile` is. -/
theorem PfDetectDestinationTile_spec_witness :
    (CYapfDestinationTileRoadT.PfDetectDestinationTile demoWorld
        (CYapfDestinationTileRoadT.SetDestination demoWorld demoDest0 demoBus)
        { tile := 653, td := 8 } = true ↔
      demoWorld.IsStationTile 653 = true ∧
        demoWorld.GetStationIndex 653 = demoBus.current_order.GetDestination ∧
        (if demoBus.IsBus = true then demoWorld.IsBusStop 653 = true
          else demoWorld.IsTruckStop 653 = true) ∧
        (demoBus.HasArticulatedPart = true → demoWorld.IsDriveThroughStopTile 653 = true)) ∧
    (CYapfDestinationTileRoadT.PfDetectDestinationTile demoWorld
        (CYapfDestinationTileRoadT.SetDestination demoWorld demoDest0 demoLorry)
        { tile := 653, td := 8 } = true ↔
      (653 : TileIndex) = demoLorry.dest_tile) :=
  ⟨(PfDetectDestinationTile_spec demoWorld demoDest0 demoBus { tile := 653, td := 8 }
      demoNode).1 rfl (by decide),
   (PfDetectDestinationTile_spec demoWorld demoDest0 demoLorry { tile := 653, td := 8 }
      demoNode).2.1 rfl⟩

/-- C9: `PfCalcEstimate` of the fixed-destination policy always returns true;
on a node that ends on a destination it sets `m_estimate = m_cost`, otherwise
`m_estimate = m_cost + d` with
`d = min(dx,dy) * YAPF_TILE_CORNER_LENGTH + (|dx - dy| - 1) * (YAPF_TILE_LENGTH / 2)`,
`dx = |2*TileX(tile) + xoffs(exitdir) - 2*TileX(m_destTile)|`,
`dy = |2*TileY(tile) + yoffs(exitdir) - 2*TileY(m_destTile)|`, tile and exit
direction being those of `n.m_segment_last` and the offsets `(-1,0)`, `(0,1)`,
`(1,0)`, `(0,-1)` for exit directions `0..3`; no other field changes. -/
theorem PfCalcEstimate_value (w : World) (self : CYapfDestinationTileRoadT) (n : Node) :
    (CYapfDestinationTileRoadT.PfCalcEstimate w self n).1 = true ∧
    (CYapfDestinationTileRoadT.PfDetectDestination w self n = true →
      (CYapfDestinationTileRoadT.PfCalcEstimate w self n).2
        = { n with m_estimate := n.m_cost }) ∧
    (CYapfDestinationTileRoadT.PfDetectDestination w self n = false →
      ∀ dx dy : Int,
        dx = |2 * (w.TileX n.m_segment_last.tile : Int)
              + dg_dir_to_x_offs (w.TrackdirToExitdir n.m_segment_last.td)
              - 2 * (w.TileX self.m_destTile : Int)| →
        dy = |2 * (w.TileY n.m_segment_last.tile : Int)
              + dg_dir_to_y_offs (w.TrackdirToExitdir n.m_segment_last.td)
              - 2 * (w.TileY self.m_destTile : Int)| →
        (CYapfDestinationTileRoadT.PfCalcEstimate w self n).2
          = { n with m_estimate := n.m_cost
                + (min dx dy * w.YAPF_TILE_CORNER_LENGTH
                  + (|dx - dy| - 1) * (w.YAPF_TILE_LENGTH.tdiv 2)) }) ∧
    (dg_dir_to_x_offs 0, dg_dir_to_y_offs 0) = (-1, 0) ∧
    (dg_dir_to_x_offs 1, dg_dir_to_y_offs 1) = (0, 1) ∧
    (dg_dir_to_x_offs 2, dg_dir_to_y_offs 2) = (1, 0) ∧
    (dg_dir_to_x_offs 3, dg_dir_to_y_offs 3) = (0, -1) := by
  refine ⟨?_, ?_, ?_, rfl, rfl, rfl, rfl⟩
  · unfold CYapfDestinationTileRoadT.PfCalcEstimate
    split <;> rfl
  · intro h
    simp [CYapfDestinationTileRoadT.PfCalcEstimate, h]
  · intro h dx dy hdx hdy
    subst hdx hdy
    simp [CYapfDestinationTileRoadT.PfCalcEstimate, h]

/-- Witness for C9 in the concrete world: the node ending on tile `652` gets
estimate `200 + 284` when the stored destination tile is `778`, and a node
ending on the lorry's destination gets its cost. -/
theorem PfCalcEstimate_value_witness :
    (CYapfDestinationTileRoadT.PfCalcEstimate demoWorld
        (CYapfDestinationTileRoadT.SetDestination demoWorld demoDest0 demoBus) demoNode).2
      = { demoNode with m_estimate := 484 } ∧
    (CYapfDestinationTileRoadT.PfCalcEstimate demoWorld
        (CYapfDestinationTileRoadT.SetDestination demoWorld demoDest0 demoLorry)
        { demoNode with m_segment_last := { tile := 653, td := 8 } }).2
      = { demoNode with m_segment_last := { tile := 653, td := 8 }, m_estimate := 200 } :=
  ⟨((PfCalcEstimate_value demoWorld
      (CYapfDestinationTileRoadT.SetDestination demoWorld demoDest0 demoBus) demoNode).2.2.1
        (by decide) 5 4 (by decide) (by decide)).trans (by decide),
   ((PfCalcEstimate_value demoWorld
      (CYapfDestinationTileRoadT.SetDestination demoWorld demoDest0 demoLorry)
      { demoNode with m_segment_last := { tile := 653, td := 8 } }).2.1 (by decide)).trans
        (by decide)⟩

/-- C10: `PfCalcEstimate` of the nearest-depot policy returns true, sets
`m_estimate = m_cost` and changes no other field; `PfDetectDestination(n)`
holds iff the tile of `n.m_segment_last` is a road depot tile. -/
theorem AnyDepot_zero_heuristic (w : World) (n : Node) :
    (CYapfDestinationAnyDepotRoadT.PfCalcEstimate n).1 = true ∧
    (CYapfDestinationAnyDepotRoadT.PfCalcEstimate n).2.m_estimate = n.m_cost ∧
    (CYapfDestinationAnyDepotRoadT.PfCalcEstimate n).2.m_cost = n.m_cost ∧
    (CYapfDestinationAnyDepotRoadT.PfCalcEstimate n).2.m_parent = n.m_parent ∧
    (CYapfDestinationAnyDepotRoadT.PfCalcEstimate n).2.m_key = n.m_key ∧
    (CYapfDestinationAnyDepotRoadT.PfCalcEstimate n).2.m_is_choice = n.m_is_choice ∧
    (CYapfDestinationAnyDepotRoadT.PfCalcEstimate n).2.m_segment_last = n.m_segment_last ∧
    (CYapfDestinationAnyDepotRoadT.PfDetectDestination w n = true ↔
      w.IsRoadDepotTile n.m_segment_last.tile = true) :=
  ⟨rfl, rfl, rfl, rfl, rfl, rfl, rfl, Iff.rfl⟩

end YapfRoad
namespace YapfRoad

/-! ### Admissibility of the fixed-destination estimate -/

theorem octile_aux (c h a b : Int) (hc2 : c ≤ 2 * h) :
    min a b * c + abs (a - b) * h = max (h * a + (c - h) * b) (h * b + (c - h) * a) := by
  rcases le_total a b with hab | hab
  · have hle : h * a + (c - h) * b ≤ h * b + (c - h) * a := by nlinarith
    rw [min_eq_left hab, abs_of_nonpos (by linarith), max_eq_right hle]
    ring
  · have hle : h * b + (c - h) * a ≤ h * a + (c - h) * b := by nlinarith
    rw [min_eq_right hab, abs_of_nonneg (by linarith), max_eq_left hle]
    ring

theorem Octile_eq_max (c h x y : Int) (hc2 : c ≤ 2 * h) :
    Octile c h x y = max (h * |x| + (c - h) * |y|) (h * |y| + (c - h) * |x|) :=
  octile_aux c h |x| |y| hc2

theorem Octile_nonneg (c h x y : Int) (hh : 0 ≤ h) (hc1 : h ≤ c) : 0 ≤ Octile c h x y := by
  unfold Octile
  have h1 : 0 ≤ min |x| |y| := le_min (abs_nonneg x) (abs_nonneg y)
  have h2 : 0 ≤ abs (|x| - |y|) := abs_nonneg _
  have hc : 0 ≤ c := le_trans hh hc1
  positivity

theorem Octile_neg (c h x y : Int) : Octile c h (-x) (-y) = Octile c h x y := by
  simp [Octile]

theorem Octile_add_le (c h x y u v : Int) (hh : 0 ≤ h) (hc1 : h ≤ c) (hc2 : c ≤ 2 * h) :
    Octile c h (x + u) (y + v) ≤ Octile c h x y + Octile c h u v := by
  rw [Octile_eq_max c h (x + u) (y + v) hc2, Octile_eq_max c h x y hc2,
    Octile_eq_max c h u v hc2]
  have hb : 0 ≤ c - h := by linarith
  have hx := abs_add x u
  have hy := abs_add y v
  have e1 : h * |x + u| ≤ h * |x| + h * |u| := by nlinarith
  have e2 : (c - h) * |y + v| ≤ (c - h) * |y| + (c - h) * |v| := by nlinarith
  have e3 : h * |y + v| ≤ h * |y| + h * |v| := by nlinarith
  have e4 : (c - h) * |x + u| ≤ (c - h) * |x| + (c - h) * |u| := by nlinarith
  have m1 := le_max_left (h * |x| + (c - h) * |y|) (h * |y| + (c - h) * |x|)
  have m2 := le_max_right (h * |x| + (c - h) * |y|) (h * |y| + (c - h) * |x|)
  have m3 := le_max_left (h * |u| + (c - h) * |v|) (h * |v| + (c - h) * |u|)
  have m4 := le_max_right (h * |u| + (c - h) * |v|) (h * |v| + (c - h) * |u|)
  apply max_le <;> linarith

theorem Octile_axis (c h : Int) (d : DiagDirection) (m : Int) :
    Octile c h (m * dg_dir_to_x_offs d) (m * dg_dir_to_y_offs d) = |m| * h := by
  have hm : 0 ≤ |m| := abs_nonneg m
  fin_cases d <;> simp [Octile, dg_dir_to_x_offs, dg_dir_to_y_offs, hm]

theorem Octile_turn (c h : Int) (d e : DiagDirection) (hc : 0 ≤ c) (hne : e ≠ d) :
    Octile c h (dg_dir_to_x_offs d + dg_dir_to_x_offs e)
      (dg_dir_to_y_offs d + dg_dir_to_y_offs e) ≤ c := by
  fin_cases d <;> fin_cases e <;>
    first
    | exact absurd rfl hne
    | (simp [Octile, dg_dir_to_x_offs, dg_dir_to_y_offs]; try exact hc)


theorem boolToInt_nonneg (b : Bool) : 0 ≤ boolToInt b := by
  cases b <;> simp [boolToInt]

theorem OneTileCost_lower (w : World) (s : YAPFSettings) (pos : PathPos)
    (hpen : NonNegPenalties s) (hocc : NonNegOccupancy w) :
    (w.IsDiagonalTrackdir pos.td = true → w.YAPF_TILE_LENGTH ≤ OneTileCost w s pos) ∧
      (w.IsDiagonalTrackdir pos.td = false →
        w.YAPF_TILE_CORNER_LENGTH ≤ OneTileCost w s pos) := by
  obtain ⟨_, hcurve, hcross, hstop, hoccp, hbay⟩ := hpen
  constructor
  · intro hd
    simp only [OneTileCost, hd, if_true, zero_add]
    split
    · split <;> linarith
    · split
      · split
        · have ho := hocc pos.tile (w.GetRoadStopType pos.tile) (w.TrackdirToExitdir pos.td)
          have := Int.tdiv_nonneg (mul_nonneg ho.1 hoccp) (le_of_lt ho.2)
          linarith
        · linarith
      · have hb : 0 ≤ boolToInt (!(w.RoadStop_GetByTile pos.tile
            (w.GetRoadStopType pos.tile)).IsFreeBay 0)
            + boolToInt (!(w.RoadStop_GetByTile pos.tile
              (w.GetRoadStopType pos.tile)).IsFreeBay 1) :=
          add_nonneg (boolToInt_nonneg _) (boolToInt_nonneg _)
        have := Int.tdiv_nonneg (mul_nonneg hbay hb) (by decide : (0 : Int) ≤ 2)
        linarith
    · exact le_refl _
  · intro hd
    simp only [OneTileCost, hd]
    simp only [Bool.false_eq_true, if_false]
    linarith

theorem SlopeCost_nonneg (w : World) (s : YAPFSettings) (tile next : TileIndex)
    (hslope : 0 ≤ s.road_slope_penalty) : 0 ≤ SlopeCost w s tile next := by
  simp only [SlopeCost]
  split
  · exact hslope
  · exact le_refl _

theorem SpeedCost_nonneg (max_veh_speed min_speed max_speed : Int) :
    0 ≤ SpeedCost max_veh_speed min_speed max_speed := by
  unfold SpeedCost
  split <;> split <;> omega

theorem StepCost_lower (w : World) (s : YAPFSettings) (v : RoadVehicle) (m_old : PathPos)
    (st : FollowStep) (hpen : NonNegPenalties s) :
    (st.m_tiles_skipped : Int) * w.YAPF_TILE_LENGTH + OneTileCost w s st.m_new
      ≤ StepCost w s v m_old st := by
  have h1 := SlopeCost_nonneg w s m_old.tile st.m_new.tile hpen.1
  have h2 := SpeedCost_nonneg v.GetDisplayMaxSpeed st.min_speed st.max_speed
  unfold StepCost
  split <;> linarith

theorem half_tile_facts (L : Int) (hL : 0 ≤ L) : 0 ≤ L.tdiv 2 ∧ 2 * L.tdiv 2 ≤ L := by
  rw [Int.tdiv_eq_ediv hL (by decide)]
  omega

theorem Octile_step_le (w : World) (s : YAPFSettings) (v : RoadVehicle) (p : PathPos)
    (st : FollowStep)
    (hL : 0 ≤ w.YAPF_TILE_LENGTH)
    (hc1 : w.YAPF_TILE_LENGTH.tdiv 2 ≤ w.YAPF_TILE_CORNER_LENGTH)
    (hc2 : w.YAPF_TILE_CORNER_LENGTH ≤ 2 * w.YAPF_TILE_LENGTH.tdiv 2)
    (hpen : NonNegPenalties s) (hocc : NonNegOccupancy w)
    (hadj : EdgeAdjacent w p st) :
    Octile w.YAPF_TILE_CORNER_LENGTH (w.YAPF_TILE_LENGTH.tdiv 2)
        (ExitX w st.m_new - ExitX w p) (ExitY w st.m_new - ExitY w p)
      ≤ StepCost w s v p st := by
  obtain ⟨hh, h2h⟩ := half_tile_facts _ hL
  obtain ⟨hx, hy, hturn⟩ := hadj
  have hcost := StepCost_lower w s v p st hpen
  have hone := OneTileCost_lower w s st.m_new hpen hocc
  have hk : (0 : Int) ≤ (st.m_tiles_skipped : Int) := Int.ofNat_nonneg _
  have hkL : (st.m_tiles_skipped : Int) * (2 * w.YAPF_TILE_LENGTH.tdiv 2)
      ≤ (st.m_tiles_skipped : Int) * w.YAPF_TILE_LENGTH :=
    mul_le_mul_of_nonneg_left h2h hk
  cases hdiag : w.IsDiagonalTrackdir st.m_new.td with
  | true =>
    have hX : ExitX w st.m_new - ExitX w p
        = (2 * (st.m_tiles_skipped : Int) + 1) * dg_dir_to_x_offs (w.TrackdirToExitdir p.td)
          + 1 * dg_dir_to_x_offs (w.TrackdirToExitdir st.m_new.td) := by
      simp only [ExitX, hx]; ring
    have hY : ExitY w st.m_new - ExitY w p
        = (2 * (st.m_tiles_skipped : Int) + 1) * dg_dir_to_y_offs (w.TrackdirToExitdir p.td)
          + 1 * dg_dir_to_y_offs (w.TrackdirToExitdir st.m_new.td) := by
      simp only [ExitY, hy]; ring
    rw [hX, hY]
    refine le_trans (Octile_add_le _ _ _ _ _ _ hh hc1 hc2) ?_
    rw [Octile_axis, Octile_axis, abs_of_nonneg (by linarith), abs_one]
    have := hone.1 hdiag
    linarith
  | false =>
    have hX : ExitX w st.m_new - ExitX w p
        = (2 * (st.m_tiles_skipped : Int)) * dg_dir_to_x_offs (w.TrackdirToExitdir p.td)
          + (dg_dir_to_x_offs (w.TrackdirToExitdir p.td)
            + dg_dir_to_x_offs (w.TrackdirToExitdir st.m_new.td)) := by
      simp only [ExitX, hx]; ring
    have hY : ExitY w st.m_new - ExitY w p
        = (2 * (st.m_tiles_skipped : Int)) * dg_dir_to_y_offs (w.TrackdirToExitdir p.td)
          + (dg_dir_to_y_offs (w.TrackdirToExitdir p.td)
            + dg_dir_to_y_offs (w.TrackdirToExitdir st.m_new.td)) := by
      simp only [ExitY, hy]; ring
    rw [hX, hY]
    refine le_trans (Octile_add_le _ _ _ _ _ _ hh hc1 hc2) ?_
    rw [Octile_axis, abs_of_nonneg (by linarith)]
    have ht := Octile_turn w.YAPF_TILE_CORNER_LENGTH (w.YAPF_TILE_LENGTH.tdiv 2)
      (w.TrackdirToExitdir p.td) (w.TrackdirToExitdir st.m_new.td) (le_trans hh hc1)
      (hturn hdiag)
    have := hone.2 hdiag
    linarith

theorem Octile_path_le (w : World) (s : YAPFSettings) (v : RoadVehicle) (dx dy : Int)
    (hL : 0 ≤ w.YAPF_TILE_LENGTH)
    (hc1 : w.YAPF_TILE_LENGTH.tdiv 2 ≤ w.YAPF_TILE_CORNER_LENGTH)
    (hc2 : w.YAPF_TILE_CORNER_LENGTH ≤ 2 * w.YAPF_TILE_LENGTH.tdiv 2)
    (hpen : NonNegPenalties s) (hocc : NonNegOccupancy w) :
    ∀ (steps : List FollowStep) (p : PathPos), PathFollows w p steps →
      Octile w.YAPF_TILE_CORNER_LENGTH (w.YAPF_TILE_LENGTH.tdiv 2)
          (ExitX w p - dx) (ExitY w p - dy)
        ≤ Octile w.YAPF_TILE_CORNER_LENGTH (w.YAPF_TILE_LENGTH.tdiv 2)
            (ExitX w (PathEnd p steps) - dx) (ExitY w (PathEnd p steps) - dy)
          + PathCost w s v p steps
      ∧ 0 ≤ PathCost w s v p steps := by
  obtain ⟨hh, _⟩ := half_tile_facts _ hL
  intro steps
  induction steps with
  | nil =>
    intro p _
    simp [PathEnd, PathCost]
  | cons st rest ih =>
    intro p hp
    obtain ⟨hadj, hrest⟩ := hp
    obtain ⟨ih1, ih2⟩ := ih st.m_new hrest
    have hstep := Octile_step_le w s v p st hL hc1 hc2 hpen hocc hadj
    have hnn := Octile_nonneg w.YAPF_TILE_CORNER_LENGTH (w.YAPF_TILE_LENGTH.tdiv 2)
      (ExitX w st.m_new - ExitX w p) (ExitY w st.m_new - ExitY w p) hh hc1
    have htri := Octile_add_le w.YAPF_TILE_CORNER_LENGTH (w.YAPF_TILE_LENGTH.tdiv 2)
      (ExitX w st.m_new - dx) (ExitY w st.m_new - dy)
      (-(ExitX w st.m_new - ExitX w p)) (-(ExitY w st.m_new - ExitY w p)) hh hc1 hc2
    rw [Octile_neg] at htri
    have e1 : ExitX w st.m_new - dx + -(ExitX w st.m_new - ExitX w p) = ExitX w p - dx := by
      ring
    have e2 : ExitY w st.m_new - dy + -(ExitY w st.m_new - ExitY w p) = ExitY w p - dy := by
      ring
    rw [e1, e2] at htri
    simp only [PathEnd, PathCost]
    constructor <;> linarith


theorem demoSettings_NonNegPenalties : NonNegPenalties demoSettings := by
  unfold NonNegPenalties
  decide

theorem demoWorld_NonNegOccupancy : NonNegOccupancy demoWorld := by
  intro tile t dir
  exact ⟨le_refl _, Int.one_pos⟩

theorem demoStep_PathFollows : PathFollows demoWorld demoNode.m_segment_last [demoStep] := by
  unfold PathFollows EdgeAdjacent PathFollows
  decide

/-- Over the integers: with non-negative penalties and occupancies, a tile
length `L >= 0` and a corner length between `L / 2` and `2 * (L / 2)`, the
estimate part `m_estimate - m_cost` that `PfCalcEstimate` gives a node never
exceeds the cost of a chain of follower moves between edge-adjacent tiles
(straight tunnel or bridge skips included) from `n.m_segment_last` to a
position on the stored destination tile `m_destTile`; when no station is set
these are the positions `PfDetectDestinationTile` accepts. -/
theorem PfCalcEstimate_admissible_unbounded (w : World) (s : YAPFSettings)
    (v : RoadVehicle) (self : CYapfDestinationTileRoadT) (n : Node) (steps : List FollowStep)
    (hL : 0 ≤ w.YAPF_TILE_LENGTH)
    (hc1 : w.YAPF_TILE_LENGTH.tdiv 2 ≤ w.YAPF_TILE_CORNER_LENGTH)
    (hc2 : w.YAPF_TILE_CORNER_LENGTH ≤ 2 * w.YAPF_TILE_LENGTH.tdiv 2)
    (hpen : NonNegPenalties s) (hocc : NonNegOccupancy w)
    (hpath : PathFollows w n.m_segment_last steps) :
    ((PathEnd n.m_segment_last steps).tile = self.m_destTile →
      (CYapfDestinationTileRoadT.PfCalcEstimate w self n).2.m_estimate - n.m_cost
        ≤ PathCost w s v n.m_segment_last steps) ∧
    (self.m_dest_station = w.INVALID_STATION →
      CYapfDestinationTileRoadT.PfDetectDestinationTile w self
        (PathEnd n.m_segment_last steps) = true →
      (CYapfDestinationTileRoadT.PfCalcEstimate w self n).2.m_estimate - n.m_cost
        ≤ PathCost w s v n.m_segment_last steps) := by
  have main : (PathEnd n.m_segment_last steps).tile = self.m_destTile →
      (CYapfDestinationTileRoadT.PfCalcEstimate w self n).2.m_estimate - n.m_cost
        ≤ PathCost w s v n.m_segment_last steps := by
    intro hend
    obtain ⟨hpot, hnn⟩ := Octile_path_le w s v (2 * (w.TileX self.m_destTile : Int))
      (2 * (w.TileY self.m_destTile : Int)) hL hc1 hc2 hpen hocc steps n.m_segment_last hpath
    cases hdet : CYapfDestinationTileRoadT.PfDetectDestination w self n with
    | true =>
      simp only [CYapfDestinationTileRoadT.PfCalcEstimate, hdet, if_true]
      linarith
    | false =>
      have hendX : ExitX w (PathEnd n.m_segment_last steps) - 2 * (w.TileX self.m_destTile : Int)
          = 1 * dg_dir_to_x_offs (w.TrackdirToExitdir (PathEnd n.m_segment_last steps).td) := by
        simp only [ExitX, hend]; ring
      have hendY : ExitY w (PathEnd n.m_segment_last steps) - 2 * (w.TileY self.m_destTile : Int)
          = 1 * dg_dir_to_y_offs (w.TrackdirToExitdir (PathEnd n.m_segment_last steps).td) := by
        simp only [ExitY, hend]; ring
      rw [hendX, hendY, Octile_axis, abs_one, one_mul] at hpot
      simp only [CYapfDestinationTileRoadT.PfCalcEstimate, hdet, Bool.false_eq_true, if_false]
      simp only [Octile, ExitX, ExitY] at hpot
      linarith
  refine ⟨main, ?_⟩
  intro hst hacc
  apply main
  simpa [CYapfDestinationTileRoadT.PfDetectDestinationTile, hst] using hacc

/-! ### The segment loop -/

theorem speed_terms_eq (c v mn mx : Int) :
    (if mn > v then (if mx < v then c + 1 * (v - mx) else c) + 10 * (mn - v)
      else (if mx < v then c + 1 * (v - mx) else c)) = c + SpeedCost v mn mx := by
  unfold SpeedCost
  split <;> split <;> ring

theorem PathCost_cons (w : World) (st : YAPFSettings) (v : RoadVehicle) (p : PathPos)
    (x : FollowStep) (rest : List FollowStep) :
    PathCost w st v p (x :: rest) = StepCost w st v p x + PathCost w st v x.m_new rest := rfl

theorem SegmentLoop_run (w : World) (st : YAPFSettings) (v : RoadVehicle) (tf : CFollowTrackRoad)
    (detect : PathPos → Bool) (pos : PathPos) :
    ∀ (fuel : Nat) (s s' : SegState) (why : SegmentEnd),
      SegmentLoop w st v tf detect pos fuel s = some (LoopExit.brk s' why) →
      s.m_segment_last = s.m_new →
      ∃ rest : List FollowStep,
        s'.steps = s.steps ++ rest ∧
        FollowerChain tf s.m_new rest ∧
        s'.m_segment_last = PathEnd s.m_new rest ∧
        s'.segment_cost = s.segment_cost + OneTileCost w st s.m_new
          + PathCost w st v s.m_new rest
          - (if why = SegmentEnd.ceiling then OneTileCost w st s'.m_segment_last else 0) ∧
        (why = SegmentEnd.ceiling → rest ≠ [] ∧ w.MAX_MAP_SIZE < s'.tiles) ∧
        s'.tiles = SegmentTiles s.tiles rest ∧
        (rest ≠ [] → why ≠ SegmentEnd.ceiling → s'.tiles ≤ w.MAX_MAP_SIZE) := by
  intro fuel
  induction fuel with
  | zero =>
    intro s s' why h
    simp [SegmentLoop] at h
  | succ fuel ih =>
    intro s s' why h hinv
    simp only [SegmentLoop] at h
    split at h
    · -- destination
      simp only [Option.some.injEq, LoopExit.brk.injEq] at h
      obtain ⟨rfl, rfl⟩ := h
      exact ⟨[], by simp, trivial, by simp [PathEnd, hinv], by simp [PathCost], by simp, rfl,
        fun h => absurd rfl h⟩
    · split at h
      · -- depot
        simp only [Option.some.injEq, LoopExit.brk.injEq] at h
        obtain ⟨rfl, rfl⟩ := h
        exact ⟨[], by simp, trivial, by simp [PathEnd, hinv], by simp [PathCost], by simp, rfl,
        fun h => absurd rfl h⟩
      · split at h
        · -- end of road
          simp only [Option.some.injEq, LoopExit.brk.injEq] at h
          obtain ⟨rfl, rfl⟩ := h
          exact ⟨[], by simp, trivial, by simp [PathEnd, hinv], by simp [PathCost], by simp, rfl,
        fun h => absurd rfl h⟩
        · rename_i r hr
          split at h
          · -- junction
            simp only [Option.some.injEq, LoopExit.brk.injEq] at h
            obtain ⟨rfl, rfl⟩ := h
            exact ⟨[], by simp, trivial, by simp [PathEnd, hinv], by simp [PathCost], by simp, rfl,
        fun h => absurd rfl h⟩
          · rename_i hsingle
            have hs : r.is_single = true := by simpa using hsingle
            split at h
            · simp at h
            · rw [speed_terms_eq] at h
              have hstep : FollowerChain tf s.m_new [r.toStep true] :=
                ⟨⟨r, hr, hs, rfl⟩, trivial⟩
              split at h
              · -- ceiling
                rename_i hceil
                simp only [Option.some.injEq, LoopExit.brk.injEq] at h
                obtain ⟨rfl, rfl⟩ := h
                refine ⟨[r.toStep true], rfl, hstep, rfl, ?_, fun _ => ⟨by simp, hceil⟩, rfl,
                  fun _ h => absurd rfl h⟩
                simp only [PathCost, StepCost, FollowResult.toStep, if_true]
                ring
              · rename_i hnoceil
                obtain ⟨rest, h1, h2, h3, h4, h5, h6, h7⟩ := ih _ s' why h rfl
                dsimp only at h1 h2 h3 h4 h6
                refine ⟨r.toStep true :: rest, ?_, ⟨⟨r, hr, hs, rfl⟩, h2⟩, h3, ?_,
                  fun hc => ⟨by simp, (h5 hc).2⟩, h6, ?_⟩
                · rw [h1]; simp [FollowResult.toStep]
                · rw [h4]
                  simp only [PathCost, StepCost, FollowResult.toStep, if_true]
                  ring
                · intro _ hwhy
                  cases rest with
                  | nil =>
                    rw [h6]
                    simp only [SegmentTiles]
                    omega
                  | cons y rest => exact h7 (by simp) hwhy


theorem OneTileCost_nonneg (w : World) (st : YAPFSettings) (pos : PathPos)
    (hL : 0 ≤ w.YAPF_TILE_LENGTH) (hC : 0 ≤ w.YAPF_TILE_CORNER_LENGTH)
    (hpen : NonNegPenalties st) (hocc : NonNegOccupancy w) : 0 ≤ OneTileCost w st pos := by
  have h := OneTileCost_lower w st pos hpen hocc
  cases hd : w.IsDiagonalTrackdir pos.td with
  | true => exact le_trans hL (h.1 hd)
  | false => exact le_trans hC (h.2 hd)

theorem StepCost_ge_tile (w : World) (st : YAPFSettings) (v : RoadVehicle) (p : PathPos)
    (x : FollowStep) (hL : 0 ≤ w.YAPF_TILE_LENGTH) (hpen : NonNegPenalties st) :
    OneTileCost w st x.m_new ≤ StepCost w st v p x := by
  have h := StepCost_lower w st v p x hpen
  have hk : (0 : Int) ≤ (x.m_tiles_skipped : Int) * w.YAPF_TILE_LENGTH :=
    mul_nonneg (Int.ofNat_nonneg _) hL
  linarith

theorem PathCost_nonneg (w : World) (st : YAPFSettings) (v : RoadVehicle)
    (hL : 0 ≤ w.YAPF_TILE_LENGTH) (hC : 0 ≤ w.YAPF_TILE_CORNER_LENGTH)
    (hpen : NonNegPenalties st) (hocc : NonNegOccupancy w) :
    ∀ (rest : List FollowStep) (p : PathPos), 0 ≤ PathCost w st v p rest := by
  intro rest
  induction rest with
  | nil => intro p; simp [PathCost]
  | cons x rest ih =>
    intro p
    have h1 := StepCost_ge_tile w st v p x hL hpen
    have h2 := OneTileCost_nonneg w st x.m_new hL hC hpen hocc
    have h3 := ih x.m_new
    simp only [PathCost]
    linarith

theorem PathCost_ge_last (w : World) (st : YAPFSettings) (v : RoadVehicle)
    (hL : 0 ≤ w.YAPF_TILE_LENGTH) (hC : 0 ≤ w.YAPF_TILE_CORNER_LENGTH)
    (hpen : NonNegPenalties st) (hocc : NonNegOccupancy w) :
    ∀ (rest : List FollowStep) (p : PathPos), rest ≠ [] →
      OneTileCost w st (PathEnd p rest) ≤ PathCost w st v p rest := by
  intro rest
  induction rest with
  | nil => intro p h; exact absurd rfl h
  | cons x rest ih =>
    intro p _
    have h1 := StepCost_ge_tile w st v p x hL hpen
    have h2 := OneTileCost_nonneg w st x.m_new hL hC hpen hocc
    cases rest with
    | nil =>
      simp only [PathCost, PathEnd]
      linarith
    | cons y rest =>
      have h3 := ih x.m_new (by simp)
      simp only [PathCost, PathEnd] at h3 ⊢
      linarith

theorem SegmentLoop_cost_nonneg (w : World) (st : YAPFSettings) (v : RoadVehicle)
    (tf : CFollowTrackRoad) (detect : PathPos → Bool) (pos : PathPos)
    (hL : 0 ≤ w.YAPF_TILE_LENGTH) (hC : 0 ≤ w.YAPF_TILE_CORNER_LENGTH)
    (hpen : NonNegPenalties st) (hocc : NonNegOccupancy w)
    (fuel : Nat) (s s' : SegState) (why : SegmentEnd)
    (h : SegmentLoop w st v tf detect pos fuel s = some (LoopExit.brk s' why))
    (hinv : s.m_segment_last = s.m_new) : s.segment_cost ≤ s'.segment_cost := by
  obtain ⟨rest, _, _, h3, h4, h5, _, _⟩ :=
    SegmentLoop_run w st v tf detect pos fuel s s' why h hinv
  have hone := OneTileCost_nonneg w st s.m_new hL hC hpen hocc
  have hpath := PathCost_nonneg w st v hL hC hpen hocc rest s.m_new
  by_cases hc : why = SegmentEnd.ceiling
  · have hlast := PathCost_ge_last w st v hL hC hpen hocc rest s.m_new (h5 hc).1
    rw [← h3] at hlast
    rw [h4, if_pos hc]
    linarith
  · rw [h4, if_neg hc]
    linarith

theorem SegmentLoop_total (w : World) (st : YAPFSettings) (v : RoadVehicle)
    (tf : CFollowTrackRoad) (detect : PathPos → Bool) (pos : PathPos) :
    ∀ (fuel : Nat) (s : SegState), 1 ≤ fuel → w.MAX_MAP_SIZE + 2 ≤ fuel + s.tiles →
      ∃ e, SegmentLoop w st v tf detect pos fuel s = some e := by
  intro fuel
  induction fuel with
  | zero => intro s h; omega
  | succ fuel ih =>
    intro s _ hsum
    simp only [SegmentLoop]
    split
    · exact ⟨_, rfl⟩
    · split
      · exact ⟨_, rfl⟩
      · split
        · exact ⟨_, rfl⟩
        · split
          · exact ⟨_, rfl⟩
          · split
            · exact ⟨_, rfl⟩
            · split
              · exact ⟨_, rfl⟩
              · rename_i hceil
                apply ih
                · omega
                · dsimp only
                  omega

theorem PfFollowNodeChild_total (w : World) (st : YAPFSettings) (v : RoadVehicle)
    (tf : CFollowTrackRoad) (Yapf : DestinationPolicy) (fuel : Nat) (old : Nat) (old_node : Node)
    (r : FollowResult) (td : Trackdir) (hfuel : w.MAX_MAP_SIZE + 2 ≤ fuel) :
    ∃ c, PfFollowNodeChild w st v tf Yapf fuel old old_node r td = some c := by
  obtain ⟨e, he⟩ := SegmentLoop_total w st v tf Yapf.PfDetectDestinationTile
    { r.m_new with td := td } fuel
    { m_new := { r.m_new with td := td }, m_segment_last := { r.m_new with td := td },
      segment_cost := (r.m_tiles_skipped : Int) * w.YAPF_TILE_LENGTH,
      tiles := r.m_tiles_skipped, steps := [] } (by omega) (by dsimp only; omega)
  simp only [PfFollowNodeChild, he]
  cases e with
  | brk s why => exact ⟨_, rfl⟩
  | ret => exact ⟨_, rfl⟩

theorem PfFollowNodeLoop_total (w : World) (st : YAPFSettings) (v : RoadVehicle)
    (tf : CFollowTrackRoad) (Yapf : DestinationPolicy) (fuel : Nat) (old : Nat) (old_node : Node)
    (r : FollowResult) (hfuel : w.MAX_MAP_SIZE + 2 ≤ fuel) :
    ∀ tds : List Trackdir, ∃ calls,
      PfFollowNodeLoop w st v tf Yapf fuel old old_node r tds = some calls := by
  intro tds
  induction tds with
  | nil => exact ⟨[], rfl⟩
  | cons td rest ih =>
    obtain ⟨c, hc⟩ := PfFollowNodeChild_total w st v tf Yapf fuel old old_node r td hfuel
    obtain ⟨calls, hcalls⟩ := ih
    simp only [PfFollowNodeLoop, hc]
    cases c with
    | looped created => exact ⟨_, rfl⟩
    | evaluated created why steps n bValid =>
      simp only [hcalls]
      exact ⟨_, rfl⟩

theorem PfFollowNode_total (w : World) (st : YAPFSettings) (v : RoadVehicle)
    (tf : CFollowTrackRoad) (Yapf : DestinationPolicy) (fuel : Nat) (old : Nat) (old_node : Node)
    (hfuel : w.MAX_MAP_SIZE + 2 ≤ fuel) :
    ∃ calls, PfFollowNode w st v tf Yapf fuel old old_node = some calls := by
  unfold PfFollowNode
  cases tf.Follow old_node.m_segment_last with
  | none => exact ⟨[], rfl⟩
  | some r => exact PfFollowNodeLoop_total w st v tf Yapf fuel old old_node r hfuel _

theorem PfFollowNodeChild_evaluated (w : World) (st : YAPFSettings) (v : RoadVehicle)
    (tf : CFollowTrackRoad) (Yapf : DestinationPolicy) (fuel : Nat) (old : Nat) (old_node : Node)
    (r : FollowResult) (td : Trackdir) (created : Node) (why : SegmentEnd)
    (steps : List FollowStep) (n : Node) (bValid : Bool)
    (h : PfFollowNodeChild w st v tf Yapf fuel old old_node r td
      = some (ChildResult.evaluated created why steps n bValid)) :
    ∃ s' : SegState,
      SegmentLoop w st v tf Yapf.PfDetectDestinationTile { r.m_new with td := td } fuel
        { m_new := { r.m_new with td := td }, m_segment_last := { r.m_new with td := td },
          segment_cost := (r.m_tiles_skipped : Int) * w.YAPF_TILE_LENGTH,
          tiles := r.m_tiles_skipped, steps := [] } = some (LoopExit.brk s' why) ∧
      created = CreateNewNode (some old) { r.m_new with td := td } (!r.is_single) ∧
      steps = s'.steps ∧
      n = (Yapf.PfCalcEstimate
        { created with m_segment_last := s'.m_segment_last,
                       m_cost := old_node.m_cost + s'.segment_cost }).2 ∧
      bValid = (Yapf.PfCalcEstimate
        { created with m_segment_last := s'.m_segment_last,
                       m_cost := old_node.m_cost + s'.segment_cost }).1 := by
  simp only [PfFollowNodeChild] at h
  split at h
  · simp at h
  · simp at h
  · rename_i s' why' hloop
    simp only [Option.some.injEq, ChildResult.evaluated.injEq] at h
    obtain ⟨h1, h2, h3, h4, h5⟩ := h
    subst h1 h2 h3 h4 h5
    exact ⟨s', hloop, rfl, rfl, rfl, rfl⟩

theorem PfFollowNodeLoop_mem (w : World) (st : YAPFSettings) (v : RoadVehicle)
    (tf : CFollowTrackRoad) (Yapf : DestinationPolicy) (fuel : Nat) (old : Nat) (old_node : Node)
    (r : FollowResult) :
    ∀ (tds : List Trackdir) (calls : List AstarCall),
      PfFollowNodeLoop w st v tf Yapf fuel old old_node r tds = some calls →
      ∀ n, (AstarCall.InsertNode n ∈ calls ∨ AstarCall.FoundTarget n ∈ calls) →
        ∃ td ∈ tds, ∃ created why steps,
          PfFollowNodeChild w st v tf Yapf fuel old old_node r td
            = some (ChildResult.evaluated created why steps n true) := by
  intro tds
  induction tds with
  | nil =>
    intro calls h n hn
    simp only [PfFollowNodeLoop, Option.some.injEq] at h
    subst h
    simp at hn
  | cons td rest ih =>
    intro calls h n hn
    simp only [PfFollowNodeLoop] at h
    split at h
    · simp at h
    · simp only [Option.some.injEq] at h
      subst h
      simp at hn
    · rename_i created why steps m bValid hchild
      split at h
      · simp at h
      · rename_i calls' hrest
        simp only [Option.some.injEq] at h
        subst h
        have hcase : (bValid = true ∧ m = n) ∨
            (AstarCall.InsertNode n ∈ calls' ∨ AstarCall.FoundTarget n ∈ calls') := by
          cases bValid with
          | false =>
            right
            simpa using hn
          | true =>
            by_cases hdet : Yapf.PfDetectDestination m = true
            · simp only [Bool.not_true, Bool.false_eq_true, if_false, hdet, if_true,
                List.mem_cons, List.mem_append, List.mem_singleton, reduceCtorEq, false_or,
                AstarCall.FoundTarget.injEq, List.not_mem_nil, or_false] at hn
              rcases hn with hn | hn
              · exact Or.inr (Or.inl hn)
              · rcases hn with hn | hn
                · exact Or.inl ⟨rfl, hn.symm⟩
                · exact Or.inr (Or.inr hn)
            · simp only [Bool.not_true, Bool.false_eq_true, if_false, hdet,
                List.mem_cons, List.mem_append, List.mem_singleton, reduceCtorEq, false_or,
                AstarCall.InsertNode.injEq, List.not_mem_nil, or_false] at hn
              rcases hn with hn | hn
              · rcases hn with hn | hn
                · exact Or.inl ⟨rfl, hn.symm⟩
                · exact Or.inr (Or.inl hn)
              · exact Or.inr (Or.inr hn)
        rcases hcase with ⟨hb, hm⟩ | hrestmem
        · subst hb hm
          exact ⟨td, by simp, created, why, steps, hchild⟩
        · obtain ⟨td', htd', c', w', s', hc'⟩ := ih calls' hrest n hrestmem
          exact ⟨td', by simp [htd'], c', w', s', hc'⟩

/-! ### Tile, slope and speed costs -/

/-- C15: on a trackdir that is not diagonal `OneTileCost` is
`YAPF_TILE_CORNER_LENGTH + road_curve_penalty`, whatever the tile; on a
diagonal trackdir on a tile that is neither a level crossing (a `TT_MISC` tile
for which `IsLevelCrossingTile` holds) nor a station tile it is
`YAPF_TILE_LENGTH`. -/
theorem OneTileCost_base_and_curve (w : World) (st : YAPFSettings) (pos : PathPos) :
    (w.IsDiagonalTrackdir pos.td = false →
      OneTileCost w st pos = w.YAPF_TILE_CORNER_LENGTH + st.road_curve_penalty) ∧
    (w.IsDiagonalTrackdir pos.td = true →
      ¬ (w.GetTileType pos.tile = TileType.TT_MISC ∧ w.IsLevelCrossingTile pos.tile = true) →
      w.GetTileType pos.tile ≠ TileType.TT_STATION →
      OneTileCost w st pos = w.YAPF_TILE_LENGTH) := by
  constructor
  · intro hd
    simp [OneTileCost, hd]
  · intro hd hcross hstation
    simp only [OneTileCost, hd, if_true, zero_add]
    cases htype : w.GetTileType pos.tile with
    | TT_MISC =>
      have : w.IsLevelCrossingTile pos.tile = false := by
        cases hl : w.IsLevelCrossingTile pos.tile with
        | false => rfl
        | true => exact absurd ⟨htype, hl⟩ hcross
      simp [this]
    | TT_STATION => exact absurd htype hstation
    | TT_OTHER => rfl

/-- Witness for C15 in the world of the hilly road: a curve costs `71 + 30`
even on the level crossing `660` and on the stop `680`, a straight plain tile
costs `100`. -/
theorem OneTileCost_base_and_curve_witness :
    OneTileCost hillWorld demoPenalties { tile := 660, td := 5 } = 71 + 30 ∧
      OneTileCost hillWorld demoPenalties { tile := 680, td := 5 } = 71 + 30 ∧
      OneTileCost hillWorld demoPenalties { tile := 681, td := 8 } = 100 :=
  ⟨(OneTileCost_base_and_curve hillWorld demoPenalties { tile := 660, td := 5 }).1 (by decide),
   (OneTileCost_base_and_curve hillWorld demoPenalties { tile := 680, td := 5 }).1 (by decide),
   (OneTileCost_base_and_curve hillWorld demoPenalties { tile := 681, td := 8 }).2
      (by decide) (by decide) (by decide)⟩

/-- C19: `SlopeCost(tile, next)` is `road_slope_penalty` when the height `z2`
at the centre of `next` exceeds the height `z1` at the centre of `tile` by more
than `1`, and `0` otherwise; so a level or descending step and a rise of
exactly `1` cost nothing. -/
theorem SlopeCost_cases (w : World) (st : YAPFSettings) (tile next : TileIndex) (z1 z2 : Int)
    (hz1 : z1 = w.GetSlopePixelZ
      ((w.TileX tile : Int) * (w.TILE_SIZE : Int) + ((w.TILE_SIZE / 2 : Nat) : Int))
      ((w.TileY tile : Int) * (w.TILE_SIZE : Int) + ((w.TILE_SIZE / 2 : Nat) : Int)))
    (hz2 : z2 = w.GetSlopePixelZ
      ((w.TileX next : Int) * (w.TILE_SIZE : Int) + ((w.TILE_SIZE / 2 : Nat) : Int))
      ((w.TileY next : Int) * (w.TILE_SIZE : Int) + ((w.TILE_SIZE / 2 : Nat) : Int))) :
    (z2 - z1 > 1 → SlopeCost w st tile next = st.road_slope_penalty) ∧
      (¬ (z2 - z1 > 1) → SlopeCost w st tile next = 0) ∧
      (z2 ≤ z1 → SlopeCost w st tile next = 0) ∧
      (z2 - z1 = 1 → SlopeCost w st tile next = 0) := by
  subst hz1 hz2
  refine ⟨?_, ?_, ?_, ?_⟩
  · intro h
    simp only [SlopeCost]
    rw [if_pos h]
  · intro h
    simp only [SlopeCost]
    rw [if_neg h]
  · intro h
    simp only [SlopeCost]
    rw [if_neg (by omega)]
  · intro h
    simp only [SlopeCost]
    rw [if_neg (by omega)]

/-- Witness for C19 in the world of the hilly road: the step from tile `690`
up to tile `691` rises by `8` and costs the penalty `200`; the step back down
and a level step cost nothing. -/
theorem SlopeCost_cases_witness :
    SlopeCost hillWorld demoPenalties 690 691 = 200 ∧
      SlopeCost hillWorld demoPenalties 691 690 = 0 ∧
      SlopeCost hillWorld demoPenalties 688 689 = 0 :=
  ⟨(SlopeCost_cases hillWorld demoPenalties 690 691 0 8 (by decide) (by decide)).1 (by decide),
   (SlopeCost_cases hillWorld demoPenalties 691 690 8 0 (by decide) (by decide)).2.2.1
      (by decide),
   (SlopeCost_cases hillWorld demoPenalties 688 689 0 0 (by decide) (by decide)).2.1
      (by decide)⟩

/-- C20: on a follower step inside a segment (no exit taken, the follower
answering `r` with a single trackdir that is not the start of the segment)
the round adds to `segment_cost` the tile cost of the old position, the
skipped tiles, the slope cost, `1 * (v - max_speed)` exactly when
`max_speed < v` and `10 * (min_speed - v)` exactly when `min_speed > v`, with
`v` the display max speed of the vehicle; with `max_speed >= v` and
`min_speed <= v` no speed term is added. -/
theorem SegmentLoop_speed_penalties (w : World) (st : YAPFSettings) (v : RoadVehicle)
    (tf : CFollowTrackRoad) (detect : PathPos → Bool) (pos : PathPos) (fuel : Nat)
    (s : SegState) (r : FollowResult)
    (hdet : detect s.m_new = false)
    (hdepot : ¬ (w.IsRoadDepotTile s.m_new.tile = true ∧
      s.m_new.td = w.DiagDirToDiagTrackdir
        (w.ReverseDiagDir (w.GetGroundDepotDirection s.m_new.tile))))
    (hfol : tf.Follow s.m_new = some r) (hsingle : r.is_single = true)
    (hloop : r.m_new ≠ pos) :
    ∃ s1 : SegState,
      s1.segment_cost = s.segment_cost + OneTileCost w st s.m_new
        + (r.m_tiles_skipped : Int) * w.YAPF_TILE_LENGTH
        + SlopeCost w st s.m_new.tile r.m_new.tile
        + (if r.max_speed < v.GetDisplayMaxSpeed then 1 * (v.GetDisplayMaxSpeed - r.max_speed)
            else 0)
        + (if r.min_speed > v.GetDisplayMaxSpeed then 10 * (r.min_speed - v.GetDisplayMaxSpeed)
            else 0) ∧
      s1.m_new = r.m_new ∧ s1.m_segment_last = r.m_new ∧
      s1.tiles = s.tiles + (r.m_tiles_skipped + 1) ∧
      SegmentLoop w st v tf detect pos (fuel + 1) s
        = (if s1.tiles > w.MAX_MAP_SIZE then some (LoopExit.brk s1 SegmentEnd.ceiling)
            else SegmentLoop w st v tf detect pos fuel s1) ∧
      (r.max_speed ≥ v.GetDisplayMaxSpeed → r.min_speed ≤ v.GetDisplayMaxSpeed →
        s1.segment_cost = s.segment_cost + OneTileCost w st s.m_new
          + (r.m_tiles_skipped : Int) * w.YAPF_TILE_LENGTH
          + SlopeCost w st s.m_new.tile r.m_new.tile) := by
  refine ⟨{ m_new := r.m_new, m_segment_last := r.m_new,
            segment_cost := s.segment_cost + OneTileCost w st s.m_new
              + (r.m_tiles_skipped : Int) * w.YAPF_TILE_LENGTH
              + SlopeCost w st s.m_new.tile r.m_new.tile
              + SpeedCost v.GetDisplayMaxSpeed r.min_speed r.max_speed,
            tiles := s.tiles + (r.m_tiles_skipped + 1),
            steps := s.steps ++ [r.toStep true] }, ?_, rfl, rfl, rfl, ?_, ?_⟩
  · simp only [SpeedCost]
    ring
  · simp only [SegmentLoop, hdet, Bool.false_eq_true, if_false, if_neg hdepot, hfol, hsingle,
      Bool.not_true, if_neg hloop, speed_terms_eq, FollowResult.toStep]
  · intro h1 h2
    simp only [SpeedCost]
    rw [if_neg (by omega), if_neg (by omega)]
    ring

/-- Witness for C20 in the concrete world: the lorry (display max speed
`100`) moves from tile `652` to tile `653`, where the limit is `60` and the
lowest speed `120`; the round adds `100 + 1 * 40 + 10 * 20` to the segment
cost `0` and the loop goes on from tile `653`. -/
theorem SegmentLoop_speed_penalties_witness :
    ∃ s1 : SegState,
      s1.segment_cost = 0 + 100 + 1 * (100 - 60) + 10 * (120 - 100) ∧
      s1.m_new = { tile := 653, td := 8 } ∧
      SegmentLoop demoWorld demoSettings demoLorry demoSlowFollower
          (AnyDepotRoadPolicy demoWorld).PfDetectDestinationTile { tile := 652, td := 8 }
          (10 + 1) demoSegState
        = (if s1.tiles > demoWorld.MAX_MAP_SIZE
            then some (LoopExit.brk s1 SegmentEnd.ceiling)
            else SegmentLoop demoWorld demoSettings demoLorry demoSlowFollower
              (AnyDepotRoadPolicy demoWorld).PfDetectDestinationTile { tile := 652, td := 8 }
              10 s1) := by
  obtain ⟨s1, h1, h2, _, _, h5, _⟩ := SegmentLoop_speed_penalties demoWorld demoSettings
    demoLorry demoSlowFollower (AnyDepotRoadPolicy demoWorld).PfDetectDestinationTile
    { tile := 652, td := 8 } 10 demoSegState
    { m_new := { tile := 653, td := 8 }, trackdirs := 256, is_single := true,
      m_tiles_skipped := 0, min_speed := 120, max_speed := 60 }
    (by decide) (by decide) (by decide) rfl (by decide)
  exact ⟨s1, h1.trans (by decide), h2, h5⟩

/-! ### Children of an expansion -/

theorem PfFollowNode_emitted (w : World) (st : YAPFSettings) (v : RoadVehicle)
    (tf : CFollowTrackRoad) (Yapf : DestinationPolicy) (fuel : Nat) (old : Nat) (old_node : Node)
    (calls : List AstarCall) (n : Node)
    (h : PfFollowNode w st v tf Yapf fuel old old_node = some calls)
    (hn : AstarCall.InsertNode n ∈ calls ∨ AstarCall.FoundTarget n ∈ calls) :
    ∃ r td created why steps,
      tf.Follow old_node.m_segment_last = some r ∧
      td ∈ TrackdirLoop w r.trackdirs r.trackdirs ∧
      PfFollowNodeChild w st v tf Yapf fuel old old_node r td
        = some (ChildResult.evaluated created why steps n true) := by
  unfold PfFollowNode at h
  cases hr : tf.Follow old_node.m_segment_last with
  | none =>
    rw [hr] at h
    simp only [Option.some.injEq] at h
    subst h
    simp at hn
  | some r =>
    rw [hr] at h
    obtain ⟨td, htd, created, why, steps, hc⟩ :=
      PfFollowNodeLoop_mem w st v tf Yapf fuel old old_node r _ calls h n hn
    exact ⟨r, td, created, why, steps, rfl, htd, hc⟩

theorem PfFollowNodeChild_run (w : World) (st : YAPFSettings) (v : RoadVehicle)
    (tf : CFollowTrackRoad) (Yapf : DestinationPolicy) (fuel : Nat) (old : Nat) (old_node : Node)
    (r : FollowResult) (td : Trackdir) (created : Node) (why : SegmentEnd)
    (steps : List FollowStep) (n : Node) (bValid : Bool)
    (h : PfFollowNodeChild w st v tf Yapf fuel old old_node r td
      = some (ChildResult.evaluated created why steps n bValid)) :
    created = CreateNewNode (some old) { r.m_new with td := td } (!r.is_single) ∧
    FollowerChain tf { r.m_new with td := td } steps ∧
    n = (Yapf.PfCalcEstimate
      { created with
        m_segment_last := PathEnd { r.m_new with td := td } steps
        m_cost := old_node.m_cost + ((r.m_tiles_skipped : Int) * w.YAPF_TILE_LENGTH
          + OneTileCost w st { r.m_new with td := td }
          + PathCost w st v { r.m_new with td := td } steps
          - (if why = SegmentEnd.ceiling
              then OneTileCost w st (PathEnd { r.m_new with td := td } steps) else 0)) }).2 ∧
    bValid = (Yapf.PfCalcEstimate
      { created with
        m_segment_last := PathEnd { r.m_new with td := td } steps
        m_cost := old_node.m_cost + ((r.m_tiles_skipped : Int) * w.YAPF_TILE_LENGTH
          + OneTileCost w st { r.m_new with td := td }
          + PathCost w st v { r.m_new with td := td } steps
          - (if why = SegmentEnd.ceiling
              then OneTileCost w st (PathEnd { r.m_new with td := td } steps) else 0)) }).1 ∧
    (why = SegmentEnd.ceiling ↔
      steps ≠ [] ∧ w.MAX_MAP_SIZE < SegmentTiles r.m_tiles_skipped steps) := by
  obtain ⟨s', hloop, hcreated, hsteps, hn, hb⟩ :=
    PfFollowNodeChild_evaluated w st v tf Yapf fuel old old_node r td created why steps n bValid h
  obtain ⟨rest, h1, h2, h3, h4, h5, h6, h7⟩ :=
    SegmentLoop_run w st v tf Yapf.PfDetectDestinationTile { r.m_new with td := td } fuel _ s' why
      hloop rfl
  dsimp only at h1 h2 h3 h4 h6
  simp only [List.nil_append] at h1
  have hrest : rest = steps := by rw [hsteps, h1]
  subst hrest
  rw [h3] at h4
  have hcost : s'.segment_cost = (r.m_tiles_skipped : Int) * w.YAPF_TILE_LENGTH
      + OneTileCost w st { r.m_new with td := td }
      + PathCost w st v { r.m_new with td := td } rest
      - (if why = SegmentEnd.ceiling
          then OneTileCost w st (PathEnd { r.m_new with td := td } rest) else 0) := h4
  rw [h3, hcost] at hn hb
  refine ⟨hcreated, h2, hn, hb, ?_⟩
  constructor
  · intro hc
    exact ⟨(h5 hc).1, by rw [← h6]; exact (h5 hc).2⟩
  · rintro ⟨hne, hlt⟩
    by_contra hc
    have := h7 hne hc
    rw [h6] at this
    omega

theorem TileRoadPolicy_PfCalcEstimate (w : World) (self : CYapfDestinationTileRoadT) (m : Node) :
    ((TileRoadPolicy w self).PfCalcEstimate m).1 = true ∧
    ((TileRoadPolicy w self).PfCalcEstimate m).2.m_cost = m.m_cost ∧
    ((TileRoadPolicy w self).PfCalcEstimate m).2.m_segment_last = m.m_segment_last ∧
    ((TileRoadPolicy w self).PfCalcEstimate m).2.m_parent = m.m_parent ∧
    ((TileRoadPolicy w self).PfCalcEstimate m).2.m_key = m.m_key ∧
    ((TileRoadPolicy w self).PfCalcEstimate m).2.m_is_choice = m.m_is_choice := by
  simp only [TileRoadPolicy, CYapfDestinationTileRoadT.PfCalcEstimate]
  split <;> exact ⟨rfl, rfl, rfl, rfl, rfl, rfl⟩

theorem AnyDepotRoadPolicy_PfCalcEstimate (w : World) (m : Node) :
    ((AnyDepotRoadPolicy w).PfCalcEstimate m).1 = true ∧
    ((AnyDepotRoadPolicy w).PfCalcEstimate m).2.m_cost = m.m_cost ∧
    ((AnyDepotRoadPolicy w).PfCalcEstimate m).2.m_segment_last = m.m_segment_last ∧
    ((AnyDepotRoadPolicy w).PfCalcEstimate m).2.m_parent = m.m_parent ∧
    ((AnyDepotRoadPolicy w).PfCalcEstimate m).2.m_key = m.m_key ∧
    ((AnyDepotRoadPolicy w).PfCalcEstimate m).2.m_is_choice = m.m_is_choice ∧
    ((AnyDepotRoadPolicy w).PfCalcEstimate m).2.m_estimate = m.m_cost :=
  ⟨rfl, rfl, rfl, rfl, rfl, rfl, rfl⟩

theorem Policy_PfCalcEstimate (w : World) (Yapf : DestinationPolicy)
    (hY : (∃ self, Yapf = TileRoadPolicy w self) ∨ Yapf = AnyDepotRoadPolicy w) (m : Node) :
    (Yapf.PfCalcEstimate m).1 = true ∧
    (Yapf.PfCalcEstimate m).2.m_cost = m.m_cost ∧
    (Yapf.PfCalcEstimate m).2.m_segment_last = m.m_segment_last ∧
    (Yapf.PfCalcEstimate m).2.m_parent = m.m_parent ∧
    (Yapf.PfCalcEstimate m).2.m_key = m.m_key := by
  rcases hY with ⟨self, rfl⟩ | rfl
  · obtain ⟨h1, h2, h3, h4, h5, _⟩ := TileRoadPolicy_PfCalcEstimate w self m
    exact ⟨h1, h2, h3, h4, h5⟩
  · obtain ⟨h1, h2, h3, h4, h5, _⟩ := AnyDepotRoadPolicy_PfCalcEstimate w m
    exact ⟨h1, h2, h3, h4, h5⟩

theorem segment_cost_nonneg (w : World) (st : YAPFSettings) (v : RoadVehicle)
    (hL : 0 ≤ w.YAPF_TILE_LENGTH) (hC : 0 ≤ w.YAPF_TILE_CORNER_LENGTH)
    (hpen : NonNegPenalties st) (hocc : NonNegOccupancy w)
    (k : Nat) (first : PathPos) (steps : List FollowStep) (why : SegmentEnd)
    (hwhy : why = SegmentEnd.ceiling → steps ≠ []) :
    0 ≤ (k : Int) * w.YAPF_TILE_LENGTH + OneTileCost w st first + PathCost w st v first steps
      - (if why = SegmentEnd.ceiling then OneTileCost w st (PathEnd first steps) else 0) := by
  have hk : (0 : Int) ≤ (k : Int) * w.YAPF_TILE_LENGTH := mul_nonneg (Int.ofNat_nonneg _) hL
  have hone := OneTileCost_nonneg w st first hL hC hpen hocc
  have hpath := PathCost_nonneg w st v hL hC hpen hocc steps first
  by_cases hc : why = SegmentEnd.ceiling
  · have hlast := PathCost_ge_last w st v hL hC hpen hocc steps first (hwhy hc)
    rw [if_pos hc]
    linarith
  · rw [if_neg hc]
    linarith

theorem demoPenalties_NonNegPenalties : NonNegPenalties demoPenalties := by
  unfold NonNegPenalties
  decide

theorem hillWorld_NonNegOccupancy : NonNegOccupancy hillWorld := by
  intro tile t dir
  simp only [hillWorld]
  split <;> exact ⟨by norm_num, by norm_num⟩

set_option maxRecDepth 100000 in
theorem hillNode_expansion :
    PfFollowNode hillWorld demoPenalties demoLorry (demoFollower hillWorld demoLorry)
        (AnyDepotRoadPolicy hillWorld) 4098 3 hillNode
      = some [AstarCall.CreateNewNode (CreateNewNode (some 3) { tile := 660, td := 8 } false),
              AstarCall.FoundTarget hillChild] := by
  decide

/-! ### Non-negative costs and the estimate of the nearest-depot policy -/

set_option maxRecDepth 100000 in
theorem stairNode_child :
    PfFollowNodeChild stairWorld demoSettings demoLorry (demoFollower stairWorld demoLorry)
        (AnyDepotRoadPolicy stairWorld) 66 0 stairNode stairFirst 4
      = some (ChildResult.evaluated (CreateNewNode (some 0) { tile := 64, td := 4 } false)
          SegmentEnd.ceiling stairSteps stairChild true) := by
  decide

set_option maxRecDepth 100000 in
theorem stairNode_expansion :
    PfFollowNode stairWorld demoSettings demoLorry (demoFollower stairWorld demoLorry)
        (AnyDepotRoadPolicy stairWorld) 66 0 stairNode
      = some [AstarCall.CreateNewNode (CreateNewNode (some 0) { tile := 64, td := 4 } false),
              AstarCall.InsertNode stairChild] := by
  decide

/-! ### Cost of a segment -/

theorem PfFollowNode_child_cost (w : World) (st : YAPFSettings) (v : RoadVehicle)
    (tf : CFollowTrackRoad) (Yapf : DestinationPolicy) (fuel : Nat) (old : Nat) (old_node : Node)
    (calls : List AstarCall) (n : Node)
    (hY : (∃ self, Yapf = TileRoadPolicy w self) ∨ Yapf = AnyDepotRoadPolicy w)
    (h : PfFollowNode w st v tf Yapf fuel old old_node = some calls)
    (hn : AstarCall.InsertNode n ∈ calls ∨ AstarCall.FoundTarget n ∈ calls) :
    ∃ (r : FollowResult) (td : Trackdir) (steps : List FollowStep),
      tf.Follow old_node.m_segment_last = some r ∧
      td ∈ TrackdirLoop w r.trackdirs r.trackdirs ∧
      n.m_key = { r.m_new with td := td } ∧
      FollowerChain tf n.m_key steps ∧
      n.m_segment_last = PathEnd n.m_key steps ∧
      n.m_cost - old_node.m_cost
        = (r.m_tiles_skipped : Int) * w.YAPF_TILE_LENGTH
          + OneTileCost w st n.m_key + PathCost w st v n.m_key steps
          - (if steps ≠ [] ∧ w.MAX_MAP_SIZE < SegmentTiles r.m_tiles_skipped steps
              then OneTileCost w st n.m_segment_last else 0) := by
  obtain ⟨r, td, created, why, steps, hr, htd, hchild⟩ :=
    PfFollowNode_emitted w st v tf Yapf fuel old old_node calls n h hn
  obtain ⟨hcreated, hchain, hnode, _, hiff⟩ :=
    PfFollowNodeChild_run w st v tf Yapf fuel old old_node r td created why steps n true hchild
  obtain ⟨_, hcost, hlast, _, hkey⟩ := Policy_PfCalcEstimate w Yapf hY
    { created with
      m_segment_last := PathEnd { r.m_new with td := td } steps
      m_cost := old_node.m_cost + ((r.m_tiles_skipped : Int) * w.YAPF_TILE_LENGTH
        + OneTileCost w st { r.m_new with td := td }
        + PathCost w st v { r.m_new with td := td } steps
        - (if why = SegmentEnd.ceiling
            then OneTileCost w st (PathEnd { r.m_new with td := td } steps) else 0)) }
  rw [← hnode] at hcost hlast hkey
  dsimp only at hcost hlast hkey
  have hkey2 : n.m_key = { r.m_new with td := td } := by rw [hkey, hcreated]; rfl
  refine ⟨r, td, steps, hr, htd, hkey2, ?_, ?_, ?_⟩
  · rw [hkey2]; exact hchain
  · rw [hkey2]; exact hlast
  · rw [hcost, hlast, hkey2]
    by_cases hc : why = SegmentEnd.ceiling
    · rw [if_pos hc, if_pos (hiff.1 hc)]
      ring
    · rw [if_neg hc, if_neg (fun hcut => hc (hiff.2 hcut))]
      ring

/-- C14, as the code has it: for every child `n` that `PfFollowNode(old_node)`
inserts or reports as found there is the chain `steps` of single-choice
follower steps from the child's first position `n.m_key` to `n.m_segment_last`,
and `n.m_cost - old_node.m_cost` is `initial_skipped_tiles * YAPF_TILE_LENGTH`
plus `OneTileCost` of the first position plus, for every step, its skipped
tiles, `OneTileCost` of the position reached, `SlopeCost` and the speed
penalties, except that `OneTileCost` of `n.m_segment_last` is left out when the
segment was stopped by the tile ceiling, that is when the chain is not empty
and its tile count exceeds `MAX_MAP_SIZE`. -/
theorem PfFollowNode_segment_cost (w : World) (st : YAPFSettings) (v : RoadVehicle)
    (tf : CFollowTrackRoad) (Yapf : DestinationPolicy) (fuel : Nat) (old : Nat) (old_node : Node)
    (calls : List AstarCall) (n : Node)
    (hY : (∃ self, Yapf = TileRoadPolicy w self) ∨ Yapf = AnyDepotRoadPolicy w)
    (h : PfFollowNode w st v tf Yapf fuel old old_node = some calls)
    (hn : AstarCall.InsertNode n ∈ calls ∨ AstarCall.FoundTarget n ∈ calls) :
    ∃ (r : FollowResult) (td : Trackdir) (steps : List FollowStep),
      tf.Follow old_node.m_segment_last = some r ∧
      td ∈ TrackdirLoop w r.trackdirs r.trackdirs ∧
      n.m_key = { r.m_new with td := td } ∧
      FollowerChain tf n.m_key steps ∧
      n.m_segment_last = PathEnd n.m_key steps ∧
      n.m_cost - old_node.m_cost
        = (r.m_tiles_skipped : Int) * w.YAPF_TILE_LENGTH
          + OneTileCost w st n.m_key + PathCost w st v n.m_key steps
          - (if steps ≠ [] ∧ w.MAX_MAP_SIZE < SegmentTiles r.m_tiles_skipped steps
              then OneTileCost w st n.m_segment_last else 0) :=
  PfFollowNode_child_cost w st v tf Yapf fuel old old_node calls n hY h hn

/-- Witness for C14 on the hilly road: the child of `hillNode` costs
`4780 - 400`, the sum over its chain of moves from tile `660` to the depot. -/
theorem PfFollowNode_segment_cost_witness :
    ∃ (r : FollowResult) (td : Trackdir) (steps : List FollowStep),
      (demoFollower hillWorld demoLorry).Follow hillNode.m_segment_last = some r ∧
      td ∈ TrackdirLoop hillWorld r.trackdirs r.trackdirs ∧
      hillChild.m_key = { r.m_new with td := td } ∧
      FollowerChain (demoFollower hillWorld demoLorry) hillChild.m_key steps ∧
      hillChild.m_segment_last = PathEnd hillChild.m_key steps ∧
      hillChild.m_cost - hillNode.m_cost
        = (r.m_tiles_skipped : Int) * hillWorld.YAPF_TILE_LENGTH
          + OneTileCost hillWorld demoPenalties hillChild.m_key
          + PathCost hillWorld demoPenalties demoLorry hillChild.m_key steps
          - (if steps ≠ [] ∧ hillWorld.MAX_MAP_SIZE < SegmentTiles r.m_tiles_skipped steps
              then OneTileCost hillWorld demoPenalties hillChild.m_segment_last else 0) :=
  PfFollowNode_segment_cost hillWorld demoPenalties demoLorry (demoFollower hillWorld demoLorry)
    (AnyDepotRoadPolicy hillWorld) 4098 3 hillNode _ hillChild (Or.inr rfl) hillNode_expansion
    (Or.inr (by simp))

set_option maxRecDepth 100000 in
theorem stairSteps_facts :
    PathEnd stairChild.m_key stairSteps = stairChild.m_segment_last ∧
    (stairFirst.m_tiles_skipped : Int) * stairWorld.YAPF_TILE_LENGTH
      + OneTileCost stairWorld demoSettings stairChild.m_key
      + PathCost stairWorld demoSettings demoLorry stairChild.m_key stairSteps = 4686 ∧
    SegmentTiles stairFirst.m_tiles_skipped stairSteps = 65 :=
  ⟨by decide, by decide, by decide⟩

/-- C14 fails where the tile ceiling stops a segment: on the staircase road
(`MAX_MAP_SIZE = 64`, every tile a curve of cost `71`) the child of `stairNode`
runs the chain `stairSteps` of `65` single-choice moves from tile `64` to tile
`2145`; the sum over the `66` positions visited is `4686`, the child costs
`4615`, the tile cost of its last position missing. -/
theorem PfFollowNode_segment_cost_counterexample :
    PfFollowNode stairWorld demoSettings demoLorry (demoFollower stairWorld demoLorry)
        (AnyDepotRoadPolicy stairWorld) 66 0 stairNode
      = some [AstarCall.CreateNewNode (CreateNewNode (some 0) { tile := 64, td := 4 } false),
              AstarCall.InsertNode stairChild] ∧
    (demoFollower stairWorld demoLorry).Follow stairNode.m_segment_last = some stairFirst ∧
    FollowerChain (demoFollower stairWorld demoLorry) stairChild.m_key stairSteps ∧
    PathEnd stairChild.m_key stairSteps = stairChild.m_segment_last ∧
    stairChild.m_cost - stairNode.m_cost = 4615 ∧
    (stairFirst.m_tiles_skipped : Int) * stairWorld.YAPF_TILE_LENGTH
      + OneTileCost stairWorld demoSettings stairChild.m_key
      + PathCost stairWorld demoSettings demoLorry stairChild.m_key stairSteps = 4686 ∧
    OneTileCost stairWorld demoSettings stairChild.m_segment_last = 71 ∧
    SegmentTiles stairFirst.m_tiles_skipped stairSteps = 65 :=
  ⟨stairNode_expansion, by decide,
    (PfFollowNodeChild_run stairWorld demoSettings demoLorry (demoFollower stairWorld demoLorry)
      (AnyDepotRoadPolicy stairWorld) 66 0 stairNode stairFirst 4 _ _ stairSteps stairChild true
      stairNode_child).2.1,
    stairSteps_facts.1, by decide, stairSteps_facts.2.1, by decide, stairSteps_facts.2.2⟩

/-! ### Level crossings -/

theorem OneTileCost_without_crossings (w : World) (st : YAPFSettings) (pos : PathPos) :
    OneTileCost w st pos = OneTileCost (WithoutLevelCrossings w) st pos
      + st.road_crossing_penalty * (if LevelCrossingPos w pos then 1 else 0) := by
  obtain ⟨t, ht⟩ : ∃ t, w.GetTileType pos.tile = t := ⟨_, rfl⟩
  obtain ⟨d, hd⟩ : ∃ d, w.IsDiagonalTrackdir pos.td = d := ⟨_, rfl⟩
  obtain ⟨c, hc⟩ : ∃ c, w.IsLevelCrossingTile pos.tile = c := ⟨_, rfl⟩
  cases t <;> cases d <;> cases c <;>
    simp [OneTileCost, WithoutLevelCrossings, LevelCrossingPos, ht, hd, hc]

theorem PathCost_without_crossings (w : World) (st : YAPFSettings) (v : RoadVehicle) :
    ∀ (steps : List FollowStep) (p : PathPos),
      PathCost w st v p steps = PathCost (WithoutLevelCrossings w) st v p steps
        + st.road_crossing_penalty * CrossingCount w (steps.map fun x => x.m_new) := by
  intro steps
  induction steps with
  | nil => intro p; simp [PathCost, CrossingCount]
  | cons x rest ih =>
    intro p
    have hone := OneTileCost_without_crossings w st x.m_new
    have hslope : SlopeCost (WithoutLevelCrossings w) st p.tile x.m_new.tile
        = SlopeCost w st p.tile x.m_new.tile := rfl
    have hL : (WithoutLevelCrossings w).YAPF_TILE_LENGTH = w.YAPF_TILE_LENGTH := rfl
    simp only [PathCost, StepCost, List.map_cons, CrossingCount, ih x.m_new, hone, hslope, hL]
    split <;> ring

set_option maxRecDepth 100000 in
theorem stairCrossing_expansion :
    PfFollowNode stairCrossingWorld demoPenalties demoLorry
        (demoFollower stairCrossingWorld demoLorry) (AnyDepotRoadPolicy stairCrossingWorld)
        66 0 stairNode
      = some [AstarCall.CreateNewNode (CreateNewNode (some 0) { tile := 64, td := 4 } false),
              AstarCall.InsertNode stairCrossingChild] ∧
    PfFollowNode (WithoutLevelCrossings stairCrossingWorld) demoPenalties demoLorry
        (demoFollower (WithoutLevelCrossings stairCrossingWorld) demoLorry)
        (AnyDepotRoadPolicy (WithoutLevelCrossings stairCrossingWorld)) 66 0 stairNode
      = some [AstarCall.CreateNewNode (CreateNewNode (some 0) { tile := 64, td := 4 } false),
              AstarCall.InsertNode stairCrossingChild] :=
  ⟨by decide, by decide⟩

set_option maxRecDepth 100000 in
theorem stairCrossing_child :
    PfFollowNodeChild stairCrossingWorld demoPenalties demoLorry
        (demoFollower stairCrossingWorld demoLorry) (AnyDepotRoadPolicy stairCrossingWorld)
        66 0 stairNode stairFirst 4
      = some (ChildResult.evaluated (CreateNewNode (some 0) { tile := 64, td := 4 } false)
          SegmentEnd.ceiling stairCrossingSteps stairCrossingChild true) := by
  decide

set_option maxRecDepth 100000 in
theorem stairCrossingSteps_facts :
    PathEnd stairCrossingChild.m_key stairCrossingSteps = stairCrossingChild.m_segment_last ∧
    CrossingCount stairCrossingWorld
      (stairCrossingChild.m_key :: stairCrossingSteps.map fun x => x.m_new) = 1 ∧
    CrossingCount (WithoutLevelCrossings stairCrossingWorld)
      (stairCrossingChild.m_key :: stairCrossingSteps.map fun x => x.m_new) = 0 :=
  ⟨by decide, by decide, by decide⟩

/-- C16, as the code has it: on a diagonal trackdir on a level-crossing tile
`OneTileCost` is `YAPF_TILE_LENGTH + road_crossing_penalty`, and
`YAPF_TILE_LENGTH` in the same world without level crossings; and for every
child `n` that `PfFollowNode(old_node)` inserts or reports as found, with its
chain `steps` of follower moves, `n.m_cost - old_node.m_cost` is the cost of
the same segment in the world without level crossings plus
`road_crossing_penalty` once for every level-crossing position of the segment,
except for `n.m_segment_last` when the segment was stopped by the tile ceiling
(the chain is not empty and its tile count exceeds `MAX_MAP_SIZE`): a crossing
there is not charged. -/
theorem level_crossing_charge (w : World) (st : YAPFSettings) (v : RoadVehicle)
    (tf : CFollowTrackRoad) (Yapf : DestinationPolicy) (fuel : Nat) (old : Nat) (old_node : Node)
    (calls : List AstarCall) (n : Node)
    (hY : (∃ self, Yapf = TileRoadPolicy w self) ∨ Yapf = AnyDepotRoadPolicy w)
    (h : PfFollowNode w st v tf Yapf fuel old old_node = some calls)
    (hn : AstarCall.InsertNode n ∈ calls ∨ AstarCall.FoundTarget n ∈ calls) :
    (∀ pos : PathPos, w.IsDiagonalTrackdir pos.td = true →
      w.GetTileType pos.tile = TileType.TT_MISC → w.IsLevelCrossingTile pos.tile = true →
      OneTileCost w st pos = w.YAPF_TILE_LENGTH + st.road_crossing_penalty ∧
        OneTileCost (WithoutLevelCrossings w) st pos = w.YAPF_TILE_LENGTH) ∧
    ∃ (r : FollowResult) (steps : List FollowStep),
      tf.Follow old_node.m_segment_last = some r ∧
      FollowerChain tf n.m_key steps ∧
      n.m_segment_last = PathEnd n.m_key steps ∧
      n.m_cost - old_node.m_cost
        = ((r.m_tiles_skipped : Int) * w.YAPF_TILE_LENGTH
            + OneTileCost (WithoutLevelCrossings w) st n.m_key
            + PathCost (WithoutLevelCrossings w) st v n.m_key steps
            - (if steps ≠ [] ∧ w.MAX_MAP_SIZE < SegmentTiles r.m_tiles_skipped steps
                then OneTileCost (WithoutLevelCrossings w) st n.m_segment_last else 0))
          + st.road_crossing_penalty
            * (CrossingCount w (n.m_key :: steps.map fun x => x.m_new)
              - (if (steps ≠ [] ∧ w.MAX_MAP_SIZE < SegmentTiles r.m_tiles_skipped steps) ∧
                    LevelCrossingPos w n.m_segment_last = true
                  then 1 else 0)) := by
  constructor
  · intro pos hd ht hc
    constructor
    · simp [OneTileCost, hd, ht, hc]
    · simp [OneTileCost, WithoutLevelCrossings, hd, ht]
  · obtain ⟨r, td, steps, hr, _, _, hchain, hlast, hcost⟩ :=
      PfFollowNode_child_cost w st v tf Yapf fuel old old_node calls n hY h hn
    refine ⟨r, steps, hr, hchain, hlast, ?_⟩
    rw [hcost, OneTileCost_without_crossings w st n.m_key,
      PathCost_without_crossings w st v steps n.m_key,
      OneTileCost_without_crossings w st n.m_segment_last]
    simp only [CrossingCount]
    split_ifs <;> first | ring1 | (exfalso; tauto)

/-- Witness for C16 on the hilly road: the child of `hillNode` runs over the
one level crossing, tile `660`, and its cost exceeds the cost of the same
segment without a crossing by `road_crossing_penalty * 1`. -/
theorem level_crossing_charge_witness :
    OneTileCost hillWorld demoPenalties { tile := 660, td := 8 } = 100 + 50 ∧
    ∃ (r : FollowResult) (steps : List FollowStep),
      (demoFollower hillWorld demoLorry).Follow hillNode.m_segment_last = some r ∧
      FollowerChain (demoFollower hillWorld demoLorry) hillChild.m_key steps ∧
      hillChild.m_segment_last = PathEnd hillChild.m_key steps ∧
      hillChild.m_cost - hillNode.m_cost
        = ((r.m_tiles_skipped : Int) * hillWorld.YAPF_TILE_LENGTH
            + OneTileCost (WithoutLevelCrossings hillWorld) demoPenalties hillChild.m_key
            + PathCost (WithoutLevelCrossings hillWorld) demoPenalties demoLorry
                hillChild.m_key steps
            - (if steps ≠ [] ∧ hillWorld.MAX_MAP_SIZE < SegmentTiles r.m_tiles_skipped steps
                then OneTileCost (WithoutLevelCrossings hillWorld) demoPenalties
                  hillChild.m_segment_last else 0))
          + demoPenalties.road_crossing_penalty
            * (CrossingCount hillWorld (hillChild.m_key :: steps.map fun x => x.m_new)
              - (if (steps ≠ [] ∧
                      hillWorld.MAX_MAP_SIZE < SegmentTiles r.m_tiles_skipped steps) ∧
                    LevelCrossingPos hillWorld hillChild.m_segment_last = true
                  then 1 else 0)) :=
  have h := level_crossing_charge hillWorld demoPenalties demoLorry
    (demoFollower hillWorld demoLorry) (AnyDepotRoadPolicy hillWorld) 4098 3 hillNode _
    hillChild (Or.inr rfl) hillNode_expansion (Or.inr (by simp))
  ⟨(h.1 { tile := 660, td := 8 } (by decide) (by decide) (by decide)).1, h.2⟩

/-- C16 fails where the tile ceiling stops a segment on a level crossing: on
the staircase road with the crossing on tile `2145` (`MAX_MAP_SIZE = 64`,
`road_crossing_penalty = 50`) the segment of the child of `stairNode` runs
over exactly one level-crossing position, its last one, where `OneTileCost` is
`150`; the child is the same node, of cost `6565`, in that world and in the same
world without the crossing, so the crossing is charged nothing instead of
`50`. -/
theorem level_crossing_charge_counterexample :
    PfFollowNode stairCrossingWorld demoPenalties demoLorry
        (demoFollower stairCrossingWorld demoLorry) (AnyDepotRoadPolicy stairCrossingWorld)
        66 0 stairNode
      = some [AstarCall.CreateNewNode (CreateNewNode (some 0) { tile := 64, td := 4 } false),
              AstarCall.InsertNode stairCrossingChild] ∧
    PfFollowNode (WithoutLevelCrossings stairCrossingWorld) demoPenalties demoLorry
        (demoFollower (WithoutLevelCrossings stairCrossingWorld) demoLorry)
        (AnyDepotRoadPolicy (WithoutLevelCrossings stairCrossingWorld)) 66 0 stairNode
      = some [AstarCall.CreateNewNode (CreateNewNode (some 0) { tile := 64, td := 4 } false),
              AstarCall.InsertNode stairCrossingChild] ∧
    FollowerChain (demoFollower stairCrossingWorld demoLorry) stairCrossingChild.m_key
      stairCrossingSteps ∧
    PathEnd stairCrossingChild.m_key stairCrossingSteps = stairCrossingChild.m_segment_last ∧
    CrossingCount stairCrossingWorld
      (stairCrossingChild.m_key :: stairCrossingSteps.map fun x => x.m_new) = 1 ∧
    LevelCrossingPos stairCrossingWorld stairCrossingChild.m_segment_last = true ∧
    OneTileCost stairCrossingWorld demoPenalties stairCrossingChild.m_segment_last = 100 + 50 ∧
    demoPenalties.road_crossing_penalty = 50 ∧
    stairCrossingChild.m_cost = 6565 :=
  ⟨stairCrossing_expansion.1, stairCrossing_expansion.2,
    (PfFollowNodeChild_run stairCrossingWorld demoPenalties demoLorry
      (demoFollower stairCrossingWorld demoLorry) (AnyDepotRoadPolicy stairCrossingWorld) 66 0
      stairNode stairFirst 4 _ _ stairCrossingSteps stairCrossingChild true
      stairCrossing_child).2.1,
    stairCrossingSteps_facts.1, stairCrossingSteps_facts.2.1, by decide, by decide, by decide,
    by decide⟩

/-! ### Estimate of the fixed-destination policy along an expansion -/

theorem PathFollows_of_FollowerChain (w : World) (tf : CFollowTrackRoad)
    (hadj : FollowerEdgeAdjacent w tf) :
    ∀ (steps : List FollowStep) (p : PathPos), FollowerChain tf p steps → PathFollows w p steps := by
  intro steps
  induction steps with
  | nil => intro p _; trivial
  | cons x rest ih =>
    intro p h
    obtain ⟨⟨r, hr, hs, hx⟩, hrest⟩ := h
    refine ⟨?_, ih x.m_new hrest⟩
    rw [hx]
    exact (hadj p r hr).1 hs

theorem PfCalcEstimate_eq_distance (w : World) (self : CYapfDestinationTileRoadT) (m : Node) :
    (CYapfDestinationTileRoadT.PfDetectDestinationTile w self m.m_segment_last = true →
      (CYapfDestinationTileRoadT.PfCalcEstimate w self m).2.m_estimate = m.m_cost) ∧
    (CYapfDestinationTileRoadT.PfDetectDestinationTile w self m.m_segment_last = false →
      (CYapfDestinationTileRoadT.PfCalcEstimate w self m).2.m_estimate
        = m.m_cost + EstimateDistance w self m.m_segment_last) := by
  constructor
  · intro hd
    simp [CYapfDestinationTileRoadT.PfCalcEstimate, CYapfDestinationTileRoadT.PfDetectDestination,
      hd]
  · intro hd
    simp only [CYapfDestinationTileRoadT.PfCalcEstimate,
      CYapfDestinationTileRoadT.PfDetectDestination, hd, Bool.false_eq_true, if_false,
      EstimateDistance, Octile, ExitX, ExitY]
    ring

theorem EstimateDistance_dest (w : World) (self : CYapfDestinationTileRoadT) (pos : PathPos)
    (h : pos.tile = self.m_destTile) : EstimateDistance w self pos = 0 := by
  have hX : ExitX w pos - 2 * (w.TileX self.m_destTile : Int)
      = 1 * dg_dir_to_x_offs (w.TrackdirToExitdir pos.td) := by
    simp only [ExitX, h]; ring
  have hY : ExitY w pos - 2 * (w.TileY self.m_destTile : Int)
      = 1 * dg_dir_to_y_offs (w.TrackdirToExitdir pos.td) := by
    simp only [ExitY, h]; ring
  unfold EstimateDistance
  rw [hX, hY, Octile_axis, abs_one, one_mul, sub_self]

theorem odd_abs_diff (x y : Int) (h : (x + y) % 2 = 1) : 1 ≤ abs (|x| - |y|) := by
  rcases abs_cases x with ⟨hx, _⟩ | ⟨hx, _⟩ <;>
    rcases abs_cases y with ⟨hy, _⟩ | ⟨hy, _⟩ <;>
    rcases abs_cases (|x| - |y|) with ⟨hz, _⟩ | ⟨hz, _⟩ <;>
    omega

theorem EstimateDistance_nonneg (w : World) (self : CYapfDestinationTileRoadT) (pos : PathPos)
    (hh : 0 ≤ w.YAPF_TILE_LENGTH.tdiv 2) (hc : 0 ≤ w.YAPF_TILE_CORNER_LENGTH) :
    0 ≤ EstimateDistance w self pos := by
  have hodd : 1 ≤ abs (|ExitX w pos - 2 * (w.TileX self.m_destTile : Int)|
      - |ExitY w pos - 2 * (w.TileY self.m_destTile : Int)|) := by
    apply odd_abs_diff
    simp only [ExitX, ExitY]
    generalize w.TrackdirToExitdir pos.td = d
    fin_cases d <;> simp [dg_dir_to_x_offs, dg_dir_to_y_offs] <;> omega
  have hmin : 0 ≤ min |ExitX w pos - 2 * (w.TileX self.m_destTile : Int)|
      |ExitY w pos - 2 * (w.TileY self.m_destTile : Int)| :=
    le_min (abs_nonneg _) (abs_nonneg _)
  unfold EstimateDistance Octile
  nlinarith [mul_nonneg hmin hc]

theorem FirstStep_cost (w : World) (st : YAPFSettings) (v : RoadVehicle) (p : PathPos)
    (r : FollowResult) (td : Trackdir) (steps : List FollowStep) :
    PathCost w st v p (FirstStep r td :: steps)
      = (r.m_tiles_skipped : Int) * w.YAPF_TILE_LENGTH
        + OneTileCost w st { r.m_new with td := td }
        + PathCost w st v { r.m_new with td := td } steps := by
  simp [PathCost, StepCost, FirstStep]

/-- Over the integers: under the fixed-destination policy, over a follower that
only moves between edge-adjacent tiles (straight tunnel or bridge skips
included), with penalties and occupancies that are not negative, a tile length
`L >= 0` and a corner length between `L / 2` and `2 * (L / 2)`, let `old_node`
be a node whose estimate is at most its cost plus the distance term of
`PfCalcEstimate` at its segment end, as it is for a fresh node and for every
node the policy has estimated.  Then every child `n` that
`PfFollowNode(old_node)` inserts or reports as found has `old_node` as its
parent, and unless its segment was stopped by the tile ceiling or ends on a
destination tile other than the stored `m_destTile` (another tile of the
destination station), `n.m_estimate >= old_node.m_estimate`, and `n` again has
an estimate of at most its cost plus the distance term. -/
theorem PfFollowNode_monotone_estimate_unbounded (w : World) (st : YAPFSettings)
    (v : RoadVehicle) (tf : CFollowTrackRoad) (self : CYapfDestinationTileRoadT) (fuel : Nat) (old : Nat)
    (old_node : Node) (calls : List AstarCall) (n : Node)
    (hL : 0 ≤ w.YAPF_TILE_LENGTH)
    (hc1 : w.YAPF_TILE_LENGTH.tdiv 2 ≤ w.YAPF_TILE_CORNER_LENGTH)
    (hc2 : w.YAPF_TILE_CORNER_LENGTH ≤ 2 * w.YAPF_TILE_LENGTH.tdiv 2)
    (hpen : NonNegPenalties st) (hocc : NonNegOccupancy w)
    (hadj : FollowerEdgeAdjacent w tf)
    (hold : old_node.m_estimate
      ≤ old_node.m_cost + EstimateDistance w self old_node.m_segment_last)
    (h : PfFollowNode w st v tf (TileRoadPolicy w self) fuel old old_node = some calls)
    (hn : AstarCall.InsertNode n ∈ calls ∨ AstarCall.FoundTarget n ∈ calls) :
    n.m_parent = some old ∧
    (∃ (r : FollowResult) (td : Trackdir) (created : Node) (why : SegmentEnd)
        (steps : List FollowStep),
      tf.Follow old_node.m_segment_last = some r ∧
      PfFollowNodeChild w st v tf (TileRoadPolicy w self) fuel old old_node r td
        = some (ChildResult.evaluated created why steps n true) ∧
      (why ≠ SegmentEnd.ceiling →
        (CYapfDestinationTileRoadT.PfDetectDestinationTile w self n.m_segment_last = true →
          n.m_segment_last.tile = self.m_destTile) →
        n.m_estimate ≥ old_node.m_estimate ∧
          n.m_estimate ≤ n.m_cost + EstimateDistance w self n.m_segment_last)) ∧
    (∀ (parent : Option Nat) (pos : PathPos) (is_choice : Bool),
      (CreateNewNode parent pos is_choice).m_estimate
        ≤ (CreateNewNode parent pos is_choice).m_cost
          + EstimateDistance w self (CreateNewNode parent pos is_choice).m_segment_last) := by
  obtain ⟨hh, _⟩ := half_tile_facts _ hL
  obtain ⟨r, td, created, why, steps, hr, htd, hchild⟩ :=
    PfFollowNode_emitted w st v tf (TileRoadPolicy w self) fuel old old_node calls n h hn
  obtain ⟨hcreated, hchain, hnode, _, _⟩ :=
    PfFollowNodeChild_run w st v tf (TileRoadPolicy w self) fuel old old_node r td created why
      steps n true hchild
  refine ⟨?_, ⟨r, td, created, why, steps, hr, hchild, ?_⟩, ?_⟩
  · rw [hnode, (TileRoadPolicy_PfCalcEstimate w self _).2.2.2.1, hcreated]
    rfl
  · intro hwhy hdest
    rw [if_neg hwhy, sub_zero] at hnode
    obtain ⟨_, hcost, hlast, _, _, _⟩ := TileRoadPolicy_PfCalcEstimate w self
      { created with
        m_segment_last := PathEnd { r.m_new with td := td } steps
        m_cost := old_node.m_cost + ((r.m_tiles_skipped : Int) * w.YAPF_TILE_LENGTH
          + OneTileCost w st { r.m_new with td := td }
          + PathCost w st v { r.m_new with td := td } steps) }
    obtain ⟨hest1, hest2⟩ := PfCalcEstimate_eq_distance w self
      { created with
        m_segment_last := PathEnd { r.m_new with td := td } steps
        m_cost := old_node.m_cost + ((r.m_tiles_skipped : Int) * w.YAPF_TILE_LENGTH
          + OneTileCost w st { r.m_new with td := td }
          + PathCost w st v { r.m_new with td := td } steps) }
    have hpol : (TileRoadPolicy w self).PfCalcEstimate
        = CYapfDestinationTileRoadT.PfCalcEstimate w self := rfl
    rw [hpol] at hnode hcost hlast
    rw [← hnode] at hcost hlast hest1 hest2
    dsimp only at hcost hlast hest1 hest2
    -- the chain from the parent's segment end
    have hfirst : EdgeAdjacent w old_node.m_segment_last (FirstStep r td) :=
      (hadj old_node.m_segment_last r hr).2 td (testBit_of_mem_TrackdirLoop w _ _ td htd)
    have hfollows : PathFollows w old_node.m_segment_last (FirstStep r td :: steps) :=
      ⟨hfirst, PathFollows_of_FollowerChain w tf hadj steps _ hchain⟩
    obtain ⟨hpot, _⟩ := Octile_path_le w st v (2 * (w.TileX self.m_destTile : Int))
      (2 * (w.TileY self.m_destTile : Int)) hL hc1 hc2 hpen hocc _ _ hfollows
    rw [FirstStep_cost] at hpot
    have hend : PathEnd old_node.m_segment_last (FirstStep r td :: steps)
        = n.m_segment_last := by
      rw [hlast]; rfl
    rw [hend] at hpot
    have hdist : n.m_estimate = n.m_cost + EstimateDistance w self n.m_segment_last := by
      cases hd : CYapfDestinationTileRoadT.PfDetectDestinationTile w self n.m_segment_last with
      | true =>
        rw [hlast] at hd
        have h1 := hest1 hd
        rw [hlast, EstimateDistance_dest w self _ (by rw [← hlast]; exact hdest (by rw [hlast]; exact hd))]
        rw [h1, hcost]
        ring
      | false =>
        rw [hlast] at hd
        have h2 := hest2 hd
        rw [h2, hcost, hlast]
    constructor
    · rw [ge_iff_le, hdist, hcost]
      unfold EstimateDistance at hold ⊢
      linarith
    · exact le_of_eq hdist
  · intro parent pos is_choice
    have := EstimateDistance_nonneg w self pos hh (le_trans hh hc1)
    simpa [CreateNewNode] using this

theorem PfFollowNodeChild_key (w : World) (st : YAPFSettings) (v : RoadVehicle)
    (tf : CFollowTrackRoad) (Yapf : DestinationPolicy) (fuel : Nat) (old : Nat) (old_node : Node)
    (r : FollowResult) (td : Trackdir) (created : Node) (why : SegmentEnd)
    (steps : List FollowStep) (n : Node) (bValid : Bool)
    (hY : (∃ self, Yapf = TileRoadPolicy w self) ∨ Yapf = AnyDepotRoadPolicy w)
    (h : PfFollowNodeChild w st v tf Yapf fuel old old_node r td
      = some (ChildResult.evaluated created why steps n bValid)) :
    n.m_key = { r.m_new with td := td } := by
  obtain ⟨hcreated, _, hnode, _, _⟩ :=
    PfFollowNodeChild_run w st v tf Yapf fuel old old_node r td created why steps n bValid h
  rw [hnode, (Policy_PfCalcEstimate w Yapf hY _).2.2.2.2, hcreated]
  rfl

theorem testBit_288 (td : Nat) (h : Nat.testBit 288 td = true) : td = 5 ∨ td = 8 := by
  have hlt := lt_of_testBit_of_lt_two_pow 288 td 9 h (by decide)
  interval_cases td <;>
    first
    | exact Or.inl rfl
    | exact Or.inr rfl
    | exact absurd h (by decide)

theorem testBit_256 (td : Nat) (h : Nat.testBit 256 td = true) : td = 8 := by
  have hlt := lt_of_testBit_of_lt_two_pow 256 td 9 h (by decide)
  interval_cases td <;>
    first
    | rfl
    | exact absurd h (by decide)

theorem lineFollower_EdgeAdjacent : FollowerEdgeAdjacent demoWorld lineFollower := by
  intro p r hr
  simp only [lineFollower] at hr
  split_ifs at hr with h1 h2 h3
  · simp only [Option.some.injEq] at hr
    subst hr h1
    refine ⟨fun hs => absurd hs (by decide), ?_⟩
    intro td htd
    rcases testBit_288 td htd with rfl | rfl <;> (unfold EdgeAdjacent; decide)
  · simp only [Option.some.injEq] at hr
    subst hr h2
    refine ⟨fun _ => by unfold EdgeAdjacent; decide, ?_⟩
    intro td htd
    rcases testBit_256 td htd with rfl
    unfold EdgeAdjacent
    decide
  · simp only [Option.some.injEq] at hr
    subst hr h3
    refine ⟨fun _ => by unfold EdgeAdjacent; decide, ?_⟩
    intro td htd
    rcases testBit_256 td htd with rfl
    unfold EdgeAdjacent
    decide

theorem lorryParent_expansion :
    PfFollowNode demoWorld demoSettings demoLorry lineFollower
        (TileRoadPolicy demoWorld
          (CYapfDestinationTileRoadT.SetDestination demoWorld demoDest0 demoLorry))
        4098 2 lorryParent
      = some [AstarCall.CreateNewNode (CreateNewNode (some 2) { tile := 651, td := 5 } true),
              AstarCall.InsertNode lorryTurnChild,
              AstarCall.CreateNewNode (CreateNewNode (some 2) { tile := 651, td := 8 } true),
              AstarCall.FoundTarget lorryChild] := by
  decide

theorem lorryChild_run :
    PfFollowNodeChild demoWorld demoSettings demoLorry lineFollower
        (TileRoadPolicy demoWorld
          (CYapfDestinationTileRoadT.SetDestination demoWorld demoDest0 demoLorry))
        4098 2 lorryParent
        { m_new := { tile := 651, td := 255 }, trackdirs := 288, is_single := false,
          m_tiles_skipped := 0, min_speed := 0, max_speed := 2147483647 } 8
      = some (ChildResult.evaluated (CreateNewNode (some 2) { tile := 651, td := 8 } true)
          SegmentEnd.destination
          [{ m_new := { tile := 652, td := 8 }, m_tiles_skipped := 0, min_speed := 0,
             max_speed := 2147483647, in_segment := true },
           { m_new := { tile := 653, td := 8 }, m_tiles_skipped := 0, min_speed := 0,
             max_speed := 2147483647, in_segment := true }]
          lorryChild true) := by
  decide

/-! ### The tile ceiling and the assertion of `PfCalcEstimate` -/

set_option maxRecDepth 100000 in
theorem stairParent_expansion :
    PfFollowNode stairWorld demoSettings demoLorry (demoFollower stairWorld demoLorry)
        (TileRoadPolicy stairWorld stairDest) 66 0 stairParent
      = some [AstarCall.CreateNewNode (CreateNewNode (some 0) { tile := 64, td := 4 } false),
              AstarCall.InsertNode stairDestChild] := by
  decide

/-- On the staircase road, under the fixed-destination policy with the far
corner as destination, the child that the tile ceiling stops has the estimate
`8804`, below the estimate `8875` of its parent: the condition of the
`assert` of line 361 does not hold for it. -/
theorem ceiling_breaks_assertion :
    stairParent = (CYapfDestinationTileRoadT.PfCalcEstimate stairWorld stairDest stairNode).2 ∧
    PfFollowNode stairWorld demoSettings demoLorry (demoFollower stairWorld demoLorry)
        (TileRoadPolicy stairWorld stairDest) 66 0 stairParent
      = some [AstarCall.CreateNewNode (CreateNewNode (some 0) { tile := 64, td := 4 } false),
              AstarCall.InsertNode stairDestChild] ∧
    stairDestChild.m_parent = some 0 ∧
    ¬ (stairDestChild.m_estimate ≥ stairParent.m_estimate) :=
  ⟨by decide, stairParent_expansion, rfl, by decide⟩

/-! ### Rounds of the segment loop -/

theorem SegmentLoop_destination (w : World) (st : YAPFSettings) (v : RoadVehicle)
    (tf : CFollowTrackRoad) (detect : PathPos → Bool) (pos : PathPos) (k : Nat) (s : SegState)
    (h : detect s.m_new = true) :
    SegmentLoop w st v tf detect pos (k + 1) s
      = some (LoopExit.brk { s with segment_cost := s.segment_cost + OneTileCost w st s.m_new }
          SegmentEnd.destination) := by
  simp [SegmentLoop, h]

theorem SegmentLoop_depot (w : World) (st : YAPFSettings) (v : RoadVehicle)
    (tf : CFollowTrackRoad) (detect : PathPos → Bool) (pos : PathPos) (k : Nat) (s : SegState)
    (h : detect s.m_new = false) (hd : EntersDepot w s.m_new) :
    SegmentLoop w st v tf detect pos (k + 1) s
      = some (LoopExit.brk { s with segment_cost := s.segment_cost + OneTileCost w st s.m_new }
          SegmentEnd.depot) := by
  have hd' : w.IsRoadDepotTile s.m_new.tile = true ∧ s.m_new.td
      = w.DiagDirToDiagTrackdir (w.ReverseDiagDir (w.GetGroundDepotDirection s.m_new.tile)) := hd
  simp only [SegmentLoop, h, Bool.false_eq_true, if_false, if_pos hd']

theorem SegmentLoop_end_of_road (w : World) (st : YAPFSettings) (v : RoadVehicle)
    (tf : CFollowTrackRoad) (detect : PathPos → Bool) (pos : PathPos) (k : Nat) (s : SegState)
    (h : PassesThrough w detect s.m_new) (hf : tf.Follow s.m_new = none) :
    SegmentLoop w st v tf detect pos (k + 1) s
      = some (LoopExit.brk { s with segment_cost := s.segment_cost + OneTileCost w st s.m_new }
          SegmentEnd.end_of_road) := by
  have hd' : ¬ (w.IsRoadDepotTile s.m_new.tile = true ∧ s.m_new.td
      = w.DiagDirToDiagTrackdir (w.ReverseDiagDir (w.GetGroundDepotDirection s.m_new.tile))) :=
    h.2
  simp only [SegmentLoop, h.1, Bool.false_eq_true, if_false, if_neg hd', hf]

theorem SegmentLoop_junction (w : World) (st : YAPFSettings) (v : RoadVehicle)
    (tf : CFollowTrackRoad) (detect : PathPos → Bool) (pos : PathPos) (k : Nat) (s : SegState)
    (r : FollowResult)
    (h : PassesThrough w detect s.m_new) (hf : tf.Follow s.m_new = some r)
    (hs : r.is_single = false) :
    SegmentLoop w st v tf detect pos (k + 1) s
      = some (LoopExit.brk { s with segment_cost := s.segment_cost + OneTileCost w st s.m_new }
          SegmentEnd.junction) := by
  have hd' : ¬ (w.IsRoadDepotTile s.m_new.tile = true ∧ s.m_new.td
      = w.DiagDirToDiagTrackdir (w.ReverseDiagDir (w.GetGroundDepotDirection s.m_new.tile))) :=
    h.2
  simp only [SegmentLoop, h.1, Bool.false_eq_true, if_false, if_neg hd', hf, hs, Bool.not_false,
    if_true]

theorem SegmentLoop_return (w : World) (st : YAPFSettings) (v : RoadVehicle)
    (tf : CFollowTrackRoad) (detect : PathPos → Bool) (pos : PathPos) (k : Nat) (s : SegState)
    (r : FollowResult)
    (h : PassesThrough w detect s.m_new) (hf : tf.Follow s.m_new = some r)
    (hs : r.is_single = true) (hpos : r.m_new = pos) :
    SegmentLoop w st v tf detect pos (k + 1) s = some LoopExit.ret := by
  have hd' : ¬ (w.IsRoadDepotTile s.m_new.tile = true ∧ s.m_new.td
      = w.DiagDirToDiagTrackdir (w.ReverseDiagDir (w.GetGroundDepotDirection s.m_new.tile))) :=
    h.2
  simp only [SegmentLoop, h.1, Bool.false_eq_true, if_false, if_neg hd', hf, hs, Bool.not_true,
    if_pos hpos]

theorem SegmentLoop_round (w : World) (st : YAPFSettings) (v : RoadVehicle)
    (tf : CFollowTrackRoad) (detect : PathPos → Bool) (pos : PathPos) (k : Nat) (s : SegState)
    (r : FollowResult)
    (h : PassesThrough w detect s.m_new) (hf : tf.Follow s.m_new = some r)
    (hs : r.is_single = true) (hpos : r.m_new ≠ pos) :
    SegmentLoop w st v tf detect pos (k + 1) s
      = (if s.tiles + (r.m_tiles_skipped + 1) > w.MAX_MAP_SIZE
          then some (LoopExit.brk (RunSteps w st v s [r.toStep true]) SegmentEnd.ceiling)
          else SegmentLoop w st v tf detect pos k (RunSteps w st v s [r.toStep true])) := by
  have hd' : ¬ (w.IsRoadDepotTile s.m_new.tile = true ∧ s.m_new.td
      = w.DiagDirToDiagTrackdir (w.ReverseDiagDir (w.GetGroundDepotDirection s.m_new.tile))) :=
    h.2
  simp only [SegmentLoop, h.1, Bool.false_eq_true, if_false, if_neg hd', hf, hs, Bool.not_true,
    if_neg hpos, speed_terms_eq, RunSteps, FollowResult.toStep]

theorem SegmentLoop_advance (w : World) (st : YAPFSettings) (v : RoadVehicle)
    (tf : CFollowTrackRoad) (detect : PathPos → Bool) (pos : PathPos) (k : Nat) :
    ∀ (steps : List FollowStep) (s : SegState),
      Continues w tf detect pos s.m_new s.tiles steps →
      SegmentLoop w st v tf detect pos (steps.length + k) s
        = SegmentLoop w st v tf detect pos k (RunSteps w st v s steps) := by
  intro steps
  induction steps with
  | nil => intro s _; simp [RunSteps]
  | cons x rest ih =>
    intro s h
    obtain ⟨hpass, ⟨r, hf, hs, hx⟩, hpos, htiles, hrest⟩ := h
    subst hx
    have hlen : (r.toStep true :: rest).length + k = (rest.length + k) + 1 := by
      simp only [List.length_cons]; omega
    rw [hlen, SegmentLoop_round w st v tf detect pos _ s r hpass hf hs hpos,
      if_neg (by simp only [FollowResult.toStep] at htiles; omega)]
    have := ih (RunSteps w st v s [r.toStep true]) hrest
    rw [this]
    rfl

theorem RunSteps_facts (w : World) (st : YAPFSettings) (v : RoadVehicle) :
    ∀ (steps : List FollowStep) (s : SegState),
      (∀ x ∈ steps, x.in_segment = true) →
      (RunSteps w st v s steps).m_new = PathEnd s.m_new steps ∧
      (s.m_segment_last = s.m_new →
        (RunSteps w st v s steps).m_segment_last = PathEnd s.m_new steps) ∧
      (RunSteps w st v s steps).tiles = SegmentTiles s.tiles steps ∧
      (RunSteps w st v s steps).steps = s.steps ++ steps ∧
      (RunSteps w st v s steps).segment_cost + OneTileCost w st (PathEnd s.m_new steps)
        = s.segment_cost + OneTileCost w st s.m_new + PathCost w st v s.m_new steps := by
  intro steps
  induction steps with
  | nil =>
    intro s _
    simp [RunSteps, PathEnd, SegmentTiles, PathCost]
  | cons x rest ih =>
    intro s hin
    have hx : x.in_segment = true := hin x (by simp)
    obtain ⟨h1, h2, h3, h4, h5⟩ := ih
      { m_new := x.m_new, m_segment_last := x.m_new
        segment_cost := s.segment_cost + OneTileCost w st s.m_new
          + (x.m_tiles_skipped : Int) * w.YAPF_TILE_LENGTH
          + SlopeCost w st s.m_new.tile x.m_new.tile
          + SpeedCost v.GetDisplayMaxSpeed x.min_speed x.max_speed
        tiles := s.tiles + (x.m_tiles_skipped + 1)
        steps := s.steps ++ [x] } (fun y hy => hin y (by simp [hy]))
    dsimp only at h1 h2 h3 h4 h5
    refine ⟨h1, fun _ => h2 rfl, h3, ?_, ?_⟩
    · simp only [RunSteps, h4, List.append_assoc, List.singleton_append]
    · simp only [RunSteps, PathEnd, PathCost, StepCost, hx, if_true]
      linarith

theorem Continues_in_segment (w : World) (tf : CFollowTrackRoad) (detect : PathPos → Bool)
    (pos : PathPos) :
    ∀ (steps : List FollowStep) (p : PathPos) (tiles : Nat),
      Continues w tf detect pos p tiles steps →
      (∀ x ∈ steps, x.in_segment = true) ∧ FollowerChain tf p steps ∧
        (steps ≠ [] → SegmentTiles tiles steps ≤ w.MAX_MAP_SIZE) := by
  intro steps
  induction steps with
  | nil => intro p tiles _; exact ⟨by simp, trivial, fun h => absurd rfl h⟩
  | cons x rest ih =>
    intro p tiles h
    obtain ⟨_, ⟨r, hf, hs, hx⟩, _, htiles, hrest⟩ := h
    obtain ⟨h1, h2, h3⟩ := ih _ _ hrest
    refine ⟨?_, ⟨⟨r, hf, hs, hx⟩, h2⟩, ?_⟩
    · intro y hy
      rcases List.mem_cons.1 hy with rfl | hy
      · rw [hx]; rfl
      · exact h1 y hy
    · intro _
      cases rest with
      | nil => simpa [SegmentTiles] using htiles
      | cons y rest => exact h3 (by simp)

/-! ### Rounds of the loop over the reachable trackdirs -/

theorem PfFollowNodeChild_of_break (w : World) (st : YAPFSettings) (v : RoadVehicle)
    (tf : CFollowTrackRoad) (Yapf : DestinationPolicy) (fuel : Nat) (old : Nat) (old_node : Node)
    (r : FollowResult) (td : Trackdir) (s' : SegState) (why : SegmentEnd)
    (h : SegmentLoop w st v tf Yapf.PfDetectDestinationTile { r.m_new with td := td } fuel
      (FirstState w r td) = some (LoopExit.brk s' why)) :
    PfFollowNodeChild w st v tf Yapf fuel old old_node r td
      = some (ChildResult.evaluated
          (CreateNewNode (some old) { r.m_new with td := td } (!r.is_single)) why s'.steps
          (Yapf.PfCalcEstimate
            { CreateNewNode (some old) { r.m_new with td := td } (!r.is_single) with
              m_segment_last := s'.m_segment_last
              m_cost := old_node.m_cost + s'.segment_cost }).2
          (Yapf.PfCalcEstimate
            { CreateNewNode (some old) { r.m_new with td := td } (!r.is_single) with
              m_segment_last := s'.m_segment_last
              m_cost := old_node.m_cost + s'.segment_cost }).1) := by
  have h' : SegmentLoop w st v tf Yapf.PfDetectDestinationTile { r.m_new with td := td } fuel
      { m_new := { r.m_new with td := td }, m_segment_last := { r.m_new with td := td },
        segment_cost := (r.m_tiles_skipped : Int) * w.YAPF_TILE_LENGTH,
        tiles := r.m_tiles_skipped, steps := [] } = some (LoopExit.brk s' why) := h
  simp only [PfFollowNodeChild, h']

theorem PfFollowNodeChild_of_return (w : World) (st : YAPFSettings) (v : RoadVehicle)
    (tf : CFollowTrackRoad) (Yapf : DestinationPolicy) (fuel : Nat) (old : Nat) (old_node : Node)
    (r : FollowResult) (td : Trackdir)
    (h : SegmentLoop w st v tf Yapf.PfDetectDestinationTile { r.m_new with td := td } fuel
      (FirstState w r td) = some LoopExit.ret) :
    PfFollowNodeChild w st v tf Yapf fuel old old_node r td
      = some (ChildResult.looped
          (CreateNewNode (some old) { r.m_new with td := td } (!r.is_single))) := by
  have h' : SegmentLoop w st v tf Yapf.PfDetectDestinationTile { r.m_new with td := td } fuel
      { m_new := { r.m_new with td := td }, m_segment_last := { r.m_new with td := td },
        segment_cost := (r.m_tiles_skipped : Int) * w.YAPF_TILE_LENGTH,
        tiles := r.m_tiles_skipped, steps := [] } = some LoopExit.ret := h
  simp only [PfFollowNodeChild, h']

theorem PfFollowNodeLoop_cons_evaluated (w : World) (st : YAPFSettings) (v : RoadVehicle)
    (tf : CFollowTrackRoad) (Yapf : DestinationPolicy) (fuel : Nat) (old : Nat) (old_node : Node)
    (r : FollowResult) (td : Trackdir) (rest : List Trackdir) (created : Node)
    (why : SegmentEnd) (steps : List FollowStep) (n : Node) (bValid : Bool)
    (h : PfFollowNodeChild w st v tf Yapf fuel old old_node r td
      = some (ChildResult.evaluated created why steps n bValid)) :
    PfFollowNodeLoop w st v tf Yapf fuel old old_node r (td :: rest)
      = (PfFollowNodeLoop w st v tf Yapf fuel old old_node r rest).map
          fun calls => ChildCalls Yapf created n bValid ++ calls := by
  simp only [PfFollowNodeLoop, h]
  cases PfFollowNodeLoop w st v tf Yapf fuel old old_node r rest with
  | none => rfl
  | some calls => simp [ChildCalls]

theorem PfFollowNodeLoop_cons_looped (w : World) (st : YAPFSettings) (v : RoadVehicle)
    (tf : CFollowTrackRoad) (Yapf : DestinationPolicy) (fuel : Nat) (old : Nat) (old_node : Node)
    (r : FollowResult) (td : Trackdir) (rest : List Trackdir) (created : Node)
    (h : PfFollowNodeChild w st v tf Yapf fuel old old_node r td
      = some (ChildResult.looped created)) :
    PfFollowNodeLoop w st v tf Yapf fuel old old_node r (td :: rest)
      = some [AstarCall.CreateNewNode created] := by
  simp only [PfFollowNodeLoop, h]

theorem PfFollowNodeLoop_append (w : World) (st : YAPFSettings) (v : RoadVehicle)
    (tf : CFollowTrackRoad) (Yapf : DestinationPolicy) (fuel : Nat) (old : Nat) (old_node : Node)
    (r : FollowResult) (post : List Trackdir) :
    ∀ pre : List Trackdir,
      (∀ t ∈ pre, ∃ created why steps n bValid,
        PfFollowNodeChild w st v tf Yapf fuel old old_node r t
          = some (ChildResult.evaluated created why steps n bValid)) →
      PfFollowNodeLoop w st v tf Yapf fuel old old_node r (pre ++ post)
        = (PfFollowNodeLoop w st v tf Yapf fuel old old_node r pre).bind fun a =>
            (PfFollowNodeLoop w st v tf Yapf fuel old old_node r post).map fun b => a ++ b := by
  intro pre
  induction pre with
  | nil =>
    intro _
    simp only [List.nil_append, PfFollowNodeLoop, Option.some_bind]
    cases PfFollowNodeLoop w st v tf Yapf fuel old old_node r post <;> simp
  | cons t pre ih =>
    intro h
    obtain ⟨created, why, steps, n, bValid, hc⟩ := h t (by simp)
    have ih' := ih (fun u hu => h u (by simp [hu]))
    rw [List.cons_append, PfFollowNodeLoop_cons_evaluated _ _ _ _ _ _ _ _ _ _ _ _ _ _ _ _ hc,
      PfFollowNodeLoop_cons_evaluated _ _ _ _ _ _ _ _ _ _ _ _ _ _ _ _ hc, ih']
    cases PfFollowNodeLoop w st v tf Yapf fuel old old_node r pre with
    | none => rfl
    | some a =>
      cases PfFollowNodeLoop w st v tf Yapf fuel old old_node r post with
      | none => rfl
      | some b => simp

theorem Policy_PfDetectDestination (w : World) (Yapf : DestinationPolicy)
    (hY : (∃ self, Yapf = TileRoadPolicy w self) ∨ Yapf = AnyDepotRoadPolicy w) (m : Node) :
    Yapf.PfDetectDestination m = Yapf.PfDetectDestinationTile m.m_segment_last := by
  rcases hY with ⟨self, rfl⟩ | rfl <;> rfl

theorem PfFollowNodeLoop_call_key (w : World) (st : YAPFSettings) (v : RoadVehicle)
    (tf : CFollowTrackRoad) (Yapf : DestinationPolicy) (fuel : Nat) (old : Nat) (old_node : Node)
    (r : FollowResult)
    (hY : (∃ self, Yapf = TileRoadPolicy w self) ∨ Yapf = AnyDepotRoadPolicy w) :
    ∀ (tds : List Trackdir) (calls : List AstarCall),
      PfFollowNodeLoop w st v tf Yapf fuel old old_node r tds = some calls →
      ∀ c ∈ calls, ∃ t ∈ tds, c.node.m_key = { r.m_new with td := t } := by
  intro tds
  induction tds with
  | nil =>
    intro calls h c hc
    simp only [PfFollowNodeLoop, Option.some.injEq] at h
    subst h
    simp at hc
  | cons td rest ih =>
    intro calls h c hc
    cases hchild : PfFollowNodeChild w st v tf Yapf fuel old old_node r td with
    | none => simp [PfFollowNodeLoop, hchild] at h
    | some res =>
      cases res with
      | looped created =>
        rw [PfFollowNodeLoop_cons_looped _ _ _ _ _ _ _ _ _ _ _ _ hchild] at h
        simp only [Option.some.injEq] at h
        subst h
        simp only [List.mem_singleton] at hc
        subst hc
        simp only [PfFollowNodeChild] at hchild
        split at hchild
        · simp at hchild
        · simp only [Option.some.injEq, ChildResult.looped.injEq] at hchild
          subst hchild
          exact ⟨td, by simp, rfl⟩
        · simp at hchild
      | evaluated created why steps n bValid =>
        rw [PfFollowNodeLoop_cons_evaluated _ _ _ _ _ _ _ _ _ _ _ _ _ _ _ _ hchild] at h
        cases hrest : PfFollowNodeLoop w st v tf Yapf fuel old old_node r rest with
        | none => simp [hrest] at h
        | some calls' =>
          rw [hrest] at h
          simp only [Option.map_some', Option.some.injEq] at h
          subst h
          have hkey := PfFollowNodeChild_key w st v tf Yapf fuel old old_node r td created why
            steps n bValid hY hchild
          have hcreated := (PfFollowNodeChild_run w st v tf Yapf fuel old old_node r td created
            why steps n bValid hchild).1
          rcases List.mem_append.1 hc with hc | hc
          · refine ⟨td, by simp, ?_⟩
            simp only [ChildCalls, List.mem_cons] at hc
            rcases hc with rfl | hc
            · rw [hcreated]; rfl
            · split at hc
              · simp at hc
              · split at hc
                · simp only [List.mem_singleton] at hc
                  subst hc
                  exact hkey
                · simp only [List.mem_singleton] at hc
                  subst hc
                  exact hkey
          · obtain ⟨t, ht, hk⟩ := ih calls' hrest c hc
            exact ⟨t, by simp [ht], hk⟩

theorem SegmentTiles_ge : ∀ (steps : List FollowStep) (tiles : Nat),
    tiles + steps.length ≤ SegmentTiles tiles steps := by
  intro steps
  induction steps with
  | nil => intro tiles; simp [SegmentTiles]
  | cons x rest ih =>
    intro tiles
    have := ih (tiles + (x.m_tiles_skipped + 1))
    simp only [SegmentTiles, List.length_cons]
    omega

theorem child_of_stop (w : World) (st : YAPFSettings) (v : RoadVehicle)
    (tf : CFollowTrackRoad) (Yapf : DestinationPolicy) (fuel : Nat) (old : Nat) (old_node : Node)
    (r : FollowResult) (td : Trackdir) (steps : List FollowStep) (why : SegmentEnd)
    (hY : (∃ self, Yapf = TileRoadPolicy w self) ∨ Yapf = AnyDepotRoadPolicy w)
    (hcont : Continues w tf Yapf.PfDetectDestinationTile { r.m_new with td := td }
      { r.m_new with td := td } r.m_tiles_skipped steps)
    (hstop : ∀ k, SegmentLoop w st v tf Yapf.PfDetectDestinationTile { r.m_new with td := td }
      (k + 1) (RunSteps w st v (FirstState w r td) steps)
        = some (LoopExit.brk
            { RunSteps w st v (FirstState w r td) steps with
              segment_cost := (RunSteps w st v (FirstState w r td) steps).segment_cost
                + OneTileCost w st (RunSteps w st v (FirstState w r td) steps).m_new } why))
    (hfuel : steps.length + 1 ≤ fuel) :
    ∃ n : Node,
      PfFollowNodeChild w st v tf Yapf fuel old old_node r td
        = some (ChildResult.evaluated
            (CreateNewNode (some old) { r.m_new with td := td } (!r.is_single)) why steps n
            true) ∧
      n.m_key = { r.m_new with td := td } ∧
      n.m_parent = some old ∧
      n.m_segment_last = PathEnd { r.m_new with td := td } steps ∧
      n.m_cost = old_node.m_cost + (RunSteps w st v (FirstState w r td) steps).segment_cost
        + OneTileCost w st (PathEnd { r.m_new with td := td } steps) ∧
      n.m_cost = old_node.m_cost + ((r.m_tiles_skipped : Int) * w.YAPF_TILE_LENGTH
        + OneTileCost w st { r.m_new with td := td }
        + PathCost w st v { r.m_new with td := td } steps) ∧
      Yapf.PfDetectDestination n
        = Yapf.PfDetectDestinationTile (PathEnd { r.m_new with td := td } steps) := by
  obtain ⟨k, rfl⟩ : ∃ k, fuel = steps.length + (k + 1) := ⟨fuel - steps.length - 1, by omega⟩
  have hadv := SegmentLoop_advance w st v tf Yapf.PfDetectDestinationTile
    { r.m_new with td := td } (k + 1) steps (FirstState w r td) hcont
  rw [hstop k] at hadv
  have hchild := PfFollowNodeChild_of_break w st v tf Yapf _ old old_node r td _ why hadv
  obtain ⟨hin, _, _⟩ := Continues_in_segment w tf Yapf.PfDetectDestinationTile _ steps _ _ hcont
  obtain ⟨f1, f2, _, f4, f5⟩ := RunSteps_facts w st v steps (FirstState w r td) hin
  have f2' := f2 rfl
  obtain ⟨p1, p2, p3, p4, p5⟩ := Policy_PfCalcEstimate w Yapf hY
    { CreateNewNode (some old) { r.m_new with td := td } (!r.is_single) with
      m_segment_last := (RunSteps w st v (FirstState w r td) steps).m_segment_last
      m_cost := old_node.m_cost + ((RunSteps w st v (FirstState w r td) steps).segment_cost
        + OneTileCost w st (RunSteps w st v (FirstState w r td) steps).m_new) }
  dsimp only at hchild
  rw [p1] at hchild
  have hsteps : (RunSteps w st v (FirstState w r td) steps).steps = steps := by
    rw [f4]; rfl
  rw [hsteps] at hchild
  refine ⟨_, hchild, ?_, ?_, ?_, ?_, ?_, ?_⟩
  · rw [p5]; rfl
  · rw [p4]; rfl
  · rw [p3]; exact f2'
  · rw [p2]
    dsimp only
    rw [f1]
    simp only [FirstState]
    ring
  · rw [p2]
    dsimp only
    have := f5
    simp only [FirstState] at this f1 ⊢
    rw [f1]
    linarith
  · rw [Policy_PfDetectDestination w Yapf hY, p3]
    exact congrArg _ f2'

theorem Continues_before (w : World) (tf : CFollowTrackRoad) (detect : PathPos → Bool)
    (pos : PathPos) :
    ∀ (steps : List FollowStep) (p : PathPos) (tiles : Nat),
      Continues w tf detect pos p tiles steps →
      ∀ q ∈ (p :: steps.map fun x => x.m_new).dropLast, PassesThrough w detect q := by
  intro steps
  induction steps with
  | nil => intro p tiles _ q hq; simp at hq
  | cons x rest ih =>
    intro p tiles h q hq
    obtain ⟨hpass, _, _, _, hrest⟩ := h
    simp only [List.map_cons, List.dropLast_cons₂, List.mem_cons] at hq
    rcases hq with rfl | hq
    · exact hpass
    · exact ih _ _ hrest q hq

/-! ### Where a segment ends -/

/-- C21: let the segment loop of the child for the trackdir `td` run over the
single-choice moves `steps` from its first position without any stop (no
destination, no depot entered, no return to the first position, tile counter
not above `MAX_MAP_SIZE`), and let the position reached satisfy
`PfDetectDestinationTile`.  Then, with enough rounds allowed, the child's
`m_segment_last` is that position, the first one of the run that is a
destination; its cost is the cost accumulated on arriving there plus the
`OneTileCost` of that position; `PfDetectDestination` holds for it, and the
round of the loop over the trackdirs calls `CreateNewNode` and `FoundTarget`
for it, not `InsertNode`.  This is so under both destination policies. -/
theorem segment_stops_at_destination (w : World) (st : YAPFSettings) (v : RoadVehicle)
    (tf : CFollowTrackRoad) (Yapf : DestinationPolicy) (fuel : Nat) (old : Nat) (old_node : Node)
    (r : FollowResult) (td : Trackdir) (rest : List Trackdir) (steps : List FollowStep)
    (hY : (∃ self, Yapf = TileRoadPolicy w self) ∨ Yapf = AnyDepotRoadPolicy w)
    (hcont : Continues w tf Yapf.PfDetectDestinationTile { r.m_new with td := td }
      { r.m_new with td := td } r.m_tiles_skipped steps)
    (hdest : Yapf.PfDetectDestinationTile (PathEnd { r.m_new with td := td } steps) = true)
    (hfuel : steps.length + 1 ≤ fuel) :
    ∃ n : Node,
      PfFollowNodeChild w st v tf Yapf fuel old old_node r td
        = some (ChildResult.evaluated
            (CreateNewNode (some old) { r.m_new with td := td } (!r.is_single))
            SegmentEnd.destination steps n true) ∧
      n.m_segment_last = PathEnd { r.m_new with td := td } steps ∧
      (∀ q ∈ ({ r.m_new with td := td } :: steps.map fun x => x.m_new).dropLast,
        Yapf.PfDetectDestinationTile q = false) ∧
      n.m_cost = old_node.m_cost + (RunSteps w st v (FirstState w r td) steps).segment_cost
        + OneTileCost w st n.m_segment_last ∧
      n.m_cost = old_node.m_cost + ((r.m_tiles_skipped : Int) * w.YAPF_TILE_LENGTH
        + OneTileCost w st { r.m_new with td := td }
        + PathCost w st v { r.m_new with td := td } steps) ∧
      Yapf.PfDetectDestination n = true ∧
      PfFollowNodeLoop w st v tf Yapf fuel old old_node r (td :: rest)
        = (PfFollowNodeLoop w st v tf Yapf fuel old old_node r rest).map fun calls =>
            AstarCall.CreateNewNode
                (CreateNewNode (some old) { r.m_new with td := td } (!r.is_single))
              :: AstarCall.FoundTarget n :: calls := by
  obtain ⟨hin, _, _⟩ := Continues_in_segment w tf Yapf.PfDetectDestinationTile _ steps _ _ hcont
  obtain ⟨f1, _, _, _, _⟩ := RunSteps_facts w st v steps (FirstState w r td) hin
  have hstop : ∀ k, SegmentLoop w st v tf Yapf.PfDetectDestinationTile { r.m_new with td := td }
      (k + 1) (RunSteps w st v (FirstState w r td) steps)
        = some (LoopExit.brk
            { RunSteps w st v (FirstState w r td) steps with
              segment_cost := (RunSteps w st v (FirstState w r td) steps).segment_cost
                + OneTileCost w st (RunSteps w st v (FirstState w r td) steps).m_new }
            SegmentEnd.destination) := by
    intro k
    apply SegmentLoop_destination
    rw [f1]
    exact hdest
  obtain ⟨n, hchild, _, _, hlast, hcost1, hcost2, hdet⟩ :=
    child_of_stop w st v tf Yapf fuel old old_node r td steps SegmentEnd.destination hY hcont
      hstop hfuel
  refine ⟨n, hchild, hlast, ?_, ?_, hcost2, ?_, ?_⟩
  · intro q hq
    exact (Continues_before w tf Yapf.PfDetectDestinationTile _ steps _ _ hcont q hq).1
  · rw [hlast]; exact hcost1
  · rw [hdet]; exact hdest
  · rw [PfFollowNodeLoop_cons_evaluated _ _ _ _ _ _ _ _ _ _ _ _ _ _ _ _ hchild]
    have hd : Yapf.PfDetectDestination n = true := by rw [hdet]; exact hdest
    simp [ChildCalls, hd]

theorem lineSteps_Continues :
    Continues demoWorld lineFollower lorryPolicy.PfDetectDestinationTile
      { lineJunction.m_new with td := 8 } { lineJunction.m_new with td := 8 }
      lineJunction.m_tiles_skipped lineSteps := by
  refine ⟨⟨by decide, by unfold EntersDepot; decide⟩,
    ⟨{ m_new := { tile := 652, td := 8 }, trackdirs := 256, is_single := true,
       m_tiles_skipped := 0, min_speed := 0, max_speed := 2147483647 }, by decide, rfl, rfl⟩,
    by decide, by decide, ?_⟩
  refine ⟨⟨by decide, by unfold EntersDepot; decide⟩,
    ⟨{ m_new := { tile := 653, td := 8 }, trackdirs := 256, is_single := true,
       m_tiles_skipped := 0, min_speed := 0, max_speed := 2147483647 }, by decide, rfl, rfl⟩,
    by decide, by decide, trivial⟩

/-- Witness for C21 in the concrete world: the lorry's destination is tile
`653`; the child of `lorryParent` for the trackdir `8` runs from the junction
`651` over tile `652` to tile `653`, ends there at cost `50 + 3 * 100`, and is
handed to `FoundTarget`. -/
theorem segment_stops_at_destination_witness :
    ∃ n : Node,
      PfFollowNodeChild demoWorld demoSettings demoLorry lineFollower lorryPolicy 4098 2
          lorryParent lineJunction 8
        = some (ChildResult.evaluated (CreateNewNode (some 2) { tile := 651, td := 8 } true)
            SegmentEnd.destination lineSteps n true) ∧
      n.m_segment_last = { tile := 653, td := 8 } ∧ n.m_cost = 350 ∧
      lorryPolicy.PfDetectDestination n = true ∧
      PfFollowNodeLoop demoWorld demoSettings demoLorry lineFollower lorryPolicy 4098 2
          lorryParent lineJunction [8]
        = some [AstarCall.CreateNewNode (CreateNewNode (some 2) { tile := 651, td := 8 } true),
                AstarCall.FoundTarget n] := by
  obtain ⟨n, h1, h2, _, _, h5, h6, h7⟩ := segment_stops_at_destination demoWorld demoSettings
    demoLorry lineFollower lorryPolicy 4098 2 lorryParent lineJunction 8 [] lineSteps
    (Or.inl ⟨_, rfl⟩) lineSteps_Continues (by decide) (by decide)
  exact ⟨n, h1, h2.trans (by decide), h5.trans (by decide), h6, h7⟩

/-- C26: let the segment loop of the child for the trackdir `td` run over the
single-choice moves `steps` from its first position without any stop, let no
stop fire at the position reached, and let the follower answer there with no
reachable trackdir (dead end) or with more than one (branching).  Then, with
enough rounds allowed, the child's `m_segment_last` is the position reached,
the last single-choice position; its cost is the cost accumulated on arriving
there plus the `OneTileCost` of that position, with nothing for the tile
beyond; and the node is evaluated and handed to `InsertNode`.  This is so
under both destination policies. -/
theorem segment_stops_before_junction (w : World) (st : YAPFSettings) (v : RoadVehicle)
    (tf : CFollowTrackRoad) (Yapf : DestinationPolicy) (fuel : Nat) (old : Nat) (old_node : Node)
    (r : FollowResult) (td : Trackdir) (rest : List Trackdir) (steps : List FollowStep)
    (hY : (∃ self, Yapf = TileRoadPolicy w self) ∨ Yapf = AnyDepotRoadPolicy w)
    (hcont : Continues w tf Yapf.PfDetectDestinationTile { r.m_new with td := td }
      { r.m_new with td := td } r.m_tiles_skipped steps)
    (hpass : PassesThrough w Yapf.PfDetectDestinationTile
      (PathEnd { r.m_new with td := td } steps))
    (hnext : tf.Follow (PathEnd { r.m_new with td := td } steps) = none ∨
      ∃ r', tf.Follow (PathEnd { r.m_new with td := td } steps) = some r' ∧
        r'.is_single = false)
    (hfuel : steps.length + 1 ≤ fuel) :
    ∃ (n : Node) (why : SegmentEnd),
      (why = SegmentEnd.end_of_road ∨ why = SegmentEnd.junction) ∧
      (why = SegmentEnd.end_of_road ↔
        tf.Follow (PathEnd { r.m_new with td := td } steps) = none) ∧
      PfFollowNodeChild w st v tf Yapf fuel old old_node r td
        = some (ChildResult.evaluated
            (CreateNewNode (some old) { r.m_new with td := td } (!r.is_single))
            why steps n true) ∧
      n.m_segment_last = PathEnd { r.m_new with td := td } steps ∧
      n.m_cost = old_node.m_cost + (RunSteps w st v (FirstState w r td) steps).segment_cost
        + OneTileCost w st n.m_segment_last ∧
      n.m_cost = old_node.m_cost + ((r.m_tiles_skipped : Int) * w.YAPF_TILE_LENGTH
        + OneTileCost w st { r.m_new with td := td }
        + PathCost w st v { r.m_new with td := td } steps) ∧
      Yapf.PfDetectDestination n = false ∧
      PfFollowNodeLoop w st v tf Yapf fuel old old_node r (td :: rest)
        = (PfFollowNodeLoop w st v tf Yapf fuel old old_node r rest).map fun calls =>
            AstarCall.CreateNewNode
                (CreateNewNode (some old) { r.m_new with td := td } (!r.is_single))
              :: AstarCall.InsertNode n :: calls := by
  obtain ⟨hin, _, _⟩ := Continues_in_segment w tf Yapf.PfDetectDestinationTile _ steps _ _ hcont
  obtain ⟨f1, _, _, _, _⟩ := RunSteps_facts w st v steps (FirstState w r td) hin
  have f1' : (RunSteps w st v (FirstState w r td) steps).m_new
      = PathEnd { r.m_new with td := td } steps := f1
  have hpass' : PassesThrough w Yapf.PfDetectDestinationTile
      (RunSteps w st v (FirstState w r td) steps).m_new := by rw [f1']; exact hpass
  have main : ∀ why : SegmentEnd,
      (∀ k, SegmentLoop w st v tf Yapf.PfDetectDestinationTile { r.m_new with td := td }
        (k + 1) (RunSteps w st v (FirstState w r td) steps)
          = some (LoopExit.brk
              { RunSteps w st v (FirstState w r td) steps with
                segment_cost := (RunSteps w st v (FirstState w r td) steps).segment_cost
                  + OneTileCost w st (RunSteps w st v (FirstState w r td) steps).m_new }
              why)) →
      ∃ n : Node,
        PfFollowNodeChild w st v tf Yapf fuel old old_node r td
          = some (ChildResult.evaluated
              (CreateNewNode (some old) { r.m_new with td := td } (!r.is_single))
              why steps n true) ∧
        n.m_segment_last = PathEnd { r.m_new with td := td } steps ∧
        n.m_cost = old_node.m_cost + (RunSteps w st v (FirstState w r td) steps).segment_cost
          + OneTileCost w st n.m_segment_last ∧
        n.m_cost = old_node.m_cost + ((r.m_tiles_skipped : Int) * w.YAPF_TILE_LENGTH
          + OneTileCost w st { r.m_new with td := td }
          + PathCost w st v { r.m_new with td := td } steps) ∧
        Yapf.PfDetectDestination n = false ∧
        PfFollowNodeLoop w st v tf Yapf fuel old old_node r (td :: rest)
          = (PfFollowNodeLoop w st v tf Yapf fuel old old_node r rest).map fun calls =>
              AstarCall.CreateNewNode
                  (CreateNewNode (some old) { r.m_new with td := td } (!r.is_single))
                :: AstarCall.InsertNode n :: calls := by
    intro why hstop
    obtain ⟨n, hchild, _, _, hlast, hcost1, hcost2, hdet⟩ :=
      child_of_stop w st v tf Yapf fuel old old_node r td steps why hY hcont hstop hfuel
    have hd : Yapf.PfDetectDestination n = false := by rw [hdet]; exact hpass.1
    refine ⟨n, hchild, hlast, by rw [hlast]; exact hcost1, hcost2, hd, ?_⟩
    rw [PfFollowNodeLoop_cons_evaluated _ _ _ _ _ _ _ _ _ _ _ _ _ _ _ _ hchild]
    simp [ChildCalls, hd]
  rcases hnext with hnone | ⟨r', hsome, hs⟩
  · obtain ⟨n, h1, h2, h3, h4, h5, h6⟩ := main SegmentEnd.end_of_road (fun k =>
      SegmentLoop_end_of_road w st v tf _ _ k _ hpass' (by rw [f1']; exact hnone))
    exact ⟨n, SegmentEnd.end_of_road, Or.inl rfl, ⟨fun _ => hnone, fun _ => rfl⟩, h1, h2, h3, h4,
      h5, h6⟩
  · obtain ⟨n, h1, h2, h3, h4, h5, h6⟩ := main SegmentEnd.junction (fun k =>
      SegmentLoop_junction w st v tf _ _ k _ r' hpass' (by rw [f1']; exact hsome) hs)
    refine ⟨n, SegmentEnd.junction, Or.inr rfl, ⟨fun h => absurd h (by decide), fun h => ?_⟩,
      h1, h2, h3, h4, h5, h6⟩
    rw [hsome] at h
    cases h

/-- Witness for C26 in the concrete world: the child of `lorryParent` for the
trackdir `5` turns off at the junction `651`, where the follower finds no
road beyond; the node ends on its first position at cost `50 + 71` and is
handed to `InsertNode`. -/
theorem segment_stops_before_junction_witness :
    ∃ (n : Node) (why : SegmentEnd),
      why = SegmentEnd.end_of_road ∧
      PfFollowNodeChild demoWorld demoSettings demoLorry lineFollower lorryPolicy 4098 2
          lorryParent lineJunction 5
        = some (ChildResult.evaluated (CreateNewNode (some 2) { tile := 651, td := 5 } true)
            why [] n true) ∧
      n.m_segment_last = { tile := 651, td := 5 } ∧ n.m_cost = 121 ∧
      PfFollowNodeLoop demoWorld demoSettings demoLorry lineFollower lorryPolicy 4098 2
          lorryParent lineJunction [5]
        = some [AstarCall.CreateNewNode (CreateNewNode (some 2) { tile := 651, td := 5 } true),
                AstarCall.InsertNode n] := by
  obtain ⟨n, why, _, hwhy, h1, h2, _, h4, _, h6⟩ := segment_stops_before_junction demoWorld
    demoSettings demoLorry lineFollower lorryPolicy 4098 2 lorryParent lineJunction 5 [] []
    (Or.inl ⟨_, rfl⟩) trivial ⟨by decide, by unfold EntersDepot; decide⟩
    (Or.inl (by decide)) (by decide)
  exact ⟨n, why, hwhy.2 (by decide), h1, h2, h4.trans (by decide), h6⟩

/-- Depot stop after complete rounds: let the segment loop of the child for
the trackdir `td` run over the single-choice moves `steps` from its first
position without any stop, and let the position reached be on a road depot
tile on the diagonal trackdir of the reverse of the depot's direction.  Then,
with enough rounds allowed, the loop stops there (by the destination rule when
the policy takes the tile for a destination, else by the depot rule): the
child's `m_segment_last` is that position and its cost includes the
`OneTileCost` of it; and the round that stops is the same for every follower,
so the follower is not asked.  A running position on a depot tile on any other
trackdir that is not a destination does not stop the loop: the round asks the
follower and goes on as it answers. -/
theorem segment_stops_in_depot_after_rounds (w : World) (st : YAPFSettings)
    (v : RoadVehicle) (tf : CFollowTrackRoad) (Yapf : DestinationPolicy) (fuel : Nat) (old : Nat) (old_node : Node)
    (r : FollowResult) (td : Trackdir) (steps : List FollowStep)
    (hY : (∃ self, Yapf = TileRoadPolicy w self) ∨ Yapf = AnyDepotRoadPolicy w)
    (hcont : Continues w tf Yapf.PfDetectDestinationTile { r.m_new with td := td }
      { r.m_new with td := td } r.m_tiles_skipped steps)
    (hdepot : EntersDepot w (PathEnd { r.m_new with td := td } steps))
    (hfuel : steps.length + 1 ≤ fuel) :
    (∃ (n : Node) (why : SegmentEnd),
      (why = SegmentEnd.destination ∨ why = SegmentEnd.depot) ∧
      (why = SegmentEnd.destination ↔
        Yapf.PfDetectDestinationTile (PathEnd { r.m_new with td := td } steps) = true) ∧
      PfFollowNodeChild w st v tf Yapf fuel old old_node r td
        = some (ChildResult.evaluated
            (CreateNewNode (some old) { r.m_new with td := td } (!r.is_single))
            why steps n true) ∧
      n.m_segment_last = PathEnd { r.m_new with td := td } steps ∧
      n.m_cost = old_node.m_cost + (RunSteps w st v (FirstState w r td) steps).segment_cost
        + OneTileCost w st n.m_segment_last ∧
      ∀ (tf' : CFollowTrackRoad) (k : Nat) (s : SegState),
        s.m_new = PathEnd { r.m_new with td := td } steps →
        SegmentLoop w st v tf' Yapf.PfDetectDestinationTile { r.m_new with td := td } (k + 1) s
          = some (LoopExit.brk
              { s with segment_cost := s.segment_cost + OneTileCost w st s.m_new } why)) ∧
    (∀ (k : Nat) (s : SegState),
      w.IsRoadDepotTile s.m_new.tile = true →
      s.m_new.td ≠ w.DiagDirToDiagTrackdir
        (w.ReverseDiagDir (w.GetGroundDepotDirection s.m_new.tile)) →
      Yapf.PfDetectDestinationTile s.m_new = false →
      (tf.Follow s.m_new = none →
        SegmentLoop w st v tf Yapf.PfDetectDestinationTile { r.m_new with td := td } (k + 1) s
          = some (LoopExit.brk
              { s with segment_cost := s.segment_cost + OneTileCost w st s.m_new }
              SegmentEnd.end_of_road)) ∧
      (∀ r', tf.Follow s.m_new = some r' → r'.is_single = false →
        SegmentLoop w st v tf Yapf.PfDetectDestinationTile { r.m_new with td := td } (k + 1) s
          = some (LoopExit.brk
              { s with segment_cost := s.segment_cost + OneTileCost w st s.m_new }
              SegmentEnd.junction)) ∧
      (∀ r', tf.Follow s.m_new = some r' → r'.is_single = true →
        r'.m_new = { r.m_new with td := td } →
        SegmentLoop w st v tf Yapf.PfDetectDestinationTile { r.m_new with td := td } (k + 1) s
          = some LoopExit.ret) ∧
      (∀ r', tf.Follow s.m_new = some r' → r'.is_single = true →
        r'.m_new ≠ { r.m_new with td := td } →
        SegmentLoop w st v tf Yapf.PfDetectDestinationTile { r.m_new with td := td } (k + 1) s
          = (if s.tiles + (r'.m_tiles_skipped + 1) > w.MAX_MAP_SIZE
              then some (LoopExit.brk (RunSteps w st v s [r'.toStep true]) SegmentEnd.ceiling)
              else SegmentLoop w st v tf Yapf.PfDetectDestinationTile
                { r.m_new with td := td } k (RunSteps w st v s [r'.toStep true])))) := by
  constructor
  · obtain ⟨hin, _, _⟩ :=
      Continues_in_segment w tf Yapf.PfDetectDestinationTile _ steps _ _ hcont
    obtain ⟨f1, _, _, _, _⟩ := RunSteps_facts w st v steps (FirstState w r td) hin
    have f1' : (RunSteps w st v (FirstState w r td) steps).m_new
        = PathEnd { r.m_new with td := td } steps := f1
    cases hd : Yapf.PfDetectDestinationTile (PathEnd { r.m_new with td := td } steps) with
    | true =>
      obtain ⟨n, hchild, _, _, hlast, hcost1, _, _⟩ :=
        child_of_stop w st v tf Yapf fuel old old_node r td steps SegmentEnd.destination hY
          hcont (fun k => SegmentLoop_destination w st v tf _ _ k _ (by rw [f1']; exact hd))
          hfuel
      refine ⟨n, SegmentEnd.destination, Or.inl rfl, ⟨fun _ => rfl, fun _ => rfl⟩, hchild,
        hlast, by rw [hlast]; exact hcost1, ?_⟩
      intro tf' k s hs
      exact SegmentLoop_destination w st v tf' _ _ k s (by rw [hs]; exact hd)
    | false =>
      obtain ⟨n, hchild, _, _, hlast, hcost1, _, _⟩ :=
        child_of_stop w st v tf Yapf fuel old old_node r td steps SegmentEnd.depot hY
          hcont (fun k => SegmentLoop_depot w st v tf _ _ k _ (by rw [f1']; exact hd)
            (by rw [f1']; exact hdepot)) hfuel
      refine ⟨n, SegmentEnd.depot, Or.inr rfl,
        ⟨fun h => absurd h (by decide), fun h => absurd h (by simp)⟩, hchild,
        hlast, by rw [hlast]; exact hcost1, ?_⟩
      intro tf' k s hs
      exact SegmentLoop_depot w st v tf' _ _ k s (by rw [hs]; exact hd)
        (by rw [hs]; exact hdepot)
  · intro k s _ htd hdet
    have hpass : PassesThrough w Yapf.PfDetectDestinationTile s.m_new :=
      ⟨hdet, fun h => htd h.2⟩
    exact ⟨fun hf => SegmentLoop_end_of_road w st v tf _ _ k s hpass hf,
      fun r' hf hs => SegmentLoop_junction w st v tf _ _ k s r' hpass hf hs,
      fun r' hf hs hp => SegmentLoop_return w st v tf _ _ k s r' hpass hf hs hp,
      fun r' hf hs hp => SegmentLoop_round w st v tf _ _ k s r' hpass hf hs hp⟩

theorem depotStep_Continues :
    Continues demoWorld (demoFollower demoWorld demoLorry) lorryPolicy.PfDetectDestinationTile
      { depotApproachFirst.m_new with td := 8 } { depotApproachFirst.m_new with td := 8 }
      depotApproachFirst.m_tiles_skipped [depotStep] :=
  ⟨⟨by decide, by unfold EntersDepot; decide⟩,
    ⟨{ m_new := { tile := 700, td := 8 }, trackdirs := 256, is_single := true,
       m_tiles_skipped := 0, min_speed := 0, max_speed := 2147483647 }, by decide, rfl, rfl⟩,
    by decide, by decide, trivial⟩

/-! ### The loop over the reachable trackdirs ends -/

theorem testBit_pred : ∀ (fuel x : Nat), x ≠ 0 → x < 2 ^ fuel → ∀ j : Nat,
    (x - 1).testBit j
      = (if j < FindFirstBitAux fuel x then true
          else if j = FindFirstBitAux fuel x then false else x.testBit j) := by
  intro fuel
  induction fuel with
  | zero =>
    intro x hx hlt
    simp at hlt
    exact absurd hlt hx
  | succ fuel ih =>
    intro x hx hlt j
    by_cases hodd : x % 2 = 1
    · have hF : FindFirstBitAux (fuel + 1) x = 0 := by simp [FindFirstBitAux, hodd]
      rw [hF]
      cases j with
      | zero =>
        have : (x - 1) % 2 = 0 := by omega
        simp [Nat.testBit_zero, this]
      | succ j =>
        have : (x - 1) / 2 = x / 2 := by omega
        simp [Nat.testBit_succ, this]
    · have hhalf : x / 2 ≠ 0 := by omega
      have hlt2 : x / 2 < 2 ^ fuel := by
        rw [pow_succ] at hlt
        omega
      have hF : FindFirstBitAux (fuel + 1) x = FindFirstBitAux fuel (x / 2) + 1 := by
        simp [FindFirstBitAux, hodd, hx]
      rw [hF]
      cases j with
      | zero =>
        have : (x - 1) % 2 = 1 := by omega
        simp [Nat.testBit_zero, this]
      | succ j =>
        have hpred : (x - 1) / 2 = x / 2 - 1 := by omega
        rw [Nat.testBit_succ, hpred, ih (x / 2) hhalf hlt2 j, Nat.testBit_succ]
        simp only [Nat.add_lt_add_iff_right, Nat.add_right_cancel_iff]

theorem KillFirstBit_testBit (x : Nat) (hx : x ≠ 0) (j : Nat) :
    (KillFirstBit x).testBit j = (x.testBit j && decide (j ≠ FindFirstBit2x64 x)) := by
  have hp := testBit_pred x x hx (Nat.lt_two_pow x) j
  obtain ⟨hset, hlow⟩ := FindFirstBit2x64_spec x hx
  unfold FindFirstBit2x64 at hset hlow ⊢
  simp only [KillFirstBit, Nat.testBit_and, hp]
  by_cases h1 : j < FindFirstBitAux x x
  · simp [h1, hlow j h1]
  · by_cases h2 : j = FindFirstBitAux x x
    · subst h2
      simp
    · simp [h1, h2]

theorem KillFirstBit_lt (x : Nat) (hx : x ≠ 0) : KillFirstBit x < x := by
  have h1 : x &&& (x - 1) ≤ x - 1 := Nat.and_le_right
  have h2 : x - 1 < x := by omega
  exact lt_of_le_of_lt h1 h2

theorem TrackdirLoop_spec (w : World) : ∀ (fuel : Nat) (tdb : Nat),
    (TrackdirLoop w fuel tdb).Pairwise (fun a b => a < b) ∧
    (∀ td ∈ TrackdirLoop w fuel tdb, tdb.testBit td = true) ∧
    (tdb ≤ fuel → ∀ td, tdb.testBit td = true → td ∈ TrackdirLoop w fuel tdb) := by
  intro fuel
  induction fuel with
  | zero =>
    intro tdb
    refine ⟨by simp [TrackdirLoop], by simp [TrackdirLoop], ?_⟩
    intro h td htd
    have : tdb = 0 := by omega
    subst this
    simp at htd
  | succ fuel ih =>
    intro tdb
    by_cases h0 : tdb = 0
    · subst h0
      refine ⟨by simp [TrackdirLoop], by simp [TrackdirLoop], ?_⟩
      intro _ td htd
      simp at htd
    · obtain ⟨ih1, ih2, ih3⟩ := ih (KillFirstBit tdb)
      obtain ⟨hset, hlow⟩ := FindFirstBit2x64_spec tdb h0
      have hfirst : FindFirstTrackdir w tdb = FindFirstBit2x64 tdb := by
        simp [FindFirstTrackdir, h0]
      have hloop : TrackdirLoop w (fuel + 1) tdb
          = FindFirstBit2x64 tdb :: TrackdirLoop w fuel (KillFirstBit tdb) := by
        simp [TrackdirLoop, h0, hfirst]
      rw [hloop]
      refine ⟨?_, ?_, ?_⟩
      · refine List.pairwise_cons.2 ⟨?_, ih1⟩
        intro b hb
        have hbit := ih2 b hb
        rw [KillFirstBit_testBit tdb h0] at hbit
        simp only [Bool.and_eq_true, decide_eq_true_eq] at hbit
        by_contra hge
        have hle : b ≤ FindFirstBit2x64 tdb := Nat.le_of_not_lt hge
        rcases Nat.lt_or_eq_of_le hle with hlt | heq
        · rw [hlow b hlt] at hbit
          exact absurd hbit.1 (by decide)
        · exact hbit.2 heq
      · intro td htd
        rcases List.mem_cons.1 htd with rfl | htd
        · exact hset
        · have hbit := ih2 td htd
          rw [KillFirstBit_testBit tdb h0] at hbit
          simp only [Bool.and_eq_true] at hbit
          exact hbit.1
      · intro hfuel td htd
        by_cases heq : td = FindFirstBit2x64 tdb
        · simp [heq]
        · refine List.mem_cons_of_mem _ (ih3 ?_ td ?_)
          · have := KillFirstBit_lt tdb h0
            omega
          · rw [KillFirstBit_testBit tdb h0]
            simp [htd, heq]

theorem TrackdirLoop_fuel (w : World) : ∀ (fuel : Nat) (tdb : Nat), tdb ≤ fuel →
    TrackdirLoop w fuel tdb = TrackdirLoop w tdb tdb := by
  intro fuel
  induction fuel using Nat.strong_induction_on with
  | _ fuel ih =>
    intro tdb hle
    by_cases h0 : tdb = 0
    · subst h0
      cases fuel <;> simp [TrackdirLoop]
    · obtain ⟨f, rfl⟩ : ∃ f, fuel = f + 1 := ⟨fuel - 1, by omega⟩
      obtain ⟨t, rfl⟩ : ∃ t, tdb = t + 1 := ⟨tdb - 1, by omega⟩
      have hk := KillFirstBit_lt (t + 1) h0
      simp only [TrackdirLoop, h0, if_false]
      rw [ih f (by omega) (KillFirstBit (t + 1)) (by omega),
        ih t (by omega) (KillFirstBit (t + 1)) (by omega)]

/-! ### The segment loop ends -/

theorem SegmentLoop_rounds (w : World) (st : YAPFSettings) (v : RoadVehicle)
    (tf : CFollowTrackRoad) (detect : PathPos → Bool) (pos : PathPos) :
    ∀ (fuel : Nat) (s : SegState), 1 ≤ fuel → w.MAX_MAP_SIZE + 1 ≤ fuel + s.tiles →
      ∃ e, SegmentLoop w st v tf detect pos fuel s = some e := by
  intro fuel
  induction fuel with
  | zero => intro s h; omega
  | succ fuel ih =>
    intro s _ hsum
    simp only [SegmentLoop]
    split
    · exact ⟨_, rfl⟩
    · split
      · exact ⟨_, rfl⟩
      · split
        · exact ⟨_, rfl⟩
        · split
          · exact ⟨_, rfl⟩
          · split
            · exact ⟨_, rfl⟩
            · split
              · exact ⟨_, rfl⟩
              · rename_i hceil
                apply ih
                · omega
                · dsimp only
                  omega

theorem SegmentLoop_more_fuel (w : World) (st : YAPFSettings) (v : RoadVehicle)
    (tf : CFollowTrackRoad) (detect : PathPos → Bool) (pos : PathPos) (k : Nat) :
    ∀ (fuel : Nat) (s : SegState) (e : LoopExit),
      SegmentLoop w st v tf detect pos fuel s = some e →
      SegmentLoop w st v tf detect pos (fuel + k) s = some e := by
  intro fuel
  induction fuel with
  | zero => intro s e h; simp [SegmentLoop] at h
  | succ fuel ih =>
    intro s e h
    have hk : fuel + 1 + k = (fuel + k) + 1 := by omega
    rw [hk]
    simp only [SegmentLoop] at h ⊢
    split
    · rename_i h1; simpa [h1] using h
    · rename_i h1
      rw [if_neg h1] at h
      split
      · rename_i h2; simpa [h2] using h
      · rename_i h2
        rw [if_neg h2] at h
        split
        · rename_i h3; simpa [h3] using h
        · rename_i r h3
          simp only [h3] at h
          split
          · rename_i h4; simpa [h4] using h
          · rename_i h4
            rw [if_neg h4] at h
            split
            · rename_i h5; simpa [h5] using h
            · rename_i h5
              rw [if_neg h5] at h
              split
              · rename_i h6; simpa [h6] using h
              · rename_i h6
                rw [if_neg h6] at h
                exact ih _ e h

theorem SegmentLoop_steps_bound (w : World) (st : YAPFSettings) (v : RoadVehicle)
    (tf : CFollowTrackRoad) (detect : PathPos → Bool) (pos : PathPos) :
    ∀ (fuel : Nat) (s s' : SegState) (why : SegmentEnd),
      SegmentLoop w st v tf detect pos fuel s = some (LoopExit.brk s' why) →
      s'.steps.length
        ≤ s.steps.length + (if s.tiles ≤ w.MAX_MAP_SIZE then w.MAX_MAP_SIZE + 1 - s.tiles else 1) := by
  intro fuel
  induction fuel with
  | zero => intro s s' why h; simp [SegmentLoop] at h
  | succ fuel ih =>
    intro s s' why h
    simp only [SegmentLoop] at h
    split at h
    · simp only [Option.some.injEq, LoopExit.brk.injEq] at h
      obtain ⟨rfl, _⟩ := h
      exact Nat.le_add_right _ _
    · split at h
      · simp only [Option.some.injEq, LoopExit.brk.injEq] at h
        obtain ⟨rfl, _⟩ := h
        exact Nat.le_add_right _ _
      · split at h
        · simp only [Option.some.injEq, LoopExit.brk.injEq] at h
          obtain ⟨rfl, _⟩ := h
          exact Nat.le_add_right _ _
        · split at h
          · simp only [Option.some.injEq, LoopExit.brk.injEq] at h
            obtain ⟨rfl, _⟩ := h
            exact Nat.le_add_right _ _
          · split at h
            · simp at h
            · split at h
              · simp only [Option.some.injEq, LoopExit.brk.injEq] at h
                obtain ⟨rfl, _⟩ := h
                simp only [List.length_append, List.length_singleton]
                split <;> omega
              · rename_i hnoceil
                have := ih _ s' why h
                simp only [List.length_append, List.length_singleton] at this
                split at this <;> split <;> omega

theorem PfFollowNodeChild_more_fuel (w : World) (st : YAPFSettings) (v : RoadVehicle)
    (tf : CFollowTrackRoad) (Yapf : DestinationPolicy) (fuel k : Nat) (old : Nat)
    (old_node : Node) (r : FollowResult) (td : Trackdir) (c : ChildResult)
    (h : PfFollowNodeChild w st v tf Yapf fuel old old_node r td = some c) :
    PfFollowNodeChild w st v tf Yapf (fuel + k) old old_node r td = some c := by
  simp only [PfFollowNodeChild] at h ⊢
  split at h
  · simp at h
  · rename_i hl
    rw [SegmentLoop_more_fuel w st v tf _ _ k fuel _ _ hl]
    exact h
  · rename_i s why hl
    rw [SegmentLoop_more_fuel w st v tf _ _ k fuel _ _ hl]
    exact h

theorem PfFollowNodeLoop_more_fuel (w : World) (st : YAPFSettings) (v : RoadVehicle)
    (tf : CFollowTrackRoad) (Yapf : DestinationPolicy) (fuel k : Nat) (old : Nat)
    (old_node : Node) (r : FollowResult) :
    ∀ (tds : List Trackdir) (calls : List AstarCall),
      PfFollowNodeLoop w st v tf Yapf fuel old old_node r tds = some calls →
      PfFollowNodeLoop w st v tf Yapf (fuel + k) old old_node r tds = some calls := by
  intro tds
  induction tds with
  | nil => intro calls h; simpa [PfFollowNodeLoop] using h
  | cons td rest ih =>
    intro calls h
    cases hchild : PfFollowNodeChild w st v tf Yapf fuel old old_node r td with
    | none => simp [PfFollowNodeLoop, hchild] at h
    | some c =>
      have hmore := PfFollowNodeChild_more_fuel w st v tf Yapf fuel k old old_node r td c hchild
      cases c with
      | looped created =>
        rw [PfFollowNodeLoop_cons_looped _ _ _ _ _ _ _ _ _ _ _ _ hchild] at h
        rw [PfFollowNodeLoop_cons_looped _ _ _ _ _ _ _ _ _ _ _ _ hmore]
        exact h
      | evaluated created why steps n bValid =>
        rw [PfFollowNodeLoop_cons_evaluated _ _ _ _ _ _ _ _ _ _ _ _ _ _ _ _ hchild] at h
        rw [PfFollowNodeLoop_cons_evaluated _ _ _ _ _ _ _ _ _ _ _ _ _ _ _ _ hmore]
        cases hrest : PfFollowNodeLoop w st v tf Yapf fuel old old_node r rest with
        | none => simp [hrest] at h
        | some calls' =>
          rw [ih calls' hrest]
          rw [hrest] at h
          exact h

theorem PfFollowNode_more_fuel (w : World) (st : YAPFSettings) (v : RoadVehicle)
    (tf : CFollowTrackRoad) (Yapf : DestinationPolicy) (fuel k : Nat) (old : Nat)
    (old_node : Node) (calls : List AstarCall)
    (h : PfFollowNode w st v tf Yapf fuel old old_node = some calls) :
    PfFollowNode w st v tf Yapf (fuel + k) old old_node = some calls := by
  unfold PfFollowNode at h ⊢
  cases hr : tf.Follow old_node.m_segment_last with
  | none => rw [hr] at h; exact h
  | some r =>
    rw [hr] at h
    exact PfFollowNodeLoop_more_fuel w st v tf Yapf fuel k old old_node r _ calls h

theorem PfFollowNodeLoop_rounds (w : World) (st : YAPFSettings) (v : RoadVehicle)
    (tf : CFollowTrackRoad) (Yapf : DestinationPolicy) (old : Nat) (old_node : Node)
    (r : FollowResult) :
    ∀ tds : List Trackdir, ∃ calls,
      PfFollowNodeLoop w st v tf Yapf (w.MAX_MAP_SIZE + 1) old old_node r tds = some calls := by
  have hchild : ∀ td, ∃ c, PfFollowNodeChild w st v tf Yapf (w.MAX_MAP_SIZE + 1) old old_node
      r td = some c := by
    intro td
    obtain ⟨e, he⟩ := SegmentLoop_rounds w st v tf Yapf.PfDetectDestinationTile
      { r.m_new with td := td } (w.MAX_MAP_SIZE + 1)
      { m_new := { r.m_new with td := td }, m_segment_last := { r.m_new with td := td },
        segment_cost := (r.m_tiles_skipped : Int) * w.YAPF_TILE_LENGTH,
        tiles := r.m_tiles_skipped, steps := [] } (by omega) (by dsimp only; omega)
    simp only [PfFollowNodeChild, he]
    cases e with
    | brk s why => exact ⟨_, rfl⟩
    | ret => exact ⟨_, rfl⟩
  intro tds
  induction tds with
  | nil => exact ⟨[], rfl⟩
  | cons td rest ih =>
    obtain ⟨c, hc⟩ := hchild td
    obtain ⟨calls, hcalls⟩ := ih
    cases c with
    | looped created =>
      exact ⟨_, PfFollowNodeLoop_cons_looped _ _ _ _ _ _ _ _ _ _ _ _ hc⟩
    | evaluated created why steps n bValid =>
      rw [PfFollowNodeLoop_cons_evaluated _ _ _ _ _ _ _ _ _ _ _ _ _ _ _ _ hc, hcalls]
      exact ⟨_, rfl⟩

theorem PfFollowNode_rounds (w : World) (st : YAPFSettings) (v : RoadVehicle)
    (tf : CFollowTrackRoad) (Yapf : DestinationPolicy) (old : Nat) (old_node : Node) :
    ∃ calls, PfFollowNode w st v tf Yapf (w.MAX_MAP_SIZE + 1) old old_node = some calls := by
  unfold PfFollowNode
  cases tf.Follow old_node.m_segment_last with
  | none => exact ⟨[], rfl⟩
  | some r => exact PfFollowNodeLoop_rounds w st v tf Yapf old old_node r _

/-- C23: `PfFollowNode` ends for every follower, policy and node: with
`MAX_MAP_SIZE + 1` rounds allowed to every segment loop it returns, and it
returns the same with any larger allowance.  For every child the segment loop
makes at most `MAX_MAP_SIZE + 1` complete rounds; the tile counter, which
starts at the tiles skipped initially, is at least that number plus the number
of complete rounds, and the loop was left by the ceiling exactly when the
counter exceeds `MAX_MAP_SIZE` after a move.  The loop over the reachable
trackdirs visits the set bits in increasing order, each once, since
`KillFirstBit` clears exactly the bit just visited and lowers the value, and
needs no more rounds than the value of the set. -/
theorem PfFollowNode_terminates (w : World) (st : YAPFSettings) (v : RoadVehicle)
    (tf : CFollowTrackRoad) (Yapf : DestinationPolicy) (old : Nat) (old_node : Node) :
    (∃ calls, PfFollowNode w st v tf Yapf (w.MAX_MAP_SIZE + 1) old old_node = some calls ∧
      ∀ fuel, w.MAX_MAP_SIZE + 1 ≤ fuel →
        PfFollowNode w st v tf Yapf fuel old old_node = some calls) ∧
    (∀ (fuel : Nat) (r : FollowResult) (td : Trackdir) (created : Node) (why : SegmentEnd)
        (steps : List FollowStep) (n : Node) (bValid : Bool),
      PfFollowNodeChild w st v tf Yapf fuel old old_node r td
          = some (ChildResult.evaluated created why steps n bValid) →
        steps.length ≤ w.MAX_MAP_SIZE + 1 ∧
        r.m_tiles_skipped + steps.length ≤ SegmentTiles r.m_tiles_skipped steps ∧
        (why = SegmentEnd.ceiling ↔
          steps ≠ [] ∧ w.MAX_MAP_SIZE < SegmentTiles r.m_tiles_skipped steps)) ∧
    (∀ tdb : Nat,
      (TrackdirLoop w tdb tdb).Pairwise (fun a b => a < b) ∧
      (∀ td, td ∈ TrackdirLoop w tdb tdb ↔ tdb.testBit td = true) ∧
      (∀ fuel, tdb ≤ fuel → TrackdirLoop w fuel tdb = TrackdirLoop w tdb tdb) ∧
      (tdb ≠ 0 → KillFirstBit tdb < tdb ∧
        ∀ j, (KillFirstBit tdb).testBit j
          = (tdb.testBit j && decide (j ≠ FindFirstBit2x64 tdb)))) := by
  refine ⟨?_, ?_, ?_⟩
  · obtain ⟨calls, h⟩ := PfFollowNode_rounds w st v tf Yapf old old_node
    refine ⟨calls, h, ?_⟩
    intro fuel hfuel
    obtain ⟨k, rfl⟩ : ∃ k, fuel = w.MAX_MAP_SIZE + 1 + k := ⟨fuel - (w.MAX_MAP_SIZE + 1), by omega⟩
    exact PfFollowNode_more_fuel w st v tf Yapf _ k old old_node calls h
  · intro fuel r td created why steps n bValid h
    obtain ⟨s', hloop, _, hsteps, _, _⟩ :=
      PfFollowNodeChild_evaluated w st v tf Yapf fuel old old_node r td created why steps n
        bValid h
    have hb := SegmentLoop_steps_bound w st v tf _ _ fuel _ s' why hloop
    dsimp only at hb
    rw [← hsteps] at hb
    refine ⟨?_, SegmentTiles_ge steps _,
      (PfFollowNodeChild_run w st v tf Yapf fuel old old_node r td created why steps n bValid
        h).2.2.2.2⟩
    simp only [List.length_nil, Nat.zero_add] at hb
    split at hb <;> omega
  · intro tdb
    obtain ⟨h1, h2, h3⟩ := TrackdirLoop_spec w tdb tdb
    exact ⟨h1, fun td => ⟨h2 td, h3 (le_refl _) td⟩, fun fuel hf => TrackdirLoop_fuel w fuel tdb hf,
      fun h0 => ⟨KillFirstBit_lt tdb h0, KillFirstBit_testBit tdb h0⟩⟩

/-- Witness for C23: on the endless straight road of `endlessFollower`, in the
staircase world with `MAX_MAP_SIZE = 64`, the expansion of `stairNode` ends
within `65` rounds and inserts its one child, which the tile ceiling stops
on tile `66`. -/
theorem PfFollowNode_terminates_witness :
    ∃ calls, PfFollowNode stairWorld demoSettings demoLorry endlessFollower
        (AnyDepotRoadPolicy stairWorld) (stairWorld.MAX_MAP_SIZE + 1) 0 stairNode = some calls ∧
      ∀ fuel, stairWorld.MAX_MAP_SIZE + 1 ≤ fuel →
        PfFollowNode stairWorld demoSettings demoLorry endlessFollower
          (AnyDepotRoadPolicy stairWorld) fuel 0 stairNode = some calls :=
  (PfFollowNode_terminates stairWorld demoSettings demoLorry endlessFollower
    (AnyDepotRoadPolicy stairWorld) 0 stairNode).1

/-! ### A segment that returns to its start -/

/-- C22: let the segment loop of the child for the trackdir `td` run over the
single-choice moves `steps` from its first position `pos` without any stop, let
no stop fire at the position reached, and let the follower answer there with a
single trackdir, on the position `pos` again.  Then, with enough rounds
allowed, the loop is left by the `return` of line 154: the round for `td`
calls `CreateNewNode` only and ends the loop over the trackdirs, and no node
with the key `pos` is handed to `InsertNode` or `FoundTarget` in the whole
expansion. -/
theorem loop_pruning (w : World) (st : YAPFSettings) (v : RoadVehicle)
    (tf : CFollowTrackRoad) (Yapf : DestinationPolicy) (fuel : Nat) (old : Nat) (old_node : Node)
    (r r' : FollowResult) (td : Trackdir) (rest : List Trackdir) (steps : List FollowStep)
    (hY : (∃ self, Yapf = TileRoadPolicy w self) ∨ Yapf = AnyDepotRoadPolicy w)
    (hr : tf.Follow old_node.m_segment_last = some r)
    (hcont : Continues w tf Yapf.PfDetectDestinationTile { r.m_new with td := td }
      { r.m_new with td := td } r.m_tiles_skipped steps)
    (hpass : PassesThrough w Yapf.PfDetectDestinationTile
      (PathEnd { r.m_new with td := td } steps))
    (hback : tf.Follow (PathEnd { r.m_new with td := td } steps) = some r')
    (hsingle : r'.is_single = true)
    (hpos : r'.m_new = { r.m_new with td := td })
    (hfuel : steps.length + 1 ≤ fuel) :
    PfFollowNodeChild w st v tf Yapf fuel old old_node r td
      = some (ChildResult.looped
          (CreateNewNode (some old) { r.m_new with td := td } (!r.is_single))) ∧
    PfFollowNodeLoop w st v tf Yapf fuel old old_node r (td :: rest)
      = some [AstarCall.CreateNewNode
          (CreateNewNode (some old) { r.m_new with td := td } (!r.is_single))] ∧
    ∀ calls, PfFollowNode w st v tf Yapf fuel old old_node = some calls →
      ∀ m : Node, (AstarCall.InsertNode m ∈ calls ∨ AstarCall.FoundTarget m ∈ calls) →
        m.m_key ≠ { r.m_new with td := td } := by
  obtain ⟨k, rfl⟩ : ∃ k, fuel = steps.length + (k + 1) := ⟨fuel - steps.length - 1, by omega⟩
  obtain ⟨hin, _, _⟩ := Continues_in_segment w tf Yapf.PfDetectDestinationTile _ steps _ _ hcont
  obtain ⟨f1, _, _, _, _⟩ := RunSteps_facts w st v steps (FirstState w r td) hin
  have f1' : (RunSteps w st v (FirstState w r td) steps).m_new
      = PathEnd { r.m_new with td := td } steps := f1
  have hadv := SegmentLoop_advance w st v tf Yapf.PfDetectDestinationTile
    { r.m_new with td := td } (k + 1) steps (FirstState w r td) hcont
  rw [SegmentLoop_return w st v tf _ _ k _ r' (by rw [f1']; exact hpass)
    (by rw [f1']; exact hback) hsingle hpos] at hadv
  have hchild := PfFollowNodeChild_of_return w st v tf Yapf _ old old_node r td hadv
  refine ⟨hchild, PfFollowNodeLoop_cons_looped _ _ _ _ _ _ _ _ _ _ _ _ hchild, ?_⟩
  intro calls h m hm hkey
  obtain ⟨r2, t, created, why, steps2, hr2, _, hc⟩ :=
    PfFollowNode_emitted w st v tf Yapf _ old old_node calls m h hm
  rw [hr] at hr2
  simp only [Option.some.injEq] at hr2
  subst hr2
  have hk := PfFollowNodeChild_key w st v tf Yapf _ old old_node r t created why steps2 m true
    hY hc
  rw [hkey] at hk
  have ht : td = t := congrArg PathPos.td hk
  subst ht
  rw [hchild] at hc
  simp at hc

theorem ringSteps_Continues :
    Continues ringWorld (demoFollower ringWorld demoLorry)
      (AnyDepotRoadPolicy ringWorld).PfDetectDestinationTile
      { ringFirst.m_new with td := 5 } { ringFirst.m_new with td := 5 }
      ringFirst.m_tiles_skipped ringSteps := by
  refine ⟨⟨by decide, by unfold EntersDepot; decide⟩,
    ⟨{ m_new := { tile := 130, td := 2 }, trackdirs := 4, is_single := true,
       m_tiles_skipped := 0, min_speed := 0, max_speed := 2147483647 }, by decide, rfl, rfl⟩,
    by decide, by decide, ?_⟩
  refine ⟨⟨by decide, by unfold EntersDepot; decide⟩,
    ⟨{ m_new := { tile := 129, td := 12 }, trackdirs := 4096, is_single := true,
       m_tiles_skipped := 0, min_speed := 0, max_speed := 2147483647 }, by decide, rfl, rfl⟩,
    by decide, by decide, ?_⟩
  refine ⟨⟨by decide, by unfold EntersDepot; decide⟩,
    ⟨{ m_new := { tile := 65, td := 11 }, trackdirs := 2048, is_single := true,
       m_tiles_skipped := 0, min_speed := 0, max_speed := 2147483647 }, by decide, rfl, rfl⟩,
    by decide, by decide, trivial⟩

theorem ringNode_expansion :
    PfFollowNode ringWorld demoSettings demoLorry (demoFollower ringWorld demoLorry)
        (AnyDepotRoadPolicy ringWorld) 4098 0 ringNode
      = some [AstarCall.CreateNewNode (CreateNewNode (some 0) { tile := 66, td := 5 } false)] := by
  decide

/-- Witness for C22 on the ring road: the child of `ringNode` starts on tile
`66`, runs over the tiles `130`, `129`, `65` and comes back to tile `66`; the
expansion calls `CreateNewNode` once and hands no node to the engine. -/
theorem loop_pruning_witness :
    PfFollowNodeChild ringWorld demoSettings demoLorry (demoFollower ringWorld demoLorry)
        (AnyDepotRoadPolicy ringWorld) 4098 0 ringNode ringFirst 5
      = some (ChildResult.looped (CreateNewNode (some 0) { tile := 66, td := 5 } false)) ∧
    PfFollowNode ringWorld demoSettings demoLorry (demoFollower ringWorld demoLorry)
        (AnyDepotRoadPolicy ringWorld) 4098 0 ringNode
      = some [AstarCall.CreateNewNode (CreateNewNode (some 0) { tile := 66, td := 5 } false)] ∧
    ∀ m : Node,
      (AstarCall.InsertNode m ∈
          [AstarCall.CreateNewNode (CreateNewNode (some 0) { tile := 66, td := 5 } false)] ∨
        AstarCall.FoundTarget m ∈
          [AstarCall.CreateNewNode (CreateNewNode (some 0) { tile := 66, td := 5 } false)]) →
      m.m_key ≠ { tile := 66, td := 5 } :=
  have h := loop_pruning ringWorld demoSettings demoLorry (demoFollower ringWorld demoLorry)
    (AnyDepotRoadPolicy ringWorld) 4098 0 ringNode ringFirst ringFirst 5 [] ringSteps
    (Or.inr rfl) (by decide) ringSteps_Continues ⟨by decide, by unfold EntersDepot; decide⟩
    (by decide) rfl rfl (by decide)
  ⟨h.1, ringNode_expansion, h.2.2 _ ringNode_expansion⟩

theorem PfFollowNodeLoop_all_evaluated (w : World) (st : YAPFSettings) (v : RoadVehicle)
    (tf : CFollowTrackRoad) (Yapf : DestinationPolicy) (fuel : Nat) (old : Nat) (old_node : Node)
    (r : FollowResult) :
    ∀ pre : List Trackdir,
      (∀ t ∈ pre, ∃ created why steps n bValid,
        PfFollowNodeChild w st v tf Yapf fuel old old_node r t
          = some (ChildResult.evaluated created why steps n bValid)) →
      ∃ calls, PfFollowNodeLoop w st v tf Yapf fuel old old_node r pre = some calls ∧
        ∀ t ∈ pre, ∀ created why steps n bValid,
          PfFollowNodeChild w st v tf Yapf fuel old old_node r t
            = some (ChildResult.evaluated created why steps n bValid) →
          ∀ x ∈ ChildCalls Yapf created n bValid, x ∈ calls := by
  intro pre
  induction pre with
  | nil => intro _; exact ⟨[], rfl, by simp⟩
  | cons t pre ih =>
    intro h
    obtain ⟨created, why, steps, n, bValid, hc⟩ := h t (by simp)
    obtain ⟨calls, hcalls, hmem⟩ := ih (fun u hu => h u (by simp [hu]))
    refine ⟨ChildCalls Yapf created n bValid ++ calls, ?_, ?_⟩
    · rw [PfFollowNodeLoop_cons_evaluated _ _ _ _ _ _ _ _ _ _ _ _ _ _ _ _ hc, hcalls]
      rfl
    · intro u hu created' why' steps' n' b' hc' x hx
      rcases List.mem_cons.1 hu with rfl | hu
      · rw [hc] at hc'
        simp only [Option.some.injEq, ChildResult.evaluated.injEq] at hc'
        obtain ⟨rfl, _, _, rfl, rfl⟩ := hc'
        exact List.mem_append_left _ hx
      · exact List.mem_append_right _ (hmem u hu created' why' steps' n' b' hc' x hx)

/-- C29: let the loop over the reachable trackdirs visit `pre`, then `td`, then
`post`, let the segment loop of every child for a trackdir of `pre` be left by
a `break`, and let the one of the child for `td` be left by the `return` of
line 154.  Then `PfFollowNode` makes the calls for the children of `pre`,
among them the call to `InsertNode` or `FoundTarget` for each of them, then
the call to `CreateNewNode` for the child of `td`, and nothing more: no call,
not even `CreateNewNode`, is made for a trackdir of `post`.  The trackdirs of
`pre` are lower than `td` and those of `post` are higher. -/
theorem return_aborts_expansion (w : World) (st : YAPFSettings) (v : RoadVehicle)
    (tf : CFollowTrackRoad) (Yapf : DestinationPolicy) (fuel : Nat) (old : Nat) (old_node : Node)
    (r : FollowResult) (pre post : List Trackdir) (td : Trackdir) (created : Node)
    (hY : (∃ self, Yapf = TileRoadPolicy w self) ∨ Yapf = AnyDepotRoadPolicy w)
    (hr : tf.Follow old_node.m_segment_last = some r)
    (htds : TrackdirLoop w r.trackdirs r.trackdirs = pre ++ td :: post)
    (hpre : ∀ t ∈ pre, ∃ c why steps n bValid,
      PfFollowNodeChild w st v tf Yapf fuel old old_node r t
        = some (ChildResult.evaluated c why steps n bValid))
    (hloop : PfFollowNodeChild w st v tf Yapf fuel old old_node r td
      = some (ChildResult.looped created)) :
    ∃ callsPre : List AstarCall,
      PfFollowNodeLoop w st v tf Yapf fuel old old_node r pre = some callsPre ∧
      PfFollowNode w st v tf Yapf fuel old old_node
        = some (callsPre ++ [AstarCall.CreateNewNode created]) ∧
      (∀ t ∈ pre, ∀ c why steps n bValid,
        PfFollowNodeChild w st v tf Yapf fuel old old_node r t
          = some (ChildResult.evaluated c why steps n bValid) →
        ∀ x ∈ ChildCalls Yapf c n bValid, x ∈ callsPre) ∧
      (∀ x ∈ callsPre ++ [AstarCall.CreateNewNode created], ∀ t ∈ post,
        x.node.m_key ≠ { r.m_new with td := t }) ∧
      (∀ t ∈ pre, t < td) ∧ (∀ t ∈ post, td < t) := by
  obtain ⟨callsPre, hcalls, hmem⟩ :=
    PfFollowNodeLoop_all_evaluated w st v tf Yapf fuel old old_node r pre hpre
  have hsorted := (TrackdirLoop_spec w r.trackdirs r.trackdirs).1
  rw [htds] at hsorted
  have hlt_pre : ∀ t ∈ pre, t < td := by
    intro t ht
    exact (List.pairwise_append.1 hsorted).2.2 t ht td (by simp)
  have hlt_post : ∀ t ∈ post, td < t := by
    intro t ht
    exact (List.pairwise_cons.1 (List.pairwise_append.1 hsorted).2.1).1 t ht
  have hwhole : PfFollowNode w st v tf Yapf fuel old old_node
      = some (callsPre ++ [AstarCall.CreateNewNode created]) := by
    unfold PfFollowNode
    rw [hr]
    dsimp only
    rw [htds, PfFollowNodeLoop_append w st v tf Yapf fuel old old_node r _ pre hpre, hcalls,
      PfFollowNodeLoop_cons_looped _ _ _ _ _ _ _ _ _ _ _ _ hloop]
    rfl
  refine ⟨callsPre, hcalls, hwhole, hmem, ?_, hlt_pre, hlt_post⟩
  intro x hx t ht hkey
  have hloop2 : PfFollowNodeLoop w st v tf Yapf fuel old old_node r (pre ++ [td])
      = some (callsPre ++ [AstarCall.CreateNewNode created]) := by
    rw [PfFollowNodeLoop_append w st v tf Yapf fuel old old_node r _ pre hpre, hcalls,
      PfFollowNodeLoop_cons_looped _ _ _ _ _ _ _ _ _ _ _ _ hloop]
    rfl
  obtain ⟨u, hu, hk⟩ := PfFollowNodeLoop_call_key w st v tf Yapf fuel old old_node r hY _ _
    hloop2 x hx
  rw [hkey] at hk
  have hut : t = u := congrArg PathPos.td hk
  subst hut
  have htd := hlt_post t ht
  rcases List.mem_append.1 hu with hu | hu
  · exact Nat.lt_asymm (hlt_pre t hu) htd
  · simp only [List.mem_singleton] at hu
    rw [hu] at htd
    exact Nat.lt_irrefl _ htd

theorem lassoParent_children :
    PfFollowNodeChild demoWorld demoSettings demoLorry lassoFollower lorryPolicy 4098 2
        lorryParent lassoJunction 5
      = some (ChildResult.evaluated (CreateNewNode (some 2) { tile := 651, td := 5 } true)
          SegmentEnd.end_of_road [] lorryTurnChild true) ∧
    PfFollowNodeChild demoWorld demoSettings demoLorry lassoFollower lorryPolicy 4098 2
        lorryParent lassoJunction 8
      = some (ChildResult.looped (CreateNewNode (some 2) { tile := 651, td := 8 } true)) :=
  ⟨by decide, by decide⟩

/-- Witness for C29 at the junction of `lassoFollower`, whose trackdirs are
`5`, `8` and `10`: the child for `5` is inserted, the child for `8` comes back
to its start, and the expansion ends with the call to `CreateNewNode` for it;
nothing is called for the trackdir `10`. -/
theorem return_aborts_expansion_witness :
    PfFollowNode demoWorld demoSettings demoLorry lassoFollower lorryPolicy 4098 2 lorryParent
      = some [AstarCall.CreateNewNode (CreateNewNode (some 2) { tile := 651, td := 5 } true),
              AstarCall.InsertNode lorryTurnChild,
              AstarCall.CreateNewNode (CreateNewNode (some 2) { tile := 651, td := 8 } true)] ∧
    ∀ x ∈ [AstarCall.CreateNewNode (CreateNewNode (some 2) { tile := 651, td := 5 } true),
           AstarCall.InsertNode lorryTurnChild,
           AstarCall.CreateNewNode (CreateNewNode (some 2) { tile := 651, td := 8 } true)],
      x.node.m_key ≠ { tile := 651, td := 10 } := by
  obtain ⟨callsPre, hpre, hwhole, _, hpost, _, _⟩ := return_aborts_expansion demoWorld
    demoSettings demoLorry lassoFollower lorryPolicy 4098 2 lorryParent lassoJunction [5] [10] 8
    (CreateNewNode (some 2) { tile := 651, td := 8 } true) (Or.inl ⟨_, rfl⟩) (by decide)
    (by decide)
    (fun t ht => by
      rw [List.mem_singleton.1 ht]
      exact ⟨_, _, _, _, _, lassoParent_children.1⟩)
    lassoParent_children.2
  have hc : callsPre
      = [AstarCall.CreateNewNode (CreateNewNode (some 2) { tile := 651, td := 5 } true),
         AstarCall.InsertNode lorryTurnChild] := by
    have : PfFollowNodeLoop demoWorld demoSettings demoLorry lassoFollower lorryPolicy 4098 2
        lorryParent lassoJunction [5]
        = some [AstarCall.CreateNewNode (CreateNewNode (some 2) { tile := 651, td := 5 } true),
                AstarCall.InsertNode lorryTurnChild] := by decide
    rw [this] at hpre
    exact (Option.some.inj hpre).symm
  subst hc
  exact ⟨hwhole, fun x hx => hpost x hx 10 (by simp)⟩

/-! ### The distance term is never negative -/

/-- C25 as stated fails: on the staircase road the node `stairUnestimated`
has the parent `stairParent` (entry `0` of the pool) whose estimate is `8875`;
`PfCalcEstimate` computes `4615 + 4189 = 8804` for it and leaves that value
in `m_estimate`, not the parent's estimate. -/
theorem PfCalcEstimate_no_clamp_counterexample :
    stairUnestimated.m_parent = some 0 ∧ [stairParent][0]? = some stairParent ∧
    stairParent.m_estimate = 8875 ∧
    CYapfDestinationTileRoadT.PfDetectDestination stairWorld stairDest stairUnestimated
      = false ∧
    (CYapfDestinationTileRoadT.PfCalcEstimate stairWorld stairDest
      stairUnestimated).2.m_estimate = 8804 ∧
    (CYapfDestinationTileRoadT.PfCalcEstimate stairWorld stairDest
      stairUnestimated).2.m_estimate < stairParent.m_estimate ∧
    ¬ ((CYapfDestinationTileRoadT.PfCalcEstimate stairWorld stairDest
      stairUnestimated).2.m_estimate = stairParent.m_estimate) :=
  ⟨rfl, rfl, rfl, by decide, by decide, by decide, by decide⟩

/-- C25 as amended: with assertions disabled `PfCalcEstimate` returns true and
leaves in `m_estimate` the value it computes, `m_cost` at a destination and
`m_cost + d` elsewhere, whatever the estimate of the parent is: the result is
the same for every parent the node may have, and no other member of the node
is changed.  So when the value computed is smaller than the estimate `e` of the
parent, the stored estimate is smaller than `e`. -/
theorem PfCalcEstimate_no_clamp (w : World) (self : CYapfDestinationTileRoadT) (n : Node) :
    (CYapfDestinationTileRoadT.PfCalcEstimate w self n).1 = true ∧
    (CYapfDestinationTileRoadT.PfCalcEstimate w self n).2.m_estimate
      = (if CYapfDestinationTileRoadT.PfDetectDestination w self n then n.m_cost
          else n.m_cost + EstimateDistance w self n.m_segment_last) ∧
    (CYapfDestinationTileRoadT.PfCalcEstimate w self n).2
      = { n with m_estimate :=
            (CYapfDestinationTileRoadT.PfCalcEstimate w self n).2.m_estimate } ∧
    (∀ parent : Option Nat,
      (CYapfDestinationTileRoadT.PfCalcEstimate w self { n with m_parent := parent }).2.m_estimate
        = (CYapfDestinationTileRoadT.PfCalcEstimate w self n).2.m_estimate) ∧
    (∀ e : Int,
      (if CYapfDestinationTileRoadT.PfDetectDestination w self n then n.m_cost
        else n.m_cost + EstimateDistance w self n.m_segment_last) < e →
      (CYapfDestinationTileRoadT.PfCalcEstimate w self n).2.m_estimate < e) := by
  obtain ⟨h1, h2⟩ := PfCalcEstimate_eq_distance w self n
  have hval : (CYapfDestinationTileRoadT.PfCalcEstimate w self n).2.m_estimate
      = (if CYapfDestinationTileRoadT.PfDetectDestination w self n then n.m_cost
          else n.m_cost + EstimateDistance w self n.m_segment_last) := by
    cases hd : CYapfDestinationTileRoadT.PfDetectDestinationTile w self n.m_segment_last with
    | true =>
      have hd' : CYapfDestinationTileRoadT.PfDetectDestination w self n = true := hd
      rw [h1 hd, hd', if_pos rfl]
    | false =>
      have hd' : CYapfDestinationTileRoadT.PfDetectDestination w self n = false := hd
      rw [h2 hd, hd']
      simp
  refine ⟨(TileRoadPolicy_PfCalcEstimate w self n).1, hval, ?_, ?_, ?_⟩
  · simp only [CYapfDestinationTileRoadT.PfCalcEstimate]
    split <;> rfl
  · intro parent
    simp only [CYapfDestinationTileRoadT.PfCalcEstimate,
      CYapfDestinationTileRoadT.PfDetectDestination]
    split <;> rfl
  · intro e he
    rw [hval]
    exact he

/-- Witness for C25 as amended on the staircase road: the value computed for
`stairUnestimated`, `8804`, is below the estimate `8875` of its parent and is
what `m_estimate` holds afterwards. -/
theorem PfCalcEstimate_no_clamp_witness :
    (CYapfDestinationTileRoadT.PfCalcEstimate stairWorld stairDest
      stairUnestimated).2.m_estimate < stairParent.m_estimate ∧
    (CYapfDestinationTileRoadT.PfCalcEstimate stairWorld stairDest stairUnestimated).2
      = stairDestChild :=
  ⟨(PfCalcEstimate_no_clamp stairWorld stairDest stairUnestimated).2.2.2.2
      stairParent.m_estimate (by decide),
   by decide⟩

/-! ### The move onto the first tile of a segment -/

/-- C30: the move from the parent's segment end onto the first tile of a child
is charged with the tiles skipped and the `OneTileCost` of the first position
only.  For every child `n` that `PfFollowNode(old_node)` inserts or reports as
found, the cost is `old_node.m_cost` plus that charge plus the cost of the
moves made inside the segment loop (less the tile cost the ceiling leaves
out), and only those moves carry `SlopeCost` and speed penalties; what the
follower reports as speed limits for the first tile does not change the child;
and a child whose segment loop stops on its first position (destination,
depot entered, dead end or branching ahead) costs
`old_node.m_cost + initial_skipped_tiles * YAPF_TILE_LENGTH + OneTileCost(first
position)`, a value that does not depend on the heights of the map. -/
theorem first_tile_without_slope_and_speed (w : World) (st : YAPFSettings) (v : RoadVehicle)
    (tf : CFollowTrackRoad) (Yapf : DestinationPolicy) (fuel : Nat) (old : Nat) (old_node : Node)
    (hY : (∃ self, Yapf = TileRoadPolicy w self) ∨ Yapf = AnyDepotRoadPolicy w) :
    (∀ (calls : List AstarCall) (n : Node),
      PfFollowNode w st v tf Yapf fuel old old_node = some calls →
      (AstarCall.InsertNode n ∈ calls ∨ AstarCall.FoundTarget n ∈ calls) →
      ∃ (r : FollowResult) (td : Trackdir) (steps : List FollowStep),
        tf.Follow old_node.m_segment_last = some r ∧
        n.m_key = { r.m_new with td := td } ∧
        FollowerChain tf n.m_key steps ∧
        n.m_segment_last = PathEnd n.m_key steps ∧
        StepCost w st v old_node.m_segment_last (FirstStep r td)
          = (r.m_tiles_skipped : Int) * w.YAPF_TILE_LENGTH + OneTileCost w st n.m_key ∧
        n.m_cost = old_node.m_cost
          + StepCost w st v old_node.m_segment_last (FirstStep r td)
          + PathCost w st v n.m_key steps
          - (if steps ≠ [] ∧ w.MAX_MAP_SIZE < SegmentTiles r.m_tiles_skipped steps
              then OneTileCost w st n.m_segment_last else 0) ∧
        (steps = [] → n.m_cost = old_node.m_cost
          + (r.m_tiles_skipped : Int) * w.YAPF_TILE_LENGTH + OneTileCost w st n.m_key)) ∧
    (∀ (r : FollowResult) (td : Trackdir) (min_speed max_speed : Int),
      PfFollowNodeChild w st v tf Yapf fuel old old_node
          { r with min_speed := min_speed, max_speed := max_speed } td
        = PfFollowNodeChild w st v tf Yapf fuel old old_node r td) ∧
    (∀ (r : FollowResult) (td : Trackdir),
      (Yapf.PfDetectDestinationTile { r.m_new with td := td } = true ∨
        EntersDepot w { r.m_new with td := td } ∨
        tf.Follow { r.m_new with td := td } = none ∨
        ∃ r', tf.Follow { r.m_new with td := td } = some r' ∧ r'.is_single = false) →
      1 ≤ fuel →
      ∃ (n : Node) (why : SegmentEnd),
        PfFollowNodeChild w st v tf Yapf fuel old old_node r td
          = some (ChildResult.evaluated
              (CreateNewNode (some old) { r.m_new with td := td } (!r.is_single))
              why [] n true) ∧
        n.m_segment_last = { r.m_new with td := td } ∧
        n.m_cost = old_node.m_cost
          + (r.m_tiles_skipped : Int) * w.YAPF_TILE_LENGTH
          + OneTileCost w st { r.m_new with td := td } ∧
        ∀ z : Int → Int → Int,
          OneTileCost { w with GetSlopePixelZ := z } st { r.m_new with td := td }
            = OneTileCost w st { r.m_new with td := td }) := by
  refine ⟨?_, fun _ _ _ _ => rfl, ?_⟩
  · intro calls n h hn
    obtain ⟨r, td, steps, hr, _, hkey, hchain, hlast, hcost⟩ :=
      PfFollowNode_child_cost w st v tf Yapf fuel old old_node calls n hY h hn
    have hfirst : StepCost w st v old_node.m_segment_last (FirstStep r td)
        = (r.m_tiles_skipped : Int) * w.YAPF_TILE_LENGTH + OneTileCost w st n.m_key := by
      rw [hkey]
      simp [StepCost, FirstStep]
    refine ⟨r, td, steps, hr, hkey, hchain, hlast, hfirst, ?_, ?_⟩
    · rw [hfirst]
      linarith
    · intro hnil
      subst hnil
      simp only [PathCost, ne_eq, not_true_eq_false, false_and, if_false] at hcost
      linarith
  · intro r td hstop hfuel
    have key : ∀ why : SegmentEnd,
        (∀ k, SegmentLoop w st v tf Yapf.PfDetectDestinationTile { r.m_new with td := td }
          (k + 1) (RunSteps w st v (FirstState w r td) [])
            = some (LoopExit.brk
                { RunSteps w st v (FirstState w r td) [] with
                  segment_cost := (RunSteps w st v (FirstState w r td) []).segment_cost
                    + OneTileCost w st (RunSteps w st v (FirstState w r td) []).m_new }
                why)) →
        ∃ (n : Node) (why : SegmentEnd),
          PfFollowNodeChild w st v tf Yapf fuel old old_node r td
            = some (ChildResult.evaluated
                (CreateNewNode (some old) { r.m_new with td := td } (!r.is_single))
                why [] n true) ∧
          n.m_segment_last = { r.m_new with td := td } ∧
          n.m_cost = old_node.m_cost
            + (r.m_tiles_skipped : Int) * w.YAPF_TILE_LENGTH
            + OneTileCost w st { r.m_new with td := td } ∧
          ∀ z : Int → Int → Int,
            OneTileCost { w with GetSlopePixelZ := z } st { r.m_new with td := td }
              = OneTileCost w st { r.m_new with td := td } := by
      intro why hs
      obtain ⟨n, hchild, _, _, hlast, _, hcost, _⟩ :=
        child_of_stop w st v tf Yapf fuel old old_node r td [] why hY trivial hs
          (by simpa using hfuel)
      refine ⟨n, why, hchild, hlast, ?_, fun _ => rfl⟩
      rw [hcost]
      simp only [PathCost]
      ring
    by_cases hd : Yapf.PfDetectDestinationTile { r.m_new with td := td } = true
    · exact key SegmentEnd.destination
        (fun k => SegmentLoop_destination w st v tf _ _ k _ hd)
    · have hd' : Yapf.PfDetectDestinationTile { r.m_new with td := td } = false := by
        simpa using hd
      by_cases he : EntersDepot w { r.m_new with td := td }
      · exact key SegmentEnd.depot (fun k => SegmentLoop_depot w st v tf _ _ k _ hd' he)
      · have hpass : PassesThrough w Yapf.PfDetectDestinationTile { r.m_new with td := td } :=
          ⟨hd', he⟩
        rcases hstop with h1 | h2 | h3 | ⟨r', h4, h5⟩
        · exact absurd h1 hd
        · exact absurd h2 he
        · exact key SegmentEnd.end_of_road
            (fun k => SegmentLoop_end_of_road w st v tf _ _ k _ hpass h3)
        · exact key SegmentEnd.junction
            (fun k => SegmentLoop_junction w st v tf _ _ k _ r' hpass h4 h5)

theorem hillFoot_expansion :
    PfFollowNode hillWorld demoPenalties demoLorry hillSlowFollower
        (TileRoadPolicy hillWorld hillDest) 4098 5 hillFoot
      = some [AstarCall.CreateNewNode (CreateNewNode (some 5) { tile := 691, td := 8 } false),
              AstarCall.FoundTarget
                { m_parent := some 5, m_key := { tile := 691, td := 8 }, m_is_choice := false,
                  m_cost := 3100, m_estimate := 3100,
                  m_segment_last := { tile := 691, td := 8 } }] := by
  decide

/-- Witness for C30 on the hilly road: tile `691` lies `8` above tile `690`
(`SlopeCost` would be `200`) and carries the speed limits `60` and `120` for a
vehicle of speed `100`; the child of `hillFoot` that ends on its first tile
`691`, the destination, costs `3000 + 0 * 100 + 100`. -/
theorem first_tile_without_slope_and_speed_witness :
    SlopeCost hillWorld demoPenalties 690 691 = 200 ∧
    SpeedCost demoLorry.GetDisplayMaxSpeed hillFootFirst.min_speed hillFootFirst.max_speed
      = 240 ∧
    hillSlowFollower.Follow hillFoot.m_segment_last = some hillFootFirst ∧
    ∃ (n : Node) (why : SegmentEnd),
      PfFollowNodeChild hillWorld demoPenalties demoLorry hillSlowFollower
          (TileRoadPolicy hillWorld hillDest) 4098 5 hillFoot hillFootFirst 8
        = some (ChildResult.evaluated (CreateNewNode (some 5) { tile := 691, td := 8 } false)
            why [] n true) ∧
      n.m_segment_last = { tile := 691, td := 8 } ∧ n.m_cost = 3100 := by
  obtain ⟨n, why, h1, h2, h3, _⟩ := (first_tile_without_slope_and_speed hillWorld demoPenalties
    demoLorry hillSlowFollower (TileRoadPolicy hillWorld hillDest) 4098 5 hillFoot
    (Or.inl ⟨_, rfl⟩)).2.2 hillFootFirst 8 (Or.inl (by decide)) (by decide)
  exact ⟨by decide, by decide, by decide, n, why, h1, h2, h3.trans (by decide)⟩

/-! ### The search engine -/

theorem GetBestOpenNode_mem (nodes : List Node) :
    ∀ (l : List Nat) (h : Nat), GetBestOpenNode nodes l = some h → h ∈ l := by
  intro l
  induction l with
  | nil => intro h hh; simp [GetBestOpenNode] at hh
  | cons a rest ih =>
    intro h hh
    simp only [GetBestOpenNode] at hh
    cases hb : GetBestOpenNode nodes rest with
    | none =>
      rw [hb] at hh
      simp only [Option.some.injEq] at hh
      subst hh
      exact List.mem_cons_self _ _
    | some b =>
      rw [hb] at hh
      dsimp only at hh
      split at hh
      · simp only [Option.some.injEq] at hh
        subst hh
        exact List.mem_cons_of_mem _ (ih b hb)
      · simp only [Option.some.injEq] at hh
        subst hh
        exact List.mem_cons_self _ _

theorem GetBestOpenNode_none (nodes : List Node) :
    ∀ l : List Nat, GetBestOpenNode nodes l = none → l = [] := by
  intro l h
  cases l with
  | nil => rfl
  | cons a rest =>
    simp only [GetBestOpenNode] at h
    cases hb : GetBestOpenNode nodes rest with
    | none => rw [hb] at h; simp at h
    | some b =>
      rw [hb] at h
      dsimp only at h
      split at h <;> simp at h

theorem AstarInsertNode_takes (key : Node → TileIndex × Nat) (s : AstarState) (n : Node) :
    (∃ suffix, (AstarInsertNode key s n).nodes = s.nodes ++ suffix ∧ ∀ m ∈ suffix, m = n) ∧
    (AstarInsertNode key s n).closed_set = s.closed_set ∧
    (∀ h, h ∈ (AstarInsertNode key s n).open_set ↔
      h ∈ s.open_set ∨ (s.nodes.length ≤ h ∧ h < (AstarInsertNode key s n).nodes.length)) ∧
    ∃ m ∈ (AstarInsertNode key s n).nodes, key m = key n := by
  unfold AstarInsertNode
  split
  · rename_i hany
    refine ⟨⟨[], by simp, by simp⟩, rfl, ?_, ?_⟩
    · intro h
      constructor
      · intro hh; exact Or.inl hh
      · rintro (hh | ⟨h1, h2⟩)
        · exact hh
        · omega
    · rw [List.any_eq_true] at hany
      obtain ⟨h, _, hh⟩ := hany
      cases hm : s.nodes[h]? with
      | none => rw [hm] at hh; simp at hh
      | some m =>
        rw [hm] at hh
        exact ⟨m, List.mem_iff_getElem?.mpr ⟨h, hm⟩, by simpa using hh⟩
  · refine ⟨⟨[n], rfl, by simp⟩, rfl, ?_, ⟨n, by simp, rfl⟩⟩
    intro h
    simp only [List.mem_append, List.mem_singleton, List.length_append, List.length_singleton]
    constructor
    · rintro (hh | hh)
      · exact Or.inl hh
      · right; omega
    · rintro (hh | ⟨h1, h2⟩)
      · exact Or.inl hh
      · right; omega

theorem AstarApply_found (key : Node → TileIndex × Nat) :
    ∀ (calls : List AstarCall) (s : AstarState) (t : Node),
      AstarApply key calls s = Sum.inr t → AstarCall.FoundTarget t ∈ calls := by
  intro calls
  induction calls with
  | nil => intro s t h; simp [AstarApply] at h
  | cons c rest ih =>
    intro s t h
    cases c with
    | CreateNewNode n =>
      simp only [AstarApply] at h
      exact List.mem_cons_of_mem _ (ih s t h)
    | FoundTarget n =>
      simp only [AstarApply, Sum.inr.injEq] at h
      subst h
      exact List.mem_cons_self _ _
    | InsertNode n =>
      simp only [AstarApply] at h
      exact List.mem_cons_of_mem _ (ih _ t h)

theorem AstarApply_takes (key : Node → TileIndex × Nat) :
    ∀ (calls : List AstarCall) (s s1 : AstarState),
      AstarApply key calls s = Sum.inl s1 → AstarTakesIn key calls s s1 := by
  intro calls
  induction calls with
  | nil =>
    intro s s1 h
    simp only [AstarApply, Sum.inl.injEq] at h
    subst h
    refine ⟨⟨[], by simp, by simp⟩, rfl, ?_, by simp, by simp⟩
    intro h
    constructor
    · intro hh; exact Or.inl hh
    · rintro (hh | ⟨h1, h2⟩)
      · exact hh
      · omega
  | cons c rest ih =>
    intro s s1 h
    cases c with
    | CreateNewNode n =>
      simp only [AstarApply] at h
      obtain ⟨⟨suffix, h1, h1'⟩, h2, h3, h4, h5⟩ := ih s s1 h
      refine ⟨⟨suffix, h1, fun m hm => List.mem_cons_of_mem _ (h1' m hm)⟩, h2, h3, ?_, ?_⟩
      · intro t ht
        rcases List.mem_cons.mp ht with ht | ht
        · cases ht
        · exact h4 t ht
      · intro c hc
        rcases List.mem_cons.mp hc with hc | hc
        · cases hc
        · exact h5 c hc
    | FoundTarget n => simp [AstarApply] at h
    | InsertNode n =>
      simp only [AstarApply] at h
      obtain ⟨⟨suffix, h1, h1'⟩, h2, h3, h4, h5⟩ := ih _ s1 h
      obtain ⟨⟨suf0, g1, g1'⟩, g2, g3, m0, hm0, hk0⟩ := AstarInsertNode_takes key s n
      refine ⟨⟨suf0 ++ suffix, ?_, ?_⟩, h2.trans g2, ?_, ?_, ?_⟩
      · rw [h1, g1, List.append_assoc]
      · intro m hm
        rcases List.mem_append.mp hm with hm | hm
        · rw [g1' m hm]; exact List.mem_cons_self _ _
        · exact List.mem_cons_of_mem _ (h1' m hm)
      · intro h
        rw [h3 h, g3 h]
        have hlen1 : (AstarInsertNode key s n).nodes.length = s.nodes.length + suf0.length := by
          rw [g1, List.length_append]
        have hlen2 : s1.nodes.length = (AstarInsertNode key s n).nodes.length + suffix.length := by
          rw [h1, List.length_append]
        constructor
        · rintro ((hh | ⟨a, b⟩) | ⟨a, b⟩)
          · exact Or.inl hh
          · right; omega
          · right; omega
        · rintro (hh | ⟨a, b⟩)
          · exact Or.inl (Or.inl hh)
          · by_cases hlt : h < (AstarInsertNode key s n).nodes.length
            · exact Or.inl (Or.inr ⟨a, hlt⟩)
            · exact Or.inr ⟨by omega, b⟩
      · intro t ht
        rcases List.mem_cons.mp ht with ht | ht
        · cases ht
        · exact h4 t ht
      · intro c hc
        rcases List.mem_cons.mp hc with hc | hc
        · cases hc
          refine ⟨m0, ?_, hk0⟩
          rw [h1]
          exact List.mem_append_left _ hm0
        · exact h5 c hc

theorem AstarInv_initial (key : Node → TileIndex × Nat)
    (Follow : Nat → Node → Option (List AstarCall)) (initial : List Node) :
    AstarInv key Follow initial
      { nodes := initial, open_set := List.range initial.length, closed_set := [] } := by
  refine ⟨?_, ?_, ?_, ?_, ?_⟩
  · intro h hh
    exact List.mem_range.mp hh
  · intro h hh
    simp at hh
  · intro h hh
    exact Or.inl (List.mem_range.mpr hh)
  · intro n hn
    exact Generated.seed n hn
  · intro h hh
    simp at hh

theorem AstarInv_step (key : Node → TileIndex × Nat)
    (Follow : Nat → Node → Option (List AstarCall)) (initial : List Node)
    (s s1 : AstarState) (h : Nat) (n : Node) (calls : List AstarCall)
    (hinv : AstarInv key Follow initial s) (hh : h ∈ s.open_set) (hn : s.nodes[h]? = some n)
    (hcalls : Follow h n = some calls)
    (htake : AstarTakesIn key calls
      { s with open_set := s.open_set.erase h, closed_set := h :: s.closed_set } s1) :
    AstarInv key Follow initial s1 ∧ ∀ m ∈ s.nodes, m ∈ s1.nodes := by
  obtain ⟨i1, i2, i3, i4, i5⟩ := hinv
  obtain ⟨⟨suffix, t1, t1'⟩, t2, t3, t4, t5⟩ := htake
  dsimp only at t1 t2 t3
  have hlen : s1.nodes.length = s.nodes.length + suffix.length := by
    rw [t1, List.length_append]
  have hsub : ∀ m ∈ s.nodes, m ∈ s1.nodes := by
    intro m hm
    rw [t1]
    exact List.mem_append_left _ hm
  have hgen : Generated Follow initial n := i4 n (List.mem_iff_getElem?.mpr ⟨h, hn⟩)
  refine ⟨⟨?_, ?_, ?_, ?_, ?_⟩, hsub⟩
  · intro a ha
    rcases (t3 a).mp ha with ha | ⟨_, hb⟩
    · have := i1 a (List.mem_of_mem_erase ha)
      omega
    · exact hb
  · intro a ha
    rw [t2] at ha
    rcases List.mem_cons.mp ha with ha | ha
    · subst ha
      have := i1 a hh
      omega
    · have := i2 a ha
      omega
  · intro a ha
    by_cases hlt : a < s.nodes.length
    · rcases i3 a hlt with ho | hc
      · by_cases hah : a = h
        · right
          rw [t2, hah]
          exact List.mem_cons_self _ _
        · left
          exact (t3 a).mpr (Or.inl ((List.mem_erase_of_ne hah).mpr ho))
      · right
        rw [t2]
        exact List.mem_cons_of_mem _ hc
    · left
      exact (t3 a).mpr (Or.inr ⟨by omega, ha⟩)
  · intro m hm
    rw [t1] at hm
    rcases List.mem_append.mp hm with hm | hm
    · exact i4 m hm
    · exact Generated.child h n calls m hgen hcalls (t1' m hm)
  · intro a ha m hm
    rw [t2] at ha
    have halt : a < s.nodes.length := by
      rcases List.mem_cons.mp ha with ha | ha
      · subst ha; exact i1 a hh
      · exact i2 a ha
    have hm' : s.nodes[a]? = some m := by
      rw [t1, List.getElem?_append_left halt] at hm
      exact hm
    rcases List.mem_cons.mp ha with ha | ha
    · subst ha
      rw [hn] at hm'
      simp only [Option.some.injEq] at hm'
      subst hm'
      exact ⟨calls, hcalls, t4, t5⟩
    · obtain ⟨calls', c1, c2, c3⟩ := i5 a ha m hm'
      refine ⟨calls', c1, c2, ?_⟩
      intro c hc
      obtain ⟨m', hm1, hm2⟩ := c3 c hc
      exact ⟨m', hsub m' hm1, hm2⟩

theorem AstarInv_closed (key : Node → TileIndex × Nat)
    (Follow : Nat → Node → Option (List AstarCall)) (initial : List Node) (s : AstarState)
    (hinv : AstarInv key Follow initial s) (hopen : s.open_set = []) :
    ClosedPool key Follow initial s.nodes := by
  obtain ⟨_, _, i3, i4, i5⟩ := hinv
  intro m hm
  refine ⟨i4 m hm, ?_⟩
  obtain ⟨h, hh⟩ := List.mem_iff_getElem?.mp hm
  have hlt : h < s.nodes.length := (List.getElem?_eq_some.mp hh).1
  rcases i3 h hlt with ho | hc
  · rw [hopen] at ho
    simp at ho
  · obtain ⟨calls, c1, c2, c3⟩ := i5 h hc m hh
    exact ⟨h, calls, c1, c2, c3⟩

theorem AstarLoop_spec (key : Node → TileIndex × Nat)
    (Follow : Nat → Node → Option (List AstarCall)) (initial : List Node)
    (htotal : ∀ (old : Nat) (old_node : Node), ∃ calls, Follow old old_node = some calls) :
    ∀ (budget : Nat) (s : AstarState), AstarInv key Follow initial s →
      ∃ e, AstarLoop key Follow budget s = some e ∧
        (∀ t, e = SearchEnd.found t →
          ∃ (n : Node) (old : Nat) (calls : List AstarCall),
            Generated Follow initial n ∧ Follow old n = some calls ∧
              AstarCall.FoundTarget t ∈ calls) ∧
        (e = SearchEnd.no_path →
          ∃ pool, (∀ n ∈ s.nodes, n ∈ pool) ∧ ClosedPool key Follow initial pool) := by
  intro budget
  induction budget with
  | zero =>
    intro s hinv
    simp only [AstarLoop]
    by_cases hopen : s.open_set = []
    · rw [if_pos hopen]
      refine ⟨_, rfl, ?_, ?_⟩
      · intro t ht; cases ht
      · intro _
        exact ⟨s.nodes, fun n hn => hn, AstarInv_closed key Follow initial s hinv hopen⟩
    · rw [if_neg hopen]
      refine ⟨_, rfl, ?_, ?_⟩
      · intro t ht; cases ht
      · intro ht; cases ht
  | succ budget ih =>
    intro s hinv
    simp only [AstarLoop]
    cases hb : GetBestOpenNode s.nodes s.open_set with
    | none =>
      have hopen := GetBestOpenNode_none s.nodes s.open_set hb
      refine ⟨_, rfl, ?_, ?_⟩
      · intro t ht; cases ht
      · intro _
        exact ⟨s.nodes, fun n hn => hn, AstarInv_closed key Follow initial s hinv hopen⟩
    | some h =>
      have hh := GetBestOpenNode_mem s.nodes s.open_set h hb
      have hlt : h < s.nodes.length := hinv.1 h hh
      have hn : s.nodes[h]? = some s.nodes[h] := List.getElem?_eq_getElem hlt
      obtain ⟨calls, hcalls⟩ := htotal h s.nodes[h]
      simp only [hn, hcalls]
      cases ha : AstarApply key calls
          { s with open_set := s.open_set.erase h, closed_set := h :: s.closed_set } with
      | inr t =>
        refine ⟨_, rfl, ?_, ?_⟩
        · intro t' ht'
          simp only [SearchEnd.found.injEq] at ht'
          subst ht'
          exact ⟨s.nodes[h], h, calls,
            hinv.2.2.2.1 _ (List.mem_iff_getElem?.mpr ⟨h, hn⟩), hcalls,
            AstarApply_found key calls _ t ha⟩
        · intro ht; cases ht
      | inl s1 =>
        have htake := AstarApply_takes key calls _ s1 ha
        obtain ⟨hinv1, hsub⟩ :=
          AstarInv_step key Follow initial s s1 h s.nodes[h] calls hinv hh hn hcalls htake
        obtain ⟨e, he, h1, h2⟩ := ih s1 hinv1
        refine ⟨e, he, h1, ?_⟩
        intro hno
        obtain ⟨pool, hp1, hp2⟩ := h2 hno
        exact ⟨pool, fun n hn' => hp1 n (hsub n hn'), hp2⟩

/-! ### Where a run of single-choice moves stops -/

theorem SegmentEndFrom_succ (w : World) (tf : CFollowTrackRoad) (detect : PathPos → Bool) :
    ∀ (k : Nat) (p e : PathPos), SegmentEndFrom w tf detect k p = some e →
      SegmentEndFrom w tf detect (k + 1) p = some e := by
  intro k
  induction k with
  | zero => intro p e h; simp [SegmentEndFrom] at h
  | succ k ih =>
    intro p e h
    rw [SegmentEndFrom] at h ⊢
    split
    · rename_i hd
      rw [if_pos hd] at h
      exact h
    · rename_i hd
      rw [if_neg hd] at h
      split
      · rename_i hdep
        rw [if_pos hdep] at h
        exact h
      · rename_i hdep
        rw [if_neg hdep] at h
        cases hr : tf.Follow p with
        | none =>
          rw [hr] at h
          exact h
        | some r =>
          rw [hr] at h
          dsimp only at h ⊢
          split
          · rename_i hs
            rw [if_pos hs] at h
            exact h
          · rename_i hs
            rw [if_neg hs] at h
            exact ih _ _ h

theorem SegmentEndFrom_add (w : World) (tf : CFollowTrackRoad) (detect : PathPos → Bool)
    (k : Nat) (p e : PathPos) (h : SegmentEndFrom w tf detect k p = some e) :
    ∀ j : Nat, SegmentEndFrom w tf detect (k + j) p = some e := by
  intro j
  induction j with
  | zero => exact h
  | succ j ih => exact SegmentEndFrom_succ w tf detect (k + j) p e ih

theorem SegmentEndFrom_unique (w : World) (tf : CFollowTrackRoad) (detect : PathPos → Bool)
    (j k : Nat) (p e1 e2 : PathPos) (h1 : SegmentEndFrom w tf detect j p = some e1)
    (h2 : SegmentEndFrom w tf detect k p = some e2) : e1 = e2 := by
  have a := SegmentEndFrom_add w tf detect j p e1 h1 k
  have b := SegmentEndFrom_add w tf detect k p e2 h2 j
  rw [Nat.add_comm k j, a] at b
  exact Option.some.inj b

theorem SegmentLoop_walk (w : World) (st : YAPFSettings) (v : RoadVehicle)
    (tf : CFollowTrackRoad) (detect : PathPos → Bool) (pos : PathPos) :
    ∀ (fuel : Nat) (s e : SegState) (why : SegmentEnd),
      SegmentLoop w st v tf detect pos fuel s = some (LoopExit.brk e why) →
      why ≠ SegmentEnd.ceiling → s.m_segment_last = s.m_new →
      ∃ k, SegmentEndFrom w tf detect k s.m_new = some e.m_segment_last := by
  intro fuel
  induction fuel with
  | zero => intro s e why h; simp [SegmentLoop] at h
  | succ fuel ih =>
    intro s e why h hwhy hlast
    rw [SegmentLoop] at h
    dsimp only at h
    by_cases hd : detect s.m_new = true
    · rw [if_pos hd] at h
      simp only [Option.some.injEq, LoopExit.brk.injEq] at h
      obtain ⟨he, _⟩ := h
      subst he
      exact ⟨1, by simp [SegmentEndFrom, hd, hlast]⟩
    · rw [if_neg hd] at h
      by_cases hdep : w.IsRoadDepotTile s.m_new.tile = true ∧
          s.m_new.td = w.DiagDirToDiagTrackdir
            (w.ReverseDiagDir (w.GetGroundDepotDirection s.m_new.tile))
      · rw [if_pos hdep] at h
        simp only [Option.some.injEq, LoopExit.brk.injEq] at h
        obtain ⟨he, _⟩ := h
        subst he
        exact ⟨1, by simp [SegmentEndFrom, hd, hdep, hlast]⟩
      · rw [if_neg hdep] at h
        cases hr : tf.Follow s.m_new with
        | none =>
          rw [hr] at h
          simp only [Option.some.injEq, LoopExit.brk.injEq] at h
          obtain ⟨he, _⟩ := h
          subst he
          exact ⟨1, by simp [SegmentEndFrom, hd, hdep, hr, hlast]⟩
        | some r =>
          rw [hr] at h
          dsimp only at h
          by_cases hs : (!r.is_single) = true
          · rw [if_pos hs] at h
            simp only [Option.some.injEq, LoopExit.brk.injEq] at h
            obtain ⟨he, _⟩ := h
            subst he
            exact ⟨1, by simp [SegmentEndFrom, hd, hdep, hr, hs, hlast]⟩
          · rw [if_neg hs] at h
            by_cases hp : r.m_new = pos
            · rw [if_pos hp] at h
              simp at h
            · rw [if_neg hp] at h
              by_cases hc : s.tiles + (r.m_tiles_skipped + 1) > w.MAX_MAP_SIZE
              · rw [if_pos hc] at h
                simp only [Option.some.injEq, LoopExit.brk.injEq] at h
                exact absurd h.2.symm hwhy
              · rw [if_neg hc] at h
                obtain ⟨k, hk⟩ := ih _ e why h hwhy rfl
                dsimp only at hk
                refine ⟨k + 1, ?_⟩
                rw [SegmentEndFrom, if_neg hd, if_neg hdep, hr]
                dsimp only
                rw [if_neg hs]
                exact hk

theorem SegmentLoop_return_walk (w : World) (st : YAPFSettings) (v : RoadVehicle)
    (tf : CFollowTrackRoad) (detect : PathPos → Bool) (pos : PathPos) :
    ∀ (fuel : Nat) (s : SegState),
      SegmentLoop w st v tf detect pos fuel s = some LoopExit.ret →
      ∃ i, 1 ≤ i ∧
        (∀ k, SegmentEndFrom w tf detect (k + i) s.m_new = SegmentEndFrom w tf detect k pos) ∧
        ∀ k, k ≤ i → SegmentEndFrom w tf detect k s.m_new = none := by
  intro fuel
  induction fuel with
  | zero => intro s h; simp [SegmentLoop] at h
  | succ fuel ih =>
    intro s h
    rw [SegmentLoop] at h
    dsimp only at h
    by_cases hd : detect s.m_new = true
    · rw [if_pos hd] at h
      simp at h
    · rw [if_neg hd] at h
      by_cases hdep : w.IsRoadDepotTile s.m_new.tile = true ∧
          s.m_new.td = w.DiagDirToDiagTrackdir
            (w.ReverseDiagDir (w.GetGroundDepotDirection s.m_new.tile))
      · rw [if_pos hdep] at h
        simp at h
      · rw [if_neg hdep] at h
        cases hr : tf.Follow s.m_new with
        | none =>
          rw [hr] at h
          simp at h
        | some r =>
          rw [hr] at h
          dsimp only at h
          by_cases hs : (!r.is_single) = true
          · rw [if_pos hs] at h
            simp at h
          · rw [if_neg hs] at h
            have hstep : ∀ k, SegmentEndFrom w tf detect (k + 1) s.m_new
                = SegmentEndFrom w tf detect k r.m_new := by
              intro k
              rw [SegmentEndFrom, if_neg hd, if_neg hdep, hr]
              dsimp only
              rw [if_neg hs]
            by_cases hp : r.m_new = pos
            · refine ⟨1, le_refl _, ?_, ?_⟩
              · intro k
                rw [hstep k, hp]
              · intro k hk
                match k, hk with
                | 0, _ => rfl
                | 1, _ =>
                  rw [hstep 0]
                  rfl
            · rw [if_neg hp] at h
              by_cases hc : s.tiles + (r.m_tiles_skipped + 1) > w.MAX_MAP_SIZE
              · rw [if_pos hc] at h
                simp at h
              · rw [if_neg hc] at h
                obtain ⟨i, _, h1, h2⟩ := ih _ h
                dsimp only at h1 h2
                refine ⟨i + 1, by omega, ?_, ?_⟩
                · intro k
                  rw [← Nat.add_assoc, hstep (k + i), h1 k]
                · intro k hk
                  match k, hk with
                  | 0, _ => rfl
                  | k + 1, hk =>
                    rw [hstep k]
                    exact h2 k (by omega)

theorem SegmentLoop_return_never (w : World) (st : YAPFSettings) (v : RoadVehicle)
    (tf : CFollowTrackRoad) (detect : PathPos → Bool) (pos : PathPos) (fuel : Nat)
    (s : SegState) (h : SegmentLoop w st v tf detect pos fuel s = some LoopExit.ret)
    (hs : s.m_new = pos) : ∀ k, SegmentEndFrom w tf detect k pos = none := by
  obtain ⟨i, hi, h1, h2⟩ := SegmentLoop_return_walk w st v tf detect pos fuel s h
  rw [hs] at h1 h2
  intro k
  induction k using Nat.strong_induction_on with
  | _ k ih =>
    by_cases hk : k ≤ i
    · exact h2 k hk
    · have hk' : k = (k - i) + i := by omega
      rw [hk', h1 (k - i)]
      exact ih (k - i) (by omega)

/-! ### Expansions that start from the same follower answer -/

theorem PfFollowNodeLoop_kind (w : World) (st : YAPFSettings) (v : RoadVehicle)
    (tf : CFollowTrackRoad) (Yapf : DestinationPolicy) (fuel : Nat) (old : Nat) (old_node : Node)
    (r : FollowResult) :
    ∀ (tds : List Trackdir) (calls : List AstarCall),
      PfFollowNodeLoop w st v tf Yapf fuel old old_node r tds = some calls →
      (∀ n, AstarCall.InsertNode n ∈ calls → Yapf.PfDetectDestination n = false) ∧
      (∀ n, AstarCall.FoundTarget n ∈ calls → Yapf.PfDetectDestination n = true) := by
  intro tds
  induction tds with
  | nil =>
    intro calls h
    simp only [PfFollowNodeLoop, Option.some.injEq] at h
    subst h
    simp
  | cons td rest ih =>
    intro calls h
    cases hc : PfFollowNodeChild w st v tf Yapf fuel old old_node r td with
    | none => simp [PfFollowNodeLoop, hc] at h
    | some c =>
      cases c with
      | looped created =>
        rw [PfFollowNodeLoop_cons_looped _ _ _ _ _ _ _ _ _ _ _ _ hc] at h
        simp only [Option.some.injEq] at h
        subst h
        simp
      | evaluated created why steps m bValid =>
        rw [PfFollowNodeLoop_cons_evaluated _ _ _ _ _ _ _ _ _ _ _ _ _ _ _ _ hc] at h
        cases hrest : PfFollowNodeLoop w st v tf Yapf fuel old old_node r rest with
        | none => rw [hrest] at h; simp at h
        | some calls' =>
          rw [hrest] at h
          simp only [Option.map_some', Option.some.injEq] at h
          subst h
          obtain ⟨ih1, ih2⟩ := ih calls' hrest
          constructor
          · intro n hn
            rcases List.mem_append.mp hn with hn | hn
            · simp only [ChildCalls, List.mem_cons, reduceCtorEq, false_or] at hn
              by_cases hb : (!bValid) = true
              · rw [if_pos hb] at hn; simp at hn
              · rw [if_neg hb] at hn
                by_cases hd : Yapf.PfDetectDestination m = true
                · rw [if_pos hd] at hn; simp at hn
                · rw [if_neg hd] at hn
                  simp only [List.mem_singleton, AstarCall.InsertNode.injEq] at hn
                  subst hn
                  simpa using hd
            · exact ih1 n hn
          · intro n hn
            rcases List.mem_append.mp hn with hn | hn
            · simp only [ChildCalls, List.mem_cons, reduceCtorEq, false_or] at hn
              by_cases hb : (!bValid) = true
              · rw [if_pos hb] at hn; simp at hn
              · rw [if_neg hb] at hn
                by_cases hd : Yapf.PfDetectDestination m = true
                · rw [if_pos hd] at hn
                  simp only [List.mem_singleton, AstarCall.FoundTarget.injEq] at hn
                  subst hn
                  exact hd
                · rw [if_neg hd] at hn; simp at hn
            · exact ih2 n hn

theorem PfFollowNodeLoop_cons_none (w : World) (st : YAPFSettings) (v : RoadVehicle)
    (tf : CFollowTrackRoad) (Yapf : DestinationPolicy) (fuel : Nat) (old : Nat) (old_node : Node)
    (r : FollowResult) (td : Trackdir) (rest : List Trackdir)
    (h : SegmentLoop w st v tf Yapf.PfDetectDestinationTile { r.m_new with td := td } fuel
      (FirstState w r td) = none) :
    PfFollowNodeLoop w st v tf Yapf fuel old old_node r (td :: rest) = none := by
  have h' : SegmentLoop w st v tf Yapf.PfDetectDestinationTile { r.m_new with td := td } fuel
      { m_new := { r.m_new with td := td }, m_segment_last := { r.m_new with td := td },
        segment_cost := (r.m_tiles_skipped : Int) * w.YAPF_TILE_LENGTH,
        tiles := r.m_tiles_skipped, steps := [] } = none := h
  simp only [PfFollowNodeLoop, PfFollowNodeChild, h']

theorem ChildCalls_shape (w : World) (Yapf : DestinationPolicy)
    (hY : (∃ self, Yapf = TileRoadPolicy w self) ∨ Yapf = AnyDepotRoadPolicy w)
    (created n1 : Node) :
    (ChildCalls Yapf created (Yapf.PfCalcEstimate n1).2 (Yapf.PfCalcEstimate n1).1).map
        AstarCall.shape
      = [(0, created.m_key, created.m_segment_last),
         (if Yapf.PfDetectDestinationTile n1.m_segment_last then 1 else 2,
           n1.m_key, n1.m_segment_last)] := by
  obtain ⟨e1, _, e3, _, e5⟩ := Policy_PfCalcEstimate w Yapf hY n1
  have hdet := Policy_PfDetectDestination w Yapf hY (Yapf.PfCalcEstimate n1).2
  rw [e3] at hdet
  simp only [ChildCalls, e1, Bool.not_true, Bool.false_eq_true, if_false, hdet]
  by_cases hd : Yapf.PfDetectDestinationTile n1.m_segment_last = true
  · rw [if_pos hd, if_pos hd]
    simp only [List.map_cons, List.map_nil, AstarCall.shape, e3, e5]
  · rw [if_neg hd, if_neg hd]
    simp only [List.map_cons, List.map_nil, AstarCall.shape, e3, e5]

theorem PfFollowNodeLoop_shape (w : World) (st : YAPFSettings) (v : RoadVehicle)
    (tf : CFollowTrackRoad) (Yapf : DestinationPolicy) (fuel : Nat)
    (hY : (∃ self, Yapf = TileRoadPolicy w self) ∨ Yapf = AnyDepotRoadPolicy w)
    (a b : Nat) (m n : Node) (r : FollowResult) :
    ∀ tds : List Trackdir,
      (PfFollowNodeLoop w st v tf Yapf fuel a m r tds).map (List.map AstarCall.shape)
        = (PfFollowNodeLoop w st v tf Yapf fuel b n r tds).map (List.map AstarCall.shape) := by
  intro tds
  induction tds with
  | nil => rfl
  | cons td rest ih =>
    cases hseg : SegmentLoop w st v tf Yapf.PfDetectDestinationTile { r.m_new with td := td }
        fuel (FirstState w r td) with
    | none =>
      rw [PfFollowNodeLoop_cons_none w st v tf Yapf fuel a m r td rest hseg,
        PfFollowNodeLoop_cons_none w st v tf Yapf fuel b n r td rest hseg]
    | some e =>
      cases e with
      | ret =>
        rw [PfFollowNodeLoop_cons_looped _ _ _ _ _ _ _ _ _ _ _ _
            (PfFollowNodeChild_of_return w st v tf Yapf fuel a m r td hseg),
          PfFollowNodeLoop_cons_looped _ _ _ _ _ _ _ _ _ _ _ _
            (PfFollowNodeChild_of_return w st v tf Yapf fuel b n r td hseg)]
        rfl
      | brk s' why =>
        rw [PfFollowNodeLoop_cons_evaluated _ _ _ _ _ _ _ _ _ _ _ _ _ _ _ _
            (PfFollowNodeChild_of_break w st v tf Yapf fuel a m r td s' why hseg),
          PfFollowNodeLoop_cons_evaluated _ _ _ _ _ _ _ _ _ _ _ _ _ _ _ _
            (PfFollowNodeChild_of_break w st v tf Yapf fuel b n r td s' why hseg)]
        cases ha : PfFollowNodeLoop w st v tf Yapf fuel a m r rest with
        | none =>
          rw [ha] at ih
          cases hb : PfFollowNodeLoop w st v tf Yapf fuel b n r rest with
          | none => rfl
          | some cb => rw [hb] at ih; simp at ih
        | some ca =>
          rw [ha] at ih
          cases hb : PfFollowNodeLoop w st v tf Yapf fuel b n r rest with
          | none => rw [hb] at ih; simp at ih
          | some cb =>
            rw [hb] at ih
            simp only [Option.map_some', Option.some.injEq] at ih ⊢
            rw [List.map_append, List.map_append, ChildCalls_shape w Yapf hY,
              ChildCalls_shape w Yapf hY, ih]
            rfl

theorem PfFollowNode_shape (w : World) (st : YAPFSettings) (v : RoadVehicle)
    (tf : CFollowTrackRoad) (Yapf : DestinationPolicy) (fuel : Nat)
    (hY : (∃ self, Yapf = TileRoadPolicy w self) ∨ Yapf = AnyDepotRoadPolicy w)
    (a b : Nat) (m n : Node) (h : tf.Follow m.m_segment_last = tf.Follow n.m_segment_last) :
    (PfFollowNode w st v tf Yapf fuel a m).map (List.map AstarCall.shape)
      = (PfFollowNode w st v tf Yapf fuel b n).map (List.map AstarCall.shape) := by
  unfold PfFollowNode
  rw [h]
  cases tf.Follow n.m_segment_last with
  | none => rfl
  | some r => exact PfFollowNodeLoop_shape w st v tf Yapf fuel hY a b m n r _

theorem shape_transfer (ca cb : List AstarCall)
    (h : ca.map AstarCall.shape = cb.map AstarCall.shape) :
    (∀ t, AstarCall.FoundTarget t ∈ ca → ∃ t', AstarCall.FoundTarget t' ∈ cb) ∧
    (∀ c, AstarCall.InsertNode c ∈ ca → ∃ c', AstarCall.InsertNode c' ∈ cb ∧
      c'.m_key = c.m_key ∧ c'.m_segment_last = c.m_segment_last) := by
  constructor
  · intro t ht
    have hm : AstarCall.shape (AstarCall.FoundTarget t) ∈ cb.map AstarCall.shape := by
      rw [← h]
      exact List.mem_map_of_mem _ ht
    obtain ⟨c, hc, hs⟩ := List.mem_map.mp hm
    cases c with
    | CreateNewNode x => simp [AstarCall.shape] at hs
    | FoundTarget x => exact ⟨x, hc⟩
    | InsertNode x => simp [AstarCall.shape] at hs
  · intro c hc
    have hm : AstarCall.shape (AstarCall.InsertNode c) ∈ cb.map AstarCall.shape := by
      rw [← h]
      exact List.mem_map_of_mem _ hc
    obtain ⟨c', hc', hs⟩ := List.mem_map.mp hm
    cases c' with
    | CreateNewNode x => simp [AstarCall.shape] at hs
    | FoundTarget x => simp [AstarCall.shape] at hs
    | InsertNode x =>
      simp only [AstarCall.shape, Prod.mk.injEq, true_and] at hs
      exact ⟨x, hc', hs.1, hs.2⟩

/-! ### Positions and segment ends of generated nodes -/

theorem Visits_single (w : World) (tf : CFollowTrackRoad) (initial : List Node)
    (hsingle : SingleTrackdir w tf) (q : PathPos) (r : FollowResult)
    (hq : Visits w tf initial q) (hr : tf.Follow q = some r) (hs : r.is_single = true) :
    Visits w tf initial r.m_new := by
  have h := Visits.follow q r r.m_new.td hq hr (by rw [hsingle q r hr hs]; simp)
  exact h

theorem Visits_SegmentEndFrom (w : World) (tf : CFollowTrackRoad) (detect : PathPos → Bool)
    (initial : List Node) (hsingle : SingleTrackdir w tf) :
    ∀ (k : Nat) (p e : PathPos), SegmentEndFrom w tf detect k p = some e →
      Visits w tf initial p → Visits w tf initial e := by
  intro k
  induction k with
  | zero => intro p e h; simp [SegmentEndFrom] at h
  | succ k ih =>
    intro p e h hp
    rw [SegmentEndFrom] at h
    by_cases hd : detect p = true
    · rw [if_pos hd] at h
      cases h
      exact hp
    · rw [if_neg hd] at h
      by_cases hdep : w.IsRoadDepotTile p.tile = true ∧
          p.td = w.DiagDirToDiagTrackdir (w.ReverseDiagDir (w.GetGroundDepotDirection p.tile))
      · rw [if_pos hdep] at h
        cases h
        exact hp
      · rw [if_neg hdep] at h
        cases hr : tf.Follow p with
        | none =>
          rw [hr] at h
          cases h
          exact hp
        | some r =>
          rw [hr] at h
          dsimp only at h
          by_cases hs : (!r.is_single) = true
          · rw [if_pos hs] at h
            cases h
            exact hp
          · rw [if_neg hs] at h
            exact ih _ _ h (Visits_single w tf initial hsingle p r hp hr (by simpa using hs))

theorem SegmentEndFrom_related (w : World) (tf : CFollowTrackRoad) (detect : PathPos → Bool)
    (initial : List Node) (R : PathPos → PathPos → Prop) (hrefl : ∀ p, R p p)
    (hR : ∀ p q : PathPos, Visits w tf initial p → Visits w tf initial q → R p q →
      tf.Follow p = tf.Follow q ∧ detect p = detect q ∧ (EntersDepot w p ↔ EntersDepot w q))
    (j k : Nat) (p q e1 e2 : PathPos) (hpq : R p q) (hp : Visits w tf initial p)
    (hq : Visits w tf initial q) (h1 : SegmentEndFrom w tf detect j p = some e1)
    (h2 : SegmentEndFrom w tf detect k q = some e2) : R e1 e2 := by
  obtain ⟨hf, hdt, hdp⟩ := hR p q hp hq hpq
  cases j with
  | zero => simp [SegmentEndFrom] at h1
  | succ j =>
    cases k with
    | zero => simp [SegmentEndFrom] at h2
    | succ k =>
      rw [SegmentEndFrom] at h1 h2
      by_cases hd : detect p = true
      · rw [if_pos hd] at h1
        rw [if_pos (hdt ▸ hd)] at h2
        cases h1
        cases h2
        exact hpq
      · rw [if_neg hd] at h1
        rw [if_neg (hdt ▸ hd)] at h2
        by_cases hdep : w.IsRoadDepotTile p.tile = true ∧
            p.td = w.DiagDirToDiagTrackdir (w.ReverseDiagDir (w.GetGroundDepotDirection p.tile))
        · have hdep' : w.IsRoadDepotTile q.tile = true ∧
              q.td = w.DiagDirToDiagTrackdir
                (w.ReverseDiagDir (w.GetGroundDepotDirection q.tile)) := hdp.mp hdep
          rw [if_pos hdep] at h1
          rw [if_pos hdep'] at h2
          cases h1
          cases h2
          exact hpq
        · have hdep' : ¬ (w.IsRoadDepotTile q.tile = true ∧
              q.td = w.DiagDirToDiagTrackdir
                (w.ReverseDiagDir (w.GetGroundDepotDirection q.tile))) :=
            fun h => hdep (hdp.mpr h)
          rw [if_neg hdep] at h1
          rw [if_neg hdep'] at h2
          rw [hf] at h1
          cases hr : tf.Follow q with
          | none =>
            rw [hr] at h1 h2
            cases h1
            cases h2
            exact hpq
          | some r =>
            rw [hr] at h1 h2
            dsimp only at h1 h2
            by_cases hs : (!r.is_single) = true
            · rw [if_pos hs] at h1 h2
              cases h1
              cases h2
              exact hpq
            · rw [if_neg hs] at h1 h2
              rw [SegmentEndFrom_unique w tf detect j k r.m_new e1 e2 h1 h2]
              exact hrefl e2

theorem PfFollowNode_kind (w : World) (st : YAPFSettings) (v : RoadVehicle)
    (tf : CFollowTrackRoad) (Yapf : DestinationPolicy) (fuel : Nat) (old : Nat) (old_node : Node)
    (calls : List AstarCall) (h : PfFollowNode w st v tf Yapf fuel old old_node = some calls) :
    (∀ n, AstarCall.InsertNode n ∈ calls → Yapf.PfDetectDestination n = false) ∧
    (∀ n, AstarCall.FoundTarget n ∈ calls → Yapf.PfDetectDestination n = true) := by
  unfold PfFollowNode at h
  cases hr : tf.Follow old_node.m_segment_last with
  | none =>
    rw [hr] at h
    simp only [Option.some.injEq] at h
    subst h
    simp
  | some r =>
    rw [hr] at h
    exact PfFollowNodeLoop_kind w st v tf Yapf fuel old old_node r _ calls h

theorem child_facts (w : World) (st : YAPFSettings) (v : RoadVehicle)
    (tf : CFollowTrackRoad) (Yapf : DestinationPolicy)
    (hY : (∃ self, Yapf = TileRoadPolicy w self) ∨ Yapf = AnyDepotRoadPolicy w)
    (initial : List Node) (hsingle : SingleTrackdir w tf)
    (hceil : BelowCeiling w st v tf Yapf.PfDetectDestinationTile initial)
    (old : Nat) (old_node : Node) (calls : List AstarCall) (c : Node)
    (hfacts : NodeFacts w tf Yapf.PfDetectDestinationTile initial old_node)
    (hcalls : PfFollowNode w st v tf Yapf (w.MAX_MAP_SIZE + 2) old old_node = some calls)
    (hc : AstarCall.InsertNode c ∈ calls ∨ AstarCall.FoundTarget c ∈ calls) :
    Visits w tf initial c.m_key ∧ Visits w tf initial c.m_segment_last ∧
      ∃ k, SegmentEndFrom w tf Yapf.PfDetectDestinationTile k c.m_key
        = some c.m_segment_last := by
  obtain ⟨r, td, created, why, steps, hr, htd, hchild⟩ :=
    PfFollowNode_emitted w st v tf Yapf _ old old_node calls c hcalls hc
  obtain ⟨s', hloop, hcreated, _, hn, _⟩ :=
    PfFollowNodeChild_evaluated w st v tf Yapf _ old old_node r td created why steps c true hchild
  obtain ⟨_, _, e3, _, e5⟩ := Policy_PfCalcEstimate w Yapf hY
    { created with m_segment_last := s'.m_segment_last,
                   m_cost := old_node.m_cost + s'.segment_cost }
  rw [← hn] at e3 e5
  have hkey : c.m_key = { r.m_new with td := td } := by
    rw [e5, hcreated]
    rfl
  have hlast : c.m_segment_last = s'.m_segment_last := e3
  have hwhy : why ≠ SegmentEnd.ceiling := by
    intro hw
    subst hw
    exact hceil old_node.m_segment_last r td s' hfacts.2.1 hr htd hloop
  obtain ⟨k, hk⟩ := SegmentLoop_walk w st v tf Yapf.PfDetectDestinationTile _ _ _ s' why hloop
    hwhy rfl
  dsimp only at hk
  have hvk : Visits w tf initial c.m_key := by
    rw [hkey]
    exact Visits.follow _ r td hfacts.2.1 hr htd
  rw [← hkey, ← hlast] at hk
  exact ⟨hvk, Visits_SegmentEndFrom w tf _ initial hsingle k _ _ hk hvk, k, hk⟩

theorem Generated_facts (w : World) (st : YAPFSettings) (v : RoadVehicle)
    (tf : CFollowTrackRoad) (Yapf : DestinationPolicy)
    (hY : (∃ self, Yapf = TileRoadPolicy w self) ∨ Yapf = AnyDepotRoadPolicy w)
    (initial : List Node) (hinit : ∀ n ∈ initial, n.m_segment_last = n.m_key)
    (hsingle : SingleTrackdir w tf)
    (hceil : BelowCeiling w st v tf Yapf.PfDetectDestinationTile initial) (n : Node)
    (h : Generated (fun old old_node =>
      PfFollowNode w st v tf Yapf (w.MAX_MAP_SIZE + 2) old old_node) initial n) :
    NodeFacts w tf Yapf.PfDetectDestinationTile initial n := by
  induction h with
  | seed n hn =>
    refine ⟨Visits.start n hn, ?_, Or.inl (hinit n hn)⟩
    rw [hinit n hn]
    exact Visits.start n hn
  | child old old_node calls c _ hc hn ih =>
    obtain ⟨h1, h2, h3⟩ := child_facts w st v tf Yapf hY initial hsingle hceil old old_node
      calls c ih hc (Or.inl hn)
    exact ⟨h1, h2, Or.inr h3⟩

/-! ### A worked-off pool covers every generated node -/

theorem ClosedPool_covers (w : World) (st : YAPFSettings) (v : RoadVehicle)
    (tf : CFollowTrackRoad) (Yapf : DestinationPolicy)
    (hY : (∃ self, Yapf = TileRoadPolicy w self) ∨ Yapf = AnyDepotRoadPolicy w)
    (initial : List Node) (key : Node → TileIndex × Nat) (R : PathPos → PathPos → Prop)
    (hrefl : ∀ p, R p p)
    (hR : ∀ p q : PathPos, Visits w tf initial p → Visits w tf initial q → R p q →
      tf.Follow p = tf.Follow q ∧
        Yapf.PfDetectDestinationTile p = Yapf.PfDetectDestinationTile q ∧
        (EntersDepot w p ↔ EntersDepot w q))
    (hkey : ∀ a b : Node, key a = key b → R a.m_key b.m_key)
    (hinit : ∀ n ∈ initial, n.m_segment_last = n.m_key)
    (hsingle : SingleTrackdir w tf)
    (hceil : BelowCeiling w st v tf Yapf.PfDetectDestinationTile initial)
    (pool : List Node)
    (hpool : ClosedPool key (fun old old_node =>
      PfFollowNode w st v tf Yapf (w.MAX_MAP_SIZE + 2) old old_node) initial pool) :
    ∀ (k : Nat) (m : Node), m ∈ pool → ∀ p e : PathPos, Visits w tf initial p →
      R m.m_key p → SegmentEndFrom w tf Yapf.PfDetectDestinationTile k p = some e →
      Yapf.PfDetectDestinationTile e = false →
      ∃ m' ∈ pool, R m'.m_segment_last e := by
  intro k
  induction k with
  | zero => intro m _ p e _ _ h; simp [SegmentEndFrom] at h
  | succ k ih =>
    intro m hm p e hvp hRmp hseg hdet
    obtain ⟨hgen, old, calls, hcalls, _, hins⟩ := hpool m hm
    obtain ⟨vk, ve, hcase⟩ := Generated_facts w st v tf Yapf hY initial hinit hsingle hceil m hgen
    rcases hcase with hseed | ⟨j, hj⟩
    · -- the segment of `m` ends where it starts: `m` is expanded from its own position
      have hRe : R m.m_segment_last p := by rw [hseed]; exact hRmp
      obtain ⟨hf, hdt, hdp⟩ := hR m.m_segment_last p ve hvp hRe
      rw [SegmentEndFrom] at hseg
      by_cases hd : Yapf.PfDetectDestinationTile p = true
      · rw [if_pos hd] at hseg
        cases hseg
        exact ⟨m, hm, hRe⟩
      · rw [if_neg hd] at hseg
        by_cases hdep : w.IsRoadDepotTile p.tile = true ∧
            p.td = w.DiagDirToDiagTrackdir (w.ReverseDiagDir (w.GetGroundDepotDirection p.tile))
        · rw [if_pos hdep] at hseg
          cases hseg
          exact ⟨m, hm, hRe⟩
        · rw [if_neg hdep] at hseg
          cases hr : tf.Follow p with
          | none =>
            rw [hr] at hseg
            cases hseg
            exact ⟨m, hm, hRe⟩
          | some r =>
            rw [hr] at hseg
            dsimp only at hseg
            by_cases hs : (!r.is_single) = true
            · rw [if_pos hs] at hseg
              cases hseg
              exact ⟨m, hm, hRe⟩
            · rw [if_neg hs] at hseg
              have hs' : r.is_single = true := by simpa using hs
              have hrm : tf.Follow m.m_segment_last = some r := by rw [hf, hr]
              have htds := hsingle _ r hrm hs'
              have hmem : r.m_new.td ∈ TrackdirLoop w r.trackdirs r.trackdirs := by
                rw [htds]; simp
              have hcalls' : PfFollowNodeLoop w st v tf Yapf (w.MAX_MAP_SIZE + 2) old m r
                  [r.m_new.td] = some calls := by
                have h0 : PfFollowNode w st v tf Yapf (w.MAX_MAP_SIZE + 2) old m
                    = some calls := hcalls
                unfold PfFollowNode at h0
                rw [hrm] at h0
                dsimp only at h0
                rw [htds] at h0
                exact h0
              have hvr : Visits w tf initial r.m_new :=
                Visits_single w tf initial hsingle _ r ve hrm hs'
              cases hloop : SegmentLoop w st v tf Yapf.PfDetectDestinationTile
                  { r.m_new with td := r.m_new.td } (w.MAX_MAP_SIZE + 2)
                  (FirstState w r r.m_new.td) with
              | none =>
                rw [PfFollowNodeLoop_cons_none w st v tf Yapf _ old m r _ [] hloop] at hcalls'
                simp at hcalls'
              | some x =>
                cases x with
                | ret =>
                  have hnever := SegmentLoop_return_never w st v tf
                    Yapf.PfDetectDestinationTile _ _ _ hloop rfl k
                  have hseg' : SegmentEndFrom w tf Yapf.PfDetectDestinationTile k
                      { r.m_new with td := r.m_new.td } = some e := hseg
                  rw [hnever] at hseg'
                  simp at hseg'
                | brk s' why =>
                  have hwhy : why ≠ SegmentEnd.ceiling := by
                    intro hw
                    subst hw
                    exact hceil m.m_segment_last r r.m_new.td s' ve hrm hmem hloop
                  obtain ⟨i, hi⟩ := SegmentLoop_walk w st v tf Yapf.PfDetectDestinationTile
                    _ _ _ s' why hloop hwhy rfl
                  have hi' : SegmentEndFrom w tf Yapf.PfDetectDestinationTile i r.m_new
                      = some s'.m_segment_last := hi
                  have hend : s'.m_segment_last = e :=
                    SegmentEndFrom_unique w tf _ i k r.m_new _ _ hi' hseg
                  rw [PfFollowNodeLoop_cons_evaluated _ _ _ _ _ _ _ _ _ _ _ _ _ _ _ _
                    (PfFollowNodeChild_of_break w st v tf Yapf _ old m r r.m_new.td s' why
                      hloop)] at hcalls'
                  simp only [PfFollowNodeLoop, Option.map_some', List.append_nil,
                    Option.some.injEq] at hcalls'
                  obtain ⟨e1, _, e3, _, e5⟩ := Policy_PfCalcEstimate w Yapf hY
                    { CreateNewNode (some old) { r.m_new with td := r.m_new.td }
                        (!r.is_single) with
                      m_segment_last := s'.m_segment_last
                      m_cost := m.m_cost + s'.segment_cost }
                  have hdd := Policy_PfDetectDestination w Yapf hY
                    (Yapf.PfCalcEstimate
                      { CreateNewNode (some old) { r.m_new with td := r.m_new.td }
                          (!r.is_single) with
                        m_segment_last := s'.m_segment_last
                        m_cost := m.m_cost + s'.segment_cost }).2
                  rw [e3] at hdd
                  have hdd' : Yapf.PfDetectDestination
                      (Yapf.PfCalcEstimate
                        { CreateNewNode (some old) { r.m_new with td := r.m_new.td }
                            (!r.is_single) with
                          m_segment_last := s'.m_segment_last
                          m_cost := m.m_cost + s'.segment_cost }).2 = false := by
                    rw [hdd]
                    show Yapf.PfDetectDestinationTile s'.m_segment_last = false
                    rw [hend]
                    exact hdet
                  have hin : AstarCall.InsertNode
                      (Yapf.PfCalcEstimate
                        { CreateNewNode (some old) { r.m_new with td := r.m_new.td }
                            (!r.is_single) with
                          m_segment_last := s'.m_segment_last
                          m_cost := m.m_cost + s'.segment_cost }).2 ∈ calls := by
                    rw [← hcalls']
                    simp [ChildCalls, e1, hdd']
                  obtain ⟨m2, hm2, hk2⟩ := hins _ hin
                  have hR2 : R m2.m_key r.m_new := by
                    have := hkey _ _ hk2
                    rw [e5] at this
                    exact this
                  exact ih m2 hm2 r.m_new e hvr hR2 hseg hdet
    · exact ⟨m, hm, SegmentEndFrom_related w tf _ initial R hrefl hR j (k + 1) m.m_key p
        m.m_segment_last e hRmp vk hvp hj hseg⟩

theorem ClosedPool_simulates (w : World) (st : YAPFSettings) (v : RoadVehicle)
    (tf : CFollowTrackRoad) (Yapf : DestinationPolicy)
    (hY : (∃ self, Yapf = TileRoadPolicy w self) ∨ Yapf = AnyDepotRoadPolicy w)
    (initial : List Node) (key : Node → TileIndex × Nat) (R : PathPos → PathPos → Prop)
    (hrefl : ∀ p, R p p)
    (hR : ∀ p q : PathPos, Visits w tf initial p → Visits w tf initial q → R p q →
      tf.Follow p = tf.Follow q ∧
        Yapf.PfDetectDestinationTile p = Yapf.PfDetectDestinationTile q ∧
        (EntersDepot w p ↔ EntersDepot w q))
    (hkey : ∀ a b : Node, key a = key b → R a.m_key b.m_key)
    (hinit : ∀ n ∈ initial, n.m_segment_last = n.m_key)
    (hsingle : SingleTrackdir w tf)
    (hceil : BelowCeiling w st v tf Yapf.PfDetectDestinationTile initial)
    (pool : List Node)
    (hpool : ClosedPool key (fun old old_node =>
      PfFollowNode w st v tf Yapf (w.MAX_MAP_SIZE + 2) old old_node) initial pool)
    (hsub : ∀ n ∈ initial, n ∈ pool) (n : Node)
    (hn : Generated (fun old old_node =>
      PfFollowNode w st v tf Yapf (w.MAX_MAP_SIZE + 2) old old_node) initial n) :
    ∃ m ∈ pool, R m.m_segment_last n.m_segment_last := by
  induction hn with
  | seed n h => exact ⟨n, hsub n h, hrefl _⟩
  | child old old_node calls c hp hc hcn ih =>
    obtain ⟨m, hm, hRm⟩ := ih
    obtain ⟨hgen, old', calls', hcalls', _, hins⟩ := hpool m hm
    have fm := Generated_facts w st v tf Yapf hY initial hinit hsingle hceil m hgen
    have fo := Generated_facts w st v tf Yapf hY initial hinit hsingle hceil old_node hp
    have hf := (hR _ _ fm.2.1 fo.2.1 hRm).1
    have hc' : PfFollowNode w st v tf Yapf (w.MAX_MAP_SIZE + 2) old old_node = some calls := hc
    have hcalls'' : PfFollowNode w st v tf Yapf (w.MAX_MAP_SIZE + 2) old' m = some calls' :=
      hcalls'
    have hshape := PfFollowNode_shape w st v tf Yapf (w.MAX_MAP_SIZE + 2) hY old old' old_node m
      hf.symm
    rw [hc', hcalls''] at hshape
    simp only [Option.map_some', Option.some.injEq] at hshape
    obtain ⟨c2, hc2, hk2, hl2⟩ := (shape_transfer calls calls' hshape).2 c hcn
    obtain ⟨m2, hm2, hkm2⟩ := hins c2 hc2
    have hR2 : R m2.m_key c.m_key := by
      have := hkey _ _ hkm2
      rw [hk2] at this
      exact this
    obtain ⟨hvk, _, k, hk⟩ := child_facts w st v tf Yapf hY initial hsingle hceil old old_node
      calls c fo hc' (Or.inl hcn)
    have hdet : Yapf.PfDetectDestinationTile c.m_segment_last = false := by
      rw [← Policy_PfDetectDestination w Yapf hY c]
      exact (PfFollowNode_kind w st v tf Yapf _ old old_node calls hc').1 c hcn
    exact ClosedPool_covers w st v tf Yapf hY initial key R hrefl hR hkey hinit hsingle hceil
      pool hpool k m2 hm2 c.m_key c.m_segment_last hvk hR2 hk hdet

theorem ClosedPool_no_target (w : World) (st : YAPFSettings) (v : RoadVehicle)
    (tf : CFollowTrackRoad) (Yapf : DestinationPolicy)
    (hY : (∃ self, Yapf = TileRoadPolicy w self) ∨ Yapf = AnyDepotRoadPolicy w)
    (initial : List Node) (key : Node → TileIndex × Nat) (R : PathPos → PathPos → Prop)
    (hrefl : ∀ p, R p p)
    (hR : ∀ p q : PathPos, Visits w tf initial p → Visits w tf initial q → R p q →
      tf.Follow p = tf.Follow q ∧
        Yapf.PfDetectDestinationTile p = Yapf.PfDetectDestinationTile q ∧
        (EntersDepot w p ↔ EntersDepot w q))
    (hkey : ∀ a b : Node, key a = key b → R a.m_key b.m_key)
    (hinit : ∀ n ∈ initial, n.m_segment_last = n.m_key)
    (hsingle : SingleTrackdir w tf)
    (hceil : BelowCeiling w st v tf Yapf.PfDetectDestinationTile initial)
    (pool : List Node)
    (hpool : ClosedPool key (fun old old_node =>
      PfFollowNode w st v tf Yapf (w.MAX_MAP_SIZE + 2) old old_node) initial pool)
    (hsub : ∀ n ∈ initial, n ∈ pool) (n : Node) (old : Nat) (calls : List AstarCall) (t : Node)
    (hn : Generated (fun old old_node =>
      PfFollowNode w st v tf Yapf (w.MAX_MAP_SIZE + 2) old old_node) initial n)
    (hcalls : PfFollowNode w st v tf Yapf (w.MAX_MAP_SIZE + 2) old n = some calls) :
    AstarCall.FoundTarget t ∉ calls := by
  intro ht
  obtain ⟨m, hm, hRm⟩ := ClosedPool_simulates w st v tf Yapf hY initial key R hrefl hR hkey
    hinit hsingle hceil pool hpool hsub n hn
  obtain ⟨hgen, old', calls', hcalls', hnone, _⟩ := hpool m hm
  have fm := Generated_facts w st v tf Yapf hY initial hinit hsingle hceil m hgen
  have fn := Generated_facts w st v tf Yapf hY initial hinit hsingle hceil n hn
  have hf := (hR _ _ fm.2.1 fn.2.1 hRm).1
  have hcalls'' : PfFollowNode w st v tf Yapf (w.MAX_MAP_SIZE + 2) old' m = some calls' :=
    hcalls'
  have hshape := PfFollowNode_shape w st v tf Yapf (w.MAX_MAP_SIZE + 2) hY old old' n m hf.symm
  rw [hcalls, hcalls''] at hshape
  simp only [Option.map_some', Option.some.injEq] at hshape
  obtain ⟨t', ht'⟩ := (shape_transfer calls calls' hshape).1 t ht
  exact hnone t' ht'

/-! ### The two node keys -/

theorem FindPath_spec (w : World) (st : YAPFSettings) (v : RoadVehicle)
    (tf : CFollowTrackRoad) (Yapf : DestinationPolicy) (key : AstarKey) (initial : List Node) :
    ∃ e, FindPath w st v tf Yapf key initial = some e ∧
      (∀ t, e = SearchEnd.found t →
        ∃ (n : Node) (old : Nat) (calls : List AstarCall),
          Generated (fun old old_node =>
            PfFollowNode w st v tf Yapf (w.MAX_MAP_SIZE + 2) old old_node) initial n ∧
          PfFollowNode w st v tf Yapf (w.MAX_MAP_SIZE + 2) old n = some calls ∧
          AstarCall.FoundTarget t ∈ calls) ∧
      (e = SearchEnd.no_path →
        ∃ pool, (∀ n ∈ initial, n ∈ pool) ∧
          ClosedPool (key.GetKey w) (fun old old_node =>
            PfFollowNode w st v tf Yapf (w.MAX_MAP_SIZE + 2) old old_node) initial pool) := by
  exact AstarLoop_spec (key.GetKey w) _ initial
    (fun old old_node => PfFollowNode_total w st v tf Yapf _ old old_node (le_refl _))
    st.max_search_nodes _ (AstarInv_initial _ _ initial)

theorem GetKey_TrackDir (w : World) (a b : Node)
    (h : AstarKey.GetKey w AstarKey.AstarRoadTrackDir a
      = AstarKey.GetKey w AstarKey.AstarRoadTrackDir b) : a.m_key = b.m_key := by
  simp only [AstarKey.GetKey, Prod.mk.injEq] at h
  cases ha : a.m_key
  cases hb : b.m_key
  rw [ha, hb] at h
  simp only [PathPos.mk.injEq]
  exact h

theorem GetKey_ExitDir (w : World) (a b : Node)
    (h : AstarKey.GetKey w AstarKey.AstarRoadExitDir a
      = AstarKey.GetKey w AstarKey.AstarRoadExitDir b) : SameExit w a.m_key b.m_key := by
  simp only [AstarKey.GetKey, Prod.mk.injEq] at h
  exact ⟨h.1, Fin.ext h.2⟩

/-- C24 as amended: the two node keys agree on reachability where the node
budget stops neither search.  The engine is the one the specification
describes.  For a destination policy of the file, initial nodes as
`CreateNewNode` makes them, a follower whose single answers carry their
trackdir, a map on which no segment is cut by the tile ceiling and on which
tile and exit direction decide what the search sees of a position: both
searches return, and if neither returns with the node budget used up, the
search with the trackdir key (`CYapfRoad1`, `CYapfRoadAnyDepot1`) finds a path
exactly when the search with the exit-direction key (`CYapfRoad2`,
`CYapfRoadAnyDepot2`) finds one under the same settings. -/
theorem key_variants_agree (w : World) (st : YAPFSettings) (v : RoadVehicle)
    (tf : CFollowTrackRoad) (Yapf : DestinationPolicy) (initial : List Node)
    (hY : (∃ self, Yapf = TileRoadPolicy w self) ∨ Yapf = AnyDepotRoadPolicy w)
    (hinit : ∀ n ∈ initial, n.m_segment_last = n.m_key)
    (hsingle : SingleTrackdir w tf)
    (hceil : BelowCeiling w st v tf Yapf.PfDetectDestinationTile initial)
    (hexit : ExitDirDecides w tf Yapf.PfDetectDestinationTile initial)
    (h1 : FindPath w st v tf Yapf AstarKey.AstarRoadTrackDir initial
      ≠ some SearchEnd.budget_exceeded)
    (h2 : FindPath w st v tf Yapf AstarKey.AstarRoadExitDir initial
      ≠ some SearchEnd.budget_exceeded) :
    (∃ e1 e2, FindPath w st v tf Yapf AstarKey.AstarRoadTrackDir initial = some e1 ∧
      FindPath w st v tf Yapf AstarKey.AstarRoadExitDir initial = some e2) ∧
    ((∃ n, FindPath w st v tf Yapf AstarKey.AstarRoadTrackDir initial
        = some (SearchEnd.found n)) ↔
      (∃ n, FindPath w st v tf Yapf AstarKey.AstarRoadExitDir initial
        = some (SearchEnd.found n))) := by
  obtain ⟨e1, he1, s1, c1⟩ := FindPath_spec w st v tf Yapf AstarKey.AstarRoadTrackDir initial
  obtain ⟨e2, he2, s2, c2⟩ := FindPath_spec w st v tf Yapf AstarKey.AstarRoadExitDir initial
  refine ⟨⟨e1, e2, he1, he2⟩, ?_⟩
  rw [he1] at h1 ⊢
  rw [he2] at h2 ⊢
  constructor
  · rintro ⟨t, ht⟩
    simp only [Option.some.injEq] at ht
    obtain ⟨n, old, calls, hgen, hcalls, hfound⟩ := s1 t ht
    cases e2 with
    | found t2 => exact ⟨t2, rfl⟩
    | budget_exceeded => exact absurd rfl h2
    | no_path =>
      obtain ⟨pool, hsub, hpool⟩ := c2 rfl
      exact absurd hfound
        (ClosedPool_no_target w st v tf Yapf hY initial _ (SameExit w)
          (fun p => ⟨rfl, rfl⟩) hexit (GetKey_ExitDir w) hinit hsingle hceil pool hpool hsub
          n old calls t hgen hcalls)
  · rintro ⟨t, ht⟩
    simp only [Option.some.injEq] at ht
    obtain ⟨n, old, calls, hgen, hcalls, hfound⟩ := s2 t ht
    cases e1 with
    | found t1 => exact ⟨t1, rfl⟩
    | budget_exceeded => exact absurd rfl h1
    | no_path =>
      obtain ⟨pool, hsub, hpool⟩ := c1 rfl
      exact absurd hfound
        (ClosedPool_no_target w st v tf Yapf hY initial _ (fun p q => p = q)
          (fun p => rfl)
          (fun p q _ _ hpq => by subst hpq; exact ⟨rfl, rfl, Iff.rfl⟩)
          (GetKey_TrackDir w) hinit hsingle hceil pool hpool hsub n old calls t hgen hcalls)

/-! ### The block of roads -/

theorem TrackdirLoop_zero (w : World) : ∀ fuel : Nat, TrackdirLoop w fuel 0 = [] := by
  intro fuel
  cases fuel <;> simp [TrackdirLoop]

theorem demoFollower_SingleTrackdir (w : World) (v : RoadVehicle) :
    SingleTrackdir w (demoFollower w v) := by
  intro q r hr hs
  simp only [demoFollower] at hr
  split at hr
  · simp at hr
  · rename_i hbits
    simp only [Option.some.injEq] at hr
    subst hr
    simp only [decide_eq_true_eq] at hs
    simp only [hs, if_true]
    obtain ⟨k, hk⟩ : ∃ k, (w.TrackStatusToTrackdirBits
        (w.GetTileRoadStatus (TileSub q.tile (-(w.TileOffsByDiagDir (w.TrackdirToExitdir q.td))))
          v.compatible_roadtypes) &&& w.DiagdirReachesTrackdirs (w.TrackdirToExitdir q.td))
        = k + 1 := ⟨_, (Nat.succ_pred_eq_of_ne_zero hbits).symm⟩
    rw [hk] at hs hbits ⊢
    rw [TrackdirLoop, if_neg hbits, hs, TrackdirLoop_zero, FindFirstTrackdir, if_neg hbits]

theorem demoFollower_SameExit (w : World) (v : RoadVehicle) (p q : PathPos)
    (h : SameExit w p q) : (demoFollower w v).Follow p = (demoFollower w v).Follow q := by
  obtain ⟨h1, h2⟩ := h
  simp only [demoFollower, h1, h2]

theorem blockPositions_closed :
    ∀ q ∈ blockPositions, ∀ r ∈ (demoFollower blockWorld demoLorry).Follow q,
      ∀ td ∈ TrackdirLoop blockWorld r.trackdirs r.trackdirs,
        ({ r.m_new with td := td } : PathPos) ∈ blockPositions := by
  decide

theorem blockPositions_Visits (p : PathPos)
    (h : Visits blockWorld (demoFollower blockWorld demoLorry) blockStart p) :
    p ∈ blockPositions := by
  induction h with
  | start n hn =>
    simp only [blockStart, List.mem_singleton] at hn
    subst hn
    decide
  | follow q r td _ hr htd ih =>
    exact blockPositions_closed q ih r (Option.mem_def.mpr hr) td htd

theorem blockPositions_ceiling :
    ∀ q ∈ blockPositions, ∀ r ∈ (demoFollower blockWorld demoLorry).Follow q,
      ∀ td ∈ TrackdirLoop blockWorld r.trackdirs r.trackdirs,
        (SegmentLoop blockWorld (blockSettings 10) demoLorry
            (demoFollower blockWorld demoLorry)
            (AnyDepotRoadPolicy blockWorld).PfDetectDestinationTile { r.m_new with td := td }
            (blockWorld.MAX_MAP_SIZE + 2) (FirstState blockWorld r td)).bind LoopExit.reason
          ≠ some SegmentEnd.ceiling := by
  decide


theorem blockPositions_depot :
    ∀ p ∈ blockPositions, ∀ q ∈ blockPositions, p.tile = q.tile →
      blockWorld.TrackdirToExitdir p.td = blockWorld.TrackdirToExitdir q.td →
      ((blockWorld.IsRoadDepotTile p.tile = true ∧
          p.td = blockWorld.DiagDirToDiagTrackdir
            (blockWorld.ReverseDiagDir (blockWorld.GetGroundDepotDirection p.tile))) ↔
        (blockWorld.IsRoadDepotTile q.tile = true ∧
          q.td = blockWorld.DiagDirToDiagTrackdir
            (blockWorld.ReverseDiagDir (blockWorld.GetGroundDepotDirection q.tile)))) := by
  decide

theorem blockWorld_BelowCeiling :
    BelowCeiling blockWorld (blockSettings 10) demoLorry (demoFollower blockWorld demoLorry)
      (AnyDepotRoadPolicy blockWorld).PfDetectDestinationTile blockStart := by
  intro q r td s hq hr htd hloop
  have h := blockPositions_ceiling q (blockPositions_Visits q hq) r (Option.mem_def.mpr hr) td htd
  rw [hloop] at h
  exact h rfl

theorem blockWorld_ExitDirDecides :
    ExitDirDecides blockWorld (demoFollower blockWorld demoLorry)
      (AnyDepotRoadPolicy blockWorld).PfDetectDestinationTile blockStart := by
  intro p q hp hq h
  refine ⟨demoFollower_SameExit _ _ p q h, ?_, ?_⟩
  · show blockWorld.IsRoadDepotTile p.tile = blockWorld.IsRoadDepotTile q.tile
    rw [h.1]
  · exact blockPositions_depot p (blockPositions_Visits p hp) q (blockPositions_Visits q hq)
      h.1 h.2

theorem blockWorld_budget_8 :
    FindPath blockWorld (blockSettings 8) demoLorry (demoFollower blockWorld demoLorry)
        (AnyDepotRoadPolicy blockWorld) AstarKey.AstarRoadTrackDir blockStart
      = some SearchEnd.budget_exceeded ∧
    FindPath blockWorld (blockSettings 8) demoLorry (demoFollower blockWorld demoLorry)
        (AnyDepotRoadPolicy blockWorld) AstarKey.AstarRoadExitDir blockStart
      = some (SearchEnd.found blockDepotNode) := by
  constructor <;> decide

theorem blockWorld_budget_10 :
    FindPath blockWorld (blockSettings 10) demoLorry (demoFollower blockWorld demoLorry)
        (AnyDepotRoadPolicy blockWorld) AstarKey.AstarRoadTrackDir blockStart
      = some (SearchEnd.found blockDepotNode) ∧
    FindPath blockWorld (blockSettings 10) demoLorry (demoFollower blockWorld demoLorry)
        (AnyDepotRoadPolicy blockWorld) AstarKey.AstarRoadExitDir blockStart
      = some (SearchEnd.found blockDepotNode) := by
  constructor <;> decide

/-- C24 as stated fails: on the block of roads with the node budget `8` the
depot search with the exit-direction key finds the depot on tile `661`, and the
search with the trackdir key, under the same settings, uses up the budget
without finding it. -/
theorem key_variants_agree_counterexample :
    FindPath blockWorld (blockSettings 8) demoLorry (demoFollower blockWorld demoLorry)
        (AnyDepotRoadPolicy blockWorld) AstarKey.AstarRoadTrackDir blockStart
      = some SearchEnd.budget_exceeded ∧
    FindPath blockWorld (blockSettings 8) demoLorry (demoFollower blockWorld demoLorry)
        (AnyDepotRoadPolicy blockWorld) AstarKey.AstarRoadExitDir blockStart
      = some (SearchEnd.found blockDepotNode) ∧
    ¬ ((∃ n, FindPath blockWorld (blockSettings 8) demoLorry
          (demoFollower blockWorld demoLorry) (AnyDepotRoadPolicy blockWorld)
          AstarKey.AstarRoadTrackDir blockStart = some (SearchEnd.found n)) ↔
        (∃ n, FindPath blockWorld (blockSettings 8) demoLorry
          (demoFollower blockWorld demoLorry) (AnyDepotRoadPolicy blockWorld)
          AstarKey.AstarRoadExitDir blockStart = some (SearchEnd.found n))) := by
  obtain ⟨a, b⟩ := blockWorld_budget_8
  refine ⟨a, b, ?_⟩
  rw [a, b]
  simp

/-- Witness for C24 as amended on the block of roads with the node budget
`10`: the follower's single answers carry their trackdir, no segment is cut by
the ceiling, tile and exit direction decide what the search sees, and both
searches find the depot on tile `661`. -/
theorem key_variants_agree_witness :
    SingleTrackdir blockWorld (demoFollower blockWorld demoLorry) ∧
    BelowCeiling blockWorld (blockSettings 10) demoLorry (demoFollower blockWorld demoLorry)
      (AnyDepotRoadPolicy blockWorld).PfDetectDestinationTile blockStart ∧
    ExitDirDecides blockWorld (demoFollower blockWorld demoLorry)
      (AnyDepotRoadPolicy blockWorld).PfDetectDestinationTile blockStart ∧
    FindPath blockWorld (blockSettings 10) demoLorry (demoFollower blockWorld demoLorry)
        (AnyDepotRoadPolicy blockWorld) AstarKey.AstarRoadTrackDir blockStart
      = some (SearchEnd.found blockDepotNode) ∧
    FindPath blockWorld (blockSettings 10) demoLorry (demoFollower blockWorld demoLorry)
        (AnyDepotRoadPolicy blockWorld) AstarKey.AstarRoadExitDir blockStart
      = some (SearchEnd.found blockDepotNode) ∧
    ((∃ n, FindPath blockWorld (blockSettings 10) demoLorry
          (demoFollower blockWorld demoLorry) (AnyDepotRoadPolicy blockWorld)
          AstarKey.AstarRoadTrackDir blockStart = some (SearchEnd.found n)) ↔
      (∃ n, FindPath blockWorld (blockSettings 10) demoLorry
          (demoFollower blockWorld demoLorry) (AnyDepotRoadPolicy blockWorld)
          AstarKey.AstarRoadExitDir blockStart = some (SearchEnd.found n))) :=
  ⟨demoFollower_SingleTrackdir blockWorld demoLorry, blockWorld_BelowCeiling,
    blockWorld_ExitDirDecides, blockWorld_budget_10.1, blockWorld_budget_10.2,
    (key_variants_agree blockWorld (blockSettings 10) demoLorry
      (demoFollower blockWorld demoLorry) (AnyDepotRoadPolicy blockWorld) blockStart
      (Or.inr rfl) (by intro n hn; simp only [blockStart, List.mem_singleton] at hn; subst hn; rfl)
      (demoFollower_SingleTrackdir blockWorld demoLorry) blockWorld_BelowCeiling
      blockWorld_ExitDirDecides
      (by rw [blockWorld_budget_10.1]; simp)
      (by rw [blockWorld_budget_10.2]; simp)).2⟩

/-! ### Conversion to `int` -/

theorem toInt32_idem (x : Int) : toInt32 (toInt32 x) = toInt32 x := by
  unfold toInt32; omega

theorem toInt32_add_left (a b : Int) : toInt32 (toInt32 a + b) = toInt32 (a + b) := by
  unfold toInt32; omega

theorem toInt32_add_right (a b : Int) : toInt32 (a + toInt32 b) = toInt32 (a + b) := by
  unfold toInt32; omega

theorem toInt32_fits (x : Int) : Fits (toInt32 x) := by
  unfold Fits toInt32; omega

theorem toInt32_eq_of_Fits (x : Int) (h : Fits x) : toInt32 x = x := by
  unfold Fits at h; unfold toInt32; omega

theorem toInt32_mul_const (k x : Int) : toInt32 (k * toInt32 x) = toInt32 (k * x) := by
  unfold toInt32
  have h1 : (k * ((x + 2147483648) % 4294967296 - 2147483648) + 2147483648) % 4294967296
      = (k * x + 2147483648) % 4294967296 := by
    have e : k * ((x + 2147483648) % 4294967296 - 2147483648)
        = k * x - k * ((x + 2147483648) / 4294967296) * 4294967296 := by
      have := Int.emod_add_ediv (x + 2147483648) 4294967296
      linear_combination k * this
    rw [e]
    have : k * x - k * ((x + 2147483648) / 4294967296) * 4294967296 + 2147483648
        = (k * x + 2147483648) + 4294967296 * (-(k * ((x + 2147483648) / 4294967296))) := by
      ring
    rw [this, Int.add_mul_emod_self_left]
  rw [h1]

theorem toInt32_mul_left (a b : Int) : toInt32 (toInt32 a * b) = toInt32 (a * b) := by
  rw [Int.mul_comm (toInt32 a) b, toInt32_mul_const, Int.mul_comm]

/-! ### The cost functions in 32-bit arithmetic and over the integers -/

theorem machine_OneTileCost_eq (w : World) (st : YAPFSettings) (hr : WithinIntRange w st)
    (pos : PathPos) : Machine.OneTileCost w st pos = toInt32 (OneTileCost w st pos) := by
  obtain ⟨hq, hb1, hb2, _⟩ := hr
  unfold Machine.OneTileCost OneTileCost
  by_cases hd : w.IsDiagonalTrackdir pos.td = true
  · rw [if_pos hd, if_pos hd]
    dsimp only
    cases hty : w.GetTileType pos.tile with
    | TT_MISC =>
      dsimp only
      split
      · unfold toInt32; omega
      · unfold toInt32; omega
    | TT_STATION =>
      dsimp only
      split
      · split
        · rw [toInt32_eq_of_Fits _ (hq _ _ _)]
          unfold toInt32; omega
        · unfold toInt32; omega
      · have hk : Fits (st.road_stop_bay_occupied_penalty
            * (boolToInt (!(w.RoadStop_GetByTile pos.tile (w.GetRoadStopType pos.tile)).IsFreeBay 0)
              + boolToInt
                (!(w.RoadStop_GetByTile pos.tile (w.GetRoadStopType pos.tile)).IsFreeBay 1))) := by
          unfold Fits at hb1 hb2 ⊢
          unfold boolToInt
          cases (w.RoadStop_GetByTile pos.tile (w.GetRoadStopType pos.tile)).IsFreeBay 0 <;>
            cases (w.RoadStop_GetByTile pos.tile (w.GetRoadStopType pos.tile)).IsFreeBay 1 <;>
            simp <;> omega
        rw [toInt32_eq_of_Fits _ hk]
        unfold toInt32; omega
    | TT_OTHER =>
      dsimp only
  · rw [if_neg hd, if_neg hd]

theorem machine_SlopeCost_eq (w : World) (st : YAPFSettings) (hr : WithinIntRange w st)
    (tile next : TileIndex) :
    Machine.SlopeCost w st tile next = toInt32 (SlopeCost w st tile next) := by
  obtain ⟨_, _, _, hxy, hz, _⟩ := hr
  have hx : ∀ t : TileIndex, toInt32 (toInt32 ((w.TileX t : Int) * (w.TILE_SIZE : Int))
      + ((w.TILE_SIZE / 2 : Nat) : Int))
      = (w.TileX t : Int) * (w.TILE_SIZE : Int) + ((w.TILE_SIZE / 2 : Nat) : Int) := by
    intro t
    have h0 : (0 : Int) ≤ (w.TileX t : Int) * (w.TILE_SIZE : Int) := by positivity
    have h1 : (0 : Int) ≤ ((w.TILE_SIZE / 2 : Nat) : Int) := by positivity
    rw [toInt32_add_left]
    exact toInt32_eq_of_Fits _ ⟨by omega, (hxy t).1⟩
  have hy : ∀ t : TileIndex, toInt32 (toInt32 ((w.TileY t : Int) * (w.TILE_SIZE : Int))
      + ((w.TILE_SIZE / 2 : Nat) : Int))
      = (w.TileY t : Int) * (w.TILE_SIZE : Int) + ((w.TILE_SIZE / 2 : Nat) : Int) := by
    intro t
    have h0 : (0 : Int) ≤ (w.TileY t : Int) * (w.TILE_SIZE : Int) := by positivity
    have h1 : (0 : Int) ≤ ((w.TILE_SIZE / 2 : Nat) : Int) := by positivity
    rw [toInt32_add_left]
    exact toInt32_eq_of_Fits _ ⟨by omega, (hxy t).2⟩
  unfold Machine.SlopeCost SlopeCost
  dsimp only
  rw [hx tile, hy tile, hx next, hy next]
  have hzz : toInt32 (w.GetSlopePixelZ
        ((w.TileX next : Int) * (w.TILE_SIZE : Int) + ((w.TILE_SIZE / 2 : Nat) : Int))
        ((w.TileY next : Int) * (w.TILE_SIZE : Int) + ((w.TILE_SIZE / 2 : Nat) : Int))
      - w.GetSlopePixelZ
        ((w.TileX tile : Int) * (w.TILE_SIZE : Int) + ((w.TILE_SIZE / 2 : Nat) : Int))
        ((w.TileY tile : Int) * (w.TILE_SIZE : Int) + ((w.TILE_SIZE / 2 : Nat) : Int)))
      = w.GetSlopePixelZ
        ((w.TileX next : Int) * (w.TILE_SIZE : Int) + ((w.TILE_SIZE / 2 : Nat) : Int))
        ((w.TileY next : Int) * (w.TILE_SIZE : Int) + ((w.TILE_SIZE / 2 : Nat) : Int))
      - w.GetSlopePixelZ
        ((w.TileX tile : Int) * (w.TILE_SIZE : Int) + ((w.TILE_SIZE / 2 : Nat) : Int))
        ((w.TileY tile : Int) * (w.TILE_SIZE : Int) + ((w.TILE_SIZE / 2 : Nat) : Int)) := by
    apply toInt32_eq_of_Fits
    have a := hz ((w.TileX next : Int) * (w.TILE_SIZE : Int) + ((w.TILE_SIZE / 2 : Nat) : Int))
      ((w.TileY next : Int) * (w.TILE_SIZE : Int) + ((w.TILE_SIZE / 2 : Nat) : Int))
    have b := hz ((w.TileX tile : Int) * (w.TILE_SIZE : Int) + ((w.TILE_SIZE / 2 : Nat) : Int))
      ((w.TileY tile : Int) * (w.TILE_SIZE : Int) + ((w.TILE_SIZE / 2 : Nat) : Int))
    unfold Fits
    omega
  rw [hzz]
  split
  · rfl
  · rfl

theorem machine_SegmentLoop_wrap (w : World) (st : YAPFSettings) (v : RoadVehicle)
    (tf : CFollowTrackRoad) (detect : PathPos → Bool) (pos : PathPos)
    (hr : WithinIntRange w st) :
    ∀ (fuel : Nat) (s : SegState),
      Machine.SegmentLoop w st v tf detect pos fuel s.wrap
        = (SegmentLoop w st v tf detect pos fuel s).map LoopExit.wrap := by
  intro fuel
  induction fuel with
  | zero => intro s; rfl
  | succ fuel ih =>
    intro s
    obtain ⟨m_new, m_last, cost, tiles, steps⟩ := s
    have key : ∀ (c : Prop) [Decidable c] (a b : SegState), a = b.wrap →
        (if c then some (LoopExit.brk a SegmentEnd.ceiling)
          else Machine.SegmentLoop w st v tf detect pos fuel a)
        = Option.map LoopExit.wrap (if c then some (LoopExit.brk b SegmentEnd.ceiling)
          else SegmentLoop w st v tf detect pos fuel b) := by
      intro c _ a b hab
      subst hab
      split
      · rfl
      · exact ih _
    rw [Machine.SegmentLoop, SegmentLoop]
    simp only [SegState.wrap]
    rw [machine_OneTileCost_eq w st hr, toInt32_add_left, toInt32_add_right]
    by_cases hd : detect m_new = true
    · rw [if_pos hd, if_pos hd]
      rfl
    · rw [if_neg hd, if_neg hd]
      by_cases hdep : w.IsRoadDepotTile m_new.tile = true ∧
          m_new.td = w.DiagDirToDiagTrackdir
            (w.ReverseDiagDir (w.GetGroundDepotDirection m_new.tile))
      · rw [if_pos hdep, if_pos hdep]
        rfl
      · rw [if_neg hdep, if_neg hdep]
        cases hf : tf.Follow m_new with
        | none => rfl
        | some r =>
          dsimp only
          by_cases hs : (!r.is_single) = true
          · rw [if_pos hs, if_pos hs]
            rfl
          · rw [if_neg hs, if_neg hs]
            by_cases hp : r.m_new = pos
            · rw [if_pos hp, if_pos hp]
              rfl
            · rw [if_neg hp, if_neg hp]
              apply key
              simp only [SegState.wrap, machine_SlopeCost_eq w st hr]
              congr 1
              split <;> split <;>
                simp only [toInt32_add_left, toInt32_add_right, toInt32_mul_const,
                  toInt32_idem]

/-! ### The destination policies in 32-bit arithmetic and over the integers -/

theorem dg_dir_offs_bounds (d : DiagDirection) :
    -1 ≤ dg_dir_to_x_offs d ∧ dg_dir_to_x_offs d ≤ 1 ∧
      -1 ≤ dg_dir_to_y_offs d ∧ dg_dir_to_y_offs d ≤ 1 := by
  revert d
  decide

theorem machine_distance_eq (a b c e k l ox oy : Int)
    (ha : 0 ≤ a ∧ 2 * a + 1 ≤ 1073741823) (hb : 0 ≤ b ∧ 2 * b + 1 ≤ 1073741823)
    (hc : 0 ≤ c ∧ 2 * c + 1 ≤ 1073741823) (he : 0 ≤ e ∧ 2 * e + 1 ≤ 1073741823)
    (hox : -1 ≤ ox ∧ ox ≤ 1) (hoy : -1 ≤ oy ∧ oy ≤ 1) :
    toInt32 (toInt32 (min (toInt32 |toInt32 (toInt32 (2 * a + ox) - toInt32 (2 * c))|)
          (toInt32 |toInt32 (toInt32 (2 * b + oy) - toInt32 (2 * e))|) * k)
        + toInt32 (toInt32 (toInt32 |toInt32
            (toInt32 |toInt32 (toInt32 (2 * a + ox) - toInt32 (2 * c))|
              - toInt32 |toInt32 (toInt32 (2 * b + oy) - toInt32 (2 * e))|)| - 1) * l))
      = toInt32 (min |2 * a + ox - 2 * c| |2 * b + oy - 2 * e| * k
          + (abs (|2 * a + ox - 2 * c| - |2 * b + oy - 2 * e|) - 1) * l) := by
  have f1 : toInt32 (2 * a + ox) = 2 * a + ox :=
    toInt32_eq_of_Fits _ ⟨by omega, by omega⟩
  have f2 : toInt32 (2 * c) = 2 * c := toInt32_eq_of_Fits _ ⟨by omega, by omega⟩
  have f3 : toInt32 (2 * b + oy) = 2 * b + oy :=
    toInt32_eq_of_Fits _ ⟨by omega, by omega⟩
  have f4 : toInt32 (2 * e) = 2 * e := toInt32_eq_of_Fits _ ⟨by omega, by omega⟩
  rw [f1, f2, f3, f4]
  have hx : |2 * a + ox - 2 * c| ≤ 1073741824 := by
    rw [abs_le]; constructor <;> omega
  have hy : |2 * b + oy - 2 * e| ≤ 1073741824 := by
    rw [abs_le]; constructor <;> omega
  have hx0 := abs_nonneg (2 * a + ox - 2 * c)
  have hy0 := abs_nonneg (2 * b + oy - 2 * e)
  have g1 : toInt32 (2 * a + ox - 2 * c) = 2 * a + ox - 2 * c :=
    toInt32_eq_of_Fits _ ⟨by omega, by omega⟩
  have g2 : toInt32 (2 * b + oy - 2 * e) = 2 * b + oy - 2 * e :=
    toInt32_eq_of_Fits _ ⟨by omega, by omega⟩
  rw [g1, g2]
  have g3 : toInt32 |2 * a + ox - 2 * c| = |2 * a + ox - 2 * c| :=
    toInt32_eq_of_Fits _ ⟨by omega, by omega⟩
  have g4 : toInt32 |2 * b + oy - 2 * e| = |2 * b + oy - 2 * e| :=
    toInt32_eq_of_Fits _ ⟨by omega, by omega⟩
  rw [g3, g4]
  have hd : |(|2 * a + ox - 2 * c| - |2 * b + oy - 2 * e|)| ≤ 1073741824 := by
    rw [abs_le]; constructor <;> omega
  have hd0 := abs_nonneg (|2 * a + ox - 2 * c| - |2 * b + oy - 2 * e|)
  have g5 : toInt32 (|2 * a + ox - 2 * c| - |2 * b + oy - 2 * e|)
      = |2 * a + ox - 2 * c| - |2 * b + oy - 2 * e| :=
    toInt32_eq_of_Fits _ ⟨by omega, by omega⟩
  rw [g5]
  have g6 : toInt32 |(|2 * a + ox - 2 * c| - |2 * b + oy - 2 * e|)|
      = |(|2 * a + ox - 2 * c| - |2 * b + oy - 2 * e|)| :=
    toInt32_eq_of_Fits _ ⟨by omega, by omega⟩
  rw [g6, toInt32_mul_left, toInt32_add_left, toInt32_add_right]

theorem machine_TileRoadPolicy_agrees (w : World) (st : YAPFSettings)
    (self : CYapfDestinationTileRoadT) (hr : WithinIntRange w st) :
    Machine.Agrees (Machine.TileRoadPolicy w self) (TileRoadPolicy w self) := by
  obtain ⟨_, _, _, _, _, hxy⟩ := hr
  refine ⟨rfl, rfl, fun _ => rfl, ?_⟩
  intro n
  show Machine.PfCalcEstimate w self { n with m_cost := toInt32 n.m_cost }
    = ((CYapfDestinationTileRoadT.PfCalcEstimate w self n).1,
        (CYapfDestinationTileRoadT.PfCalcEstimate w self n).2.wrap)
  unfold Machine.PfCalcEstimate CYapfDestinationTileRoadT.PfCalcEstimate
  have hdet : CYapfDestinationTileRoadT.PfDetectDestination w self
      { n with m_cost := toInt32 n.m_cost }
        = CYapfDestinationTileRoadT.PfDetectDestination w self n := rfl
  rw [hdet]
  by_cases hd : CYapfDestinationTileRoadT.PfDetectDestination w self n = true
  · rw [if_pos hd, if_pos hd]
    rfl
  · rw [if_neg hd, if_neg hd]
    dsimp only
    obtain ⟨o1, o2, o3, o4⟩ := dg_dir_offs_bounds (w.TrackdirToExitdir n.m_segment_last.td)
    have hdist := machine_distance_eq (w.TileX n.m_segment_last.tile : Int)
      (w.TileY n.m_segment_last.tile : Int) (w.TileX self.m_destTile : Int)
      (w.TileY self.m_destTile : Int) w.YAPF_TILE_CORNER_LENGTH (w.YAPF_TILE_LENGTH.tdiv 2)
      (dg_dir_to_x_offs (w.TrackdirToExitdir n.m_segment_last.td))
      (dg_dir_to_y_offs (w.TrackdirToExitdir n.m_segment_last.td))
      ⟨Int.ofNat_nonneg _, (hxy _).1⟩ ⟨Int.ofNat_nonneg _, (hxy _).2⟩
      ⟨Int.ofNat_nonneg _, (hxy _).1⟩ ⟨Int.ofNat_nonneg _, (hxy _).2⟩ ⟨o1, o2⟩ ⟨o3, o4⟩
    rw [hdist, toInt32_add_left, toInt32_add_right]
    rfl

theorem machine_AnyDepotRoadPolicy_agrees (w : World) :
    Machine.Agrees (AnyDepotRoadPolicy w) (AnyDepotRoadPolicy w) := by
  refine ⟨rfl, rfl, fun _ => rfl, ?_⟩
  intro n
  rfl

/-! ### The expansion in 32-bit arithmetic and over the integers -/

theorem machine_PfFollowNodeChild_wrap (w : World) (st : YAPFSettings) (v : RoadVehicle)
    (tf : CFollowTrackRoad) (YapfM Yapf : DestinationPolicy) (hr : WithinIntRange w st)
    (hag : Machine.Agrees YapfM Yapf) (fuel : Nat) (old : Nat) (old_node : Node)
    (r : FollowResult) (td : Trackdir) :
    Machine.PfFollowNodeChild w st v tf YapfM fuel old old_node r td
      = (PfFollowNodeChild w st v tf Yapf fuel old old_node r td).map ChildResult.wrap := by
  obtain ⟨h1, _, _, h4⟩ := hag
  unfold Machine.PfFollowNodeChild PfFollowNodeChild
  dsimp only
  have hloop := machine_SegmentLoop_wrap w st v tf Yapf.PfDetectDestinationTile
    { r.m_new with td := td } hr fuel
    { m_new := { r.m_new with td := td }, m_segment_last := { r.m_new with td := td },
      segment_cost := (r.m_tiles_skipped : Int) * w.YAPF_TILE_LENGTH,
      tiles := r.m_tiles_skipped, steps := [] }
  simp only [SegState.wrap] at hloop
  rw [h1, hloop]
  cases hx : SegmentLoop w st v tf Yapf.PfDetectDestinationTile { r.m_new with td := td } fuel
      { m_new := { r.m_new with td := td }, m_segment_last := { r.m_new with td := td },
        segment_cost := (r.m_tiles_skipped : Int) * w.YAPF_TILE_LENGTH,
        tiles := r.m_tiles_skipped, steps := [] } with
  | none => rfl
  | some e =>
    cases e with
    | ret => rfl
    | brk s why =>
      simp only [Option.map, LoopExit.wrap, SegState.wrap]
      have h := h4 { CreateNewNode (some old) { r.m_new with td := td } (!r.is_single) with
        m_segment_last := s.m_segment_last, m_cost := old_node.m_cost + s.segment_cost }
      simp only [toInt32_add_right] at h ⊢
      rw [h]
      rfl

theorem PfFollowNodeChild_created (w : World) (st : YAPFSettings) (v : RoadVehicle)
    (tf : CFollowTrackRoad) (Yapf : DestinationPolicy) (fuel : Nat) (old : Nat) (old_node : Node)
    (r : FollowResult) (td : Trackdir) (c : ChildResult)
    (h : PfFollowNodeChild w st v tf Yapf fuel old old_node r td = some c) :
    (∀ created, c = ChildResult.looped created → created.wrap = created) ∧
    (∀ created why steps n bValid, c = ChildResult.evaluated created why steps n bValid →
      created.wrap = created) := by
  simp only [PfFollowNodeChild] at h
  split at h
  · simp at h
  · simp only [Option.some.injEq] at h
    subst h
    refine ⟨?_, ?_⟩
    · intro created hc
      simp only [ChildResult.looped.injEq] at hc
      subst hc
      rfl
    · intro created why steps n bValid hc
      simp at hc
  · simp only [Option.some.injEq] at h
    subst h
    refine ⟨?_, ?_⟩
    · intro created hc
      simp at hc
    · intro created why steps n bValid hc
      simp only [ChildResult.evaluated.injEq] at hc
      obtain ⟨hc, _⟩ := hc
      subst hc
      rfl

theorem machine_PfFollowNodeLoop_wrap (w : World) (st : YAPFSettings) (v : RoadVehicle)
    (tf : CFollowTrackRoad) (YapfM Yapf : DestinationPolicy) (hr : WithinIntRange w st)
    (hag : Machine.Agrees YapfM Yapf) (fuel : Nat) (old : Nat) (old_node : Node)
    (r : FollowResult) :
    ∀ tds : List Trackdir,
      Machine.PfFollowNodeLoop w st v tf YapfM fuel old old_node r tds
        = (PfFollowNodeLoop w st v tf Yapf fuel old old_node r tds).map
            (List.map AstarCall.wrap) := by
  intro tds
  induction tds with
  | nil => rfl
  | cons td rest ih =>
    rw [Machine.PfFollowNodeLoop, PfFollowNodeLoop,
      machine_PfFollowNodeChild_wrap w st v tf YapfM Yapf hr hag, ih]
    obtain ⟨_, h2, h3, _⟩ := hag
    cases hc : PfFollowNodeChild w st v tf Yapf fuel old old_node r td with
    | none => rfl
    | some c =>
      obtain ⟨hl, he⟩ := PfFollowNodeChild_created w st v tf Yapf fuel old old_node r td c hc
      cases c with
      | looped created =>
        simp only [Option.map, ChildResult.wrap, List.map, AstarCall.wrap]
        rw [hl created rfl]
      | evaluated created why steps n bValid =>
        simp only [Option.map, ChildResult.wrap]
        cases PfFollowNodeLoop w st v tf Yapf fuel old old_node r rest with
        | none => rfl
        | some calls =>
          simp only [List.map, AstarCall.wrap, he created why steps n bValid rfl, h2, h3,
            List.map_append]
          cases bValid with
          | true =>
            cases hdet : Yapf.PfDetectDestination n <;> simp [AstarCall.wrap]
          | false => simp

theorem machine_PfFollowNode_wrap (w : World) (st : YAPFSettings) (v : RoadVehicle)
    (tf : CFollowTrackRoad) (YapfM Yapf : DestinationPolicy) (hr : WithinIntRange w st)
    (hag : Machine.Agrees YapfM Yapf) (fuel : Nat) (old : Nat) (old_node : Node) :
    Machine.PfFollowNode w st v tf YapfM fuel old old_node
      = (PfFollowNode w st v tf Yapf fuel old old_node).map (List.map AstarCall.wrap) := by
  unfold Machine.PfFollowNode PfFollowNode
  cases tf.Follow old_node.m_segment_last with
  | none => rfl
  | some r => exact machine_PfFollowNodeLoop_wrap w st v tf YapfM Yapf hr hag fuel old old_node r _

theorem mem_map_wrap (calls : List AstarCall) (n : Node)
    (hn : AstarCall.InsertNode n ∈ calls.map AstarCall.wrap
      ∨ AstarCall.FoundTarget n ∈ calls.map AstarCall.wrap) :
    ∃ n0 : Node, n = n0.wrap ∧
      (AstarCall.InsertNode n0 ∈ calls ∨ AstarCall.FoundTarget n0 ∈ calls) := by
  rcases hn with hn | hn
  · obtain ⟨c, hc, he⟩ := List.mem_map.mp hn
    cases c with
    | CreateNewNode m => simp [AstarCall.wrap] at he
    | FoundTarget m => simp [AstarCall.wrap] at he
    | InsertNode m =>
      simp only [AstarCall.wrap, AstarCall.InsertNode.injEq] at he
      exact ⟨m, he.symm, Or.inl hc⟩
  · obtain ⟨c, hc, he⟩ := List.mem_map.mp hn
    cases c with
    | CreateNewNode m => simp [AstarCall.wrap] at he
    | InsertNode m => simp [AstarCall.wrap] at he
    | FoundTarget m =>
      simp only [AstarCall.wrap, AstarCall.FoundTarget.injEq] at he
      exact ⟨m, he.symm, Or.inr hc⟩

theorem machine_PfFollowNode_emitted (w : World) (st : YAPFSettings) (v : RoadVehicle)
    (tf : CFollowTrackRoad) (YapfM Yapf : DestinationPolicy) (hr : WithinIntRange w st)
    (hag : Machine.Agrees YapfM Yapf) (fuel : Nat) (old : Nat) (old_node : Node)
    (callsM : List AstarCall) (n : Node)
    (h : Machine.PfFollowNode w st v tf YapfM fuel old old_node = some callsM)
    (hn : AstarCall.InsertNode n ∈ callsM ∨ AstarCall.FoundTarget n ∈ callsM) :
    ∃ (calls : List AstarCall) (n0 : Node),
      PfFollowNode w st v tf Yapf fuel old old_node = some calls ∧
      callsM = calls.map AstarCall.wrap ∧ n = n0.wrap ∧
      (AstarCall.InsertNode n0 ∈ calls ∨ AstarCall.FoundTarget n0 ∈ calls) := by
  rw [machine_PfFollowNode_wrap w st v tf YapfM Yapf hr hag] at h
  cases hx : PfFollowNode w st v tf Yapf fuel old old_node with
  | none => rw [hx] at h; simp at h
  | some calls =>
    rw [hx] at h
    simp only [Option.map, Option.some.injEq] at h
    subst h
    obtain ⟨n0, e, hm⟩ := mem_map_wrap calls n hn
    exact ⟨calls, n0, rfl, rfl, e, hm⟩

/-! ### Costs in 32-bit arithmetic that stay within the range of `int` -/

theorem machine_StepCost_eq (w : World) (st : YAPFSettings) (v : RoadVehicle)
    (hL : 0 ≤ w.YAPF_TILE_LENGTH) (hC : 0 ≤ w.YAPF_TILE_CORNER_LENGTH)
    (hpen : NonNegPenalties st) (hocc : NonNegOccupancy w) (hr : WithinIntRange w st)
    (p : PathPos) (x : FollowStep) (hfit : StepCost w st v p x ≤ 2147483647) :
    Machine.StepCost w st v p x = StepCost w st v p x := by
  have h1 : (0 : Int) ≤ (x.m_tiles_skipped : Int) * w.YAPF_TILE_LENGTH :=
    mul_nonneg (Int.ofNat_nonneg _) hL
  have h2 := OneTileCost_nonneg w st x.m_new hL hC hpen hocc
  have h3 := SlopeCost_nonneg w st p.tile x.m_new.tile hpen.1
  unfold Machine.StepCost
  rw [machine_OneTileCost_eq w st hr, machine_SlopeCost_eq w st hr]
  unfold StepCost SpeedCost at hfit ⊢
  cases hin : x.in_segment with
  | false =>
    rw [hin] at hfit
    simp only [Bool.false_eq_true, if_false, add_zero] at hfit ⊢
    rw [toInt32_eq_of_Fits _ ⟨by omega, by omega⟩, toInt32_eq_of_Fits _ ⟨by omega, by omega⟩]
  | true =>
    rw [hin] at hfit
    simp only [if_true, toInt32_mul_const] at hfit ⊢
    split_ifs at hfit ⊢ with ha hb hb
    · rw [toInt32_eq_of_Fits _ ⟨by omega, by omega⟩, toInt32_eq_of_Fits _ ⟨by omega, by omega⟩,
        toInt32_eq_of_Fits _ ⟨by omega, by omega⟩, toInt32_eq_of_Fits _ ⟨by omega, by omega⟩,
        toInt32_eq_of_Fits _ ⟨by omega, by omega⟩]
    · rw [toInt32_eq_of_Fits _ ⟨by omega, by omega⟩, toInt32_eq_of_Fits _ ⟨by omega, by omega⟩,
        toInt32_eq_of_Fits _ ⟨by omega, by omega⟩, toInt32_eq_of_Fits _ ⟨by omega, by omega⟩]
    · rw [toInt32_eq_of_Fits _ ⟨by omega, by omega⟩, toInt32_eq_of_Fits _ ⟨by omega, by omega⟩,
        toInt32_eq_of_Fits _ ⟨by omega, by omega⟩, toInt32_eq_of_Fits _ ⟨by omega, by omega⟩]
    · rw [toInt32_eq_of_Fits _ ⟨by omega, by omega⟩, toInt32_eq_of_Fits _ ⟨by omega, by omega⟩,
        toInt32_eq_of_Fits _ ⟨by omega, by omega⟩]

theorem machine_PathCost_eq (w : World) (st : YAPFSettings) (v : RoadVehicle)
    (hL : 0 ≤ w.YAPF_TILE_LENGTH) (hC : 0 ≤ w.YAPF_TILE_CORNER_LENGTH)
    (hpen : NonNegPenalties st) (hocc : NonNegOccupancy w) (hr : WithinIntRange w st) :
    ∀ (steps : List FollowStep) (p : PathPos), PathCost w st v p steps ≤ 2147483647 →
      Machine.PathCost w st v p steps = PathCost w st v p steps := by
  intro steps
  induction steps with
  | nil => intro p _; rfl
  | cons x rest ih =>
    intro p hfit
    have h1 := PathCost_nonneg w st v hL hC hpen hocc rest x.m_new
    have h2 := StepCost_ge_tile w st v p x hL hpen
    have h3 := OneTileCost_nonneg w st x.m_new hL hC hpen hocc
    simp only [PathCost] at hfit
    simp only [Machine.PathCost, PathCost]
    rw [machine_StepCost_eq w st v hL hC hpen hocc hr p x (by omega), ih x.m_new (by omega)]

theorem SegState_wrap_of_Fits (s : SegState) (h : Fits s.segment_cost) : s.wrap = s := by
  cases s
  simp only [SegState.wrap, toInt32_eq_of_Fits _ h]

theorem machine_policy_agrees (w : World) (st : YAPFSettings) (YapfM Yapf : DestinationPolicy)
    (hr : WithinIntRange w st)
    (hY : (∃ self, YapfM = Machine.TileRoadPolicy w self ∧ Yapf = TileRoadPolicy w self)
      ∨ (YapfM = AnyDepotRoadPolicy w ∧ Yapf = AnyDepotRoadPolicy w)) :
    Machine.Agrees YapfM Yapf ∧
      ((∃ self, Yapf = TileRoadPolicy w self) ∨ Yapf = AnyDepotRoadPolicy w) := by
  rcases hY with ⟨self, rfl, rfl⟩ | ⟨rfl, rfl⟩
  · exact ⟨machine_TileRoadPolicy_agrees w st self hr, Or.inl ⟨self, rfl⟩⟩
  · exact ⟨machine_AnyDepotRoadPolicy_agrees w, Or.inr rfl⟩

theorem PfFollowNode_child_cost_nonneg (w : World) (st : YAPFSettings) (v : RoadVehicle)
    (tf : CFollowTrackRoad) (Yapf : DestinationPolicy) (fuel : Nat) (old : Nat) (old_node : Node)
    (hL : 0 ≤ w.YAPF_TILE_LENGTH) (hC : 0 ≤ w.YAPF_TILE_CORNER_LENGTH)
    (hpen : NonNegPenalties st) (hocc : NonNegOccupancy w)
    (hY : (∃ self, Yapf = TileRoadPolicy w self) ∨ Yapf = AnyDepotRoadPolicy w)
    (calls : List AstarCall) (n : Node)
    (h : PfFollowNode w st v tf Yapf fuel old old_node = some calls)
    (hn : AstarCall.InsertNode n ∈ calls ∨ AstarCall.FoundTarget n ∈ calls) :
    ∃ segment_cost : Int, 0 ≤ segment_cost ∧ n.m_cost = old_node.m_cost + segment_cost := by
  obtain ⟨r, td, created, why, steps, _, _, hchild⟩ :=
    PfFollowNode_emitted w st v tf Yapf fuel old old_node calls n h hn
  obtain ⟨_, _, hnode, _, hiff⟩ :=
    PfFollowNodeChild_run w st v tf Yapf fuel old old_node r td created why steps n true hchild
  have hcost := (Policy_PfCalcEstimate w Yapf hY
    { created with
      m_segment_last := PathEnd { r.m_new with td := td } steps
      m_cost := old_node.m_cost + ((r.m_tiles_skipped : Int) * w.YAPF_TILE_LENGTH
        + OneTileCost w st { r.m_new with td := td }
        + PathCost w st v { r.m_new with td := td } steps
        - (if why = SegmentEnd.ceiling
            then OneTileCost w st (PathEnd { r.m_new with td := td } steps) else 0)) }).2.1
  rw [← hnode] at hcost
  have hseg := segment_cost_nonneg w st v hL hC hpen hocc r.m_tiles_skipped
    { r.m_new with td := td } steps why (fun hc => (hiff.1 hc).1)
  exact ⟨_, hseg, hcost⟩

set_option maxRecDepth 100000 in
theorem onMap64_hillNode_expansion :
    PfFollowNode (onMap64 hillWorld) demoPenalties demoLorry
        (demoFollower (onMap64 hillWorld) demoLorry) (AnyDepotRoadPolicy (onMap64 hillWorld))
        4098 3 hillNode
      = some [AstarCall.CreateNewNode (CreateNewNode (some 3) { tile := 660, td := 8 } false),
              AstarCall.FoundTarget hillChild] := by
  decide

theorem onMap64_demoWorld_WithinIntRange (st : YAPFSettings)
    (h1 : Fits st.road_stop_bay_occupied_penalty)
    (h2 : Fits (st.road_stop_bay_occupied_penalty * 2)) :
    WithinIntRange (onMap64 demoWorld) st := by
  refine ⟨?_, h1, h2, ?_, ?_, ?_⟩
  · intro tile t dir
    show Fits (0 * st.road_stop_occupied_penalty)
    rw [zero_mul]
    unfold Fits
    decide
  · intro t
    show ((t % 64 % 64 : Nat) : Int) * ((16 : Nat) : Int) + ((16 / 2 : Nat) : Int) ≤ 2147483647
      ∧ ((t / 64 % 64 : Nat) : Int) * ((16 : Nat) : Int) + ((16 / 2 : Nat) : Int) ≤ 2147483647
    omega
  · intro x y
    show (-1073741824 : Int) ≤ 0 ∧ (0 : Int) ≤ 1073741823
    decide
  · intro t
    show 2 * ((t % 64 % 64 : Nat) : Int) + 1 ≤ 1073741823
      ∧ 2 * ((t / 64 % 64 : Nat) : Int) + 1 ≤ 1073741823
    omega

theorem onMap64_hillWorld_WithinIntRange (st : YAPFSettings)
    (h0 : Fits (3 * st.road_stop_occupied_penalty))
    (h1 : Fits st.road_stop_bay_occupied_penalty)
    (h2 : Fits (st.road_stop_bay_occupied_penalty * 2)) :
    WithinIntRange (onMap64 hillWorld) st := by
  refine ⟨?_, h1, h2, ?_, ?_, ?_⟩
  · intro tile t dir
    show Fits (((if tile = 680 then
          ({ GetEntry := fun _ => { GetOccupied := 0, GetLength := 1 }
             IsFreeBay := fun b => decide (b = 0) } : RoadStop)
        else
          { GetEntry := fun _ => { GetOccupied := 3, GetLength := 4 }
            IsFreeBay := fun _ => true }).GetEntry dir).GetOccupied
      * st.road_stop_occupied_penalty)
    split
    · show Fits (0 * st.road_stop_occupied_penalty)
      rw [zero_mul]
      unfold Fits
      decide
    · exact h0
  · intro t
    show ((t % 64 % 64 : Nat) : Int) * ((16 : Nat) : Int) + ((16 / 2 : Nat) : Int) ≤ 2147483647
      ∧ ((t / 64 % 64 : Nat) : Int) * ((16 : Nat) : Int) + ((16 / 2 : Nat) : Int) ≤ 2147483647
    omega
  · intro x y
    show (-1073741824 : Int) ≤ (if x ≥ 16 * 51 then 8 else 0)
      ∧ (if x ≥ 16 * 51 then (8 : Int) else 0) ≤ 1073741823
    split <;> decide
  · intro t
    show 2 * ((t % 64 % 64 : Nat) : Int) + 1 ≤ 1073741823
      ∧ 2 * ((t / 64 % 64 : Nat) : Int) + 1 ≤ 1073741823
    omega

theorem onMap64_NonNegOccupancy (w : World) (h : NonNegOccupancy w) :
    NonNegOccupancy (onMap64 w) :=
  fun tile t dir => h tile t dir

set_option maxRecDepth 100000 in
theorem machine_hillNode_expansion :
    Machine.PfFollowNode (onMap64 hillWorld) demoPenalties demoLorry
        (demoFollower (onMap64 hillWorld) demoLorry) (AnyDepotRoadPolicy (onMap64 hillWorld))
        4098 3 hillNode
      = some [AstarCall.CreateNewNode (CreateNewNode (some 3) { tile := 660, td := 8 } false),
              AstarCall.FoundTarget hillChild] := by
  decide

set_option maxRecDepth 100000 in
theorem machine_curve_expansion :
    Machine.PfFollowNode (onMap64 demoWorld) curveSettings demoLorry lineFollower
        (Machine.TileRoadPolicy (onMap64 demoWorld)
          (CYapfDestinationTileRoadT.SetDestination (onMap64 demoWorld) demoDest0 demoLorry))
        4098 2 lorryParent
      = some [AstarCall.CreateNewNode (CreateNewNode (some 2) { tile := 651, td := 5 } true),
              AstarCall.InsertNode curveTurnChild,
              AstarCall.CreateNewNode (CreateNewNode (some 2) { tile := 651, td := 8 } true),
              AstarCall.FoundTarget lorryChild] := by
  decide

set_option maxRecDepth 100000 in
theorem machine_curve_depot_expansion :
    Machine.PfFollowNode (onMap64 demoWorld) curveSettings demoLorry lineFollower
        (AnyDepotRoadPolicy (onMap64 demoWorld)) 4098 2 depotParent
      = some [AstarCall.CreateNewNode (CreateNewNode (some 2) { tile := 651, td := 5 } true),
              AstarCall.InsertNode curveDepotChild,
              AstarCall.CreateNewNode (CreateNewNode (some 2) { tile := 651, td := 8 } true),
              AstarCall.InsertNode lorryChild] := by
  decide

theorem curveSettings_NonNegPenalties : NonNegPenalties curveSettings := by
  unfold NonNegPenalties
  decide

/-! ### Non-negative costs in 32-bit arithmetic -/

/-- C13 as stated fails in 32-bit arithmetic.  With the curve penalty
`2147483600`, which is not negative, `OneTileCost` of a curve is
`71 + 2147483600` converted to `int`, that is `-2147483625`, and the child of
`lorryParent` (cost `50`) that turns off at the junction has the cost
`-2147483575`, below the cost of its parent; the products and coordinates of
the cost functions stay in range there, and over the integers the tile costs
`2147483671`, above the range of `int`. -/
theorem cost_increments_nonneg_in_range_counterexample :
    NonNegPenalties curveSettings ∧ NonNegOccupancy (onMap64 demoWorld) ∧
    WithinIntRange (onMap64 demoWorld) curveSettings ∧
    Machine.OneTileCost (onMap64 demoWorld) curveSettings { tile := 651, td := 5 }
      = -2147483625 ∧
    ¬ (0 ≤ Machine.OneTileCost (onMap64 demoWorld) curveSettings { tile := 651, td := 5 }) ∧
    Machine.PfFollowNode (onMap64 demoWorld) curveSettings demoLorry lineFollower
        (Machine.TileRoadPolicy (onMap64 demoWorld)
          (CYapfDestinationTileRoadT.SetDestination (onMap64 demoWorld) demoDest0 demoLorry))
        4098 2 lorryParent
      = some [AstarCall.CreateNewNode (CreateNewNode (some 2) { tile := 651, td := 5 } true),
              AstarCall.InsertNode curveTurnChild,
              AstarCall.CreateNewNode (CreateNewNode (some 2) { tile := 651, td := 8 } true),
              AstarCall.FoundTarget lorryChild] ∧
    curveTurnChild.m_cost = -2147483575 ∧ lorryParent.m_cost = 50 ∧
    ¬ (lorryParent.m_cost ≤ curveTurnChild.m_cost) ∧
    OneTileCost (onMap64 demoWorld) curveSettings { tile := 651, td := 5 } = 2147483671 ∧
    ¬ Fits (OneTileCost (onMap64 demoWorld) curveSettings { tile := 651, td := 5 }) :=
  ⟨curveSettings_NonNegPenalties, onMap64_NonNegOccupancy _ demoWorld_NonNegOccupancy,
    onMap64_demoWorld_WithinIntRange _ (by unfold Fits; decide) (by unfold Fits; decide),
    by decide, by decide, machine_curve_expansion, rfl, rfl, by decide, by decide,
    by unfold Fits; decide⟩

/-- C13 as amended: with penalties that are not negative, occupancies that are
not negative on queues of positive length, tile lengths that are not negative,
and the products and coordinates of the cost functions within the range of
`int`, the costs of the code, which are 32-bit `int`s, are the costs over the
integers converted to `int`, and those are `>= 0`.  So `OneTileCost`,
`SlopeCost`, each of the two speed terms and each term for skipped tiles are
`>= 0` whenever their value over the integers is within the range of `int`;
the `segment_cost` the segment loop leaves is the one over the integers
converted to `int`, which is not below the one it started with, and every
child that `PfFollowNode` inserts or reports as found, under either
destination policy, is a child of the expansion over the integers with its
cost converted to `int`, that cost being `>= old_node.m_cost`; hence
`segment_cost` is not lowered and `m_cost >= old_node.m_cost` whenever the
value over the integers is within the range of `int`.  With
`fuel >= MAX_MAP_SIZE + 2` the expansion ends. -/
theorem cost_increments_nonneg_in_range (w : World) (st : YAPFSettings) (v : RoadVehicle)
    (tf : CFollowTrackRoad) (YapfM Yapf : DestinationPolicy) (fuel : Nat) (old : Nat)
    (old_node : Node)
    (hL : 0 ≤ w.YAPF_TILE_LENGTH) (hC : 0 ≤ w.YAPF_TILE_CORNER_LENGTH)
    (hpen : NonNegPenalties st) (hocc : NonNegOccupancy w) (hr : WithinIntRange w st)
    (hY : (∃ self, YapfM = Machine.TileRoadPolicy w self ∧ Yapf = TileRoadPolicy w self)
      ∨ (YapfM = AnyDepotRoadPolicy w ∧ Yapf = AnyDepotRoadPolicy w)) :
    (∀ pos : PathPos, 0 ≤ OneTileCost w st pos ∧
      Machine.OneTileCost w st pos = toInt32 (OneTileCost w st pos) ∧
      (Fits (OneTileCost w st pos) → 0 ≤ Machine.OneTileCost w st pos)) ∧
    (∀ tile next : TileIndex, Fits st.road_slope_penalty →
      0 ≤ Machine.SlopeCost w st tile next) ∧
    (∀ min_speed max_speed : Int,
      (Fits (v.GetDisplayMaxSpeed - max_speed) →
        0 ≤ (if max_speed < v.GetDisplayMaxSpeed
              then toInt32 (1 * toInt32 (v.GetDisplayMaxSpeed - max_speed)) else 0)) ∧
      (Fits (10 * (min_speed - v.GetDisplayMaxSpeed)) →
        0 ≤ (if min_speed > v.GetDisplayMaxSpeed
              then toInt32 (10 * toInt32 (min_speed - v.GetDisplayMaxSpeed)) else 0))) ∧
    (∀ skipped : Nat, Fits ((skipped : Int) * w.YAPF_TILE_LENGTH) →
      0 ≤ toInt32 ((skipped : Int) * w.YAPF_TILE_LENGTH)) ∧
    (∀ (pos : PathPos) (rounds : Nat) (s s2 : SegState) (why : SegmentEnd),
      Fits s.segment_cost →
      Machine.SegmentLoop w st v tf YapfM.PfDetectDestinationTile pos rounds s
          = some (LoopExit.brk s2 why) →
      s.m_segment_last = s.m_new →
        ∃ s1 : SegState,
          SegmentLoop w st v tf Yapf.PfDetectDestinationTile pos rounds s
            = some (LoopExit.brk s1 why) ∧
          s2 = s1.wrap ∧ s.segment_cost ≤ s1.segment_cost ∧
          (Fits s1.segment_cost → s.segment_cost ≤ s2.segment_cost)) ∧
    (∀ (callsM : List AstarCall) (n : Node),
      Machine.PfFollowNode w st v tf YapfM fuel old old_node = some callsM →
      (AstarCall.InsertNode n ∈ callsM ∨ AstarCall.FoundTarget n ∈ callsM) →
        ∃ (calls : List AstarCall) (n0 : Node),
          PfFollowNode w st v tf Yapf fuel old old_node = some calls ∧
          (AstarCall.InsertNode n0 ∈ calls ∨ AstarCall.FoundTarget n0 ∈ calls) ∧
          n = n0.wrap ∧ old_node.m_cost ≤ n0.m_cost ∧
          (Fits n0.m_cost → 0 ≤ n.m_cost - old_node.m_cost ∧ old_node.m_cost ≤ n.m_cost)) ∧
    (w.MAX_MAP_SIZE + 2 ≤ fuel →
      ∃ calls, Machine.PfFollowNode w st v tf YapfM fuel old old_node = some calls) := by
  obtain ⟨hag, hY0⟩ := machine_policy_agrees w st YapfM Yapf hr hY
  refine ⟨?_, ?_, ?_, ?_, ?_, ?_, ?_⟩
  · intro pos
    have h0 := OneTileCost_nonneg w st pos hL hC hpen hocc
    refine ⟨h0, machine_OneTileCost_eq w st hr pos, ?_⟩
    intro hf
    rw [machine_OneTileCost_eq w st hr pos, toInt32_eq_of_Fits _ hf]
    exact h0
  · intro tile next hf
    rw [machine_SlopeCost_eq w st hr]
    have h0 := SlopeCost_nonneg w st tile next hpen.1
    have hf2 : Fits (SlopeCost w st tile next) := by
      unfold SlopeCost
      dsimp only
      split
      · exact hf
      · unfold Fits; decide
    rw [toInt32_eq_of_Fits _ hf2]
    exact h0
  · intro mn mx
    constructor
    · intro hf
      rw [toInt32_mul_const, one_mul, toInt32_eq_of_Fits _ hf]
      split <;> omega
    · intro hf
      rw [toInt32_mul_const, toInt32_eq_of_Fits _ hf]
      split <;> omega
  · intro skipped hf
    rw [toInt32_eq_of_Fits _ hf]
    exact mul_nonneg (Int.ofNat_nonneg _) hL
  · intro pos rounds s s2 why hs h hinv
    have hw := machine_SegmentLoop_wrap w st v tf Yapf.PfDetectDestinationTile pos hr rounds s
    rw [hag.1] at h
    rw [SegState_wrap_of_Fits s hs, h] at hw
    cases hx : SegmentLoop w st v tf Yapf.PfDetectDestinationTile pos rounds s with
    | none => rw [hx] at hw; simp at hw
    | some e =>
      rw [hx] at hw
      cases e with
      | ret => simp [LoopExit.wrap] at hw
      | brk s1 why1 =>
        simp only [Option.map, LoopExit.wrap, Option.some.injEq, LoopExit.brk.injEq] at hw
        obtain ⟨hs2, hwhy⟩ := hw
        subst hwhy
        have hle := SegmentLoop_cost_nonneg w st v tf _ pos hL hC hpen hocc rounds s s1 why
          hx hinv
        refine ⟨s1, rfl, hs2, hle, ?_⟩
        intro hf
        rw [hs2]
        show s.segment_cost ≤ toInt32 s1.segment_cost
        rw [toInt32_eq_of_Fits _ hf]
        exact hle
  · intro callsM n h hn
    obtain ⟨calls, n0, h0, _, hn0, hmem⟩ := machine_PfFollowNode_emitted w st v tf YapfM Yapf hr
      hag fuel old old_node callsM n h hn
    obtain ⟨c, hc, hcost⟩ := PfFollowNode_child_cost_nonneg w st v tf Yapf fuel old old_node
      hL hC hpen hocc hY0 calls n0 h0 hmem
    refine ⟨calls, n0, h0, hmem, hn0, by omega, ?_⟩
    intro hf
    have hm : n.m_cost = n0.m_cost := by
      rw [hn0]
      exact toInt32_eq_of_Fits _ hf
    rw [hm]
    constructor <;> omega
  · intro hfuel
    obtain ⟨calls, h⟩ := PfFollowNode_total w st v tf Yapf fuel old old_node hfuel
    exact ⟨_, by rw [machine_PfFollowNode_wrap w st v tf YapfM Yapf hr hag, h]; rfl⟩

/-- Witness for C13 as amended on the hilly road with every penalty set: in
32-bit arithmetic the first tile of the stop queue costs at least `0`, and the
child of `hillNode`, whose segment runs over the crossing, both stops and the
rise, costs `4780 >= 400`. -/
theorem cost_increments_nonneg_in_range_witness :
    0 ≤ Machine.OneTileCost (onMap64 hillWorld) demoPenalties { tile := 670, td := 8 } ∧
      0 ≤ hillChild.m_cost - hillNode.m_cost ∧ hillNode.m_cost ≤ hillChild.m_cost ∧
      hillChild.m_cost - hillNode.m_cost = 4380 := by
  have h := cost_increments_nonneg_in_range (onMap64 hillWorld) demoPenalties demoLorry
    (demoFollower (onMap64 hillWorld) demoLorry) (AnyDepotRoadPolicy (onMap64 hillWorld))
    (AnyDepotRoadPolicy (onMap64 hillWorld))
    4098 3 hillNode (by decide) (by decide) demoPenalties_NonNegPenalties
    (onMap64_NonNegOccupancy _ hillWorld_NonNegOccupancy)
    (onMap64_hillWorld_WithinIntRange _ (by unfold Fits; decide) (by unfold Fits; decide)
      (by unfold Fits; decide))
    (Or.inr ⟨rfl, rfl⟩)
  obtain ⟨calls, n0, h0, hmem, hn0, _, himp⟩ :=
    h.2.2.2.2.2.1 _ hillChild machine_hillNode_expansion (Or.inr (by simp))
  rw [onMap64_hillNode_expansion] at h0
  simp only [Option.some.injEq] at h0
  subst h0
  have e : n0 = hillChild := by
    simpa using hmem
  subst e
  have hres := himp (by unfold Fits; decide)
  exact ⟨(h.1 _).2.2 (by unfold Fits; decide), hres.1, hres.2, by decide⟩

/-! ### The estimate of the nearest-depot policy in 32-bit arithmetic -/

theorem PfFollowNode_AnyDepot_child (w : World) (st : YAPFSettings) (v : RoadVehicle)
    (tf : CFollowTrackRoad) (fuel : Nat) (old : Nat) (old_node : Node)
    (hL : 0 ≤ w.YAPF_TILE_LENGTH) (hC : 0 ≤ w.YAPF_TILE_CORNER_LENGTH)
    (hpen : NonNegPenalties st) (hocc : NonNegOccupancy w)
    (calls : List AstarCall) (n : Node)
    (h : PfFollowNode w st v tf (AnyDepotRoadPolicy w) fuel old old_node = some calls)
    (hn : AstarCall.InsertNode n ∈ calls ∨ AstarCall.FoundTarget n ∈ calls) :
    (∃ segment_cost : Int, 0 ≤ segment_cost ∧
      n.m_estimate = old_node.m_cost + segment_cost) ∧ n.m_estimate = n.m_cost := by
  obtain ⟨r, td, created, why, steps, _, _, hchild⟩ :=
    PfFollowNode_emitted w st v tf (AnyDepotRoadPolicy w) fuel old old_node calls n h hn
  obtain ⟨_, _, hnode, _, hiff⟩ :=
    PfFollowNodeChild_run w st v tf (AnyDepotRoadPolicy w) fuel old old_node r td created why
      steps n true hchild
  have hseg := segment_cost_nonneg w st v hL hC hpen hocc r.m_tiles_skipped
    { r.m_new with td := td } steps why (fun hc => (hiff.1 hc).1)
  have he : n.m_estimate = old_node.m_cost + ((r.m_tiles_skipped : Int) * w.YAPF_TILE_LENGTH
      + OneTileCost w st { r.m_new with td := td }
      + PathCost w st v { r.m_new with td := td } steps
      - (if why = SegmentEnd.ceiling
          then OneTileCost w st (PathEnd { r.m_new with td := td } steps) else 0)) := by
    rw [hnode]
    rfl
  have hc : n.m_cost = old_node.m_cost + ((r.m_tiles_skipped : Int) * w.YAPF_TILE_LENGTH
      + OneTileCost w st { r.m_new with td := td }
      + PathCost w st v { r.m_new with td := td } steps
      - (if why = SegmentEnd.ceiling
          then OneTileCost w st (PathEnd { r.m_new with td := td } steps) else 0)) := by
    rw [hnode]
    rfl
  exact ⟨⟨_, hseg, he⟩, by rw [he, hc]⟩

/-- C11 as stated fails in 32-bit arithmetic: with the curve penalty
`2147483600`, which is not negative, the node `depotParent` has cost and
estimate `50`, and its child that turns off at the junction is inserted with
cost and estimate `50 + 71 + 2147483600` converted to `int`, that is
`-2147483575`. -/
theorem AnyDepot_monotone_estimate_in_range_counterexample :
    NonNegPenalties curveSettings ∧ NonNegOccupancy (onMap64 demoWorld) ∧
    WithinIntRange (onMap64 demoWorld) curveSettings ∧
    depotParent.m_estimate ≤ depotParent.m_cost ∧
    Machine.PfFollowNode (onMap64 demoWorld) curveSettings demoLorry lineFollower
        (AnyDepotRoadPolicy (onMap64 demoWorld)) 4098 2 depotParent
      = some [AstarCall.CreateNewNode (CreateNewNode (some 2) { tile := 651, td := 5 } true),
              AstarCall.InsertNode curveDepotChild,
              AstarCall.CreateNewNode (CreateNewNode (some 2) { tile := 651, td := 8 } true),
              AstarCall.InsertNode lorryChild] ∧
    curveDepotChild.m_estimate = -2147483575 ∧ depotParent.m_estimate = 50 ∧
    ¬ (curveDepotChild.m_estimate ≥ depotParent.m_estimate) :=
  ⟨curveSettings_NonNegPenalties, onMap64_NonNegOccupancy _ demoWorld_NonNegOccupancy,
    onMap64_demoWorld_WithinIntRange _ (by unfold Fits; decide) (by unfold Fits; decide),
    by decide, machine_curve_depot_expansion, rfl, rfl, by decide⟩

/-- C11 as amended: under the nearest-depot policy, with penalties and
occupancies that are not negative and the products and coordinates of the cost
functions within the range of `int`, the expansion in 32-bit arithmetic is the
expansion over the integers with cost and estimate of every node converted to
`int`.  Every child `n` it inserts or reports as found has
`n.m_estimate = n.m_cost`, the value `old_node.m_cost + segment_cost` converted
to `int`, where `segment_cost >= 0` over the integers; so
`n.m_estimate >= old_node.m_estimate` whenever that value is within the range
of `int`, for a parent whose estimate does not exceed its cost, which is so for
a fresh node and for every node the policy has estimated.  With
`fuel >= MAX_MAP_SIZE + 2` the expansion ends. -/
theorem AnyDepot_monotone_estimate_in_range (w : World) (st : YAPFSettings) (v : RoadVehicle)
    (tf : CFollowTrackRoad) (fuel : Nat) (old : Nat) (old_node : Node)
    (hL : 0 ≤ w.YAPF_TILE_LENGTH) (hC : 0 ≤ w.YAPF_TILE_CORNER_LENGTH)
    (hpen : NonNegPenalties st) (hocc : NonNegOccupancy w) (hr : WithinIntRange w st)
    (hold : old_node.m_estimate ≤ old_node.m_cost)
    (hfuel : w.MAX_MAP_SIZE + 2 ≤ fuel) :
    (∃ calls : List AstarCall,
      PfFollowNode w st v tf (AnyDepotRoadPolicy w) fuel old old_node = some calls ∧
      Machine.PfFollowNode w st v tf (AnyDepotRoadPolicy w) fuel old old_node
        = some (calls.map AstarCall.wrap) ∧
      ∀ n : Node, (AstarCall.InsertNode n ∈ calls.map AstarCall.wrap
          ∨ AstarCall.FoundTarget n ∈ calls.map AstarCall.wrap) →
        (∃ segment_cost : Int, 0 ≤ segment_cost ∧
          n.m_estimate = toInt32 (old_node.m_cost + segment_cost) ∧
          (AstarCall.InsertNode
              { n with m_cost := old_node.m_cost + segment_cost,
                       m_estimate := old_node.m_cost + segment_cost } ∈ calls
            ∨ AstarCall.FoundTarget
              { n with m_cost := old_node.m_cost + segment_cost,
                       m_estimate := old_node.m_cost + segment_cost } ∈ calls) ∧
          (Fits (old_node.m_cost + segment_cost) → n.m_estimate ≥ old_node.m_estimate)) ∧
        n.m_estimate = n.m_cost) ∧
    (∀ (parent : Option Nat) (pos : PathPos) (is_choice : Bool),
      (CreateNewNode parent pos is_choice).m_estimate
        ≤ (CreateNewNode parent pos is_choice).m_cost) ∧
    (∀ m : Node, ((AnyDepotRoadPolicy w).PfCalcEstimate m).2.m_estimate
      ≤ ((AnyDepotRoadPolicy w).PfCalcEstimate m).2.m_cost) := by
  refine ⟨?_, fun _ _ _ => le_refl _, fun m => le_refl _⟩
  obtain ⟨calls, h⟩ := PfFollowNode_total w st v tf (AnyDepotRoadPolicy w) fuel old old_node hfuel
  have hm := machine_PfFollowNode_wrap w st v tf (AnyDepotRoadPolicy w) (AnyDepotRoadPolicy w)
    hr (machine_AnyDepotRoadPolicy_agrees w) fuel old old_node
  rw [h] at hm
  refine ⟨calls, h, hm, ?_⟩
  intro n hn
  obtain ⟨n0, hn0, hmem⟩ := mem_map_wrap calls n hn
  obtain ⟨⟨c, hc, he⟩, heq⟩ := PfFollowNode_AnyDepot_child w st v tf fuel old old_node hL hC
    hpen hocc calls n0 h hmem
  have hest : n.m_estimate = toInt32 (old_node.m_cost + c) := by
    rw [hn0, ← he]
    rfl
  have hcost : n.m_cost = toInt32 (old_node.m_cost + c) := by
    rw [hn0, ← he, heq]
    rfl
  have hrec : ({ n with m_cost := old_node.m_cost + c,
                        m_estimate := old_node.m_cost + c } : Node) = n0 := by
    rw [hn0, ← he]
    cases n0
    simp only [Node.wrap] at heq ⊢
    simp only [Node.mk.injEq, true_and]
    exact ⟨heq, trivial⟩
  refine ⟨⟨c, hc, hest, by rw [hrec]; exact hmem, ?_⟩, by rw [hest, hcost]⟩
  intro hf
  rw [ge_iff_le, hest, toInt32_eq_of_Fits _ hf]
  omega

/-- Witness for C11 as amended on the hilly road: the expansion of `hillNode`
(cost and estimate `400`) in 32-bit arithmetic ends, and the child it reports
as found, on the depot tile `700`, has estimate `4780`, equal to its cost and
not below `400`. -/
theorem AnyDepot_monotone_estimate_in_range_witness :
    hillChild.m_estimate = hillChild.m_cost ∧ hillChild.m_estimate ≥ hillNode.m_estimate ∧
      hillChild.m_estimate = 4780 ∧ hillNode.m_estimate = 400 := by
  obtain ⟨calls, h, _, hall⟩ := (AnyDepot_monotone_estimate_in_range (onMap64 hillWorld)
    demoPenalties demoLorry (demoFollower (onMap64 hillWorld) demoLorry) 4098 3 hillNode
    (by decide) (by decide) demoPenalties_NonNegPenalties
    (onMap64_NonNegOccupancy _ hillWorld_NonNegOccupancy)
    (onMap64_hillWorld_WithinIntRange _ (by unfold Fits; decide) (by unfold Fits; decide)
      (by unfold Fits; decide))
    (by decide) (by decide)).1
  rw [onMap64_hillNode_expansion] at h
  simp only [Option.some.injEq] at h
  subst h
  obtain ⟨⟨c, _, _, hmem, himp⟩, heq⟩ := hall hillChild (Or.inr (by decide))
  have hc : hillNode.m_cost + c = 4780 := by
    have e : ({ hillChild with m_cost := hillNode.m_cost + c,
                               m_estimate := hillNode.m_cost + c } : Node) = hillChild := by
      simpa using hmem
    exact congrArg Node.m_cost e
  exact ⟨heq, himp (by rw [hc]; unfold Fits; decide), rfl, rfl⟩

/-! ### The estimate of the fixed-destination policy in 32-bit arithmetic -/

theorem Node_wrap_of_Fits (n : Node) (hc : Fits n.m_cost) (he : Fits n.m_estimate) :
    n.wrap = n := by
  cases n
  simp only [Node.wrap, toInt32_eq_of_Fits _ hc, toInt32_eq_of_Fits _ he]

theorem onMap64_lineFollower_EdgeAdjacent :
    FollowerEdgeAdjacent (onMap64 demoWorld) lineFollower := by
  intro p r hr
  simp only [lineFollower] at hr
  split_ifs at hr with h1 h2 h3
  · simp only [Option.some.injEq] at hr
    subst hr h1
    refine ⟨fun hs => absurd hs (by decide), ?_⟩
    intro td htd
    rcases testBit_288 td htd with rfl | rfl <;> (unfold EdgeAdjacent; decide)
  · simp only [Option.some.injEq] at hr
    subst hr h2
    refine ⟨fun _ => by unfold EdgeAdjacent; decide, ?_⟩
    intro td htd
    rcases testBit_256 td htd with rfl
    unfold EdgeAdjacent
    decide
  · simp only [Option.some.injEq] at hr
    subst hr h3
    refine ⟨fun _ => by unfold EdgeAdjacent; decide, ?_⟩
    intro td htd
    rcases testBit_256 td htd with rfl
    unfold EdgeAdjacent
    decide

theorem machine_lorryParent_expansion :
    Machine.PfFollowNode (onMap64 demoWorld) demoSettings demoLorry lineFollower
        (Machine.TileRoadPolicy (onMap64 demoWorld)
          (CYapfDestinationTileRoadT.SetDestination (onMap64 demoWorld) demoDest0 demoLorry))
        4098 2 lorryParent
      = some [AstarCall.CreateNewNode (CreateNewNode (some 2) { tile := 651, td := 5 } true),
              AstarCall.InsertNode lorryTurnChild,
              AstarCall.CreateNewNode (CreateNewNode (some 2) { tile := 651, td := 8 } true),
              AstarCall.FoundTarget lorryChild] := by
  decide

theorem onMap64_lorryChild_run :
    PfFollowNodeChild (onMap64 demoWorld) demoSettings demoLorry lineFollower
        (TileRoadPolicy (onMap64 demoWorld)
          (CYapfDestinationTileRoadT.SetDestination (onMap64 demoWorld) demoDest0 demoLorry))
        4098 2 lorryParent
        { m_new := { tile := 651, td := 255 }, trackdirs := 288, is_single := false,
          m_tiles_skipped := 0, min_speed := 0, max_speed := 2147483647 } 8
      = some (ChildResult.evaluated (CreateNewNode (some 2) { tile := 651, td := 8 } true)
          SegmentEnd.destination
          [{ m_new := { tile := 652, td := 8 }, m_tiles_skipped := 0, min_speed := 0,
             max_speed := 2147483647, in_segment := true },
           { m_new := { tile := 653, td := 8 }, m_tiles_skipped := 0, min_speed := 0,
             max_speed := 2147483647, in_segment := true }]
          lorryChild true) := by
  decide

theorem machine_busParent_expansion :
    Machine.PfFollowNode (onMap64 demoWorld) demoSettings demoBus lineFollower
        (Machine.TileRoadPolicy (onMap64 demoWorld)
          (CYapfDestinationTileRoadT.SetDestination (onMap64 demoWorld) demoDest0 demoBus))
        4098 1 busParent
      = some [AstarCall.CreateNewNode (CreateNewNode (some 1) { tile := 652, td := 8 } false),
              AstarCall.FoundTarget busChild] := by
  decide

/-- C12 as stated fails in two ways.  For a station with several tiles: in the
concrete world the bus is ordered to station `7`, whose bay on tile `778` is
the stored closest tile; the junction node has cost `100` and estimate `313`;
its child, two straight tiles further on, ends on the bay on tile `653`, a
destination, with cost and estimate `300`.  In 32-bit arithmetic: with the
curve penalty `2147483600`, which is not negative, the child of `lorryParent`
(estimate `250`) that turns off at the junction, away from the destination, is
inserted with the cost `-2147483575` and the estimate `-2147483404`.  In both
cases the follower moves between edge-adjacent tiles only, no penalty is
negative and the products and coordinates of the cost functions are within the
range of `int`. -/
theorem PfFollowNode_monotone_estimate_in_range_counterexample :
    FollowerEdgeAdjacent (onMap64 demoWorld) lineFollower ∧
    NonNegPenalties demoSettings ∧ NonNegOccupancy (onMap64 demoWorld) ∧
    WithinIntRange (onMap64 demoWorld) demoSettings ∧
    busParent = (Machine.PfCalcEstimate (onMap64 demoWorld)
      (CYapfDestinationTileRoadT.SetDestination (onMap64 demoWorld) demoDest0 demoBus)
      demoJunctionNode).2 ∧
    Machine.PfFollowNode (onMap64 demoWorld) demoSettings demoBus lineFollower
        (Machine.TileRoadPolicy (onMap64 demoWorld)
          (CYapfDestinationTileRoadT.SetDestination (onMap64 demoWorld) demoDest0 demoBus))
        4098 1 busParent
      = some [AstarCall.CreateNewNode (CreateNewNode (some 1) { tile := 652, td := 8 } false),
              AstarCall.FoundTarget busChild] ∧
    busChild.m_estimate = 300 ∧ busParent.m_estimate = 313 ∧
    ¬ (busChild.m_estimate ≥ busParent.m_estimate) ∧
    NonNegPenalties curveSettings ∧ WithinIntRange (onMap64 demoWorld) curveSettings ∧
    lorryParent.m_estimate ≤ lorryParent.m_cost
      + EstimateDistance (onMap64 demoWorld)
          (CYapfDestinationTileRoadT.SetDestination (onMap64 demoWorld) demoDest0 demoLorry)
          lorryParent.m_segment_last ∧
    Machine.PfFollowNode (onMap64 demoWorld) curveSettings demoLorry lineFollower
        (Machine.TileRoadPolicy (onMap64 demoWorld)
          (CYapfDestinationTileRoadT.SetDestination (onMap64 demoWorld) demoDest0 demoLorry))
        4098 2 lorryParent
      = some [AstarCall.CreateNewNode (CreateNewNode (some 2) { tile := 651, td := 5 } true),
              AstarCall.InsertNode curveTurnChild,
              AstarCall.CreateNewNode (CreateNewNode (some 2) { tile := 651, td := 8 } true),
              AstarCall.FoundTarget lorryChild] ∧
    CYapfDestinationTileRoadT.PfDetectDestinationTile (onMap64 demoWorld)
      (CYapfDestinationTileRoadT.SetDestination (onMap64 demoWorld) demoDest0 demoLorry)
      curveTurnChild.m_segment_last = false ∧
    curveTurnChild.m_estimate = -2147483404 ∧ lorryParent.m_estimate = 250 ∧
    ¬ (curveTurnChild.m_estimate ≥ lorryParent.m_estimate) :=
  ⟨onMap64_lineFollower_EdgeAdjacent, demoSettings_NonNegPenalties,
    onMap64_NonNegOccupancy _ demoWorld_NonNegOccupancy,
    onMap64_demoWorld_WithinIntRange _ (by unfold Fits; decide) (by unfold Fits; decide),
    by decide, machine_busParent_expansion, by decide, by decide, by decide,
    curveSettings_NonNegPenalties,
    onMap64_demoWorld_WithinIntRange _ (by unfold Fits; decide) (by unfold Fits; decide),
    by decide, machine_curve_expansion, by decide, rfl, rfl, by decide⟩

/-- C12 as amended: over a follower that only moves between edge-adjacent
tiles (or skips a straight tunnel or bridge, reporting the tiles skipped), with
penalties and occupancies that are not negative, a tile length `L >= 0`, a
corner length between `L / 2` and `2 * (L / 2)` and the products and
coordinates of the cost functions within the range of `int`, for the expansion
in 32-bit arithmetic of a node whose estimate is at most its cost plus the
distance term of `PfCalcEstimate` at its segment end, every child `n` that is
inserted or reported as found has `old_node` as its parent, and is the child
`n0` of the expansion over the integers with cost and estimate converted to
`int`.  If its segment was not stopped by the tile ceiling, it does not end on
a destination tile other than the stored `m_destTile`, and the cost and the
estimate of `n0` are within the range of `int`, then
`n.m_estimate >= old_node.m_estimate`, and `n.m_estimate` is again at most
`n.m_cost` plus the distance term. -/
theorem PfFollowNode_monotone_estimate_in_range (w : World) (st : YAPFSettings)
    (v : RoadVehicle) (tf : CFollowTrackRoad) (self : CYapfDestinationTileRoadT) (fuel : Nat)
    (old : Nat) (old_node : Node) (callsM : List AstarCall) (n : Node)
    (hL : 0 ≤ w.YAPF_TILE_LENGTH)
    (hc1 : w.YAPF_TILE_LENGTH.tdiv 2 ≤ w.YAPF_TILE_CORNER_LENGTH)
    (hc2 : w.YAPF_TILE_CORNER_LENGTH ≤ 2 * w.YAPF_TILE_LENGTH.tdiv 2)
    (hpen : NonNegPenalties st) (hocc : NonNegOccupancy w) (hr : WithinIntRange w st)
    (hadj : FollowerEdgeAdjacent w tf)
    (hold : old_node.m_estimate
      ≤ old_node.m_cost + EstimateDistance w self old_node.m_segment_last)
    (h : Machine.PfFollowNode w st v tf (Machine.TileRoadPolicy w self) fuel old old_node
      = some callsM)
    (hn : AstarCall.InsertNode n ∈ callsM ∨ AstarCall.FoundTarget n ∈ callsM) :
    n.m_parent = some old ∧
    (∃ (n0 : Node) (r : FollowResult) (td : Trackdir) (created : Node) (why : SegmentEnd)
        (steps : List FollowStep),
      tf.Follow old_node.m_segment_last = some r ∧
      PfFollowNodeChild w st v tf (TileRoadPolicy w self) fuel old old_node r td
        = some (ChildResult.evaluated created why steps n0 true) ∧
      Machine.PfFollowNodeChild w st v tf (Machine.TileRoadPolicy w self) fuel old old_node r td
        = some (ChildResult.evaluated created why steps n true) ∧
      n = n0.wrap ∧
      (why ≠ SegmentEnd.ceiling →
        (CYapfDestinationTileRoadT.PfDetectDestinationTile w self n.m_segment_last = true →
          n.m_segment_last.tile = self.m_destTile) →
        Fits n0.m_cost → Fits n0.m_estimate →
        n.m_estimate ≥ old_node.m_estimate ∧
          n.m_estimate ≤ n.m_cost + EstimateDistance w self n.m_segment_last)) ∧
    (∀ (parent : Option Nat) (pos : PathPos) (is_choice : Bool),
      (CreateNewNode parent pos is_choice).m_estimate
        ≤ (CreateNewNode parent pos is_choice).m_cost
          + EstimateDistance w self (CreateNewNode parent pos is_choice).m_segment_last) := by
  have hag := machine_TileRoadPolicy_agrees w st self hr
  obtain ⟨calls, n0, h0, _, hn0, hmem⟩ := machine_PfFollowNode_emitted w st v tf
    (Machine.TileRoadPolicy w self) (TileRoadPolicy w self) hr hag fuel old old_node callsM n h hn
  obtain ⟨hp, ⟨r, td, created, why, steps, hf, hchild, himp⟩, hnew⟩ :=
    PfFollowNode_monotone_estimate_unbounded w st v tf self fuel old old_node calls n0 hL hc1
      hc2 hpen hocc hadj hold h0 hmem
  refine ⟨by rw [hn0]; exact hp, ⟨n0, r, td, created, why, steps, hf, hchild, ?_, hn0, ?_⟩, hnew⟩
  · rw [machine_PfFollowNodeChild_wrap w st v tf _ _ hr hag, hchild, hn0]
    rfl
  · intro hwhy hdest hfc hfe
    have e : n = n0 := by rw [hn0]; exact Node_wrap_of_Fits n0 hfc hfe
    rw [e] at hdest ⊢
    exact himp hwhy hdest

/-- Witness for C12 as amended in the concrete world: the lorry's destination
is the single tile `653`; in 32-bit arithmetic the child of `lorryParent`
(estimate `250`) that goes straight on ends there with estimate `350`, and has
entry `2` as its parent. -/
theorem PfFollowNode_monotone_estimate_in_range_witness :
    lorryChild.m_parent = some 2 ∧ lorryChild.m_estimate ≥ lorryParent.m_estimate ∧
      lorryChild.m_estimate = 350 ∧ lorryParent.m_estimate = 250 := by
  obtain ⟨hp, ⟨n0, r, td, created, why, steps, hr, hchild, _, hn0, himp⟩, _⟩ :=
    PfFollowNode_monotone_estimate_in_range (onMap64 demoWorld) demoSettings demoLorry
      lineFollower
      (CYapfDestinationTileRoadT.SetDestination (onMap64 demoWorld) demoDest0 demoLorry) 4098 2
      lorryParent _ lorryChild (by decide) (by decide) (by decide) demoSettings_NonNegPenalties
      (onMap64_NonNegOccupancy _ demoWorld_NonNegOccupancy)
      (onMap64_demoWorld_WithinIntRange _ (by unfold Fits; decide) (by unfold Fits; decide))
      onMap64_lineFollower_EdgeAdjacent (by decide) machine_lorryParent_expansion
      (Or.inr (by simp))
  have hr' : lineFollower.Follow lorryParent.m_segment_last
      = some { m_new := { tile := 651, td := 255 }, trackdirs := 288, is_single := false,
               m_tiles_skipped := 0, min_speed := 0, max_speed := 2147483647 } := by
    decide
  rw [hr'] at hr
  simp only [Option.some.injEq] at hr
  subst hr
  have hkey := PfFollowNodeChild_key _ _ _ _ _ _ _ _ _ _ _ _ _ _ _ (Or.inl ⟨_, rfl⟩) hchild
  have htd : td = 8 := by
    have h1 : n0.m_key = lorryChild.m_key := by
      rw [hn0]
      rfl
    rw [h1] at hkey
    have := congrArg PathPos.td hkey
    exact this.symm
  subst htd
  rw [onMap64_lorryChild_run] at hchild
  simp only [Option.some.injEq, ChildResult.evaluated.injEq] at hchild
  obtain ⟨_, hwhy, _, hnode, _⟩ := hchild
  subst hnode
  have hres := himp (by rw [← hwhy]; decide) (fun _ => by decide) (by unfold Fits; decide)
    (by unfold Fits; decide)
  exact ⟨hp, hres.1, rfl, rfl⟩

/-! ### Admissibility of the fixed-destination estimate in 32-bit arithmetic -/

theorem onMap64_demoStep_PathFollows :
    PathFollows (onMap64 demoWorld) demoNode.m_segment_last [demoStep] := by
  unfold PathFollows EdgeAdjacent PathFollows
  decide

theorem onMap64_cornerStep_PathFollows :
    PathFollows (onMap64 demoWorld) cornerNode.m_segment_last [cornerStep] := by
  unfold PathFollows EdgeAdjacent PathFollows
  decide

/-- C8 as stated fails in three ways; in each of them no penalty is negative
and the products and coordinates of the cost functions are within the range of
`int`.  For a station with several tiles: the bus is ordered to station `7`,
whose bay on tile `778` is the stored closest tile while the bay on tile `653`
is one move (cost `100`) from the node ending on tile `652`; the estimate part
of that node is `284`.  In 32-bit arithmetic: with the curve penalty
`2147483600` the move from tile `589` into the curve on the lorry's
destination tile `653` costs `71 + 2147483600` converted to `int`, that is
`-2147483625`, below the estimate part `0` of the node ending on tile `589`.
For a move between tiles that are not edge-adjacent: a single move of cost
`100` from tile `640` onto the destination tile `653`, thirteen tiles away,
against the estimate part `1200` of the node ending on tile `640`. -/
theorem PfCalcEstimate_admissible_in_range_counterexample :
    NonNegPenalties demoSettings ∧ NonNegOccupancy (onMap64 demoWorld) ∧
      WithinIntRange (onMap64 demoWorld) demoSettings ∧
      PathFollows (onMap64 demoWorld) demoNode.m_segment_last [demoStep] ∧
      CYapfDestinationTileRoadT.PfDetectDestinationTile (onMap64 demoWorld)
        (CYapfDestinationTileRoadT.SetDestination (onMap64 demoWorld) demoDest0 demoBus)
        (PathEnd demoNode.m_segment_last [demoStep]) = true ∧
      Machine.PathCost (onMap64 demoWorld) demoSettings demoBus demoNode.m_segment_last
        [demoStep] = 100 ∧
      (Machine.PfCalcEstimate (onMap64 demoWorld)
        (CYapfDestinationTileRoadT.SetDestination (onMap64 demoWorld) demoDest0 demoBus)
        demoNode).2.m_estimate - demoNode.m_cost = 284 ∧
      ¬ ((Machine.PfCalcEstimate (onMap64 demoWorld)
          (CYapfDestinationTileRoadT.SetDestination (onMap64 demoWorld) demoDest0 demoBus)
          demoNode).2.m_estimate - demoNode.m_cost
        ≤ Machine.PathCost (onMap64 demoWorld) demoSettings demoBus demoNode.m_segment_last
            [demoStep]) ∧
      NonNegPenalties curveSettings ∧ WithinIntRange (onMap64 demoWorld) curveSettings ∧
      PathFollows (onMap64 demoWorld) cornerNode.m_segment_last [cornerStep] ∧
      (PathEnd cornerNode.m_segment_last [cornerStep]).tile
        = (CYapfDestinationTileRoadT.SetDestination (onMap64 demoWorld) demoDest0
            demoLorry).m_destTile ∧
      PathCost (onMap64 demoWorld) curveSettings demoLorry cornerNode.m_segment_last
        [cornerStep] = 2147483671 ∧
      Machine.PathCost (onMap64 demoWorld) curveSettings demoLorry cornerNode.m_segment_last
        [cornerStep] = -2147483625 ∧
      (Machine.PfCalcEstimate (onMap64 demoWorld)
        (CYapfDestinationTileRoadT.SetDestination (onMap64 demoWorld) demoDest0 demoLorry)
        cornerNode).2.m_estimate - cornerNode.m_cost = 0 ∧
      ¬ ((Machine.PfCalcEstimate (onMap64 demoWorld)
          (CYapfDestinationTileRoadT.SetDestination (onMap64 demoWorld) demoDest0 demoLorry)
          cornerNode).2.m_estimate - cornerNode.m_cost
        ≤ Machine.PathCost (onMap64 demoWorld) curveSettings demoLorry
            cornerNode.m_segment_last [cornerStep]) ∧
      ¬ PathFollows (onMap64 demoWorld) farNode.m_segment_last [demoStep] ∧
      (PathEnd farNode.m_segment_last [demoStep]).tile
        = (CYapfDestinationTileRoadT.SetDestination (onMap64 demoWorld) demoDest0
            demoLorry).m_destTile ∧
      Machine.PathCost (onMap64 demoWorld) demoSettings demoLorry farNode.m_segment_last
        [demoStep] = 100 ∧
      (Machine.PfCalcEstimate (onMap64 demoWorld)
        (CYapfDestinationTileRoadT.SetDestination (onMap64 demoWorld) demoDest0 demoLorry)
        farNode).2.m_estimate - farNode.m_cost = 1200 ∧
      ¬ ((Machine.PfCalcEstimate (onMap64 demoWorld)
          (CYapfDestinationTileRoadT.SetDestination (onMap64 demoWorld) demoDest0 demoLorry)
          farNode).2.m_estimate - farNode.m_cost
        ≤ Machine.PathCost (onMap64 demoWorld) demoSettings demoLorry farNode.m_segment_last
            [demoStep]) :=
  ⟨demoSettings_NonNegPenalties, onMap64_NonNegOccupancy _ demoWorld_NonNegOccupancy,
    onMap64_demoWorld_WithinIntRange _ (by unfold Fits; decide) (by unfold Fits; decide),
    onMap64_demoStep_PathFollows, by decide, by decide, by decide, by decide,
    curveSettings_NonNegPenalties,
    onMap64_demoWorld_WithinIntRange _ (by unfold Fits; decide) (by unfold Fits; decide),
    onMap64_cornerStep_PathFollows, by decide, by decide, by decide, by decide, by decide,
    by unfold PathFollows EdgeAdjacent PathFollows; decide, by decide, by decide, by decide,
    by decide⟩

/-- C8 as amended: with non-negative penalties and occupancies, a tile length
`L >= 0`, a corner length between `L / 2` and `2 * (L / 2)` and the products
and coordinates of the cost functions within the range of `int`, for a node
whose estimate over the integers is within the range of `int`, the estimate
part `m_estimate - m_cost` that `PfCalcEstimate` gives the node in 32-bit
arithmetic never exceeds the cost, in 32-bit arithmetic, of a chain of follower
moves between edge-adjacent tiles (straight tunnel or bridge skips included)
from `n.m_segment_last` to a position on the stored destination tile
`m_destTile`, provided the cost of the chain over the integers is within the
range of `int`; when no station is set the positions on `m_destTile` are the
positions `PfDetectDestinationTile` accepts. -/
theorem PfCalcEstimate_admissible_in_range (w : World) (s : YAPFSettings) (v : RoadVehicle)
    (self : CYapfDestinationTileRoadT) (n : Node) (steps : List FollowStep)
    (hL : 0 ≤ w.YAPF_TILE_LENGTH)
    (hc1 : w.YAPF_TILE_LENGTH.tdiv 2 ≤ w.YAPF_TILE_CORNER_LENGTH)
    (hc2 : w.YAPF_TILE_CORNER_LENGTH ≤ 2 * w.YAPF_TILE_LENGTH.tdiv 2)
    (hpen : NonNegPenalties s) (hocc : NonNegOccupancy w) (hr : WithinIntRange w s)
    (hn : Fits n.m_cost)
    (hest : Fits (CYapfDestinationTileRoadT.PfCalcEstimate w self n).2.m_estimate)
    (hcost : Fits (PathCost w s v n.m_segment_last steps))
    (hpath : PathFollows w n.m_segment_last steps) :
    ((PathEnd n.m_segment_last steps).tile = self.m_destTile →
      (Machine.PfCalcEstimate w self n).2.m_estimate - n.m_cost
        ≤ Machine.PathCost w s v n.m_segment_last steps) ∧
    (self.m_dest_station = w.INVALID_STATION →
      CYapfDestinationTileRoadT.PfDetectDestinationTile w self
        (PathEnd n.m_segment_last steps) = true →
      (Machine.PfCalcEstimate w self n).2.m_estimate - n.m_cost
        ≤ Machine.PathCost w s v n.m_segment_last steps) := by
  obtain ⟨hh, _⟩ := half_tile_facts _ hL
  have hC : 0 ≤ w.YAPF_TILE_CORNER_LENGTH := le_trans hh hc1
  have hag := (machine_TileRoadPolicy_agrees w s self hr).2.2.2 n
  have hself : ({ n with m_cost := toInt32 n.m_cost } : Node) = n := by
    cases n
    simp only [toInt32_eq_of_Fits _ hn]
  rw [hself] at hag
  have hm : (Machine.PfCalcEstimate w self n).2.m_estimate
      = (CYapfDestinationTileRoadT.PfCalcEstimate w self n).2.m_estimate := by
    have h1 : (Machine.PfCalcEstimate w self n).2
        = (CYapfDestinationTileRoadT.PfCalcEstimate w self n).2.wrap :=
      congrArg Prod.snd hag
    rw [h1]
    exact toInt32_eq_of_Fits _ hest
  rw [hm, machine_PathCost_eq w s v hL hC hpen hocc hr steps n.m_segment_last hcost.2]
  exact PfCalcEstimate_admissible_unbounded w s v self n steps hL hc1 hc2 hpen hocc hpath

/-- Witness for C8 as amended: for the lorry, whose destination is the single
tile `653`, the node ending on tile `652` has in 32-bit arithmetic the estimate
part `0`, below the cost `100` of the move onto the destination. -/
theorem PfCalcEstimate_admissible_in_range_witness :
    (Machine.PfCalcEstimate (onMap64 demoWorld)
        (CYapfDestinationTileRoadT.SetDestination (onMap64 demoWorld) demoDest0 demoLorry)
        demoNode).2.m_estimate - demoNode.m_cost
      ≤ Machine.PathCost (onMap64 demoWorld) demoSettings demoLorry demoNode.m_segment_last
          [demoStep] ∧
    Machine.PathCost (onMap64 demoWorld) demoSettings demoLorry demoNode.m_segment_last
      [demoStep] = 100 :=
  ⟨(PfCalcEstimate_admissible_in_range (onMap64 demoWorld) demoSettings demoLorry
      (CYapfDestinationTileRoadT.SetDestination (onMap64 demoWorld) demoDest0 demoLorry)
      demoNode [demoStep] (by decide) (by decide) (by decide) demoSettings_NonNegPenalties
      (onMap64_NonNegOccupancy _ demoWorld_NonNegOccupancy)
      (onMap64_demoWorld_WithinIntRange _ (by unfold Fits; decide) (by unfold Fits; decide))
      (by unfold Fits; decide) (by unfold Fits; decide) (by unfold Fits; decide)
      onMap64_demoStep_PathFollows).2 rfl (by decide),
   by decide⟩

/-! ### The depot stop and the tile ceiling -/

theorem RunSteps_append (w : World) (st : YAPFSettings) (v : RoadVehicle) :
    ∀ (a b : List FollowStep) (s : SegState),
      RunSteps w st v s (a ++ b) = RunSteps w st v (RunSteps w st v s a) b := by
  intro a
  induction a with
  | nil => intro b s; rfl
  | cons x rest ih =>
    intro b s
    simp only [List.cons_append, RunSteps]
    exact ih b _

theorem PathEnd_append_singleton (x : FollowStep) :
    ∀ (steps : List FollowStep) (p : PathPos), PathEnd p (steps ++ [x]) = x.m_new := by
  intro steps
  induction steps with
  | nil => intro p; rfl
  | cons y rest ih => intro p; simpa [PathEnd] using ih y.m_new

theorem SegmentLoop_passes (w : World) (st : YAPFSettings) (v : RoadVehicle)
    (tf : CFollowTrackRoad) (detect : PathPos → Bool) (pos : PathPos) :
    ∀ (fuel : Nat) (s s' : SegState) (why : SegmentEnd),
      SegmentLoop w st v tf detect pos fuel s = some (LoopExit.brk s' why) →
      ∃ rest : List FollowStep, s'.steps = s.steps ++ rest ∧
        (∀ q ∈ (s.m_new :: rest.map fun x => x.m_new).dropLast, PassesThrough w detect q) ∧
        (why = SegmentEnd.end_of_road ∨ why = SegmentEnd.junction →
          PassesThrough w detect (PathEnd s.m_new rest)) := by
  intro fuel
  induction fuel with
  | zero => intro s s' why h; simp [SegmentLoop] at h
  | succ fuel ih =>
    intro s s' why h
    rw [SegmentLoop] at h
    dsimp only at h
    by_cases hd : detect s.m_new = true
    · rw [if_pos hd] at h
      simp only [Option.some.injEq, LoopExit.brk.injEq] at h
      obtain ⟨he, hw⟩ := h
      subst he hw
      exact ⟨[], by simp, by simp, by simp⟩
    · rw [if_neg hd] at h
      by_cases hdep : w.IsRoadDepotTile s.m_new.tile = true ∧
          s.m_new.td = w.DiagDirToDiagTrackdir
            (w.ReverseDiagDir (w.GetGroundDepotDirection s.m_new.tile))
      · rw [if_pos hdep] at h
        simp only [Option.some.injEq, LoopExit.brk.injEq] at h
        obtain ⟨he, hw⟩ := h
        subst he hw
        exact ⟨[], by simp, by simp, by simp⟩
      · rw [if_neg hdep] at h
        have hpass : PassesThrough w detect s.m_new := ⟨by simpa using hd, hdep⟩
        cases hf : tf.Follow s.m_new with
        | none =>
          rw [hf] at h
          simp only [Option.some.injEq, LoopExit.brk.injEq] at h
          obtain ⟨he, _⟩ := h
          subst he
          exact ⟨[], by simp, by simp, fun _ => hpass⟩
        | some r =>
          rw [hf] at h
          dsimp only at h
          by_cases hs : (!r.is_single) = true
          · rw [if_pos hs] at h
            simp only [Option.some.injEq, LoopExit.brk.injEq] at h
            obtain ⟨he, _⟩ := h
            subst he
            exact ⟨[], by simp, by simp, fun _ => hpass⟩
          · rw [if_neg hs] at h
            by_cases hp : r.m_new = pos
            · rw [if_pos hp] at h
              simp at h
            · rw [if_neg hp] at h
              by_cases hc : s.tiles + (r.m_tiles_skipped + 1) > w.MAX_MAP_SIZE
              · rw [if_pos hc] at h
                simp only [Option.some.injEq, LoopExit.brk.injEq] at h
                obtain ⟨he, hw⟩ := h
                subst he hw
                refine ⟨[_], rfl, ?_, by simp⟩
                intro q hq
                simp only [List.map_cons, List.map_nil, List.dropLast_cons₂,
                  List.dropLast_single, List.mem_singleton] at hq
                rw [hq]
                exact hpass
              · rw [if_neg hc] at h
                obtain ⟨rest, h1, h2, h3⟩ := ih _ s' why h
                dsimp only at h1 h2 h3
                refine ⟨r.toStep true :: rest, by rw [h1, List.append_assoc]; rfl, ?_, h3⟩
                intro q hq
                simp only [List.map_cons, List.dropLast_cons₂, List.mem_cons] at hq
                rcases hq with rfl | hq
                · exact hpass
                · exact h2 q hq

theorem child_of_ceiling (w : World) (st : YAPFSettings) (v : RoadVehicle)
    (tf : CFollowTrackRoad) (Yapf : DestinationPolicy) (fuel : Nat) (old : Nat) (old_node : Node)
    (r : FollowResult) (td : Trackdir) (steps : List FollowStep) (x : FollowStep)
    (hY : (∃ self, Yapf = TileRoadPolicy w self) ∨ Yapf = AnyDepotRoadPolicy w)
    (hcont : Continues w tf Yapf.PfDetectDestinationTile { r.m_new with td := td }
      { r.m_new with td := td } r.m_tiles_skipped steps)
    (hpass : PassesThrough w Yapf.PfDetectDestinationTile
      (PathEnd { r.m_new with td := td } steps))
    (hx : ∃ r', tf.Follow (PathEnd { r.m_new with td := td } steps) = some r' ∧
      r'.is_single = true ∧ x = r'.toStep true)
    (hpos : x.m_new ≠ { r.m_new with td := td })
    (htiles : SegmentTiles r.m_tiles_skipped steps + (x.m_tiles_skipped + 1) > w.MAX_MAP_SIZE)
    (hfuel : steps.length + 1 ≤ fuel) :
    ∃ n : Node,
      PfFollowNodeChild w st v tf Yapf fuel old old_node r td
        = some (ChildResult.evaluated
            (CreateNewNode (some old) { r.m_new with td := td } (!r.is_single))
            SegmentEnd.ceiling (steps ++ [x]) n true) ∧
      n.m_segment_last = x.m_new ∧
      n.m_cost = old_node.m_cost
        + (RunSteps w st v (FirstState w r td) (steps ++ [x])).segment_cost ∧
      n.m_cost + OneTileCost w st x.m_new
        = old_node.m_cost + ((r.m_tiles_skipped : Int) * w.YAPF_TILE_LENGTH
          + OneTileCost w st { r.m_new with td := td }
          + PathCost w st v { r.m_new with td := td } (steps ++ [x])) := by
  obtain ⟨k, rfl⟩ : ∃ k, fuel = steps.length + (k + 1) := ⟨fuel - steps.length - 1, by omega⟩
  obtain ⟨r', hf, hs, rfl⟩ := hx
  have hadv := SegmentLoop_advance w st v tf Yapf.PfDetectDestinationTile
    { r.m_new with td := td } (k + 1) steps (FirstState w r td) hcont
  obtain ⟨hin, _, _⟩ := Continues_in_segment w tf Yapf.PfDetectDestinationTile _ steps _ _ hcont
  obtain ⟨f1, _, f3, _, _⟩ := RunSteps_facts w st v steps (FirstState w r td) hin
  have f1' : (RunSteps w st v (FirstState w r td) steps).m_new
      = PathEnd { r.m_new with td := td } steps := f1
  have f3' : (RunSteps w st v (FirstState w r td) steps).tiles
      = SegmentTiles r.m_tiles_skipped steps := f3
  rw [SegmentLoop_round w st v tf _ _ k _ r' (by rw [f1']; exact hpass) (by rw [f1']; exact hf)
    hs hpos, if_pos (by rw [f3']; exact htiles), ← RunSteps_append] at hadv
  have hchild := PfFollowNodeChild_of_break w st v tf Yapf _ old old_node r td _
    SegmentEnd.ceiling hadv
  have hin2 : ∀ y ∈ steps ++ [r'.toStep true], y.in_segment = true := by
    intro y hy
    rcases List.mem_append.1 hy with hy | hy
    · exact hin y hy
    · simp only [List.mem_singleton] at hy
      rw [hy]
      rfl
  obtain ⟨_, g2, _, g4, g5⟩ := RunSteps_facts w st v (steps ++ [r'.toStep true])
    (FirstState w r td) hin2
  have g2' := g2 rfl
  have g4' : (RunSteps w st v (FirstState w r td) (steps ++ [r'.toStep true])).steps
      = steps ++ [r'.toStep true] := by
    rw [g4]
    rfl
  obtain ⟨p1, p2, p3, _, _⟩ := Policy_PfCalcEstimate w Yapf hY
    { CreateNewNode (some old) { r.m_new with td := td } (!r.is_single) with
      m_segment_last :=
        (RunSteps w st v (FirstState w r td) (steps ++ [r'.toStep true])).m_segment_last
      m_cost := old_node.m_cost
        + (RunSteps w st v (FirstState w r td) (steps ++ [r'.toStep true])).segment_cost }
  rw [p1, g4'] at hchild
  have hend : PathEnd (FirstState w r td).m_new (steps ++ [r'.toStep true])
      = (r'.toStep true).m_new := PathEnd_append_singleton _ steps _
  refine ⟨_, hchild, ?_, p2, ?_⟩
  · rw [p3]
    dsimp only
    rw [g2', hend]
  · rw [p2]
    dsimp only
    rw [hend] at g5
    have g5' : (RunSteps w st v (FirstState w r td) (steps ++ [r'.toStep true])).segment_cost
        + OneTileCost w st (r'.toStep true).m_new
        = (r.m_tiles_skipped : Int) * w.YAPF_TILE_LENGTH
          + OneTileCost w st { r.m_new with td := td }
          + PathCost w st v { r.m_new with td := td } (steps ++ [r'.toStep true]) := g5
    linarith

set_option maxRecDepth 100000 in
theorem stairDepot_expansion :
    PfFollowNode stairDepotWorld demoSettings demoLorry (demoFollower stairDepotWorld demoLorry)
        (AnyDepotRoadPolicy stairDepotWorld) 66 0 stairNode
      = some [AstarCall.CreateNewNode (CreateNewNode (some 0) { tile := 64, td := 4 } false),
              AstarCall.FoundTarget stairDepotChild] := by
  decide

set_option maxRecDepth 100000 in
theorem stairDepot_child :
    PfFollowNodeChild stairDepotWorld demoSettings demoLorry
        (demoFollower stairDepotWorld demoLorry) (AnyDepotRoadPolicy stairDepotWorld) 66 0
        stairNode stairFirst 4
      = some (ChildResult.evaluated (CreateNewNode (some 0) { tile := 64, td := 4 } false)
          SegmentEnd.ceiling stairCrossingSteps stairDepotChild true) := by
  decide

/-- The claim of C27 fails where the tile ceiling stops a segment on the move
into a depot: on the staircase road with a road depot on tile `2145`, the
child of `stairNode` drives into the depot on the move that takes the tile
counter to `65 > 64`; the segment ends there, on the trackdir `8` that enters
the depot, and the node is reported as found under the nearest-depot policy,
but its cost is `4615`, the sum `4715` over the positions of the segment less
the `OneTileCost` of the depot tile, `100`. -/
theorem depot_ends_segment_counterexample :
    PfFollowNode stairDepotWorld demoSettings demoLorry (demoFollower stairDepotWorld demoLorry)
        (AnyDepotRoadPolicy stairDepotWorld) 66 0 stairNode
      = some [AstarCall.CreateNewNode (CreateNewNode (some 0) { tile := 64, td := 4 } false),
              AstarCall.FoundTarget stairDepotChild] ∧
    PfFollowNodeChild stairDepotWorld demoSettings demoLorry
        (demoFollower stairDepotWorld demoLorry) (AnyDepotRoadPolicy stairDepotWorld) 66 0
        stairNode stairFirst 4
      = some (ChildResult.evaluated (CreateNewNode (some 0) { tile := 64, td := 4 } false)
          SegmentEnd.ceiling stairCrossingSteps stairDepotChild true) ∧
    stairDepotChild.m_segment_last = PathEnd { tile := 64, td := 4 } stairCrossingSteps ∧
    EntersDepot stairDepotWorld stairDepotChild.m_segment_last ∧
    OneTileCost stairDepotWorld demoSettings stairDepotChild.m_segment_last = 100 ∧
    stairNode.m_cost + ((stairFirst.m_tiles_skipped : Int) * stairDepotWorld.YAPF_TILE_LENGTH
      + OneTileCost stairDepotWorld demoSettings { tile := 64, td := 4 }
      + PathCost stairDepotWorld demoSettings demoLorry { tile := 64, td := 4 }
          stairCrossingSteps) = 4715 ∧
    stairDepotChild.m_cost = 4615 ∧
    ¬ (stairDepotChild.m_cost
      = stairNode.m_cost + ((stairFirst.m_tiles_skipped : Int) * stairDepotWorld.YAPF_TILE_LENGTH
        + OneTileCost stairDepotWorld demoSettings { tile := 64, td := 4 }
        + PathCost stairDepotWorld demoSettings demoLorry { tile := 64, td := 4 }
            stairCrossingSteps)) :=
  ⟨stairDepot_expansion, stairDepot_child, by decide, by unfold EntersDepot; decide, by decide,
    by decide, by decide, by decide⟩

/-- C27: what the code does for a child of an expansion whose running position
drives into a road depot (a road depot tile on the diagonal trackdir of the
reverse of the depot's direction).  When the position is the child's first one
or is reached by complete rounds of the segment loop, the loop stops there (by
the destination rule when the policy takes the tile for a destination, else by
the depot rule): `m_segment_last` is that position, the cost includes the
`OneTileCost` of it, and the round that stops is the same for every follower,
so the follower is not asked.  When the position is reached by the move that
takes the tile counter above `MAX_MAP_SIZE`, the loop stops there too, with
`m_segment_last` at that position and whatever the follower would answer
there, but the cost does not include the `OneTileCost` of that position.  A
running position on a depot tile on any other trackdir that is not a
destination does not stop the loop: the round asks the follower and goes on as
it answers.  For every child that is evaluated, no position of the segment
before the last one drives into a depot, `m_segment_last` is the last one, the
cost is the sum over the positions of the segment less the `OneTileCost` of the
last one exactly when the tile ceiling has stopped the segment, and a segment
whose last position drives into a depot was stopped by the destination rule,
the depot rule or the tile ceiling. -/
theorem depot_ends_segment (w : World) (st : YAPFSettings) (v : RoadVehicle)
    (tf : CFollowTrackRoad) (Yapf : DestinationPolicy) (fuel : Nat) (old : Nat) (old_node : Node)
    (r : FollowResult) (td : Trackdir)
    (hY : (∃ self, Yapf = TileRoadPolicy w self) ∨ Yapf = AnyDepotRoadPolicy w) :
    (∀ steps : List FollowStep,
      Continues w tf Yapf.PfDetectDestinationTile { r.m_new with td := td }
        { r.m_new with td := td } r.m_tiles_skipped steps →
      EntersDepot w (PathEnd { r.m_new with td := td } steps) →
      steps.length + 1 ≤ fuel →
      ∃ (n : Node) (why : SegmentEnd),
        (why = SegmentEnd.destination ∨ why = SegmentEnd.depot) ∧
        (why = SegmentEnd.destination ↔
          Yapf.PfDetectDestinationTile (PathEnd { r.m_new with td := td } steps) = true) ∧
        PfFollowNodeChild w st v tf Yapf fuel old old_node r td
          = some (ChildResult.evaluated
              (CreateNewNode (some old) { r.m_new with td := td } (!r.is_single))
              why steps n true) ∧
        n.m_segment_last = PathEnd { r.m_new with td := td } steps ∧
        n.m_cost = old_node.m_cost + (RunSteps w st v (FirstState w r td) steps).segment_cost
          + OneTileCost w st n.m_segment_last ∧
        ∀ (tf' : CFollowTrackRoad) (k : Nat) (s : SegState),
          s.m_new = PathEnd { r.m_new with td := td } steps →
          SegmentLoop w st v tf' Yapf.PfDetectDestinationTile { r.m_new with td := td } (k + 1) s
            = some (LoopExit.brk
                { s with segment_cost := s.segment_cost + OneTileCost w st s.m_new } why)) ∧
    (∀ (steps : List FollowStep) (r' : FollowResult),
      Continues w tf Yapf.PfDetectDestinationTile { r.m_new with td := td }
        { r.m_new with td := td } r.m_tiles_skipped steps →
      PassesThrough w Yapf.PfDetectDestinationTile (PathEnd { r.m_new with td := td } steps) →
      tf.Follow (PathEnd { r.m_new with td := td } steps) = some r' →
      r'.is_single = true →
      r'.m_new ≠ { r.m_new with td := td } →
      SegmentTiles r.m_tiles_skipped steps + (r'.m_tiles_skipped + 1) > w.MAX_MAP_SIZE →
      steps.length + 1 ≤ fuel →
      (∃ n : Node,
        PfFollowNodeChild w st v tf Yapf fuel old old_node r td
          = some (ChildResult.evaluated
              (CreateNewNode (some old) { r.m_new with td := td } (!r.is_single))
              SegmentEnd.ceiling (steps ++ [r'.toStep true]) n true) ∧
        n.m_segment_last = r'.m_new ∧
        n.m_cost = old_node.m_cost
          + (RunSteps w st v (FirstState w r td) (steps ++ [r'.toStep true])).segment_cost ∧
        n.m_cost + OneTileCost w st r'.m_new
          = old_node.m_cost + ((r.m_tiles_skipped : Int) * w.YAPF_TILE_LENGTH
            + OneTileCost w st { r.m_new with td := td }
            + PathCost w st v { r.m_new with td := td } (steps ++ [r'.toStep true]))) ∧
      ∀ (tf' : CFollowTrackRoad) (k : Nat) (s : SegState),
        s.m_new = PathEnd { r.m_new with td := td } steps →
        tf'.Follow s.m_new = some r' →
        s.tiles + (r'.m_tiles_skipped + 1) > w.MAX_MAP_SIZE →
        SegmentLoop w st v tf' Yapf.PfDetectDestinationTile { r.m_new with td := td } (k + 1) s
          = some (LoopExit.brk (RunSteps w st v s [r'.toStep true]) SegmentEnd.ceiling)) ∧
    (∀ (k : Nat) (s : SegState),
      w.IsRoadDepotTile s.m_new.tile = true →
      s.m_new.td ≠ w.DiagDirToDiagTrackdir
        (w.ReverseDiagDir (w.GetGroundDepotDirection s.m_new.tile)) →
      Yapf.PfDetectDestinationTile s.m_new = false →
      (tf.Follow s.m_new = none →
        SegmentLoop w st v tf Yapf.PfDetectDestinationTile { r.m_new with td := td } (k + 1) s
          = some (LoopExit.brk
              { s with segment_cost := s.segment_cost + OneTileCost w st s.m_new }
              SegmentEnd.end_of_road)) ∧
      (∀ r', tf.Follow s.m_new = some r' → r'.is_single = false →
        SegmentLoop w st v tf Yapf.PfDetectDestinationTile { r.m_new with td := td } (k + 1) s
          = some (LoopExit.brk
              { s with segment_cost := s.segment_cost + OneTileCost w st s.m_new }
              SegmentEnd.junction)) ∧
      (∀ r', tf.Follow s.m_new = some r' → r'.is_single = true →
        r'.m_new = { r.m_new with td := td } →
        SegmentLoop w st v tf Yapf.PfDetectDestinationTile { r.m_new with td := td } (k + 1) s
          = some LoopExit.ret) ∧
      (∀ r', tf.Follow s.m_new = some r' → r'.is_single = true →
        r'.m_new ≠ { r.m_new with td := td } →
        SegmentLoop w st v tf Yapf.PfDetectDestinationTile { r.m_new with td := td } (k + 1) s
          = (if s.tiles + (r'.m_tiles_skipped + 1) > w.MAX_MAP_SIZE
              then some (LoopExit.brk (RunSteps w st v s [r'.toStep true]) SegmentEnd.ceiling)
              else SegmentLoop w st v tf Yapf.PfDetectDestinationTile
                { r.m_new with td := td } k (RunSteps w st v s [r'.toStep true])))) ∧
    (∀ (created : Node) (why : SegmentEnd) (steps : List FollowStep) (n : Node) (bValid : Bool),
      PfFollowNodeChild w st v tf Yapf fuel old old_node r td
        = some (ChildResult.evaluated created why steps n bValid) →
      (∀ q ∈ (({ r.m_new with td := td } : PathPos) :: steps.map fun x => x.m_new).dropLast,
        ¬ EntersDepot w q) ∧
      n.m_segment_last = PathEnd { r.m_new with td := td } steps ∧
      n.m_cost = old_node.m_cost + ((r.m_tiles_skipped : Int) * w.YAPF_TILE_LENGTH
        + OneTileCost w st { r.m_new with td := td }
        + PathCost w st v { r.m_new with td := td } steps
        - (if why = SegmentEnd.ceiling
            then OneTileCost w st (PathEnd { r.m_new with td := td } steps) else 0)) ∧
      (EntersDepot w (PathEnd { r.m_new with td := td } steps) →
        why = SegmentEnd.destination ∨ why = SegmentEnd.depot ∨ why = SegmentEnd.ceiling)) := by
  refine ⟨?_, ?_, ?_, ?_⟩
  · intro steps hcont hdepot hfuel
    exact (segment_stops_in_depot_after_rounds w st v tf Yapf fuel old old_node r td steps hY hcont hdepot
      hfuel).1
  · intro steps r' hcont hpass hf hs hpos htiles hfuel
    refine ⟨child_of_ceiling w st v tf Yapf fuel old old_node r td steps (r'.toStep true) hY
      hcont hpass ⟨r', hf, hs, rfl⟩ hpos htiles hfuel, ?_⟩
    intro tf' k s hsnew hf' hc
    have hpass' : PassesThrough w Yapf.PfDetectDestinationTile s.m_new := by
      rw [hsnew]; exact hpass
    rw [SegmentLoop_round w st v tf' _ _ k s r' hpass' hf' hs hpos, if_pos hc]
  · intro k s _ htd hdet
    have hpass : PassesThrough w Yapf.PfDetectDestinationTile s.m_new :=
      ⟨hdet, fun h => htd h.2⟩
    exact ⟨fun hf => SegmentLoop_end_of_road w st v tf _ _ k s hpass hf,
      fun r' hf hs => SegmentLoop_junction w st v tf _ _ k s r' hpass hf hs,
      fun r' hf hs hp => SegmentLoop_return w st v tf _ _ k s r' hpass hf hs hp,
      fun r' hf hs hp => SegmentLoop_round w st v tf _ _ k s r' hpass hf hs hp⟩
  · intro created why steps n bValid hchild
    obtain ⟨s', hloop, _, hsteps, _, _⟩ := PfFollowNodeChild_evaluated w st v tf Yapf fuel old
      old_node r td created why steps n bValid hchild
    obtain ⟨rest, h1, h2, h3⟩ := SegmentLoop_passes w st v tf Yapf.PfDetectDestinationTile
      { r.m_new with td := td } fuel _ s' why hloop
    have hrest : rest = steps := by
      rw [hsteps, h1]
      rfl
    subst hrest
    obtain ⟨_, _, hnode, _, _⟩ :=
      PfFollowNodeChild_run w st v tf Yapf fuel old old_node r td created why rest n bValid
        hchild
    obtain ⟨_, p2, p3, _, _⟩ := Policy_PfCalcEstimate w Yapf hY
      { created with
        m_segment_last := PathEnd { r.m_new with td := td } rest
        m_cost := old_node.m_cost + ((r.m_tiles_skipped : Int) * w.YAPF_TILE_LENGTH
          + OneTileCost w st { r.m_new with td := td }
          + PathCost w st v { r.m_new with td := td } rest
          - (if why = SegmentEnd.ceiling
              then OneTileCost w st (PathEnd { r.m_new with td := td } rest) else 0)) }
    rw [← hnode] at p2 p3
    refine ⟨fun q hq => (h2 q hq).2, p3, p2, ?_⟩
    intro hdep
    cases why with
    | destination => exact Or.inl rfl
    | depot => exact Or.inr (Or.inl rfl)
    | ceiling => exact Or.inr (Or.inr rfl)
    | end_of_road => exact absurd hdep (h3 (Or.inl rfl)).2
    | junction => exact absurd hdep (h3 (Or.inr rfl)).2

theorem lowCeiling_child :
    PfFollowNodeChild lowCeilingWorld demoSettings demoLorry
        (demoFollower lowCeilingWorld demoLorry)
        (TileRoadPolicy lowCeilingWorld
          (CYapfDestinationTileRoadT.SetDestination lowCeilingWorld demoDest0 demoLorry))
        4098 4 depotApproach depotApproachFirst 8
      = some (ChildResult.evaluated (CreateNewNode (some 4) { tile := 699, td := 8 } false)
          SegmentEnd.ceiling [depotStep] lowCeilingChild true) := by
  decide

/-- Witness for C27 in the concrete world, for the lorry that is bound for
tile `653`.  With the tile ceiling of the game the child of `depotApproach`
drives from tile `699` into the depot on tile `700` and ends there by the depot
rule at cost `900 + 2 * 100`.  With a tile ceiling of `0` the same move takes
the tile counter above the ceiling: the child ends on the depot tile at cost
`900 + 100`, the `OneTileCost` of the depot tile left out. -/
theorem depot_ends_segment_witness :
    (∃ n : Node,
      PfFollowNodeChild demoWorld demoSettings demoLorry (demoFollower demoWorld demoLorry)
          lorryPolicy 4098 4 depotApproach depotApproachFirst 8
        = some (ChildResult.evaluated (CreateNewNode (some 4) { tile := 699, td := 8 } false)
            SegmentEnd.depot [depotStep] n true) ∧
      n.m_segment_last = { tile := 700, td := 8 } ∧ n.m_cost = 1100) ∧
    (∃ n : Node,
      PfFollowNodeChild lowCeilingWorld demoSettings demoLorry
          (demoFollower lowCeilingWorld demoLorry)
          (TileRoadPolicy lowCeilingWorld
            (CYapfDestinationTileRoadT.SetDestination lowCeilingWorld demoDest0 demoLorry))
          4098 4 depotApproach depotApproachFirst 8
        = some (ChildResult.evaluated (CreateNewNode (some 4) { tile := 699, td := 8 } false)
            SegmentEnd.ceiling [depotStep] n true) ∧
      EntersDepot lowCeilingWorld n.m_segment_last ∧ n.m_cost = 1000 ∧
      OneTileCost lowCeilingWorld demoSettings n.m_segment_last = 100) := by
  constructor
  · obtain ⟨n, why, hor, hwhy, h1, h2, h3, _⟩ := (depot_ends_segment demoWorld
      demoSettings demoLorry (demoFollower demoWorld demoLorry) lorryPolicy 4098 4 depotApproach
      depotApproachFirst 8 (Or.inl ⟨_, rfl⟩)).1 [depotStep] depotStep_Continues
      (by unfold EntersDepot; decide) (by decide)
    have hw : why = SegmentEnd.depot := by
      rcases hor with hd | hd
      · exact absurd (hwhy.1 hd) (by decide)
      · exact hd
    subst hw
    exact ⟨n, h1, h2.trans (by decide), h3.trans (by rw [h2]; decide)⟩
  · obtain ⟨⟨n, h1, h2, h3, _⟩, _⟩ := (depot_ends_segment lowCeilingWorld
      demoSettings demoLorry (demoFollower lowCeilingWorld demoLorry)
      (TileRoadPolicy lowCeilingWorld
        (CYapfDestinationTileRoadT.SetDestination lowCeilingWorld demoDest0 demoLorry))
      4098 4 depotApproach depotApproachFirst 8 (Or.inl ⟨_, rfl⟩)).2.1 []
      { m_new := { tile := 700, td := 8 }, trackdirs := 256, is_single := true,
        m_tiles_skipped := 0, min_speed := 0, max_speed := 2147483647 }
      trivial ⟨by decide, by unfold EntersDepot; decide⟩ (by decide) rfl (by decide)
      (by decide) (by decide)
    refine ⟨n, h1, ?_, h3.trans (by decide), ?_⟩
    · rw [h2]
      unfold EntersDepot
      decide
    · rw [h2]
      decide

end YapfRoad
